import Mathlib

/-!
# Semantic analysis of the C-MINUS compiler (`3_Semantic`)

A shallow embedding of `symtab.c`, `analyze.c` and the node constructors of `util.c`.

Modelling conventions.

* A `ScopeList` pointer is the index of the scope in the registry `scopes`
  (`scCreate` is the only allocator of scopes and registers every scope it allocates);
  a `TreeNode *` is the index of the node in the node heap `nodes`.  `NULL` is `none`.
* A `BucketList` pointer returned by a lookup is the pair of the scope that holds the
  record and the record itself.
* A dereference of `NULL` or of a pointer outside the heap is a crash: the operation
  yields `none`.  A loop that does not terminate yields `none` as well.
* `malloc` is taken to return zeroed memory (the hash table of a fresh scope is empty);
  the capacity `MAX_SCOPE` of the two static arrays is not modelled, and the cells of
  `stack` are indexed by an integer, cell `-1` included, every cell holding `NULL`
  until it is written.
* The members of the `attr` union are separate fields of a node; the `kind` union is a
  raw number, read through whichever enumeration the code names.
* `globals.h` is not part of the sources: `MAXCHILDREN` and the numbering of the
  sub-kind enumerations are parameters, collected in `Globals`.
-/

namespace CMinus

/-- SIZE is the size of the hash table (`symtab.h`). -/
def SIZE : Nat := 211

/-- SHIFT is the power of two used as multiplier in the hash function. -/
def SHIFT : Nat := 4

/-- A pointer: `none` is `NULL`, `some i` the object number `i` of its heap. -/
abbrev Ptr := Option Nat

/-- The expression types named by the sources (`ExpType` of `globals.h`). -/
inductive ExpType where
  | Void | Integer | VoidArray | IntegerArray | TypeError
  deriving DecidableEq, Repr

/-- The node categories named by the sources (`NodeKind` of `globals.h`). -/
inductive NodeKind where
  | StmtK | ExpK | DeclK | ParamK
  deriving DecidableEq, Repr

/-- What `globals.h` fixes and the sources only name: the number of child slots and the
numeric values of the sub-kind enumerators stored in the `kind` union. -/
structure Globals where
  MAXCHILDREN : Nat
  CompK : Nat
  SelK : Nat
  IterK : Nat
  RetK : Nat
  AssignK : Nat
  RelopK : Nat
  OpK : Nat
  ConstK : Nat
  IdK : Nat
  IdArrK : Nat
  CallK : Nat
  FunK : Nat
  VarK : Nat
  VarArrK : Nat
  SingleParamK : Nat
  ArrParamK : Nat
  deriving DecidableEq, Repr

/-- The enumerators of one enumeration are pairwise different. -/
def Globals.Distinct (G : Globals) : Prop :=
  [G.CompK, G.SelK, G.IterK, G.RetK].Nodup ∧
  [G.AssignK, G.RelopK, G.OpK, G.ConstK, G.IdK, G.IdArrK, G.CallK].Nodup ∧
  [G.FunK, G.VarK, G.VarArrK].Nodup ∧
  [G.SingleParamK, G.ArrParamK].Nodup

instance (G : Globals) : Decidable G.Distinct := by
  unfold Globals.Distinct; infer_instance

/-- One numbering, used for concrete runs: each enumeration counts from 0 in the order in
which `printTree` of `util.c` lists its enumerators. -/
def sampleGlobals : Globals where
  MAXCHILDREN := 3
  CompK := 0
  SelK := 1
  IterK := 2
  RetK := 3
  AssignK := 0
  RelopK := 1
  OpK := 2
  ConstK := 3
  IdK := 4
  IdArrK := 5
  CallK := 6
  VarK := 0
  VarArrK := 1
  FunK := 2
  ArrParamK := 0
  SingleParamK := 1

/-- A syntax tree node (`TreeNode` of `globals.h`, as far as the sources use it). -/
structure TreeNode where
  child : List Ptr
  sibling : Ptr
  lineno : Int
  nodekind : NodeKind
  kind : Nat
  name : Option String
  arrayName : Option String
  scope : Ptr
  type : ExpType
  deriving DecidableEq, Repr

/-- The record in the bucket lists for each variable (`struct BucketListRec`);
`lines` is the linked list of line numbers, `next` is the tail of the chain. -/
structure BucketListRec where
  name : String
  treeNode : Ptr
  lines : List Int
  memloc : Int
  deriving DecidableEq, Repr

/-- The record for each scope (`struct ScopeListRec`). -/
structure ScopeListRec where
  scopeName : Option String
  nestedLevel : Int
  hashTable : Nat → List BucketListRec
  parent : Ptr

/-- The two kinds of diagnostic line (`symbolError`, `typeError`). -/
inductive DiagKind where
  | SymbolError | TypeError
  deriving DecidableEq, Repr

/-- One line `<Kind> error at line <N>: <message>` written to `listing`. -/
structure Diag where
  kind : DiagKind
  line : Int
  message : String
  deriving DecidableEq, Repr

/-- The process-wide state of the two files: the node heap, the statics of `symtab.c`
(`scopes`, `stack`, `stackIdx`; `scopesIdx` is the length of `scopes`), the statics of
`analyze.c`, the `Error` flag, the `listing` sink, standard output and the scanner's
`lineno`. -/
structure State where
  nodes : List TreeNode
  scopes : List ScopeListRec
  stack : Int → Ptr
  stackIdx : Int
  globalScope : Ptr
  funcName : Option String
  preserveLastScope : Bool
  location : Int
  funcReturn : Int
  Error : Bool
  listing : List Diag
  stdout : List String
  lineno : Int

/-- The state at program start: every static is zero. -/
def State.init (nodes : List TreeNode) : State where
  nodes := nodes
  scopes := []
  stack := fun _ => none
  stackIdx := 0
  globalScope := none
  funcName := none
  preserveLastScope := false
  location := 0
  funcReturn := 0
  Error := false
  listing := []
  stdout := []
  lineno := 0

/-! ## symtab.c -/

/-- The hash function. -/
def hash (key : String) : Nat :=
  key.toList.foldl (fun temp c => ((temp <<< SHIFT) + c.toNat) % SIZE) 0

/-- The chain walk `while ((l != NULL) && (strcmp(name,l->name) != 0)) l = l->next;`:
the first record of the chain with the given name. -/
def chainFind (name : String) : List BucketListRec → Option BucketListRec
  | [] => none
  | l :: next => if name = l.name then some l else chainFind name next

/-- The function `scTop`. -/
def scTop (s : State) : Ptr := s.stack (s.stackIdx - 1)

/-- The function `scPush`. -/
def scPush (s : State) (scope : Ptr) : State :=
  { s with stack := fun i => if i = s.stackIdx then scope else s.stack i
           stackIdx := s.stackIdx + 1 }

/-- The function `scPop`. -/
def scPop (s : State) : State :=
  { s with stackIdx := s.stackIdx - 1 }

/-- The function `scCreate`: the new state and the pointer to the new scope. -/
def scCreate (s : State) (scopeName : Option String) : State × Ptr :=
  let newScope : ScopeListRec :=
    { scopeName := scopeName
      nestedLevel := s.stackIdx
      hashTable := fun _ => []
      parent := scTop s }
  ({ s with scopes := s.scopes ++ [newScope] }, some s.scopes.length)

/-- Replace bucket `h` of a scope. -/
def ScopeListRec.setBucket (sc : ScopeListRec) (h : Nat) (l : List BucketListRec) :
    ScopeListRec :=
  { sc with hashTable := fun i => if i = h then l else sc.hashTable i }

/-- Store `sc` in the scope object number `i`. -/
def State.setScope (s : State) (i : Nat) (sc : ScopeListRec) : State :=
  { s with scopes := s.scopes.set i sc }

/-- The procedure `st_insert`. -/
def st_insert (s : State) (name : String) (lineno loc : Int) (treeNode : Ptr) :
    Option State :=
  let h := hash name
  match scTop s with
  | none => none
  | some top =>
    match s.scopes[top]? with
    | none => none
    | some sc =>
      match chainFind name (sc.hashTable h) with
      | none =>
        let l : BucketListRec :=
          { name := name, treeNode := treeNode, lines := [lineno], memloc := loc }
        some (s.setScope top (sc.setBucket h (l :: sc.hashTable h)))
      | some _ =>
        some { s with stdout := s.stdout ++ ["Error occured in st_insert()\n"] }

/-- The loop `while(sc)` of `st_lookup_bucket`, from scope pointer `sc`, bounded by
`fuel` iterations. -/
def lookupFrom (s : State) (name : String) :
    Nat → Ptr → Option (Option (Nat × BucketListRec))
  | _, none => some none
  | 0, some _ => none
  | fuel + 1, some i =>
    match s.scopes[i]? with
    | none => none
    | some sc =>
      match chainFind name (sc.hashTable (hash name)) with
      | some l => some (some (i, l))
      | none => lookupFrom s name fuel sc.parent

/-- The function `st_lookup_bucket`.  A parent chain without a cycle passes through at
most `scopesIdx` scopes, which bounds the loop. -/
def st_lookup_bucket (s : State) (name : String) : Option (Option (Nat × BucketListRec)) :=
  lookupFrom s name s.scopes.length (scTop s)

/-- The function `st_lookup`: the memory location of a variable or -1 if not found. -/
def st_lookup (s : State) (name : String) : Option Int :=
  match st_lookup_bucket s name with
  | none => none
  | some (some (_, l)) => some l.memloc
  | some none => some (-1)

/-- The function `st_lookup_sc`. -/
def st_lookup_sc (s : State) (name : String) : Option Bool :=
  match scTop s with
  | none => some false
  | some i =>
    match s.scopes[i]? with
    | none => none
    | some sc =>
      match chainFind name (sc.hashTable (hash name)) with
      | some _ => some true
      | none => some false

/-- Apply `f` to the first record of the chain with the given name (the record the
chain walk stops at). -/
def chainUpdate (name : String) (f : BucketListRec → BucketListRec) :
    List BucketListRec → List BucketListRec
  | [] => []
  | l :: next => if name = l.name then f l :: next else l :: chainUpdate name f next

/-- The function `st_add_lineno`: the walk to the last cell of `bl->lines` needs a first
cell. -/
def st_add_lineno (s : State) (name : String) (lineno : Int) : Option State :=
  match st_lookup_bucket s name with
  | none => none
  | some none => none
  | some (some (i, bl)) =>
    match bl.lines with
    | [] => none
    | _ :: _ =>
      match s.scopes[i]? with
      | none => none
      | some sc =>
        let h := hash name
        let chain := chainUpdate name (fun l => { l with lines := l.lines ++ [lineno] })
          (sc.hashTable h)
        some (s.setScope i (sc.setBucket h chain))

/-! ## The parent chain, as the specification words it -/

/-- The sequence `sc, sc.parent, sc.parent.parent, ...` ends at `NULL` after the scopes
listed: the parent chain from `sc` is finite, which is to say acyclic and without a
dangling pointer. -/
inductive Chain (s : State) : Ptr → List Nat → Prop where
  | null : Chain s none []
  | step (i : Nat) (sc : ScopeListRec) (rest : List Nat) :
      s.scopes[i]? = some sc → Chain s sc.parent rest → Chain s (some i) (i :: rest)

/-- The record a scope holds for a name: the one its hash table yields. -/
def ScopeListRec.find (sc : ScopeListRec) (name : String) : Option BucketListRec :=
  chainFind name (sc.hashTable (hash name))

/-- The record for `name` held by the first scope of the list that holds one, with that
scope. -/
def firstHolder (s : State) (name : String) : List Nat → Option (Nat × BucketListRec)
  | [] => none
  | i :: rest =>
    match (s.scopes[i]?).bind (fun sc => sc.find name) with
    | some r => some (i, r)
    | none => firstHolder s name rest

/-! ## Concrete states for the worked examples -/

/-- A table with two scopes on the stack: the global scope declares `x` (slot 0) and `y`
(slot 0), the scope of function `f` nested in it declares `x` again (slot 1). -/
def exampleNested : State :=
  { State.init [] with
    scopes :=
      [ { scopeName := some "<GLOBAL>", nestedLevel := 0, parent := none
          hashTable := fun h =>
            if h = hash "x" then [{ name := "x", treeNode := some 0, lines := [1], memloc := 0 }]
            else if h = hash "y" then
              [{ name := "y", treeNode := some 1, lines := [2], memloc := 0 }]
            else [] },
        { scopeName := some "f", nestedLevel := 1, parent := some 0
          hashTable := fun h =>
            if h = hash "x" then [{ name := "x", treeNode := some 2, lines := [4], memloc := 1 }]
            else [] } ]
    stack := fun i => if i = 0 then some 0 else if i = 1 then some 1 else none
    stackIdx := 2
    location := 1 }

/-! ## The node heap and util.c -/

/-- Store `n` in the node object number `t`. -/
def State.setNode (s : State) (t : Nat) (n : TreeNode) : State :=
  { s with nodes := s.nodes.set t n }

/-- An assignment `p->field = ...` through a node pointer. -/
def modifyNode (s : State) (p : Ptr) (f : TreeNode → TreeNode) : Option State :=
  match p with
  | none => none
  | some t =>
    match s.nodes[t]? with
    | none => none
    | some n => some (s.setNode t (f n))

/-- Allocate a node at the end of the heap. -/
def allocNode (s : State) (n : TreeNode) : State × Ptr :=
  ({ s with nodes := s.nodes ++ [n] }, some s.nodes.length)

/-- The function `newStmtNode`; the fields it leaves unset (`type`, `attr`) hold zeroes. -/
def newStmtNode (G : Globals) (s : State) (kind : Nat) : State × Ptr :=
  allocNode s
    { child := List.replicate G.MAXCHILDREN none, sibling := none, lineno := s.lineno
      nodekind := .StmtK, kind := kind, name := none, arrayName := none, scope := none
      type := .Void }

/-- The function `newDeclNode`; the fields it leaves unset (`type`, `attr`) hold zeroes. -/
def newDeclNode (G : Globals) (s : State) (kind : Nat) : State × Ptr :=
  allocNode s
    { child := List.replicate G.MAXCHILDREN none, sibling := none, lineno := s.lineno
      nodekind := .DeclK, kind := kind, name := none, arrayName := none, scope := none
      type := .Void }

/-- The function `newExpNode`. -/
def newExpNode (G : Globals) (s : State) (kind : Nat) : State × Ptr :=
  allocNode s
    { child := List.replicate G.MAXCHILDREN none, sibling := none, lineno := s.lineno
      nodekind := .ExpK, kind := kind, name := none, arrayName := none, scope := none
      type := .Void }

/-- The function `newParamNode`. -/
def newParamNode (G : Globals) (s : State) (kind : Nat) : State × Ptr :=
  allocNode s
    { child := List.replicate G.MAXCHILDREN none, sibling := none, lineno := s.lineno
      nodekind := .ParamK, kind := kind, name := none, arrayName := none, scope := none
      type := .Void }

/-! ## analyze.c: the traversal and the Builder pass -/

/-- The element `t->child[i]` of the node object number `t`. -/
def childAt (s : State) (t i : Nat) : Option Ptr :=
  match s.nodes[t]? with
  | none => none
  | some n => some (n.child.getD i none)

/-- The procedure `traverse`, with recursion depth bounded by `fuel`: `preProc t`, then
the children `t->child[0..MAXCHILDREN-1]` in order, then `postProc t`, then the sibling.
The links are read from the heap at the moment the code reads them. -/
def traverse (G : Globals) (preProc postProc : Nat → State → Option State) :
    Nat → Ptr → State → Option State
  | _, none, s => some s
  | 0, some _, _ => none
  | fuel + 1, some t, s =>
    match preProc t s with
    | none => none
    | some s1 =>
      match (List.range G.MAXCHILDREN).foldlM
          (fun (a : State) (i : Nat) =>
            match childAt a t i with
            | none => none
            | some c => traverse G preProc postProc fuel c a) s1 with
      | none => none
      | some s2 =>
        match postProc t s2 with
        | none => none
        | some s3 =>
          match s3.nodes[t]? with
          | none => none
          | some n => traverse G preProc postProc fuel n.sibling s3

/-- The procedure `symbolError`. -/
def symbolError (s : State) (t : TreeNode) (message : String) : State :=
  { s with listing := s.listing ++ [{ kind := .SymbolError, line := t.lineno, message := message }]
           Error := true }

/-- The procedure `insertBuiltinFunc`. -/
def insertBuiltinFunc (G : Globals) (s : State) : Option State := do
  let (s, param) := newParamNode G s G.SingleParamK
  let s ← modifyNode s param (fun n => { n with name := none, type := .Void })
  let (s, compStmt) := newStmtNode G s G.CompK
  let s ← modifyNode s compStmt (fun n => { n with child := (n.child.set 0 none).set 1 none })
  let (s, func) := newDeclNode G s G.FunK
  let s ← modifyNode s func (fun n =>
    { n with lineno := 0, name := some "input", type := .Integer
             child := (n.child.set 0 param).set 1 compStmt })
  let s ← st_insert s "input" (-1) s.location func
  let (s, param) := newParamNode G s G.SingleParamK
  let s ← modifyNode s param (fun n => { n with name := some "arg", type := .Integer })
  let (s, compStmt) := newStmtNode G s G.CompK
  let s ← modifyNode s compStmt (fun n => { n with child := (n.child.set 0 none).set 1 none })
  let (s, func) := newDeclNode G s G.FunK
  let s ← modifyNode s func (fun n =>
    { n with lineno := 0, name := some "output", type := .Void
             child := (n.child.set 0 param).set 1 compStmt })
  st_insert s "output" (-1) s.location func

/-- The case `CompK` of `insertNode`. -/
def insertComp (t : Nat) (n : TreeNode) (s : State) : State :=
  let s1 : State :=
    if s.preserveLastScope then { s with preserveLastScope := false }
    else
      let r := scCreate s s.funcName
      let s2 := scPush r.1 r.2
      { s2 with location := s2.location + 1 }
  s1.setNode t { n with scope := scTop s1 }

/-- The case `FunK` of `insertNode`. -/
def insertFun (t : Nat) (n : TreeNode) (s : State) : Option State :=
  let s1 : State := { s with funcName := n.name }
  match s1.funcName with
  | none => none
  | some funcName =>
    match st_lookup_sc s1 funcName with
    | none => none
    | some true => some (symbolError s1 n "function already declared for current scope")
    | some false =>
      match st_insert s1 funcName n.lineno s1.location (some t) with
      | none => none
      | some s2 =>
        let r := scCreate s2 s2.funcName
        let s3 := scPush r.1 r.2
        some { s3 with location := s3.location + 1, preserveLastScope := true }

/-- The cases `VarK` and `VarArrK` of `insertNode`. -/
def insertVar (G : Globals) (t : Nat) (n : TreeNode) (s : State) : Option State :=
  if n.type = .Void ∨ n.type = .VoidArray then
    some (symbolError s n "variable should have non-void type")
  else
    match (if n.kind = G.VarK then n.name else n.arrayName) with
    | none => none
    | some name =>
      match st_lookup_sc s name with
      | none => none
      | some false => st_insert s name n.lineno s.location (some t)
      | some true => some (symbolError s n "symbol already declared for current scope")

/-- The cases `IdK`, `IdArrK` and `CallK` of `insertNode`. -/
def insertUse (t : Nat) (n : TreeNode) (s : State) : Option State :=
  match n.name with
  | none => none
  | some name =>
    match st_lookup s name with
    | none => none
    | some loc =>
      if loc = -1 then
        let s1 := symbolError s n "using undeclared symbol"
        let s2 := s1.setNode t { n with nodekind := .DeclK, type := .TypeError }
        st_insert s2 name n.lineno s2.location (some t)
      else st_add_lineno s name n.lineno

/-- The case `ParamK` of `insertNode`. -/
def insertParam (t : Nat) (n : TreeNode) (s : State) : Option State :=
  match n.name with
  | none =>
    if n.type = .Void then some s
    else some (symbolError s n "parameters except (void) must have name")
  | some name =>
    match st_lookup s name with
    | none => none
    | some loc =>
      if loc = -1 then st_insert s name n.lineno s.location (some t)
      else some (symbolError s n "symbol already declared for current scope")

/-- The procedure `insertNode`. -/
def insertNode (G : Globals) (t : Nat) (s : State) : Option State :=
  match s.nodes[t]? with
  | none => none
  | some n =>
    match n.nodekind with
    | .StmtK => if n.kind = G.CompK then some (insertComp t n s) else some s
    | .DeclK =>
      if n.kind = G.FunK then insertFun t n s
      else if n.kind = G.VarK ∨ n.kind = G.VarArrK then insertVar G t n s
      else some s
    | .ExpK =>
      if n.kind = G.IdK ∨ n.kind = G.IdArrK ∨ n.kind = G.CallK then insertUse t n s
      else some s
    | .ParamK => insertParam t n s

/-- The procedure `afterInsertNode`. -/
def afterInsertNode (G : Globals) (t : Nat) (s : State) : Option State :=
  match s.nodes[t]? with
  | none => none
  | some n =>
    if n.nodekind = .StmtK ∧ n.kind = G.CompK then
      let s1 := scPop s
      some { s1 with location := s1.location - 1 }
    else some s

/-- The statements of `buildSymtab` before the traversal: the global scope is created and
pushed, `location` is reset and the builtin functions are inserted. -/
def builderStart (G : Globals) (s : State) : Option State :=
  let r := scCreate s (some "<GLOBAL>")
  let s1 : State := { r.1 with globalScope := r.2, location := 0 }
  let s2 := scPush s1 s1.globalScope
  insertBuiltinFunc G s2

/-- The function `buildSymtab` (the listing of the table under `TraceAnalyze` is output
only and left out). -/
def buildSymtab (G : Globals) (fuel : Nat) (syntaxTree : Ptr) (s : State) : Option State :=
  match builderStart G s with
  | none => none
  | some s3 =>
    match traverse G (insertNode G) (afterInsertNode G) fuel syntaxTree s3 with
    | none => none
    | some s4 => some (scPop s4)

/-! ## analyze.c: the Type-Checking pass -/

/-- The procedure `typeError`. -/
def typeError (s : State) (t : TreeNode) (message : String) : State :=
  { s with listing := s.listing ++ [{ kind := .TypeError, line := t.lineno, message := message }]
           Error := true }

/-- A dereference `p->...` of a node pointer. -/
def deref (s : State) (p : Ptr) : Option TreeNode :=
  match p with
  | none => none
  | some t => s.nodes[t]?

/-- The procedure `beforeCheckNode`. -/
def beforeCheckNode (G : Globals) (t : Nat) (s : State) : Option State :=
  match s.nodes[t]? with
  | none => none
  | some n =>
    match n.nodekind with
    | .StmtK => if n.kind = G.CompK then some (scPush s n.scope) else some s
    | .DeclK =>
      if n.kind = G.FunK then
        let s1 : State := { s with funcName := n.name }
        if n.type = .Void then some { s1 with funcReturn := 1 } else some s1
      else some s
    | _ => some s

/-- The cases `IdK` and `IdArrK` of `checkNode`. -/
def checkId (G : Globals) (t : Nat) (n : TreeNode) (s : State) : Option State :=
  match n.name with
  | none => none
  | some symbolName =>
    match st_lookup_bucket s symbolName with
    | none => none
    | some none => some s
    | some (some (_, bucket)) =>
      match deref s bucket.treeNode with
      | none => none
      | some symbolDecl =>
        if n.kind = G.IdArrK then
          if symbolDecl.kind ≠ G.VarArrK ∧ symbolDecl.kind ≠ G.ArrParamK then
            some (typeError s n "expected array symbol")
          else
            match deref s (n.child.getD 0 none) with
            | none => none
            | some index =>
              if index.type ≠ .Integer then
                match index.type with
                | .IntegerArray => some (typeError s n
                    "expected integer type index, got IntegerArray type index")
                | .Void => some (typeError s n
                    "expected integer type index, got Void type index")
                | .VoidArray => some (typeError s n
                    "expected integer type index, got VoidArray type index")
                | _ => some s
              else some (s.setNode t { n with type := .Integer })
        else some (s.setNode t { n with type := symbolDecl.type })

/-- The loop `while (arg != NULL)` of the case `CallK`, bounded by `fuel` iterations;
`n` is the call node. -/
def checkArgs (s : State) (n : TreeNode) : Nat → Ptr → Ptr → Option State
  | _, none, _ => some s
  | _, some _, none =>
    some (typeError s n "invalid function call (# of arguments does not match)")
  | 0, some _, some _ => none
  | fuel + 1, some a, some p =>
    match s.nodes[a]?, s.nodes[p]? with
    | some arg, some param =>
      if arg.type ≠ param.type then
        some (typeError s n "invalid function call (argument type mismatched)")
      else if arg.type = .Void then
        some (typeError s arg "void value cannot be passed as an argument")
      else checkArgs s n fuel arg.sibling param.sibling
    | _, _ => none

/-- The case `CallK` of `checkNode`.  A sibling list without a cycle has at most as many
cells as the heap has nodes, which bounds the loop over the arguments. -/
def checkCall (G : Globals) (t : Nat) (n : TreeNode) (s : State) : Option State :=
  match n.name with
  | none => none
  | some callFuncName =>
    match st_lookup_bucket s callFuncName with
    | none => none
    | some none => none
    | some (some (_, bucket)) =>
      match bucket.treeNode with
      | none => some s
      | some fd =>
        match s.nodes[fd]? with
        | none => none
        | some funcDecl =>
          let arg := n.child.getD 0 none
          let param := funcDecl.child.getD 0 none
          if funcDecl.kind ≠ G.FunK then some (typeError s n "expected function symbol")
          else
            let s1 : Option State :=
              match arg with
              | some _ => some s
              | none =>
                match deref s param with
                | none => none
                | some pn =>
                  if pn.name = none ∧ pn.type = .Void then some s
                  else some (typeError s n
                    "invalid function call (# of arguments does not match)")
            match s1 with
            | none => none
            | some s1 =>
              match checkArgs s1 n s1.nodes.length arg param with
              | none => none
              | some s2 => some (s2.setNode t { n with type := funcDecl.type })

/-- The test `t->child[0]->type == Integer && t->child[1]->type == Integer`; the second
child is read only when the first has type `Integer`. -/
def bothInteger (s : State) (n : TreeNode) : Option Bool :=
  match deref s (n.child.getD 0 none) with
  | none => none
  | some c0 =>
    if c0.type ≠ .Integer then some false
    else
      match deref s (n.child.getD 1 none) with
      | none => none
      | some c1 => some (decide (c1.type = .Integer))

/-- The case `RetK` of `checkNode`. -/
def checkRet (n : TreeNode) (s : State) : Option State :=
  match s.funcName with
  | none => none
  | some funcName =>
    match st_lookup_bucket s funcName with
    | none => none
    | some none => none
    | some (some (_, bucket)) =>
      match deref s bucket.treeNode with
      | none => none
      | some funcDecl =>
        let funcType := funcDecl.type
        let bad (message : String) : State := { typeError s n message with funcReturn := 0 }
        if funcType = .Void then
          match n.child.getD 0 none with
          | none => some { s with funcReturn := 1 }
          | some e =>
            match s.nodes[e]? with
            | none => none
            | some expr =>
              if expr.type ≠ .Void then
                some (bad "invalid return type (non-void return value in void type function)")
              else some { s with funcReturn := 1 }
        else if funcType = .Integer then
          match n.child.getD 0 none with
          | none => some (bad "invalid return type (return value should be Integer)")
          | some e =>
            match s.nodes[e]? with
            | none => none
            | some expr =>
              if expr.type ≠ .Integer then
                some (bad "invalid return type (return value should be Integer)")
              else some { s with funcReturn := 1 }
        else some { s with funcReturn := 0 }

/-- The cases of `checkNode` for an expression node. -/
def checkExp (G : Globals) (t : Nat) (n : TreeNode) (s : State) : Option State :=
  if n.kind = G.ConstK then some (s.setNode t { n with type := .Integer })
  else if n.kind = G.IdK ∨ n.kind = G.IdArrK then checkId G t n s
  else if n.kind = G.CallK then checkCall G t n s
  else if n.kind = G.AssignK then
    match deref s (n.child.getD 0 none) with
    | none => none
    | some c0 =>
      if c0.type ≠ .Integer then some (typeError s c0 "type conflict in assignment")
      else
        match deref s (n.child.getD 1 none) with
        | none => none
        | some c1 =>
          if c1.type ≠ .Integer then some (typeError s c0 "type conflict in assignment")
          else some (s.setNode t { n with type := c0.type })
  else if n.kind = G.RelopK then
    match bothInteger s n with
    | none => none
    | some true => some (s.setNode t { n with type := .Integer })
    | some false => some (typeError s n "operand of Relop should be Integer type")
  else if n.kind = G.OpK then
    match bothInteger s n with
    | none => none
    | some true => some (s.setNode t { n with type := .Integer })
    | some false => some (typeError s n "operand of Op should be Integer type")
  else some s

/-- The cases of `checkNode` for a statement node. -/
def checkStmt (G : Globals) (n : TreeNode) (s : State) : Option State :=
  if n.kind = G.CompK then some (scPop s)
  else if n.kind = G.SelK then
    match deref s (n.child.getD 0 none) with
    | none => none
    | some c0 =>
      if c0.type ≠ .Integer then
        some (typeError s c0 "invalid expression (if-condition must be Integer type)")
      else some s
  else if n.kind = G.IterK then
    match deref s (n.child.getD 0 none) with
    | none => none
    | some c0 =>
      if c0.type ≠ .Integer then
        some (typeError s c0 "invalid expression (while-condition must be Integer type)")
      else some s
  else if n.kind = G.RetK then checkRet n s
  else some s

/-- The cases of `checkNode` for a declaration node. -/
def checkDecl (G : Globals) (n : TreeNode) (s : State) : State :=
  if n.kind = G.VarK ∨ n.kind = G.VarArrK then
    if n.type = .Void ∨ n.type = .VoidArray then
      typeError s n "declaration of void or void array type variable is invalid"
    else s
  else if n.kind = G.FunK then
    if s.funcReturn ≠ 1 then
      typeError { s with funcReturn := 0 } n
        "return statement is missing or not properly stated in this funciton"
    else { s with funcReturn := 0 }
  else s

/-- The cases of `checkNode` for a parameter node. -/
def checkParam (G : Globals) (n : TreeNode) (s : State) : State :=
  if n.kind = G.SingleParamK then
    if n.type = .Void ∧ n.sibling ≠ none then typeError s n "Void type Parameter is invalid"
    else s
  else if n.kind = G.ArrParamK then
    if n.type = .VoidArray then typeError s n "Void Array type parameter is invalid"
    else s
  else s

/-- The procedure `checkNode`. -/
def checkNode (G : Globals) (t : Nat) (s : State) : Option State :=
  match s.nodes[t]? with
  | none => none
  | some n =>
    match n.nodekind with
    | .ExpK => checkExp G t n s
    | .StmtK => checkStmt G n s
    | .DeclK => some (checkDecl G n s)
    | .ParamK => some (checkParam G n s)

/-- The procedure `typeCheck`. -/
def typeCheck (G : Globals) (fuel : Nat) (syntaxTree : Ptr) (s : State) : Option State :=
  let s1 := scPush s s.globalScope
  match traverse G (beforeCheckNode G) (checkNode G) fuel syntaxTree s1 with
  | none => none
  | some s2 => some (scPop s2)

/-! ## Finite trees and the event sequence of a traversal -/

mutual
/-- A finite tree of node pointers: `null`, or a node with the trees of its child slots,
in order, and the tree of its sibling. -/
inductive SynTree where
  | null : SynTree
  | node (t : Nat) (children : SynForest) (sibling : SynTree) : SynTree
/-- The trees of the child slots of a node, in order. -/
inductive SynForest where
  | nil : SynForest
  | cons (c : SynTree) (cs : SynForest) : SynForest
end

/-- A visitor call. -/
inductive Ev where
  | pre (t : Nat)
  | post (t : Nat)
  deriving DecidableEq, Repr

mutual
/-- The event sequence `E`: `E(null) = []` and
`E(n) = [pre n] ++ E(child 0) ++ ... ++ E(child MAXCHILDREN-1) ++ [post n] ++ E(sibling)`. -/
def SynTree.events : SynTree → List Ev
  | .null => []
  | .node t cs sib => Ev.pre t :: (cs.events ++ Ev.post t :: sib.events)
/-- The event sequences of the child slots, one after the other. -/
def SynForest.events : SynForest → List Ev
  | .nil => []
  | .cons c cs => c.events ++ cs.events
end

mutual
/-- The number of nested calls of `traverse` the tree needs. -/
def SynTree.depth : SynTree → Nat
  | .null => 0
  | .node _ cs sib => max cs.depth sib.depth + 1
/-- The largest depth among the child slots. -/
def SynForest.depth : SynForest → Nat
  | .nil => 0
  | .cons c cs => max c.depth cs.depth
end

mutual
/-- The node pointers of a tree, in the order of their pre-visits. -/
def SynTree.ptrs : SynTree → List Nat
  | .null => []
  | .node t cs sib => t :: (cs.ptrs ++ sib.ptrs)
/-- The node pointers of the child slots. -/
def SynForest.ptrs : SynForest → List Nat
  | .nil => []
  | .cons c cs => c.ptrs ++ cs.ptrs
end

mutual
/-- The subtrees of a tree: the tree itself and, for a node, the subtrees of its child
slots and of its sibling. -/
def SynTree.subtrees : SynTree → List SynTree
  | .null => [.null]
  | .node t cs sib => .node t cs sib :: (cs.subtrees ++ sib.subtrees)
/-- The subtrees of the child slots. -/
def SynForest.subtrees : SynForest → List SynTree
  | .nil => []
  | .cons c cs => c.subtrees ++ cs.subtrees
end

/-- The pointers `t->child[0], ..., t->child[MAXCHILDREN-1]` of a node. -/
def childPtrs (G : Globals) (n : TreeNode) : List Ptr :=
  (List.range G.MAXCHILDREN).map (fun i => n.child.getD i none)

mutual
/-- The heap `nodes` holds the tree `T` at pointer `p`: following the child and sibling
links from `p` spells out `T`. -/
def represents (G : Globals) (nodes : List TreeNode) : Ptr → SynTree → Bool
  | none, .null => true
  | some t, .node u cs sib =>
    match nodes[t]? with
    | none => false
    | some n =>
      decide (t = u) && representsAll G nodes (childPtrs G n) cs &&
        represents G nodes n.sibling sib
  | _, _ => false
/-- The heap holds the trees `cs` at the pointers `ps`, one by one. -/
def representsAll (G : Globals) (nodes : List TreeNode) : List Ptr → SynForest → Bool
  | [], .nil => true
  | p :: ps, .cons c cs => represents G nodes p c && representsAll G nodes ps cs
  | _, _ => false
end

/-- The child and sibling links of every node are the same in two heaps. -/
def SameLinks (a b : List TreeNode) : Prop :=
  ∀ t : Nat, (a[t]?).map (fun n => (n.child, n.sibling)) =
    (b[t]?).map (fun n => (n.child, n.sibling))

/-- A visitor that does not change child or sibling links. -/
def KeepsLinks (f : Nat → State → Option State) : Prop :=
  ∀ t s s1, f t s = some s1 → SameLinks s1.nodes s.nodes

/-- Perform one visitor call. -/
def runEv (preProc postProc : Nat → State → Option State) (s : State) : Ev → Option State
  | .pre t => preProc t s
  | .post t => postProc t s

/-- Perform a sequence of visitor calls, stopping at the first that crashes. -/
def run (preProc postProc : Nat → State → Option State) : List Ev → State → Option State
  | [], s => some s
  | e :: es, s =>
    match runEv preProc postProc s e with
    | none => none
    | some s1 => run preProc postProc es s1

/-- The fields of a node that the Builder pass never changes, and its being a statement
node. -/
def TreeNode.SameShape (m n : TreeNode) : Prop :=
  m.child = n.child ∧ m.sibling = n.sibling ∧ m.kind = n.kind ∧ m.lineno = n.lineno ∧
  m.name = n.name ∧ m.arrayName = n.arrayName ∧
  (m.nodekind = .StmtK ↔ n.nodekind = .StmtK)

/-- A node with every field zero and three child slots. -/
def blankNode : TreeNode :=
  { child := [none, none, none], sibling := none, lineno := 0, nodekind := .StmtK, kind := 0
    name := none, arrayName := none, scope := none, type := .Void }

/-- The syntax tree of
`int f(void){ int y; return y; }` (line 1) `int f(void){ return 0; }` (line 2)
under `sampleGlobals`: a function declaration has its parameter list in child 0 and its
body in child 1, a compound statement its local declarations in child 0 and its
statements in child 1, a return statement its expression in child 0. -/
def exampleRedecl : List TreeNode :=
  [ { blankNode with nodekind := .DeclK, kind := sampleGlobals.FunK, name := some "f"
                     type := .Integer, lineno := 1, child := [some 1, some 2, none]
                     sibling := some 6 },
    { blankNode with nodekind := .ParamK, kind := sampleGlobals.SingleParamK, lineno := 1 },
    { blankNode with nodekind := .StmtK, kind := sampleGlobals.CompK, lineno := 1
                     child := [some 3, some 4, none] },
    { blankNode with nodekind := .DeclK, kind := sampleGlobals.VarK, name := some "y"
                     type := .Integer, lineno := 1 },
    { blankNode with nodekind := .StmtK, kind := sampleGlobals.RetK, lineno := 1
                     child := [some 5, none, none] },
    { blankNode with nodekind := .ExpK, kind := sampleGlobals.IdK, name := some "y"
                     lineno := 1 },
    { blankNode with nodekind := .DeclK, kind := sampleGlobals.FunK, name := some "f"
                     type := .Integer, lineno := 2, child := [some 7, some 8, none] },
    { blankNode with nodekind := .ParamK, kind := sampleGlobals.SingleParamK, lineno := 2 },
    { blankNode with nodekind := .StmtK, kind := sampleGlobals.CompK, lineno := 2
                     child := [none, some 9, none] },
    { blankNode with nodekind := .StmtK, kind := sampleGlobals.RetK, lineno := 2
                     child := [some 10, none, none] },
    { blankNode with nodekind := .ExpK, kind := sampleGlobals.ConstK, lineno := 2 } ]

/-- A node without children or sibling, as a tree. -/
def SynTree.leaf (t : Nat) : SynTree :=
  .node t (.cons .null (.cons .null (.cons .null .nil))) .null

/-- The state in which `buildSymtab` starts the traversal of `exampleRedecl`. -/
def exampleRedeclStart : State :=
  (builderStart sampleGlobals (State.init exampleRedecl)).getD (State.init [])

/-- The tree that `exampleRedecl` holds at pointer 0. -/
def exampleRedeclTree : SynTree :=
  .node 0
    (.cons (.leaf 1)
      (.cons (.node 2
          (.cons (.leaf 3)
            (.cons (.node 4 (.cons (.leaf 5) (.cons .null (.cons .null .nil))) .null)
              (.cons .null .nil))) .null)
        (.cons .null .nil)))
    (.node 6
      (.cons (.leaf 7)
        (.cons (.node 8
            (.cons .null
              (.cons (.node 9 (.cons (.leaf 10) (.cons .null (.cons .null .nil))) .null)
                (.cons .null .nil))) .null)
          (.cons .null .nil)))
      .null)

/-! ## Invariants of the scope stack -/

/-- The scope stack is a parent chain: it is not empty, every cell below `stackIdx` holds
a scope of the registry whose parent is the scope in the cell below and whose nesting
level is the number of the cell, and the cell under the bottom holds `NULL`. -/
def StackOK (s : State) : Prop :=
  0 < s.stackIdx ∧ s.stack (-1) = none ∧
  ∀ i : Int, 0 ≤ i → i < s.stackIdx →
    ∃ k sc, s.stack i = some k ∧ s.scopes[k]? = some sc ∧ sc.parent = s.stack (i - 1) ∧
      sc.nestedLevel = i

/-- The scopes in the cells `0 .. n-1` of the stack, the highest cell first. -/
def stackBelow (s : State) (n : Nat) : List Nat :=
  (List.range n).reverse.filterMap (fun i => s.stack (i : Int))

/-- The scopes on the scope stack, from top to bottom. -/
def stackList (s : State) : List Nat := stackBelow s s.stackIdx.toNat

/-- Two states give every scope the same parent and the same nesting level. -/
def SameParents (a b : State) : Prop :=
  ∀ k : Nat, (a.scopes[k]?).map (fun sc => (sc.parent, sc.nestedLevel)) =
    (b.scopes[k]?).map (fun sc => (sc.parent, sc.nestedLevel))

/-- Every record of the registry sits in the bucket of its name, has a line list with a
first cell, and has as memory slot the nesting level of its scope, which is not
negative. -/
def RecOK (s : State) : Prop :=
  ∀ (k : Nat) (sc : ScopeListRec) (h : Nat) (r : BucketListRec),
    s.scopes[k]? = some sc → r ∈ sc.hashTable h →
      hash r.name = h ∧ r.lines ≠ [] ∧ r.memloc = sc.nestedLevel ∧ 0 ≤ r.memloc

/-- The invariant of the Builder pass: the scope stack is a parent chain, `location` is
the nesting depth, and the records are well formed. -/
def BInv (s : State) : Prop :=
  StackOK s ∧ s.location = s.stackIdx - 1 ∧ RecOK s

/-- A property holds before and after every call of a sequence of visitor calls, as far
as the sequence runs. -/
def Always (preProc postProc : Nat → State → Option State) (P : State → Prop) :
    List Ev → State → Prop
  | [], s => P s
  | e :: es, s => P s ∧ ∀ s1, runEv preProc postProc s e = some s1 →
      Always preProc postProc P es s1

/-- The state of the Builder pass on `exampleRedecl` when the second declaration of `f`
(node 6) is about to be pre-visited: the first twelve visitor calls are done. -/
def exampleRedeclAtSecond : State :=
  (run (insertNode sampleGlobals) (afterInsertNode sampleGlobals)
    (exampleRedeclTree.events.take 12) exampleRedeclStart).getD (State.init [])

/-- A visitor call that keeps the invariant of the Builder pass and leaves the scope
stack, the preserve-last-scope flag and the number of scopes alone. -/
def Quiet (s s1 : State) : Prop :=
  BInv s1 ∧ s1.stack = s.stack ∧ s1.stackIdx = s.stackIdx ∧
  s1.preserveLastScope = s.preserveLastScope ∧ s1.scopes.length = s.scopes.length

/-! ## Well-formed trees -/

/-- The node carries the name that `insertNode` hashes for it: a function declaration,
a variable or array declaration of non-void type, an identifier, array identifier or
call has its name. -/
def namesOk (G : Globals) (n : TreeNode) : Bool :=
  match n.nodekind with
  | .DeclK =>
    if n.kind = G.FunK then n.name.isSome
    else if n.kind = G.VarK ∨ n.kind = G.VarArrK then
      decide (n.type = .Void ∨ n.type = .VoidArray) ||
        (if n.kind = G.VarK then n.name else n.arrayName).isSome
    else true
  | .ExpK =>
    if n.kind = G.IdK ∨ n.kind = G.IdArrK ∨ n.kind = G.CallK then n.name.isSome else true
  | _ => true

/-- The node is a function declaration. -/
def isFunDecl (G : Globals) (n : TreeNode) : Bool :=
  decide (n.nodekind = .DeclK ∧ n.kind = G.FunK)

/-- The node is a compound statement. -/
def isCompStmt (G : Globals) (n : TreeNode) : Bool :=
  decide (n.nodekind = .StmtK ∧ n.kind = G.CompK)

/-- Every child slot is `NULL`. -/
def SynForest.allNull : SynForest → Bool
  | .nil => true
  | .cons .null cs => cs.allNull
  | .cons (.node _ _ _) _ => false

/-- A parameter list: a sibling list of parameter nodes without children. -/
def paramList (nodes : List TreeNode) : SynTree → Bool
  | .null => true
  | .node t cs sib =>
    match nodes[t]? with
    | none => false
    | some n => decide (n.nodekind = .ParamK) && cs.allNull && paramList nodes sib

mutual
/-- A well-formed tree: every node carries the name the Builder pass needs, and every
function declaration has its parameter list in child 0 and a compound statement as its
body in child 1. -/
def wellFormed (G : Globals) (nodes : List TreeNode) : SynTree → Bool
  | .null => true
  | .node t cs sib =>
    match nodes[t]? with
    | none => false
    | some n =>
      namesOk G n &&
        (if isFunDecl G n then funShape G nodes cs else wellFormedAll G nodes cs) &&
        wellFormed G nodes sib
/-- Every tree of the forest is well formed. -/
def wellFormedAll (G : Globals) (nodes : List TreeNode) : SynForest → Bool
  | .nil => true
  | .cons c cs => wellFormed G nodes c && wellFormedAll G nodes cs
/-- The child slots of a function declaration: a parameter list, then a compound
statement, then well-formed trees. -/
def funShape (G : Globals) (nodes : List TreeNode) : SynForest → Bool
  | .cons ps (.cons (.node b bcs bsib) rest) =>
    paramList nodes ps &&
      (match nodes[b]? with
       | none => false
       | some m => isCompStmt G m) &&
      wellFormedAll G nodes bcs && wellFormed G nodes bsib && wellFormedAll G nodes rest
  | _ => false
end

mutual
/-- The number of nodes and slots of a tree. -/
def SynTree.size : SynTree → Nat
  | .null => 1
  | .node _ cs sib => cs.size + sib.size + 1
/-- The number of nodes and slots of a forest. -/
def SynForest.size : SynForest → Nat
  | .nil => 1
  | .cons c cs => c.size + cs.size + 1
end

/-- The Builder visitors run through the calls `evs` from `s` without a crash, keep the
invariant at every call with the stack never lower than at the start, end with the stack
depth of the start and the preserve-last-scope flag cleared, and change no node outside
`ptrs`. -/
def RunsBalanced (G : Globals) (evs : List Ev) (ptrs : List Nat) (s : State) : Prop :=
  ∃ s1, run (insertNode G) (afterInsertNode G) evs s = some s1 ∧ BInv s1 ∧
    s1.stackIdx = s.stackIdx ∧ s1.preserveLastScope = false ∧
    (∀ u : Nat, u ∉ ptrs → s1.nodes[u]? = s.nodes[u]?) ∧
    Always (insertNode G) (afterInsertNode G)
      (fun x => BInv x ∧ s.stackIdx ≤ x.stackIdx) evs s

/-- The Builder pass is balanced on the tree `T`, from every state in which `T` is well
formed and the flag is clear. -/
def BuilderOK (G : Globals) (T : SynTree) : Prop :=
  ∀ s : State, wellFormed G s.nodes T = true → T.ptrs.Nodup → BInv s →
    s.preserveLastScope = false → RunsBalanced G T.events T.ptrs s

/-- The Builder pass is balanced on the forest `F`. -/
def BuilderAllOK (G : Globals) (F : SynForest) : Prop :=
  ∀ s : State, wellFormedAll G s.nodes F = true → F.ptrs.Nodup → BInv s →
    s.preserveLastScope = false → RunsBalanced G F.events F.ptrs s

/-! ## The nodes of the builtin functions -/

/-- The three nodes `insertBuiltinFunc` builds for one builtin function, allocated from
heap position `base` on: the parameter, the empty compound statement and the function
declaration. -/
def builtinNodes (G : Globals) (lineno : Int) (base : Nat) (funcName : String)
    (funcType : ExpType) (paramName : Option String) (paramType : ExpType) : List TreeNode :=
  [ { child := List.replicate G.MAXCHILDREN none, sibling := none, lineno := lineno
      nodekind := .ParamK, kind := G.SingleParamK, name := paramName, arrayName := none
      scope := none, type := paramType },
    { child := ((List.replicate G.MAXCHILDREN none).set 0 none).set 1 none, sibling := none
      lineno := lineno, nodekind := .StmtK, kind := G.CompK, name := none, arrayName := none
      scope := none, type := .Void },
    { child := ((List.replicate G.MAXCHILDREN none).set 0 (some base)).set 1 (some (base + 1))
      sibling := none, lineno := 0, nodekind := .DeclK, kind := G.FunK
      name := some funcName, arrayName := none, scope := none, type := funcType } ]

/-- The state with more nodes at the end of the heap. -/
def State.addNodes (s : State) (l : List TreeNode) : State :=
  { s with nodes := s.nodes ++ l }

/-- The record `insertBuiltinFunc` inserts for a builtin function declared by node `t`. -/
def builtinRecord (name : String) (t : Nat) : BucketListRec :=
  { name := name, treeNode := some t, lines := [-1], memloc := 0 }

/-- What the start of `buildSymtab` establishes about the global scope `g` and the
builtin functions, whose nodes lie from heap position `base` on. -/
def BuiltinsIn (G : Globals) (s : State) (g base : Nat) (lineno : Int) : Prop :=
  s.globalScope = some g ∧
  (∃ gsc, s.scopes[g]? = some gsc ∧ gsc.parent = none ∧
    (∃ r, gsc.find "input" = some r ∧ r.treeNode = some (base + 2)) ∧
    (∃ r, gsc.find "output" = some r ∧ r.treeNode = some (base + 5))) ∧
  (∀ i : Nat, i < 6 →
    s.nodes[base + i]? =
      (builtinNodes G lineno base "input" .Integer none .Void ++
        builtinNodes G lineno (base + 3) "output" .Void (some "arg") .Integer)[i]?)

/-! ## Frames of the Type-Checking pass -/

/-- Two heaps differ at most in the `type` fields of their nodes. -/
def OnlyTypes (a b : List TreeNode) : Prop :=
  ∀ t : Nat, (a[t]?).map (fun n => { n with type := ExpType.Void }) =
    (b[t]?).map (fun n => { n with type := ExpType.Void })

/-- A visitor call of the Type-Checking pass that leaves the registry and the scope
stack alone and changes at most node types. -/
def CheckQuiet (s s1 : State) : Prop :=
  s1.scopes = s.scopes ∧ s1.stack = s.stack ∧ s1.stackIdx = s.stackIdx ∧
  OnlyTypes s1.nodes s.nodes ∧ s1.globalScope = s.globalScope ∧ s1.location = s.location ∧
  s1.preserveLastScope = s.preserveLastScope

/-- The Type-Checking visitors, run through the calls `evs` from `s` as far as they run,
never have the stack lower than at the start, leave the registry unchanged and change at
most node types; when they run to the end the stack depth is that of the start. -/
def CheckerOK (G : Globals) (evs : List Ev) (s : State) : Prop :=
  Always (beforeCheckNode G) (checkNode G)
    (fun x => s.stackIdx ≤ x.stackIdx ∧ x.scopes = s.scopes ∧ OnlyTypes x.nodes s.nodes)
    evs s ∧
  ∀ s1, run (beforeCheckNode G) (checkNode G) evs s = some s1 →
    s1.stackIdx = s.stackIdx ∧ s1.scopes = s.scopes ∧ OnlyTypes s1.nodes s.nodes

/-- The state of the Builder pass on `exampleRedecl` when the use of `y` (node 5) is
about to be pre-visited: the first seven visitor calls are done. -/
def exampleRedeclAtUse : State :=
  (run (insertNode sampleGlobals) (afterInsertNode sampleGlobals)
    (exampleRedeclTree.events.take 7) exampleRedeclStart).getD (State.init [])

/-- Every scope of `s` is still in the registry of `s1`, with the same parent, and still
holds for every name a record with the same declaring node and memory slot; the
pointer `globalScope` is the same. -/
def Persist (s s1 : State) : Prop :=
  s1.globalScope = s.globalScope ∧
  ∀ (k : Nat) (sc : ScopeListRec), s.scopes[k]? = some sc →
    ∃ sc1, s1.scopes[k]? = some sc1 ∧ sc1.parent = sc.parent ∧
      ∀ name r, sc.find name = some r →
        ∃ r1, sc1.find name = some r1 ∧ r1.treeNode = r.treeNode ∧ r1.memloc = r.memloc ∧
          r1.name = r.name

/-- The node a visitor call is made on. -/
def Ev.ptr : Ev → Nat
  | .pre t => t
  | .post t => t

/-- The node `fd` of the heap is a function declaration with the given name and return
type, declared at line 0, whose parameter list (child 0) is the single parameter node
with the given name and type. -/
def IsFunctionOf (G : Globals) (nodes : List TreeNode) (fd : Nat) (funcName : String)
    (funcType : ExpType) (paramName : Option String) (paramType : ExpType) : Prop :=
  ∃ f pd p, nodes[fd]? = some f ∧ f.nodekind = .DeclK ∧ f.kind = G.FunK ∧
    f.name = some funcName ∧ f.type = funcType ∧ f.lineno = 0 ∧
    f.child.getD 0 none = some pd ∧ nodes[pd]? = some p ∧
    p.nodekind = .ParamK ∧ p.kind = G.SingleParamK ∧ p.name = paramName ∧
    p.type = paramType ∧ p.sibling = none

/-- What the Builder pass does on the parameter list `P`, run from `x` to `y` with scope
`k` on top of the stack: only scope `k` changes; each record it gains belongs to a
parameter of `P` carrying the record's name; the names it held it still holds; and every
parameter name that no lookup found at the start is held by scope `k` at the end. -/
def ParamsResult (P : SynTree) (k : Nat) (x y : State) : Prop :=
  Quiet x y ∧ y.nodes = x.nodes ∧ (∀ j : Nat, j ≠ k → y.scopes[j]? = x.scopes[j]?) ∧
  ∃ sck sck1, x.scopes[k]? = some sck ∧ y.scopes[k]? = some sck1 ∧
    sck1.parent = sck.parent ∧ sck1.scopeName = sck.scopeName ∧
    sck1.nestedLevel = sck.nestedLevel ∧
    (∀ h r, r ∈ sck1.hashTable h → r ∈ sck.hashTable h ∨
      ∃ p ∈ P.ptrs, ∃ n, x.nodes[p]? = some n ∧ n.name = some r.name ∧ r.treeNode = some p) ∧
    (∀ name r, sck.find name = some r → ∃ r1, sck1.find name = some r1) ∧
    (∀ p ∈ P.ptrs, ∀ n name, x.nodes[p]? = some n → n.name = some name →
      st_lookup_bucket x name = some none → ∃ r, sck1.find name = some r)

/-- The syntax tree of `int f(int a, int a){}` (line 1) under `sampleGlobals`. -/
def exampleDupParam : List TreeNode :=
  [ { blankNode with nodekind := .DeclK, kind := sampleGlobals.FunK, name := some "f"
                     type := .Integer, lineno := 1, child := [some 1, some 3, none] },
    { blankNode with nodekind := .ParamK, kind := sampleGlobals.SingleParamK
                     name := some "a", type := .Integer, lineno := 1, sibling := some 2 },
    { blankNode with nodekind := .ParamK, kind := sampleGlobals.SingleParamK
                     name := some "a", type := .Integer, lineno := 1 },
    { blankNode with nodekind := .StmtK, kind := sampleGlobals.CompK, lineno := 1 } ]

/-- The tree that `exampleDupParam` holds at pointer 0. -/
def exampleDupParamTree : SynTree :=
  .node 0
    (.cons (.node 1 (.cons .null (.cons .null (.cons .null .nil))) (.leaf 2))
      (.cons (.leaf 3) (.cons .null .nil)))
    .null

/-- The state in which `buildSymtab` starts the traversal of `exampleDupParam`. -/
def exampleDupParamStart : State :=
  (builderStart sampleGlobals (State.init exampleDupParam)).getD (State.init [])

/-- Every named parameter node of the list `ps` has a record of its own in scope `k`. -/
def ParamsAllInserted (s : State) (k : Nat) (ps : List Nat) : Prop :=
  ∀ p ∈ ps, ∀ n name, s.nodes[p]? = some n → n.name = some name →
    ∃ sc r, s.scopes[k]? = some sc ∧ r ∈ sc.hashTable (hash name) ∧ r.treeNode = some p

/-! ## The scopes the Type-Checking pass meets -/

/-- Scope `j` of the registry holds a record for `name`. -/
def Holds (scopes : List ScopeListRec) (j : Nat) (name : String) : Prop :=
  ∃ sc r, scopes[j]? = some sc ∧ sc.find name = some r

/-- No pointer dangles: every child or sibling pointer stored in a node of the heap is
`NULL` or points to a node of the heap. -/
def HeapClosed (nodes : List TreeNode) : Prop :=
  ∀ (t : Nat) (n : TreeNode), nodes[t]? = some n →
    (∀ q, n.sibling = some q → ∃ m, nodes[q]? = some m) ∧
    (∀ i q, n.child.getD i none = some q → ∃ m, nodes[q]? = some m)

/-- The declaring node of every record is a node of the heap and, when its `kind` holds
the code of `FunK`, has a parameter list: its child 0 is not `NULL`. -/
def RecNodes (G : Globals) (s : State) : Prop :=
  ∀ (k : Nat) (sc : ScopeListRec) (h : Nat) (r : BucketListRec),
    s.scopes[k]? = some sc → r ∈ sc.hashTable h →
      ∃ fd m, r.treeNode = some fd ∧ s.nodes[fd]? = some m ∧
        (m.kind = G.FunK → ∃ p, m.child.getD 0 none = some p)

/-- The number of cells of the sibling list that starts at the root of the tree. -/
def SynTree.sibLen : SynTree → Nat
  | .null => 0
  | .node _ _ sib => sib.sibLen + 1

/-- What the Type-Checking pass needs of a node `n` of the heap of `F` that it visits
with the scopes `L` on the stack (top first) inside the function named `fn` (`none`
outside every function): a compound statement carries a scope of the registry whose
parent is the top of the stack and whose nesting level is the depth of the stack; an
`if`, `while`, array identifier, assignment or operator has the operands its case
reads; a call has its name, which a scope of the stack holds, and a finite argument
list; a `return` is inside a function whose name a scope of the stack holds; a function
declaration is not inside another one. -/
def NodeOK (G : Globals) (F : State) (L : List Nat) (fn : Option String) (n : TreeNode) :
    Prop :=
  match n.nodekind with
  | .ExpK =>
    ((n.kind = G.IdK ∨ n.kind = G.IdArrK) → n.name.isSome = true) ∧
    (n.kind = G.IdArrK → ∃ q, n.child.getD 0 none = some q) ∧
    (n.kind = G.CallK → ∃ name, n.name = some name ∧ (∃ j ∈ L, Holds F.scopes j name) ∧
      ∃ A, represents G F.nodes (n.child.getD 0 none) A = true ∧
        A.sibLen ≤ F.nodes.length) ∧
    ((n.kind = G.AssignK ∨ n.kind = G.RelopK ∨ n.kind = G.OpK) →
      ∃ q0 q1, n.child.getD 0 none = some q0 ∧ n.child.getD 1 none = some q1)
  | .StmtK =>
    (n.kind = G.CompK → ∃ k sck, n.scope = some k ∧ F.scopes[k]? = some sck ∧
      sck.parent = L.head? ∧ sck.nestedLevel = L.length) ∧
    ((n.kind = G.SelK ∨ n.kind = G.IterK) → ∃ q, n.child.getD 0 none = some q) ∧
    (n.kind = G.RetK → ∃ fname, fn = some fname ∧ ∃ j ∈ L, Holds F.scopes j fname)
  | .DeclK => n.kind = G.FunK → fn = none
  | .ParamK => True

/-- The scopes on the stack while the children of node `n` are visited. -/
def childChain (G : Globals) (L : List Nat) (n : TreeNode) : List Nat :=
  if n.nodekind = .StmtK ∧ n.kind = G.CompK then
    match n.scope with
    | some k => k :: L
    | none => L
  else L

/-- The function inside which the children of node `n` are. -/
def childFn (G : Globals) (fn : Option String) (n : TreeNode) : Option String :=
  if n.nodekind = .DeclK ∧ n.kind = G.FunK then n.name else fn

mutual
/-- Every node of the tree, visited with the scopes on the stack that the compound
statements above it carry, starting from `L`, has what the Type-Checking pass needs. -/
def ScopeTree (G : Globals) (F : State) (L : List Nat) (fn : Option String) :
    SynTree → Prop
  | .null => True
  | .node p cs sib =>
    ∃ n, F.nodes[p]? = some n ∧ NodeOK G F L fn n ∧
      ScopeForest G F (childChain G L n) (childFn G fn n) cs ∧ ScopeTree G F L fn sib
/-- Every tree of the forest has what the Type-Checking pass needs. -/
def ScopeForest (G : Globals) (F : State) (L : List Nat) (fn : Option String) :
    SynForest → Prop
  | .nil => True
  | .cons c cs => ScopeTree G F L fn c ∧ ScopeForest G F L fn cs
end

/-- The declaring node of every record a lookup returns is a node of the heap and, when
its `kind` holds the code of `FunK`, has a child 0. -/
def Targets (G : Globals) (s : State) : Prop :=
  ∀ (name : String) (i : Nat) (r : BucketListRec),
    st_lookup_bucket s name = some (some (i, r)) →
      ∃ fd m, r.treeNode = some fd ∧ s.nodes[fd]? = some m ∧
        (m.kind = G.FunK → ∃ p, m.child.getD 0 none = some p)

/-- The Type-Checking visitors run through the calls `evs` from `c` to the end: the
registry stays that of `F`, the heap differs from that of `F` in node types only, the
stack ends as deep as it started with the cells below unchanged, the current function is
still `fn`, and the scope stack is a parent chain at every call. -/
def CheckRuns (G : Globals) (F : State) (fn : Option String) (evs : List Ev) (c : State) :
    Prop :=
  ∃ c1, run (beforeCheckNode G) (checkNode G) evs c = some c1 ∧
    c1.scopes = F.scopes ∧ OnlyTypes c1.nodes F.nodes ∧ c1.stackIdx = c.stackIdx ∧
    (∀ i : Int, i < c.stackIdx → c1.stack i = c.stack i) ∧
    (∀ f, fn = some f → c1.funcName = some f) ∧
    Always (beforeCheckNode G) (checkNode G) (fun x => StackOK x) evs c

/-- Every scope of `s` is still in the registry of `s1`, with the same nesting level. -/
def Extends (s s1 : State) : Prop :=
  ∀ (k : Nat) (sc : ScopeListRec), s.scopes[k]? = some sc →
    ∃ sc1, s1.scopes[k]? = some sc1 ∧ sc1.nestedLevel = sc.nestedLevel

/-- Every record of `s1` either declares node `t` or stands for a record of `s` in the
same bucket of the same scope, with the same declaring node. -/
def RecsFrom (t : Nat) (s s1 : State) : Prop :=
  ∀ (k : Nat) (sc1 : ScopeListRec) (h : Nat) (r1 : BucketListRec),
    s1.scopes[k]? = some sc1 → r1 ∈ sc1.hashTable h →
      r1.treeNode = some t ∨
        ∃ sc r, s.scopes[k]? = some sc ∧ r ∈ sc.hashTable h ∧ r.treeNode = r1.treeNode

/-- What a visitor call of the Builder pass on node `t` does to the registry and the
stack: scopes keep their nesting level, new records declare node `t`, and no stack cell
other than the one at `stackIdx` is written. -/
def Step (t : Nat) (s s1 : State) : Prop :=
  Extends s s1 ∧ RecsFrom t s s1 ∧ ∀ i : Int, i ≠ s.stackIdx → s1.stack i = s.stack i

/-- Every node of heap `a` is still in heap `b`, with the same `kind` and child pointers. -/
def KeepsKinds (a b : List TreeNode) : Prop :=
  ∀ (u : Nat) (m : TreeNode), a[u]? = some m →
    ∃ m1 : TreeNode, b[u]? = some m1 ∧ m1.kind = m.kind ∧ m1.child = m.child

/-- What the Type-Checking pass needs of the shape of a node, inside a function body
(`inFun`) or outside: an array identifier has its index, an assignment or operator both
operands, an `if` or `while` its condition; a `return` is inside a function body; a
function declaration is not, and has a parameter list; and the `kind` of a parameter or
of an identifier, array identifier or call does not hold the code of `FunK`. -/
def shapeOk (G : Globals) (inFun : Bool) (n : TreeNode) : Bool :=
  match n.nodekind with
  | .ExpK =>
    decide ((n.kind = G.IdK ∨ n.kind = G.IdArrK ∨ n.kind = G.CallK) → n.kind ≠ G.FunK) &&
    decide (n.kind = G.IdArrK → (n.child.getD 0 none).isSome = true) &&
    decide ((n.kind = G.AssignK ∨ n.kind = G.RelopK ∨ n.kind = G.OpK) →
      (n.child.getD 0 none).isSome = true ∧ (n.child.getD 1 none).isSome = true)
  | .StmtK =>
    decide ((n.kind = G.SelK ∨ n.kind = G.IterK) → (n.child.getD 0 none).isSome = true) &&
    decide (n.kind = G.RetK → inFun = true)
  | .DeclK =>
    decide (n.kind = G.FunK → inFun = false ∧ (n.child.getD 0 none).isSome = true)
  | .ParamK => decide (n.kind ≠ G.FunK)

mutual
/-- Every node of the tree has the shape the Type-Checking pass needs; the children of a
function declaration are inside a function body. -/
def checkShape (G : Globals) (nodes : List TreeNode) : Bool → SynTree → Bool
  | _, .null => true
  | inFun, .node t cs sib =>
    match nodes[t]? with
    | none => false
    | some n =>
      shapeOk G inFun n && checkShapeAll G nodes (inFun || isFunDecl G n) cs &&
        checkShape G nodes inFun sib
/-- Every tree of the forest has the shape the Type-Checking pass needs. -/
def checkShapeAll (G : Globals) (nodes : List TreeNode) : Bool → SynForest → Bool
  | _, .nil => true
  | inFun, .cons c cs => checkShape G nodes inFun c && checkShapeAll G nodes inFun cs
end

/-- Inside a function body the current function is named and a scope of `L` holds its
name; outside, there is no current function. -/
def FnOK (inFun : Bool) (fn : Option String) (scopes : List ScopeListRec) (L : List Nat) :
    Prop :=
  if inFun = true then ∃ fname, fn = some fname ∧ ∃ j ∈ L, Holds scopes j fname
  else fn = none

/-- The Builder pass on the tree `T`, from a state of the pass, leaves in the heap and the
registry what the Type-Checking pass needs of `T`. -/
def ScopedOK (G : Globals) (T : SynTree) : Prop :=
  ∀ (inFun : Bool) (fn : Option String) (s s1 : State) (p : Ptr),
    represents G s.nodes p T = true → wellFormed G s.nodes T = true →
    checkShape G s.nodes inFun T = true → T.ptrs.Nodup → BInv s →
    s.preserveLastScope = false → RecNodes G s → FnOK inFun fn s.scopes (stackList s) →
    run (insertNode G) (afterInsertNode G) T.events s = some s1 →
    RecNodes G s1 ∧ ScopeTree G s1 (stackList s) fn T

/-- The Builder pass on the forest `F` leaves what the Type-Checking pass needs of `F`. -/
def ScopedAllOK (G : Globals) (F : SynForest) : Prop :=
  ∀ (inFun : Bool) (fn : Option String) (s s1 : State) (ps : List Ptr),
    representsAll G s.nodes ps F = true → wellFormedAll G s.nodes F = true →
    checkShapeAll G s.nodes inFun F = true → F.ptrs.Nodup → BInv s →
    s.preserveLastScope = false → RecNodes G s → FnOK inFun fn s.scopes (stackList s) →
    run (insertNode G) (afterInsertNode G) F.events s = some s1 →
    RecNodes G s1 ∧ ScopeForest G s1 (stackList s) fn F

/-! ## The programs of the worked examples -/

/-- The syntax tree of `int x; int f(int x){}` (line 1) under `sampleGlobals`. -/
def exampleParamOuter : List TreeNode :=
  [ { blankNode with nodekind := .DeclK, kind := sampleGlobals.VarK, name := some "x"
                     type := .Integer, lineno := 1, sibling := some 1 },
    { blankNode with nodekind := .DeclK, kind := sampleGlobals.FunK, name := some "f"
                     type := .Integer, lineno := 1, child := [some 2, some 3, none] },
    { blankNode with nodekind := .ParamK, kind := sampleGlobals.SingleParamK
                     name := some "x", type := .Integer, lineno := 1 },
    { blankNode with nodekind := .StmtK, kind := sampleGlobals.CompK, lineno := 1 } ]

/-- The syntax tree of
`int x[5]; void output(int arg){} int main(void){ x[0] = 1; return 0; }` (line 1) under
`sampleGlobals`: an array declaration keeps its name in `attr.array.name`, an
expression statement is the expression node itself, an assignment has its destination in
child 0 and its source in child 1, an indexed identifier its index in child 0. -/
def exampleArrayProgram : List TreeNode :=
  [ { blankNode with nodekind := .DeclK, kind := sampleGlobals.VarArrK
                     arrayName := some "x", type := .IntegerArray, lineno := 1
                     sibling := some 1 },
    { blankNode with nodekind := .DeclK, kind := sampleGlobals.FunK, name := some "output"
                     type := .Void, lineno := 1, child := [some 2, some 3, none]
                     sibling := some 4 },
    { blankNode with nodekind := .ParamK, kind := sampleGlobals.SingleParamK
                     name := some "arg", type := .Integer, lineno := 1 },
    { blankNode with nodekind := .StmtK, kind := sampleGlobals.CompK, lineno := 1 },
    { blankNode with nodekind := .DeclK, kind := sampleGlobals.FunK, name := some "main"
                     type := .Integer, lineno := 1, child := [some 5, some 6, none] },
    { blankNode with nodekind := .ParamK, kind := sampleGlobals.SingleParamK, lineno := 1 },
    { blankNode with nodekind := .StmtK, kind := sampleGlobals.CompK, lineno := 1
                     child := [none, some 7, none] },
    { blankNode with nodekind := .ExpK, kind := sampleGlobals.AssignK, lineno := 1
                     child := [some 8, some 10, none], sibling := some 11 },
    { blankNode with nodekind := .ExpK, kind := sampleGlobals.IdArrK, name := some "x"
                     lineno := 1, child := [some 9, none, none] },
    { blankNode with nodekind := .ExpK, kind := sampleGlobals.ConstK, lineno := 1 },
    { blankNode with nodekind := .ExpK, kind := sampleGlobals.ConstK, lineno := 1 },
    { blankNode with nodekind := .StmtK, kind := sampleGlobals.RetK, lineno := 1
                     child := [some 12, none, none] },
    { blankNode with nodekind := .ExpK, kind := sampleGlobals.ConstK, lineno := 1 } ]

/-- The syntax tree of `int main(void){ return g(); }` (line 1) under `sampleGlobals`:
a call has its argument list in child 0. -/
def exampleUndeclaredCall : List TreeNode :=
  [ { blankNode with nodekind := .DeclK, kind := sampleGlobals.FunK, name := some "main"
                     type := .Integer, lineno := 1, child := [some 1, some 2, none] },
    { blankNode with nodekind := .ParamK, kind := sampleGlobals.SingleParamK, lineno := 1 },
    { blankNode with nodekind := .StmtK, kind := sampleGlobals.CompK, lineno := 1
                     child := [none, some 3, none] },
    { blankNode with nodekind := .StmtK, kind := sampleGlobals.RetK, lineno := 1
                     child := [some 4, none, none] },
    { blankNode with nodekind := .ExpK, kind := sampleGlobals.CallK, name := some "g"
                     lineno := 1 } ]

/-- The syntax tree of
`int f(int a, int b){ return a; } int main(void){ return f(1); }` (line 1) under
`sampleGlobals`. -/
def exampleTooFewArgs : List TreeNode :=
  [ { blankNode with nodekind := .DeclK, kind := sampleGlobals.FunK, name := some "f"
                     type := .Integer, lineno := 1, child := [some 1, some 3, none]
                     sibling := some 6 },
    { blankNode with nodekind := .ParamK, kind := sampleGlobals.SingleParamK
                     name := some "a", type := .Integer, lineno := 1, sibling := some 2 },
    { blankNode with nodekind := .ParamK, kind := sampleGlobals.SingleParamK
                     name := some "b", type := .Integer, lineno := 1 },
    { blankNode with nodekind := .StmtK, kind := sampleGlobals.CompK, lineno := 1
                     child := [none, some 4, none] },
    { blankNode with nodekind := .StmtK, kind := sampleGlobals.RetK, lineno := 1
                     child := [some 5, none, none] },
    { blankNode with nodekind := .ExpK, kind := sampleGlobals.IdK, name := some "a"
                     lineno := 1 },
    { blankNode with nodekind := .DeclK, kind := sampleGlobals.FunK, name := some "main"
                     type := .Integer, lineno := 1, child := [some 7, some 8, none] },
    { blankNode with nodekind := .ParamK, kind := sampleGlobals.SingleParamK, lineno := 1 },
    { blankNode with nodekind := .StmtK, kind := sampleGlobals.CompK, lineno := 1
                     child := [none, some 9, none] },
    { blankNode with nodekind := .StmtK, kind := sampleGlobals.RetK, lineno := 1
                     child := [some 10, none, none] },
    { blankNode with nodekind := .ExpK, kind := sampleGlobals.CallK, name := some "f"
                     lineno := 1, child := [some 11, none, none] },
    { blankNode with nodekind := .ExpK, kind := sampleGlobals.ConstK, lineno := 1 } ]

/-- The syntax tree of `int f(void){ int f[2]; return 0; }` (line 1) under
`sampleGlobals`. -/
def exampleShadowedByArray : List TreeNode :=
  [ { blankNode with nodekind := .DeclK, kind := sampleGlobals.FunK, name := some "f"
                     type := .Integer, lineno := 1, child := [some 1, some 2, none] },
    { blankNode with nodekind := .ParamK, kind := sampleGlobals.SingleParamK, lineno := 1 },
    { blankNode with nodekind := .StmtK, kind := sampleGlobals.CompK, lineno := 1
                     child := [some 3, some 4, none] },
    { blankNode with nodekind := .DeclK, kind := sampleGlobals.VarArrK
                     arrayName := some "f", type := .IntegerArray, lineno := 1 },
    { blankNode with nodekind := .StmtK, kind := sampleGlobals.RetK, lineno := 1
                     child := [some 5, none, none] },
    { blankNode with nodekind := .ExpK, kind := sampleGlobals.ConstK, lineno := 1 } ]

/-- The syntax tree of `void f(void){ int f; return f; }` (line 1) under
`sampleGlobals`. -/
def exampleShadowedByInt : List TreeNode :=
  [ { blankNode with nodekind := .DeclK, kind := sampleGlobals.FunK, name := some "f"
                     type := .Void, lineno := 1, child := [some 1, some 2, none] },
    { blankNode with nodekind := .ParamK, kind := sampleGlobals.SingleParamK, lineno := 1 },
    { blankNode with nodekind := .StmtK, kind := sampleGlobals.CompK, lineno := 1
                     child := [some 3, some 4, none] },
    { blankNode with nodekind := .DeclK, kind := sampleGlobals.VarK
                     name := some "f", type := .Integer, lineno := 1 },
    { blankNode with nodekind := .StmtK, kind := sampleGlobals.RetK, lineno := 1
                     child := [some 5, none, none] },
    { blankNode with nodekind := .ExpK, kind := sampleGlobals.IdK, name := some "f"
                     lineno := 1 } ]

/-- The syntax tree of `int f(void){ if (1) return 1; }` (line 1) under `sampleGlobals`:
a selection statement has its condition in child 0, its then-branch in child 1 and its
else-branch, here absent, in child 2. -/
def exampleReturnInBranch : List TreeNode :=
  [ { blankNode with nodekind := .DeclK, kind := sampleGlobals.FunK, name := some "f"
                     type := .Integer, lineno := 1, child := [some 1, some 2, none] },
    { blankNode with nodekind := .ParamK, kind := sampleGlobals.SingleParamK, lineno := 1 },
    { blankNode with nodekind := .StmtK, kind := sampleGlobals.CompK, lineno := 1
                     child := [none, some 3, none] },
    { blankNode with nodekind := .StmtK, kind := sampleGlobals.SelK, lineno := 1
                     child := [some 4, some 5, none] },
    { blankNode with nodekind := .ExpK, kind := sampleGlobals.ConstK, lineno := 1 },
    { blankNode with nodekind := .StmtK, kind := sampleGlobals.RetK, lineno := 1
                     child := [some 6, none, none] },
    { blankNode with nodekind := .ExpK, kind := sampleGlobals.ConstK, lineno := 1 } ]

/-- The tree that `exampleArrayProgram` holds at pointer 0. -/
def exampleArrayProgramTree : SynTree :=
  .node 0 (.cons .null (.cons .null (.cons .null .nil)))
    (.node 1 (.cons (.leaf 2) (.cons (.leaf 3) (.cons .null .nil)))
      (.node 4
        (.cons (.leaf 5)
          (.cons (.node 6
              (.cons .null
                (.cons (.node 7
                    (.cons (.node 8 (.cons (.leaf 9) (.cons .null (.cons .null .nil))) .null)
                      (.cons (.leaf 10) (.cons .null .nil)))
                    (.node 11 (.cons (.leaf 12) (.cons .null (.cons .null .nil))) .null))
                  (.cons .null .nil))) .null)
            (.cons .null .nil)))
        .null))

/-! ## Argument lists -/

/-- The sibling list that starts at `p` consists of the nodes `l`, in order, and ends with
a `NULL` sibling link. -/
def sibChain (nodes : List TreeNode) : Ptr → List Nat → Bool
  | none, [] => true
  | some a, b :: rest =>
    decide (a = b) &&
      match nodes[a]? with
      | some n => sibChain nodes n.sibling rest
      | none => false
  | _, _ => false

/-- An argument and the parameter at its position: both are nodes of the heap, their
types are equal, and the type is not `Void`. -/
def ArgFits (nodes : List TreeNode) (a p : Nat) : Prop :=
  ∃ arg param, nodes[a]? = some arg ∧ nodes[p]? = some param ∧
    arg.type = param.type ∧ arg.type ≠ .Void

/-- The syntax tree of `void main(void){ output(1); }` (line 1) under `sampleGlobals`. -/
def exampleCallOutput : List TreeNode :=
  [ { blankNode with nodekind := .DeclK, kind := sampleGlobals.FunK, name := some "main"
                     type := .Void, lineno := 1, child := [some 1, some 2, none] },
    { blankNode with nodekind := .ParamK, kind := sampleGlobals.SingleParamK, lineno := 1 },
    { blankNode with nodekind := .StmtK, kind := sampleGlobals.CompK, lineno := 1
                     child := [none, some 3, none] },
    { blankNode with nodekind := .ExpK, kind := sampleGlobals.CallK, name := some "output"
                     lineno := 1, child := [some 4, none, none] },
    { blankNode with nodekind := .ExpK, kind := sampleGlobals.ConstK, lineno := 1 } ]

/-- The state of the Type-Checking pass on `exampleCallOutput` when the call (node 3) is
about to be post-visited. -/
def exampleCallOutputAtCall : State :=
  ((buildSymtab sampleGlobals 10 (some 0) (State.init exampleCallOutput)).bind
    (fun s1 => run (beforeCheckNode sampleGlobals) (checkNode sampleGlobals)
      [.pre 0, .pre 1, .post 1, .pre 2, .pre 3, .pre 4, .post 4]
      (scPush s1 s1.globalScope))).getD (State.init [])

/-! ## The has-returned flag -/

/-- Node `t` of the heap is a return statement. -/
def isRetStmt (G : Globals) (nodes : List TreeNode) (t : Nat) : Bool :=
  match nodes[t]? with
  | some n => decide (n.nodekind = .StmtK ∧ n.kind = G.RetK)
  | none => false

/-- Node `t` of the heap is a function declaration. -/
def isFunNode (G : Globals) (nodes : List TreeNode) (t : Nat) : Bool :=
  match nodes[t]? with
  | some n => isFunDecl G n
  | none => false

/-- What the two passes can make of a node `m`: `kind` and line stay; a node that is not
an expression keeps its category and its type; an expression stays one or, when it is an
identifier, array identifier or call, becomes a declaration. -/
def TreeNode.EvolvesTo (G : Globals) (m m1 : TreeNode) : Prop :=
  m1.kind = m.kind ∧ m1.lineno = m.lineno ∧
  (m.nodekind ≠ .ExpK → m1.nodekind = m.nodekind ∧ m1.type = m.type) ∧
  (m.nodekind = .ExpK → m1.nodekind = .ExpK ∨
    (m1.nodekind = .DeclK ∧ (m.kind = G.IdK ∨ m.kind = G.IdArrK ∨ m.kind = G.CallK)))

/-- Every node of heap `a` is in heap `b` what the two passes can make of it. -/
def Evolves (G : Globals) (a b : List TreeNode) : Prop :=
  ∀ (u : Nat) (m : TreeNode), a[u]? = some m → ∃ m1 : TreeNode, b[u]? = some m1 ∧
    m.EvolvesTo G m1

/-- The diagnostic of the exit of a function declaration whose has-returned flag is not
set. -/
def missingReturn (n : TreeNode) : Diag :=
  { kind := .TypeError, line := n.lineno
    message := "return statement is missing or not properly stated in this funciton" }

/-- A test that no pointer of the heap dangles. -/
def heapClosedB (nodes : List TreeNode) : Bool :=
  nodes.all (fun n =>
    (match n.sibling with
     | some q => decide (q < nodes.length)
     | none => true) &&
    n.child.all (fun c =>
      match c with
      | some q => decide (q < nodes.length)
      | none => true))

/-- The tree that `exampleReturnInBranch` holds at pointer 0. -/
def exampleReturnInBranchTree : SynTree :=
  .node 0
    (.cons (.leaf 1)
      (.cons (.node 2
          (.cons .null
            (.cons (.node 3
                (.cons (.leaf 4)
                  (.cons (.node 5 (.cons (.leaf 6) (.cons .null (.cons .null .nil))) .null)
                    (.cons .null .nil))) .null)
              (.cons .null .nil))) .null)
        (.cons .null .nil)))
    .null

/-- The syntax tree of `int x; int y;` (line 1) under `sampleGlobals`. -/
def exampleTwoGlobals : List TreeNode :=
  [ { blankNode with nodekind := .DeclK, kind := sampleGlobals.VarK, name := some "x"
                     type := .Integer, lineno := 1, sibling := some 1 },
    { blankNode with nodekind := .DeclK, kind := sampleGlobals.VarK, name := some "y"
                     type := .Integer, lineno := 1 } ]

/-- The tree that `exampleTwoGlobals` holds at pointer 0. -/
def exampleTwoGlobalsTree : SynTree :=
  .node 0 (.cons .null (.cons .null (.cons .null .nil))) (.leaf 1)

/-- The states of the symbol table reachable from the empty table (whatever the node
heap) through `scCreate`, `scPush`, `scPop`, `st_insert` and `st_add_lineno`, each with
any arguments, as far as the call returns. -/
inductive Reachable : State → Prop where
  | init (nodes : List TreeNode) : Reachable (State.init nodes)
  | create (s : State) (scopeName : Option String) :
      Reachable s → Reachable (scCreate s scopeName).1
  | push (s : State) (scope : Ptr) : Reachable s → Reachable (scPush s scope)
  | pop (s : State) : Reachable s → Reachable (scPop s)
  | insert (s s1 : State) (name : String) (lineno loc : Int) (treeNode : Ptr) :
      Reachable s → st_insert s name lineno loc treeNode = some s1 → Reachable s1
  | addLineno (s s1 : State) (name : String) (lineno : Int) :
      Reachable s → st_add_lineno s name lineno = some s1 → Reachable s1

/-- In every bucket of every scope the names of the records are pairwise different, and
every record sits in the bucket of its name. -/
def NamesOK (s : State) : Prop :=
  ∀ (k : Nat) (sc : ScopeListRec), s.scopes[k]? = some sc → ∀ h : Nat,
    ((sc.hashTable h).map (fun r => r.name)).Nodup ∧
    ∀ r ∈ sc.hashTable h, hash r.name = h

/-- The table after `scCreate("<GLOBAL>")`, `scPush` of the scope created and
`st_insert("x", 1, 0, NULL)`. -/
def exampleOneRecord : State :=
  (st_insert (scPush (scCreate (State.init []) (some "<GLOBAL>")).1
    (scCreate (State.init []) (some "<GLOBAL>")).2) "x" 1 0 none).getD (State.init [])

/-- What no visitor of the Type-Checking pass writes: the scope registry, `globalScope`,
`location`, the preserve-last-scope flag, the scanner's line and standard output. -/
def CheckFrame (s s1 : State) : Prop :=
  s1.scopes = s.scopes ∧ s1.globalScope = s.globalScope ∧ s1.location = s.location ∧
  s1.preserveLastScope = s.preserveLastScope ∧ s1.lineno = s.lineno ∧ s1.stdout = s.stdout

/-- The syntax tree of `int x[2]; void main(void){ x[y]; }` (line 1) under
`sampleGlobals`. -/
def exampleUndeclaredIndex : List TreeNode :=
  [ { blankNode with nodekind := .DeclK, kind := sampleGlobals.VarArrK
                     arrayName := some "x", type := .IntegerArray, lineno := 1
                     sibling := some 1 },
    { blankNode with nodekind := .DeclK, kind := sampleGlobals.FunK, name := some "main"
                     type := .Void, lineno := 1, child := [some 2, some 3, none] },
    { blankNode with nodekind := .ParamK, kind := sampleGlobals.SingleParamK, lineno := 1 },
    { blankNode with nodekind := .StmtK, kind := sampleGlobals.CompK, lineno := 1
                     child := [none, some 4, none] },
    { blankNode with nodekind := .ExpK, kind := sampleGlobals.IdArrK, name := some "x"
                     lineno := 1, child := [some 5, none, none] },
    { blankNode with nodekind := .ExpK, kind := sampleGlobals.IdK, name := some "y"
                     lineno := 1 } ]

/-- The state of the Type-Checking pass on `exampleArrayProgram` when `x[0]` (node 8) is
about to be post-visited: the first sixteen visitor calls are done. -/
def exampleArrayAtIndex : State :=
  ((buildSymtab sampleGlobals 7 (some 0) (State.init exampleArrayProgram)).bind
    (fun s1 => run (beforeCheckNode sampleGlobals) (checkNode sampleGlobals)
      (exampleArrayProgramTree.events.take 16) (scPush s1 s1.globalScope))).getD
    (State.init [])

/-- The scope stack is the path from the global scope to the current scope: it is not
empty; every cell above the bottom one holds a scope whose parent is the scope in the
cell directly below; the bottom cell holds the global scope, which has no parent; the
parent chain from the top of the stack passes through exactly the scopes on the stack,
from top to bottom, one per cell; and a lookup returns the record of the first of these
scopes that holds the name. -/
def StackIsPath (s : State) : Prop :=
  0 < s.stackIdx ∧
  (∀ i : Int, 0 < i → i < s.stackIdx →
    ∃ k sc, s.stack i = some k ∧ s.scopes[k]? = some sc ∧ sc.parent = s.stack (i - 1)) ∧
  (∃ g gsc, s.stack 0 = some g ∧ s.globalScope = some g ∧ s.scopes[g]? = some gsc ∧
    gsc.parent = none) ∧
  Chain s (scTop s) (stackList s) ∧
  ((stackList s).length : Int) = s.stackIdx ∧
  ∀ name, st_lookup_bucket s name = some (firstHolder s name (stackList s))

/-- The syntax tree of `int f(int a){} int f(int b){}` (line 1) under `sampleGlobals`. -/
def exampleRejected : List TreeNode :=
  [ { blankNode with nodekind := .DeclK, kind := sampleGlobals.FunK, name := some "f"
                     type := .Integer, lineno := 1, child := [some 1, some 2, none]
                     sibling := some 3 },
    { blankNode with nodekind := .ParamK, kind := sampleGlobals.SingleParamK
                     name := some "a", type := .Integer, lineno := 1 },
    { blankNode with nodekind := .StmtK, kind := sampleGlobals.CompK, lineno := 1 },
    { blankNode with nodekind := .DeclK, kind := sampleGlobals.FunK, name := some "f"
                     type := .Integer, lineno := 1, child := [some 4, some 5, none] },
    { blankNode with nodekind := .ParamK, kind := sampleGlobals.SingleParamK
                     name := some "b", type := .Integer, lineno := 1 },
    { blankNode with nodekind := .StmtK, kind := sampleGlobals.CompK, lineno := 1 } ]

/-- The tree that `exampleRejected` holds at pointer 0. -/
def exampleRejectedTree : SynTree :=
  .node 0 (.cons (.leaf 1) (.cons (.leaf 2) (.cons .null .nil)))
    (.node 3 (.cons (.leaf 4) (.cons (.leaf 5) (.cons .null .nil))) .null)

/-- The state in which `buildSymtab` starts the traversal of `exampleRejected`. -/
def exampleRejectedStart : State :=
  (builderStart sampleGlobals (State.init exampleRejected)).getD (State.init [])

/-- The state of the Builder pass on `exampleRejected` when the second declaration of `f`
(node 3) is about to be pre-visited: the first six visitor calls are done. -/
def exampleRejectedAtSecond : State :=
  (run (insertNode sampleGlobals) (afterInsertNode sampleGlobals)
    (exampleRejectedTree.events.take 6) exampleRejectedStart).getD (State.init [])

/-- The syntax tree of `int f(int a){} int f(int b, int b){}` (line 1) under
`sampleGlobals`. -/
def exampleRejectedDup : List TreeNode :=
  [ { blankNode with nodekind := .DeclK, kind := sampleGlobals.FunK, name := some "f"
                     type := .Integer, lineno := 1, child := [some 1, some 2, none]
                     sibling := some 3 },
    { blankNode with nodekind := .ParamK, kind := sampleGlobals.SingleParamK
                     name := some "a", type := .Integer, lineno := 1 },
    { blankNode with nodekind := .StmtK, kind := sampleGlobals.CompK, lineno := 1 },
    { blankNode with nodekind := .DeclK, kind := sampleGlobals.FunK, name := some "f"
                     type := .Integer, lineno := 1, child := [some 4, some 6, none] },
    { blankNode with nodekind := .ParamK, kind := sampleGlobals.SingleParamK
                     name := some "b", type := .Integer, lineno := 1, sibling := some 5 },
    { blankNode with nodekind := .ParamK, kind := sampleGlobals.SingleParamK
                     name := some "b", type := .Integer, lineno := 1 },
    { blankNode with nodekind := .StmtK, kind := sampleGlobals.CompK, lineno := 1 } ]

/-- The table after `scCreate("a")`, `scPop` on the empty stack and `scPush` of the scope
created: the stack depth is 0 again, and the cell under the bottom of the stack holds the
scope. -/
def exampleUnderflow : State :=
  scPush (scPop (scCreate (State.init []) (some "a")).1)
    (scCreate (State.init []) (some "a")).2

/-- The declaration node declares an array: it is an array variable or an array
parameter. -/
def IsArrayDecl (G : Globals) (d : TreeNode) : Prop :=
  (d.nodekind = .DeclK ∧ d.kind = G.VarArrK) ∨ (d.nodekind = .ParamK ∧ d.kind = G.ArrParamK)

/-- The syntax tree of `int x; void main(void){ x[0]; }` (line 1) under `sampleGlobals`. -/
def exampleScalarIndexed : List TreeNode :=
  [ { blankNode with nodekind := .DeclK, kind := sampleGlobals.VarK
                     name := some "x", type := .Integer, lineno := 1
                     sibling := some 1 },
    { blankNode with nodekind := .DeclK, kind := sampleGlobals.FunK, name := some "main"
                     type := .Void, lineno := 1, child := [some 2, some 3, none] },
    { blankNode with nodekind := .ParamK, kind := sampleGlobals.SingleParamK, lineno := 1 },
    { blankNode with nodekind := .StmtK, kind := sampleGlobals.CompK, lineno := 1
                     child := [none, some 4, none] },
    { blankNode with nodekind := .ExpK, kind := sampleGlobals.IdArrK, name := some "x"
                     lineno := 1, child := [some 5, none, none] },
    { blankNode with nodekind := .ExpK, kind := sampleGlobals.ConstK, lineno := 1 } ]

/-- The errors the Builder pass reports on a parameter list, told from the nodes alone;
`taken` tells which names are taken when the list is entered. A parameter without a name
is reported unless its type is `Void`; a named parameter is reported when its name is
taken or is the name of an earlier parameter of the list. -/
def paramDiags (nodes : List TreeNode) : (String → Bool) → List Nat → List Diag
  | _, [] => []
  | taken, p :: rest =>
    match nodes[p]? with
    | none => paramDiags nodes taken rest
    | some m =>
      match m.name with
      | none =>
        if m.type = .Void then paramDiags nodes taken rest
        else
          { kind := .SymbolError, line := m.lineno
            message := "parameters except (void) must have name" } ::
            paramDiags nodes taken rest
      | some name =>
        if taken name then
          { kind := .SymbolError, line := m.lineno
            message := "symbol already declared for current scope" } ::
            paramDiags nodes taken rest
        else paramDiags nodes (fun n => decide (n = name) || taken n) rest

/-- The records a parameter list gets, in the order of the list, told from the nodes
alone: one for every named parameter whose name is neither taken when the list is entered
nor the name of an earlier parameter of the list; `loc` is the memory slot. -/
def paramRecords (nodes : List TreeNode) (loc : Int) :
    (String → Bool) → List Nat → List BucketListRec
  | _, [] => []
  | taken, p :: rest =>
    match nodes[p]? with
    | none => paramRecords nodes loc taken rest
    | some m =>
      match m.name with
      | none => paramRecords nodes loc taken rest
      | some name =>
        if taken name then paramRecords nodes loc taken rest
        else
          { name := name, treeNode := some p, lines := [m.lineno], memloc := loc } ::
            paramRecords nodes loc (fun n => decide (n = name) || taken n) rest

/-- The records of a list that fall into bucket `h`, the last one first: the chain that
inserting them one after the other into an empty bucket leaves. -/
def chainOf (l : List BucketListRec) (h : Nat) : List BucketListRec :=
  (l.filter (fun r => decide (hash r.name = h))).reverse

/-- The names of the named parameters of a list. -/
def paramNames (nodes : List TreeNode) (ptrs : List Nat) : List String :=
  ptrs.filterMap (fun p => (nodes[p]?).bind (fun m => m.name))

/-- The tree that `exampleRejectedDup` holds at pointer 0. -/
def exampleRejectedDupTree : SynTree :=
  .node 0 (.cons (.leaf 1) (.cons (.leaf 2) (.cons .null .nil)))
    (.node 3
      (.cons (.node 4 (.cons .null (.cons .null (.cons .null .nil))) (.leaf 5))
        (.cons (.leaf 6) (.cons .null .nil))) .null)

/-- The state in which `buildSymtab` starts the traversal of `exampleRejectedDup`. -/
def exampleRejectedDupStart : State :=
  (builderStart sampleGlobals (State.init exampleRejectedDup)).getD (State.init [])

/-- The state of the Builder pass on `exampleRejectedDup` when the second declaration of
`f` (node 3) is about to be pre-visited: the first six visitor calls are done. -/
def exampleRejectedDupAtSecond : State :=
  (run (insertNode sampleGlobals) (afterInsertNode sampleGlobals)
    (exampleRejectedDupTree.events.take 6) exampleRejectedDupStart).getD (State.init [])

/-! # Properties -/

/-! ## Lemmas on chains and lookups -/

theorem chainFind_some {name : String} {l : List BucketListRec} {r : BucketListRec}
    (h : chainFind name l = some r) : r ∈ l ∧ r.name = name := by
  induction l with
  | nil => simp [chainFind] at h
  | cons a t ih =>
    unfold chainFind at h
    split at h
    · rename_i hn
      cases h
      exact ⟨List.mem_cons_self _ _, hn.symm⟩
    · exact ⟨List.mem_cons_of_mem _ (ih h).1, (ih h).2⟩

theorem chainFind_none {name : String} {l : List BucketListRec} :
    chainFind name l = none ↔ ∀ r ∈ l, r.name ≠ name := by
  induction l with
  | nil => simp [chainFind]
  | cons a t ih =>
    unfold chainFind
    by_cases hn : name = a.name
    · simp [hn]
    · simp only [hn, if_false, ih, List.mem_cons, forall_eq_or_imp]
      constructor
      · intro h
        exact ⟨fun e => hn e.symm, h⟩
      · intro h
        exact h.2

theorem chain_lt_length {s : State} {p : Ptr} {c : List Nat} (h : Chain s p c) :
    ∀ i ∈ c, i < s.scopes.length := by
  induction h with
  | null => simp
  | step i sc rest hsc _ ih =>
    intro j hj
    rcases List.mem_cons.1 hj with rfl | hj
    · by_contra hlt
      rw [List.getElem?_eq_none (by omega)] at hsc
      cases hsc
    · exact ih j hj

theorem chain_unique {s : State} {p : Ptr} {c d : List Nat} (h : Chain s p c) :
    Chain s p d → c = d := by
  induction h generalizing d with
  | null => intro h2; cases h2; rfl
  | step i sc rest hsc _ ih =>
    intro h2
    cases h2 with
    | step _ sc2 rest2 hsc2 hr2 =>
      rw [hsc] at hsc2
      cases hsc2
      rw [ih hr2]

theorem chain_suffix {s : State} {p : Ptr} {c : List Nat} (h : Chain s p c) :
    ∀ j ∈ c, ∃ d, Chain s (some j) d ∧ d.length ≤ c.length ∧ (p ≠ some j → d.length < c.length) := by
  induction h with
  | null => simp
  | step i sc rest hsc hr ih =>
    intro j hj
    by_cases hij : j = i
    · subst hij
      exact ⟨j :: rest, Chain.step j sc rest hsc hr, le_refl _, fun hne => absurd rfl hne⟩
    · rcases List.mem_cons.1 hj with rfl | hj
      · exact absurd rfl hij
      · obtain ⟨d, hd, hle, _⟩ := ih j hj
        refine ⟨d, hd, ?_, fun _ => ?_⟩ <;> simp only [List.length_cons] <;> omega

theorem chain_nodup {s : State} {p : Ptr} {c : List Nat} (h : Chain s p c) : c.Nodup := by
  induction h with
  | null => exact List.nodup_nil
  | step i sc rest hsc hr ih =>
    refine List.nodup_cons.2 ⟨fun hmem => ?_, ih⟩
    obtain ⟨d, hd, hle, _⟩ := chain_suffix hr i hmem
    have := chain_unique hd (Chain.step i sc rest hsc hr)
    rw [this] at hle
    simp only [List.length_cons] at hle
    omega

theorem chain_length_le {s : State} {p : Ptr} {c : List Nat} (h : Chain s p c) :
    c.length ≤ s.scopes.length := by
  have hsub : c ⊆ List.range s.scopes.length := fun i hi =>
    List.mem_range.2 (chain_lt_length h i hi)
  have := ((chain_nodup h).subperm hsub).length_le
  simpa using this

theorem lookupFrom_chain {s : State} (name : String) {p : Ptr} {c : List Nat}
    (h : Chain s p c) : ∀ fuel, c.length ≤ fuel →
      lookupFrom s name fuel p = some (firstHolder s name c) := by
  induction h with
  | null => intro fuel _; cases fuel <;> rfl
  | step i sc rest hsc _ ih =>
    intro fuel hf
    cases fuel with
    | zero => simp at hf
    | succ n =>
      have hn : rest.length ≤ n := by simpa using hf
      simp only [lookupFrom, firstHolder, hsc, Option.some_bind, ScopeListRec.find]
      cases hc : chainFind name (sc.hashTable (hash name)) with
      | none => simpa using ih n hn
      | some r => rfl

theorem st_lookup_bucket_chain {s : State} (name : String) {c : List Nat}
    (h : Chain s (scTop s) c) : st_lookup_bucket s name = some (firstHolder s name c) :=
  lookupFrom_chain name h _ (chain_length_le h)

theorem firstHolder_none {s : State} {name : String} {c : List Nat} :
    firstHolder s name c = none ↔
      ∀ i ∈ c, ∀ sc, s.scopes[i]? = some sc → sc.find name = none := by
  induction c with
  | nil => simp [firstHolder]
  | cons i rest ih =>
    unfold firstHolder
    cases hsc : s.scopes[i]? with
    | none => simp [ih, hsc]
    | some sc =>
      cases hf : sc.find name with
      | none => simp [hf, ih, hsc]
      | some r => simp [hf, hsc]

theorem firstHolder_some {s : State} {name : String} {c : List Nat} {j : Nat}
    {r : BucketListRec} (h : firstHolder s name c = some (j, r)) :
    ∃ pre post sc, c = pre ++ j :: post ∧ s.scopes[j]? = some sc ∧ sc.find name = some r ∧
      ∀ i ∈ pre, ∀ sc2, s.scopes[i]? = some sc2 → sc2.find name = none := by
  induction c with
  | nil => simp [firstHolder] at h
  | cons i rest ih =>
    unfold firstHolder at h
    cases hsc : s.scopes[i]? with
    | none =>
      simp only [hsc, Option.none_bind] at h
      obtain ⟨pre, post, sc, hc, h1, h2, h3⟩ := ih h
      refine ⟨i :: pre, post, sc, by simp [hc], h1, h2, ?_⟩
      intro k hk sc2 hk2
      rcases List.mem_cons.1 hk with rfl | hk
      · rw [hsc] at hk2; cases hk2
      · exact h3 k hk sc2 hk2
    | some sc0 =>
      simp only [hsc, Option.some_bind] at h
      cases hf : sc0.find name with
      | none =>
        simp only [hf] at h
        obtain ⟨pre, post, sc, hc, h1, h2, h3⟩ := ih h
        refine ⟨i :: pre, post, sc, by simp [hc], h1, h2, ?_⟩
        intro k hk sc2 hk2
        rcases List.mem_cons.1 hk with rfl | hk
        · rw [hsc] at hk2; cases hk2; exact hf
        · exact h3 k hk sc2 hk2
      | some r0 =>
        simp only [hf] at h
        cases h
        exact ⟨[], rest, sc0, rfl, hsc, hf, by simp⟩

/-- C1: in a state with a non-empty scope stack whose parent chain from the top scope is
finite (`c` lists it: top, top.parent, ...), `st_lookup_bucket` returns the record for the
name held by the first scope of `c` that holds one, together with that scope, so that
every scope before it in the chain holds none; it returns `NULL` exactly when no scope of
the chain holds a record with that name; and `st_lookup` returns the memory slot of that
record, or -1 when there is none. -/
theorem st_lookup_bucket_innermost (s : State) (name : String) (c : List Nat)
    (hne : 0 < s.stackIdx) (hc : Chain s (scTop s) c) :
    st_lookup_bucket s name = some (firstHolder s name c) ∧
    (∀ j r, st_lookup_bucket s name = some (some (j, r)) →
      ∃ pre post sc, c = pre ++ j :: post ∧ s.scopes[j]? = some sc ∧
        chainFind name (sc.hashTable (hash name)) = some r ∧
        r ∈ sc.hashTable (hash name) ∧ r.name = name ∧
        ∀ i ∈ pre, ∀ sc2, s.scopes[i]? = some sc2 →
          ∀ r2 ∈ sc2.hashTable (hash name), r2.name ≠ name) ∧
    (st_lookup_bucket s name = some none ↔
      ∀ i ∈ c, ∀ sc, s.scopes[i]? = some sc →
        ∀ r ∈ sc.hashTable (hash name), r.name ≠ name) ∧
    st_lookup s name = some (match firstHolder s name c with
      | some (_, r) => r.memloc
      | none => -1) := by
  have _ := hne
  have hb := st_lookup_bucket_chain name hc
  refine ⟨hb, ?_, ?_, ?_⟩
  · intro j r hjr
    rw [hb] at hjr
    obtain ⟨pre, post, sc, h1, h2, h3, h4⟩ := firstHolder_some (Option.some.inj hjr)
    refine ⟨pre, post, sc, h1, h2, h3, (chainFind_some h3).1, (chainFind_some h3).2, ?_⟩
    intro i hi sc2 hsc2
    exact chainFind_none.1 (h4 i hi sc2 hsc2)
  · rw [hb]
    constructor
    · intro h i hi sc hsc
      exact chainFind_none.1 (firstHolder_none.1 (Option.some.inj h) i hi sc hsc)
    · intro h
      congr 1
      exact firstHolder_none.2 (fun i hi sc hsc => chainFind_none.2 (h i hi sc hsc))
  · unfold st_lookup
    rw [hb]
    cases firstHolder s name c with
    | none => rfl
    | some jr => rfl

theorem exampleNested_chain : Chain exampleNested (scTop exampleNested) [1, 0] :=
  Chain.step 1 _ [0] rfl (Chain.step 0 _ [] rfl Chain.null)

/-- Witness for C1: in `exampleNested` the inner `x` shadows the global one (slot 1), the
global `y` is found through the parent link (slot 0) and `z` is not found (-1). -/
theorem st_lookup_bucket_innermost_witness :
    0 < exampleNested.stackIdx ∧
    st_lookup exampleNested "x" = some 1 ∧
    st_lookup exampleNested "y" = some 0 ∧
    st_lookup exampleNested "z" = some (-1) :=
  ⟨by decide,
   (st_lookup_bucket_innermost exampleNested "x" [1, 0] (by decide)
      exampleNested_chain).2.2.2.trans (by decide),
   (st_lookup_bucket_innermost exampleNested "y" [1, 0] (by decide)
      exampleNested_chain).2.2.2.trans (by decide),
   (st_lookup_bucket_innermost exampleNested "z" [1, 0] (by decide)
      exampleNested_chain).2.2.2.trans (by decide)⟩

/-! ## Lemmas on the effect of a table update on lookups -/

theorem lookupFrom_congr {s t : State} (name : String)
    (h : ∀ i : Nat,
      (t.scopes[i]?).map (fun sc : ScopeListRec => (sc.find name, sc.parent)) =
      (s.scopes[i]?).map (fun sc : ScopeListRec => (sc.find name, sc.parent))) :
    ∀ fuel p, lookupFrom t name fuel p = lookupFrom s name fuel p := by
  intro fuel
  induction fuel with
  | zero => intro p; cases p <;> rfl
  | succ n ih =>
    intro p
    cases p with
    | none => rfl
    | some i =>
      have hi := h i
      unfold lookupFrom
      cases ht : t.scopes[i]? with
      | none =>
        cases hs : s.scopes[i]? with
        | none => rfl
        | some sc => rw [ht, hs] at hi; cases hi
      | some tc =>
        cases hs : s.scopes[i]? with
        | none => rw [ht, hs] at hi; cases hi
        | some sc =>
          rw [ht, hs] at hi
          simp only [Option.map_some', Option.some.injEq, Prod.mk.injEq,
            ScopeListRec.find] at hi
          simp only [hi.1, hi.2, ih]

theorem getElem?_set_scopes (l : List ScopeListRec) (top i : Nat) (a : ScopeListRec) :
    (l.set top a)[i]? = if top = i then (l[i]?).map (fun _ => a) else l[i]? := by
  rw [List.getElem?_set]
  by_cases h : top = i
  · subst h
    by_cases hl : top < l.length
    · simp [hl, List.getElem?_eq_getElem hl]
    · simp [hl, List.getElem?_eq_none (not_lt.1 hl)]
  · simp [h]

theorem find_setBucket_same (sc : ScopeListRec) (name : String) (l : List BucketListRec) :
    (sc.setBucket (hash name) l).find name = chainFind name l := by
  simp [ScopeListRec.find, ScopeListRec.setBucket]

theorem find_setBucket_cons_ne (sc : ScopeListRec) (name n : String) (r : BucketListRec)
    (hr : r.name = name) (hn : n ≠ name) :
    (sc.setBucket (hash name) (r :: sc.hashTable (hash name))).find n = sc.find n := by
  simp only [ScopeListRec.find, ScopeListRec.setBucket]
  by_cases hh : hash n = hash name
  · simp only [hh, if_true]
    rw [chainFind, if_neg (by rw [hr]; exact hn)]
  · simp [hh]

theorem scTop_setScope (s : State) (i : Nat) (x : ScopeListRec) :
    scTop (s.setScope i x) = scTop s := rfl

theorem setScope_scopes_getElem? (s : State) (top i : Nat) (x : ScopeListRec) :
    (s.setScope top x).scopes[i]? =
      if top = i then (s.scopes[i]?).map (fun _ => x) else s.scopes[i]? :=
  getElem?_set_scopes _ _ _ _

theorem setScope_scopes_length (s : State) (top : Nat) (x : ScopeListRec) :
    (s.setScope top x).scopes.length = s.scopes.length := by
  simp [State.setScope]

theorem st_insert_eq {s : State} {name : String} {top : Nat} {sc : ScopeListRec}
    (lineno loc : Int) (node : Ptr)
    (htop : scTop s = some top) (hsc : s.scopes[top]? = some sc)
    (hnew : sc.find name = none) :
    st_insert s name lineno loc node = some (s.setScope top
      (sc.setBucket (hash name)
        ({ name := name, treeNode := node, lines := [lineno], memloc := loc } ::
          sc.hashTable (hash name)))) := by
  unfold ScopeListRec.find at hnew
  simp only [st_insert, htop, hsc, hnew]

theorem st_insert_spec (s : State) (name : String) (lineno loc : Int) (node : Ptr)
    (top : Nat) (sc : ScopeListRec)
    (htop : scTop s = some top) (hsc : s.scopes[top]? = some sc)
    (hnew : ∀ r ∈ sc.hashTable (hash name), r.name ≠ name) :
    ∃ t tc, st_insert s name lineno loc node = some t ∧
      t.scopes[top]? = some tc ∧
      tc.hashTable (hash name) =
        { name := name, treeNode := node, lines := [lineno], memloc := loc } ::
          sc.hashTable (hash name) ∧
      (∀ h, h ≠ hash name → tc.hashTable h = sc.hashTable h) ∧
      tc.parent = sc.parent ∧ tc.scopeName = sc.scopeName ∧
      tc.nestedLevel = sc.nestedLevel ∧
      st_lookup_sc t name = some true ∧
      st_lookup t name = some loc ∧
      (∀ i : Nat, i ≠ top → t.scopes[i]? = s.scopes[i]?) ∧
      t.scopes.length = s.scopes.length ∧
      (∀ n, n ≠ name → st_lookup_bucket t n = st_lookup_bucket s n) ∧
      t.stack = s.stack ∧ t.stackIdx = s.stackIdx ∧ t.nodes = s.nodes := by
  have hfind : sc.find name = none := chainFind_none.2 hnew
  have hlt : top < s.scopes.length := by
    by_contra hge
    rw [List.getElem?_eq_none (by omega)] at hsc
    cases hsc
  refine ⟨_, sc.setBucket (hash name)
    ({ name := name, treeNode := node, lines := [lineno], memloc := loc } ::
      sc.hashTable (hash name)), st_insert_eq lineno loc node htop hsc hfind,
    ?_, ?_, ?_, rfl, rfl, rfl, ?_, ?_, ?_, ?_, ?_, rfl, rfl, rfl⟩
  · simp only [setScope_scopes_getElem?, if_true, hsc, Option.map_some']
  · simp [ScopeListRec.setBucket]
  · intro h hh
    simp [ScopeListRec.setBucket, hh]
  · simp only [st_lookup_sc, scTop_setScope, htop, setScope_scopes_getElem?, if_true, hsc,
      Option.map_some']
    simp [ScopeListRec.setBucket, chainFind]
  · simp only [st_lookup, st_lookup_bucket, scTop_setScope, htop, setScope_scopes_length]
    obtain ⟨n, hn⟩ : ∃ n, s.scopes.length = n + 1 := ⟨s.scopes.length - 1, by omega⟩
    rw [hn]
    simp only [lookupFrom, setScope_scopes_getElem?, if_true, hsc, Option.map_some']
    simp [ScopeListRec.setBucket, chainFind]
  · intro i hi
    simp only [setScope_scopes_getElem?, if_neg (Ne.symm hi)]
  · exact setScope_scopes_length _ _ _
  · intro n hn
    unfold st_lookup_bucket
    rw [setScope_scopes_length, scTop_setScope]
    refine lookupFrom_congr n (fun i => ?_) _ _
    simp only [setScope_scopes_getElem?]
    by_cases hi : top = i
    · subst hi
      simp only [if_true, hsc, Option.map_some', Option.some.injEq, Prod.mk.injEq]
      exact ⟨find_setBucket_cons_ne sc name n _ rfl hn, rfl⟩
    · simp only [if_neg hi]

/-- C2: in a state whose scope stack is non-empty (its top is scope `top` of the registry)
and whose top scope holds no record named `name`, `st_insert name lineno loc node`
returns, and puts in front of the chain of the name's bucket of the top scope exactly one
record, with that name, slot `loc`, declaring node `node` and line list `[lineno]`; the
other buckets of the top scope, every other scope and the stack are unchanged; afterwards
`st_lookup_sc name` is TRUE, `st_lookup name` is `loc`, and `st_lookup_bucket` gives for
every other name what it gave before. -/
theorem st_insert_fresh (s : State) (name : String) (lineno loc : Int) (node : Ptr)
    (top : Nat) (sc : ScopeListRec)
    (hne : 0 < s.stackIdx) (htop : scTop s = some top) (hsc : s.scopes[top]? = some sc)
    (hnew : ∀ r ∈ sc.hashTable (hash name), r.name ≠ name) :
    ∃ t tc, st_insert s name lineno loc node = some t ∧
      t.scopes[top]? = some tc ∧
      tc.hashTable (hash name) =
        { name := name, treeNode := node, lines := [lineno], memloc := loc } ::
          sc.hashTable (hash name) ∧
      (∀ h, h ≠ hash name → tc.hashTable h = sc.hashTable h) ∧
      tc.parent = sc.parent ∧ tc.scopeName = sc.scopeName ∧
      tc.nestedLevel = sc.nestedLevel ∧
      st_lookup_sc t name = some true ∧
      st_lookup t name = some loc ∧
      (∀ i : Nat, i ≠ top → t.scopes[i]? = s.scopes[i]?) ∧
      t.scopes.length = s.scopes.length ∧
      (∀ n, n ≠ name → st_lookup_bucket t n = st_lookup_bucket s n) ∧
      t.stack = s.stack ∧ t.stackIdx = s.stackIdx ∧ t.nodes = s.nodes := by
  have _ := hne
  exact st_insert_spec s name lineno loc node top sc htop hsc hnew

/-- Witness for C2: inserting the new name `z` into the top scope of `exampleNested`. -/
theorem st_insert_fresh_witness :
    ∃ t, st_insert exampleNested "z" 7 1 (some 5) = some t ∧
      st_lookup_sc t "z" = some true ∧ st_lookup t "z" = some 1 ∧
      st_lookup_bucket t "x" = st_lookup_bucket exampleNested "x" := by
  obtain ⟨t, tc, h⟩ := st_insert_fresh exampleNested "z" 7 1 (some 5) 1 _
    (by decide) rfl rfl (by decide)
  exact ⟨t, h.1, h.2.2.2.2.2.2.2.1, h.2.2.2.2.2.2.2.2.1,
    h.2.2.2.2.2.2.2.2.2.2.2.1 "x" (by decide)⟩

/-! ## Lemmas on the traversal -/

theorem run_append (pre post : Nat → State → Option State) (A B : List Ev) (s : State) :
    run pre post (A ++ B) s = (run pre post A s).bind (run pre post B) := by
  induction A generalizing s with
  | nil => rfl
  | cons e es ih =>
    simp only [List.cons_append, run]
    cases runEv pre post s e with
    | none => rfl
    | some s1 => exact ih s1

theorem sameLinks_refl (a : List TreeNode) : SameLinks a a := fun _ => rfl

theorem sameLinks_trans {a b c : List TreeNode} (h1 : SameLinks a b) (h2 : SameLinks b c) :
    SameLinks a c := fun t => (h1 t).trans (h2 t)

theorem sameLinks_symm {a b : List TreeNode} (h : SameLinks a b) : SameLinks b a :=
  fun t => (h t).symm

theorem sameLinks_node {a b : List TreeNode} (h : SameLinks a b) {t : Nat} {n : TreeNode}
    (hn : b[t]? = some n) : ∃ m, a[t]? = some m ∧ m.child = n.child ∧ m.sibling = n.sibling := by
  have ht := h t
  rw [hn] at ht
  cases ha : a[t]? with
  | none => rw [ha] at ht; cases ht
  | some m =>
    rw [ha] at ht
    simp only [Option.map_some', Option.some.injEq, Prod.mk.injEq] at ht
    exact ⟨m, rfl, ht.1, ht.2⟩

mutual
theorem represents_congr (G : Globals) {a b : List TreeNode} (h : SameLinks a b) :
    ∀ (T : SynTree) (p : Ptr), represents G a p T = represents G b p T
  | .null, none => by simp [represents]
  | .null, some _ => by simp [represents]
  | .node u cs sib, none => by simp [represents]
  | .node u cs sib, some t => by
    cases hb : b[t]? with
    | none =>
      have ht := h t
      rw [hb] at ht
      cases ha : a[t]? with
      | none => simp [represents, ha, hb]
      | some m => rw [ha] at ht; cases ht
    | some n =>
      obtain ⟨m, ha, hc, hs⟩ := sameLinks_node h hb
      have e1 := representsAll_congr G h cs (childPtrs G n)
      have e2 := represents_congr G h sib n.sibling
      simp only [represents, ha, hb, childPtrs, hc, hs] at e1 e2 ⊢
      rw [e1, e2]
theorem representsAll_congr (G : Globals) {a b : List TreeNode} (h : SameLinks a b) :
    ∀ (F : SynForest) (ps : List Ptr), representsAll G a ps F = representsAll G b ps F
  | .nil, [] => by simp [representsAll]
  | .nil, _ :: _ => by simp [representsAll]
  | .cons c cs, [] => by simp [representsAll]
  | .cons c cs, p :: ps => by
    have e1 := represents_congr G h c p
    have e2 := representsAll_congr G h cs ps
    simp only [representsAll, e1, e2]
end

theorem run_sameLinks {pre post : Nat → State → Option State}
    (hpre : KeepsLinks pre) (hpost : KeepsLinks post) :
    ∀ (evs : List Ev) (s s1 : State), run pre post evs s = some s1 →
      SameLinks s1.nodes s.nodes := by
  intro evs
  induction evs with
  | nil =>
    intro s s1 h
    cases h
    exact sameLinks_refl _
  | cons e es ih =>
    intro s s1 h
    simp only [run] at h
    cases he : runEv pre post s e with
    | none => rw [he] at h; cases h
    | some s2 =>
      rw [he] at h
      have h2 : SameLinks s2.nodes s.nodes := by
        cases e with
        | pre t => exact hpre t s s2 he
        | post t => exact hpost t s s2 he
      exact sameLinks_trans (ih s2 s1 h) h2

mutual
theorem traverse_eq_run (G : Globals) {pre post : Nat → State → Option State}
    (hpre : KeepsLinks pre) (hpost : KeepsLinks post) :
    ∀ (T : SynTree) (fuel : Nat) (p : Ptr) (s : State),
      represents G s.nodes p T = true → T.depth ≤ fuel →
      traverse G pre post fuel p s = run pre post T.events s
  | .null, fuel, none, s, _, _ => by cases fuel <;> rfl
  | .null, _, some _, s, h, _ => by simp [represents] at h
  | .node u cs sib, _, none, s, h, _ => by simp [represents] at h
  | .node u cs sib, 0, some t, s, _, hd => by simp [SynTree.depth] at hd
  | .node u cs sib, fuel + 1, some t, s, h, hd => by
    simp only [SynTree.depth, Nat.add_le_add_iff_right, max_le_iff] at hd
    cases hn : s.nodes[t]? with
    | none => simp [represents, hn] at h
    | some n =>
      simp only [represents, hn, Bool.and_eq_true, decide_eq_true_eq] at h
      obtain ⟨⟨htu, hcs⟩, hsib⟩ := h
      subst htu
      simp only [traverse, SynTree.events, run, runEv]
      cases h1 : pre t s with
      | none => rfl
      | some s1 =>
        simp only
        have l1 : SameLinks s1.nodes s.nodes := hpre t s s1 h1
        obtain ⟨n1, hn1, hc1, hsb1⟩ := sameLinks_node l1 hn
        have hcs1 : representsAll G s1.nodes
            ((List.range G.MAXCHILDREN).map (fun i => n1.child.getD i none)) cs = true := by
          rw [representsAll_congr G l1, hc1]; exact hcs
        rw [traverse_children G hpre hpost cs fuel t (List.range G.MAXCHILDREN) n1 s1 hn1
          hcs1 hd.1, run_append]
        cases h2 : run pre post cs.events s1 with
        | none => rfl
        | some s2 =>
          simp only [Option.some_bind, run, runEv]
          cases h3 : post t s2 with
          | none => rfl
          | some s3 =>
            simp only
            have l2 : SameLinks s2.nodes s1.nodes := run_sameLinks hpre hpost _ _ _ h2
            have l3 : SameLinks s3.nodes s2.nodes := hpost t s2 s3 h3
            have l : SameLinks s3.nodes s.nodes := sameLinks_trans (sameLinks_trans l3 l2) l1
            obtain ⟨n3, hn3, _, hsb3⟩ := sameLinks_node l hn
            rw [hn3]
            simp only
            refine traverse_eq_run G hpre hpost sib fuel n3.sibling s3 ?_ hd.2
            rw [represents_congr G l, hsb3]
            exact hsib
theorem traverse_children (G : Globals) {pre post : Nat → State → Option State}
    (hpre : KeepsLinks pre) (hpost : KeepsLinks post) :
    ∀ (F : SynForest) (fuel t : Nat) (is : List Nat) (n : TreeNode) (s : State),
      s.nodes[t]? = some n →
      representsAll G s.nodes (is.map (fun i => n.child.getD i none)) F = true →
      F.depth ≤ fuel →
      is.foldlM (fun (a : State) (i : Nat) =>
          match childAt a t i with
          | none => none
          | some c => traverse G pre post fuel c a) s = run pre post F.events s
  | .nil, _, _, [], _, _, _, _, _ => rfl
  | .nil, _, _, _ :: _, _, _, _, h, _ => by simp [representsAll] at h
  | .cons c cs, _, _, [], _, _, _, h, _ => by simp [representsAll] at h
  | .cons c cs, fuel, t, i :: is, n, s, hn, h, hd => by
    simp only [SynForest.depth, max_le_iff] at hd
    simp only [List.map_cons, representsAll, Bool.and_eq_true] at h
    simp only [List.foldlM_cons, childAt, hn, SynForest.events, run_append]
    rw [traverse_eq_run G hpre hpost c fuel _ s h.1 hd.1]
    cases h1 : run pre post c.events s with
    | none => rfl
    | some s1 =>
      have l1 : SameLinks s1.nodes s.nodes := run_sameLinks hpre hpost _ _ _ h1
      obtain ⟨n1, hn1, hc1, _⟩ := sameLinks_node l1 hn
      have hcs1 : representsAll G s1.nodes
          (is.map (fun i => n1.child.getD i none)) cs = true := by
        rw [representsAll_congr G l1, hc1]; exact h.2
      exact traverse_children G hpre hpost cs fuel t is n1 s1 hn1 hcs1 hd.2
end

mutual
theorem events_count_pre (t : Nat) : ∀ T : SynTree, T.events.count (Ev.pre t) = T.ptrs.count t
  | .null => rfl
  | .node u cs sib => by
    have h1 := eventsAll_count_pre t cs
    have h2 := events_count_pre t sib
    by_cases hu : u = t
    · subst hu
      simp [SynTree.events, SynTree.ptrs, List.count_cons, List.count_append, h1, h2]
    · have hu2 : ¬ t = u := fun e => hu e.symm
      simp [SynTree.events, SynTree.ptrs, List.count_cons, List.count_append, h1, h2, hu,
        hu2]
theorem eventsAll_count_pre (t : Nat) :
    ∀ F : SynForest, F.events.count (Ev.pre t) = F.ptrs.count t
  | .nil => rfl
  | .cons c cs => by
    have h1 := events_count_pre t c
    have h2 := eventsAll_count_pre t cs
    simp [SynForest.events, SynForest.ptrs, List.count_append, h1, h2]
end

mutual
theorem events_count_post (t : Nat) :
    ∀ T : SynTree, T.events.count (Ev.post t) = T.ptrs.count t
  | .null => rfl
  | .node u cs sib => by
    have h1 := eventsAll_count_post t cs
    have h2 := events_count_post t sib
    by_cases hu : u = t
    · subst hu
      simp [SynTree.events, SynTree.ptrs, List.count_cons, List.count_append, h1, h2]
      omega
    · have hu2 : ¬ t = u := fun e => hu e.symm
      simp [SynTree.events, SynTree.ptrs, List.count_cons, List.count_append, h1, h2, hu,
        hu2]
theorem eventsAll_count_post (t : Nat) :
    ∀ F : SynForest, F.events.count (Ev.post t) = F.ptrs.count t
  | .nil => rfl
  | .cons c cs => by
    have h1 := events_count_post t c
    have h2 := eventsAll_count_post t cs
    simp [SynForest.events, SynForest.ptrs, List.count_append, h1, h2]
end

mutual
theorem events_of_subtree : ∀ (T S : SynTree), S ∈ T.subtrees →
    ∃ A B, T.events = A ++ (S.events ++ B)
  | .null, S, h => by
    simp only [SynTree.subtrees, List.mem_singleton] at h
    subst h
    exact ⟨[], [], rfl⟩
  | .node u cs sib, S, h => by
    simp only [SynTree.subtrees, List.mem_cons, List.mem_append] at h
    rcases h with h | h | h
    · subst h
      exact ⟨[], [], by simp⟩
    · obtain ⟨A, B, e⟩ := eventsAll_of_subtree cs S h
      exact ⟨Ev.pre u :: A, B ++ Ev.post u :: sib.events, by simp [SynTree.events, e]⟩
    · obtain ⟨A, B, e⟩ := events_of_subtree sib S h
      exact ⟨Ev.pre u :: (cs.events ++ Ev.post u :: A), B, by simp [SynTree.events, e]⟩
theorem eventsAll_of_subtree : ∀ (F : SynForest) (S : SynTree), S ∈ F.subtrees →
    ∃ A B, F.events = A ++ (S.events ++ B)
  | .nil, S, h => by simp [SynForest.subtrees] at h
  | .cons c cs, S, h => by
    simp only [SynForest.subtrees, List.mem_append] at h
    rcases h with h | h
    · obtain ⟨A, B, e⟩ := events_of_subtree c S h
      exact ⟨A, B ++ cs.events, by simp [SynForest.events, e]⟩
    · obtain ⟨A, B, e⟩ := eventsAll_of_subtree cs S h
      exact ⟨c.events ++ A, B, by simp [SynForest.events, e]⟩
end

/-- C9: for a heap that holds the finite tree `T` at `t`, visitors `pre` and `post` that
do not change child or sibling links, and recursion depth enough for `T`,
`traverse(t, pre, post)` performs exactly the calls of the event sequence `E(T)`
(`E(null) = []`, `E(n) = [pre n] ++ E(child 0) ++ ... ++ [post n] ++ E(sibling)`), crash
included; when no node occurs twice in `T`, every node of `T` is pre-visited exactly once
and post-visited exactly once; and for every node `u` of `T`, the events of its
descendants lie between `pre u` and `post u`, and the events of its following siblings
come right after `post u`. -/
theorem traverse_event_sequence (G : Globals) (pre post : Nat → State → Option State)
    (T : SynTree) (t : Ptr) (s : State) (fuel : Nat)
    (hpre : KeepsLinks pre) (hpost : KeepsLinks post)
    (hrep : represents G s.nodes t T = true) (hfuel : T.depth ≤ fuel) :
    traverse G pre post fuel t s = run pre post T.events s ∧
    (T.ptrs.Nodup → ∀ u ∈ T.ptrs,
      T.events.count (Ev.pre u) = 1 ∧ T.events.count (Ev.post u) = 1) ∧
    (∀ u cs sib, SynTree.node u cs sib ∈ T.subtrees →
      ∃ A B, T.events = A ++ (Ev.pre u :: (cs.events ++ Ev.post u :: sib.events) ++ B)) := by
  refine ⟨traverse_eq_run G hpre hpost T fuel t s hrep hfuel, ?_, ?_⟩
  · intro hnd u hu
    rw [events_count_pre, events_count_post]
    exact ⟨List.count_eq_one_of_mem hnd hu, List.count_eq_one_of_mem hnd hu⟩
  · intro u cs sib hmem
    exact events_of_subtree T _ hmem

/-! ## What the symbol-table operations leave alone -/

theorem st_insert_frame {s s1 : State} {name : String} {lineno loc : Int} {node : Ptr}
    (h : st_insert s name lineno loc node = some s1) :
    s1.nodes = s.nodes ∧ s1.stack = s.stack ∧ s1.stackIdx = s.stackIdx ∧
    s1.globalScope = s.globalScope ∧ s1.funcName = s.funcName ∧
    s1.preserveLastScope = s.preserveLastScope ∧ s1.location = s.location ∧
    s1.funcReturn = s.funcReturn ∧ s1.Error = s.Error ∧ s1.listing = s.listing ∧
    s1.lineno = s.lineno ∧ s1.scopes.length = s.scopes.length := by
  unfold st_insert at h
  dsimp only at h
  split at h
  · cases h
  · split at h
    · cases h
    · split at h <;> cases h <;> simp [State.setScope]

theorem st_add_lineno_frame {s s1 : State} {name : String} {lineno : Int}
    (h : st_add_lineno s name lineno = some s1) :
    s1.nodes = s.nodes ∧ s1.stack = s.stack ∧ s1.stackIdx = s.stackIdx ∧
    s1.globalScope = s.globalScope ∧ s1.funcName = s.funcName ∧
    s1.preserveLastScope = s.preserveLastScope ∧ s1.location = s.location ∧
    s1.funcReturn = s.funcReturn ∧ s1.Error = s.Error ∧ s1.listing = s.listing ∧
    s1.lineno = s.lineno ∧ s1.stdout = s.stdout ∧ s1.scopes.length = s.scopes.length := by
  unfold st_add_lineno at h
  split at h
  · cases h
  · cases h
  · split at h
    · cases h
    · split at h
      · cases h
      · dsimp only at h
        cases h; simp [State.setScope]

theorem set_sameLinks {nodes : List TreeNode} {t : Nat} {n m : TreeNode}
    (hn : nodes[t]? = some n) (hc : m.child = n.child) (hs : m.sibling = n.sibling) :
    SameLinks (nodes.set t m) nodes := by
  intro u
  rw [List.getElem?_set]
  by_cases hu : t = u
  · subst hu
    have hlt : t < nodes.length := by
      by_contra hge
      rw [List.getElem?_eq_none (by omega)] at hn
      cases hn
    simp [hlt, hn, hc, hs]
  · simp [hu]

theorem sameLinks_of_eq {a b : List TreeNode} (h : a = b) : SameLinks a b := by
  subst h; exact sameLinks_refl _

/-! ## What the visitors of the Builder pass do to the node heap -/

theorem set_self {nodes : List TreeNode} {t : Nat} {n : TreeNode} (hn : nodes[t]? = some n) :
    nodes.set t n = nodes := by
  apply List.ext_getElem?
  intro u
  rw [List.getElem?_set]
  by_cases hu : t = u
  · subst hu
    have hlt : t < nodes.length := by
      by_contra hge
      rw [List.getElem?_eq_none (by omega)] at hn
      cases hn
    simp [hlt, hn]
  · simp [hu]

theorem insertFun_nodes {t : Nat} {n : TreeNode} {s s1 : State}
    (h : insertFun t n s = some s1) : s1.nodes = s.nodes := by
  unfold insertFun at h
  dsimp only at h
  split at h
  · cases h
  · split at h
    · cases h
    · cases h; rfl
    · split at h
      · cases h
      · rename_i s2 h2
        cases h
        exact (st_insert_frame h2).1

theorem insertVar_nodes {G : Globals} {t : Nat} {n : TreeNode} {s s1 : State}
    (h : insertVar G t n s = some s1) : s1.nodes = s.nodes := by
  unfold insertVar at h
  split at h
  · cases h; rfl
  · split at h
    · cases h
    · split at h
      · cases h
      · exact (st_insert_frame h).1
      · cases h; rfl

theorem insertParam_nodes {t : Nat} {n : TreeNode} {s s1 : State}
    (h : insertParam t n s = some s1) : s1.nodes = s.nodes := by
  unfold insertParam at h
  split at h
  · split at h <;> cases h <;> rfl
  · split at h
    · cases h
    · split at h
      · exact (st_insert_frame h).1
      · cases h; rfl

theorem insertUse_nodes {t : Nat} {n : TreeNode} {s s1 : State}
    (h : insertUse t n s = some s1) :
    s1.nodes = s.nodes ∨
      s1.nodes = s.nodes.set t { n with nodekind := .DeclK, type := .TypeError } := by
  unfold insertUse at h
  split at h
  · cases h
  · split at h
    · cases h
    · split at h
      · dsimp only at h
        right
        exact (st_insert_frame h).1
      · left
        exact (st_add_lineno_frame h).1

theorem sameShape_refl (n : TreeNode) : n.SameShape n :=
  ⟨rfl, rfl, rfl, rfl, rfl, rfl, Iff.rfl⟩

theorem insertComp_nodes (t : Nat) (n : TreeNode) (s : State) :
    ∃ sc, (insertComp t n s).nodes = s.nodes.set t { n with scope := sc } := by
  unfold insertComp
  by_cases hf : s.preserveLastScope = true
  · exact ⟨_, by simp only [hf, if_true]; rfl⟩
  · exact ⟨_, by simp only [hf]; rfl⟩

theorem insertNode_nodes {G : Globals} {t : Nat} {s s1 : State}
    (h : insertNode G t s = some s1) :
    ∃ n m, s.nodes[t]? = some n ∧ s1.nodes = s.nodes.set t m ∧ m.SameShape n := by
  unfold insertNode at h
  split at h
  · cases h
  · rename_i n hn
    refine ⟨n, ?_⟩
    split at h
    · split at h
      · cases h
        obtain ⟨sc, e⟩ := insertComp_nodes t n s
        exact ⟨_, hn, e, rfl, rfl, rfl, rfl, rfl, rfl, Iff.rfl⟩
      · cases h
        exact ⟨n, hn, (set_self hn).symm, sameShape_refl n⟩
    · split at h
      · exact ⟨n, hn, (insertFun_nodes h).trans (set_self hn).symm, sameShape_refl n⟩
      · split at h
        · exact ⟨n, hn, (insertVar_nodes h).trans (set_self hn).symm,
            sameShape_refl n⟩
        · cases h
          exact ⟨n, hn, (set_self hn).symm, sameShape_refl n⟩
    · rename_i hk
      split at h
      · rcases insertUse_nodes h with e | e
        · exact ⟨n, hn, e.trans (set_self hn).symm, sameShape_refl n⟩
        · refine ⟨_, hn, e, rfl, rfl, rfl, rfl, rfl, rfl, ?_⟩
          simp [hk]
      · cases h
        exact ⟨n, hn, (set_self hn).symm, sameShape_refl n⟩
    · exact ⟨n, hn, (insertParam_nodes h).trans (set_self hn).symm, sameShape_refl n⟩

theorem afterInsertNode_nodes {G : Globals} {t : Nat} {s s1 : State}
    (h : afterInsertNode G t s = some s1) : s1.nodes = s.nodes := by
  unfold afterInsertNode at h
  split at h
  · cases h
  · split at h <;> cases h <;> rfl

theorem insertNode_keepsLinks (G : Globals) : KeepsLinks (insertNode G) := by
  intro t s s1 h
  obtain ⟨n, m, hn, e, hm⟩ := insertNode_nodes h
  rw [e]
  exact set_sameLinks hn hm.1 hm.2.1

theorem afterInsertNode_keepsLinks (G : Globals) : KeepsLinks (afterInsertNode G) := by
  intro t s s1 h
  exact sameLinks_of_eq (afterInsertNode_nodes h)

/-- Witness for C9: the Builder visitors on the tree of `exampleRedecl`. -/
theorem traverse_event_sequence_witness :
    traverse sampleGlobals (insertNode sampleGlobals) (afterInsertNode sampleGlobals) 5
        (some 0) exampleRedeclStart =
      run (insertNode sampleGlobals) (afterInsertNode sampleGlobals)
        exampleRedeclTree.events exampleRedeclStart ∧
    exampleRedeclTree.events.count (Ev.pre 8) = 1 :=
  have h := traverse_event_sequence sampleGlobals (insertNode sampleGlobals)
    (afterInsertNode sampleGlobals) exampleRedeclTree (some 0) exampleRedeclStart 5
    (insertNode_keepsLinks _) (afterInsertNode_keepsLinks _) (by decide) (by decide)
  ⟨h.1, (h.2.1 (by decide) 8 (by decide)).1⟩

/-! ## The scope stack as a parent chain -/

theorem stackBelow_chain {s : State} (h : StackOK s) :
    ∀ n : Nat, (n : Int) ≤ s.stackIdx → Chain s (s.stack ((n : Int) - 1)) (stackBelow s n) := by
  intro n
  induction n with
  | zero =>
    intro _
    have : s.stack ((0 : Nat) - 1 : Int) = none := by simpa using h.2.1
    rw [this]
    exact Chain.null
  | succ n ih =>
    intro hn
    obtain ⟨k, sc, hk, hsc, hp, _⟩ := h.2.2 (n : Int) (by omega) (by omega)
    have e : ((n + 1 : Nat) : Int) - 1 = (n : Int) := by omega
    rw [e, hk]
    have hl : stackBelow s (n + 1) = k :: stackBelow s n := by
      simp [stackBelow, List.range_succ, hk]
    rw [hl]
    refine Chain.step k sc _ hsc ?_
    rw [hp]
    exact ih (by omega)

theorem stackList_chain {s : State} (h : StackOK s) : Chain s (scTop s) (stackList s) := by
  have h0 := h.1
  have e : ((s.stackIdx.toNat : Nat) : Int) = s.stackIdx := Int.toNat_of_nonneg (by omega)
  have := stackBelow_chain h s.stackIdx.toNat (by omega)
  rw [e] at this
  exact this

theorem stackOK_top {s : State} (h : StackOK s) :
    ∃ top sc, scTop s = some top ∧ s.scopes[top]? = some sc ∧
      sc.nestedLevel = s.stackIdx - 1 := by
  obtain ⟨k, sc, hk, hsc, _, hlv⟩ :=
    h.2.2 (s.stackIdx - 1) (by have := h.1; omega) (by omega)
  exact ⟨k, sc, hk, hsc, hlv⟩

theorem stackOK_lookup {s : State} (h : StackOK s) (name : String) :
    st_lookup_bucket s name = some (firstHolder s name (stackList s)) :=
  st_lookup_bucket_chain name (stackList_chain h)

theorem stackOK_of_same {s t : State} (h : StackOK s) (h1 : t.stack = s.stack)
    (h2 : t.stackIdx = s.stackIdx) (h3 : SameParents t s) : StackOK t := by
  refine ⟨by rw [h2]; exact h.1, by rw [h1]; exact h.2.1, ?_⟩
  intro i hi hlt
  rw [h2] at hlt
  obtain ⟨k, sc, hk, hsc, hp, hlv⟩ := h.2.2 i hi hlt
  have hk3 := h3 k
  rw [hsc] at hk3
  cases ht : t.scopes[k]? with
  | none => rw [ht] at hk3; cases hk3
  | some tc =>
    rw [ht] at hk3
    simp only [Option.map_some', Option.some.injEq, Prod.mk.injEq] at hk3
    exact ⟨k, tc, by rw [h1]; exact hk, ht, by rw [hk3.1, hp, h1], by rw [hk3.2, hlv]⟩

theorem sameParents_refl (s : State) : SameParents s s := fun _ => rfl

theorem sameParents_trans {a b c : State} (h1 : SameParents a b) (h2 : SameParents b c) :
    SameParents a c := fun k => (h1 k).trans (h2 k)

theorem sameParents_setScope {s : State} {i : Nat} {sc x : ScopeListRec}
    (hsc : s.scopes[i]? = some sc) (hp : x.parent = sc.parent)
    (hl : x.nestedLevel = sc.nestedLevel) :
    SameParents (s.setScope i x) s := by
  intro k
  rw [setScope_scopes_getElem?]
  by_cases hk : i = k
  · subst hk
    simp [hsc, hp, hl]
  · simp [hk]

theorem st_insert_parents {s s1 : State} {name : String} {lineno loc : Int} {node : Ptr}
    (h : st_insert s name lineno loc node = some s1) : SameParents s1 s := by
  unfold st_insert at h
  dsimp only at h
  split at h
  · cases h
  · split at h
    · cases h
    · rename_i sc hsc
      split at h
      · cases h
        exact sameParents_setScope hsc rfl rfl
      · cases h
        exact sameParents_refl _

theorem st_add_lineno_parents {s s1 : State} {name : String} {lineno : Int}
    (h : st_add_lineno s name lineno = some s1) : SameParents s1 s := by
  unfold st_add_lineno at h
  split at h
  · cases h
  · cases h
  · split at h
    · cases h
    · split at h
      · cases h
      · rename_i sc hsc
        dsimp only at h
        cases h
        exact sameParents_setScope hsc rfl rfl

/-! ## Adding a line number -/

theorem chainUpdate_spec {name : String} (f : BucketListRec → BucketListRec)
    {l : List BucketListRec} {r : BucketListRec} (h : chainFind name l = some r) :
    ∃ pre post, l = pre ++ r :: post ∧ (∀ x ∈ pre, x.name ≠ name) ∧
      chainUpdate name f l = pre ++ f r :: post := by
  induction l with
  | nil => simp [chainFind] at h
  | cons a t ih =>
    unfold chainFind at h
    by_cases hn : name = a.name
    · rw [if_pos hn] at h
      cases h
      exact ⟨[], t, rfl, by simp, by simp [chainUpdate, hn]⟩
    · rw [if_neg hn] at h
      obtain ⟨pre, post, e, hpre, hu⟩ := ih h
      refine ⟨a :: pre, post, by simp [e], ?_, ?_⟩
      · intro x hx
        rcases List.mem_cons.1 hx with rfl | hx
        · exact fun e => hn e.symm
        · exact hpre x hx
      · rw [chainUpdate, if_neg hn, hu]
        rfl

theorem chainFind_append_cons {name : String} {pre post : List BucketListRec}
    {r : BucketListRec} (hpre : ∀ x ∈ pre, x.name ≠ name) (hr : r.name = name) :
    chainFind name (pre ++ r :: post) = some r := by
  induction pre with
  | nil => simp [chainFind, hr]
  | cons a t ih =>
    have ha : ¬ name = a.name := fun e => hpre a (List.mem_cons_self _ _) e.symm
    simp only [List.cons_append, chainFind, if_neg ha]
    exact ih (fun x hx => hpre x (List.mem_cons_of_mem _ hx))

theorem chainFind_append_cons_ne {name n : String} {pre post : List BucketListRec}
    {r q : BucketListRec} (hr : r.name = name) (hq : q.name = name) (hn : n ≠ name) :
    chainFind n (pre ++ q :: post) = chainFind n (pre ++ r :: post) := by
  induction pre with
  | nil =>
    simp only [List.nil_append, chainFind]
    rw [if_neg (by rw [hq]; exact hn), if_neg (by rw [hr]; exact hn)]
  | cons a t ih =>
    rw [List.cons_append, List.cons_append, chainFind, chainFind, ih]

theorem lookupFrom_found {s : State} {name : String} {i : Nat} {r : BucketListRec} :
    ∀ (fuel : Nat) (p : Ptr), lookupFrom s name fuel p = some (some (i, r)) →
      ∃ sc, s.scopes[i]? = some sc ∧ sc.find name = some r := by
  intro fuel
  induction fuel with
  | zero => intro p h; cases p <;> simp [lookupFrom] at h
  | succ n ih =>
    intro p h
    cases p with
    | none => simp [lookupFrom] at h
    | some j =>
      unfold lookupFrom at h
      split at h
      · cases h
      · rename_i sc hsc
        split at h
        · rename_i l hl
          simp only [Option.some.injEq, Prod.mk.injEq] at h
          obtain ⟨rfl, rfl⟩ := h
          exact ⟨sc, hsc, hl⟩
        · exact ih _ h

theorem lookupFrom_map {s t : State} (name : String) (F : Nat → BucketListRec → BucketListRec)
    (h : ∀ k : Nat,
      (t.scopes[k]?).map (fun sc : ScopeListRec => (sc.find name, sc.parent)) =
      (s.scopes[k]?).map (fun sc : ScopeListRec => ((sc.find name).map (F k), sc.parent))) :
    ∀ fuel p, lookupFrom t name fuel p =
      (lookupFrom s name fuel p).map (Option.map (fun jr => (jr.1, F jr.1 jr.2))) := by
  intro fuel
  induction fuel with
  | zero => intro p; cases p <;> rfl
  | succ n ih =>
    intro p
    cases p with
    | none => rfl
    | some i =>
      have hi := h i
      unfold lookupFrom
      cases ht : t.scopes[i]? with
      | none =>
        cases hs : s.scopes[i]? with
        | none => rfl
        | some sc => rw [ht, hs] at hi; cases hi
      | some tc =>
        cases hs : s.scopes[i]? with
        | none => rw [ht, hs] at hi; cases hi
        | some sc =>
          rw [ht, hs] at hi
          simp only [Option.map_some', Option.some.injEq, Prod.mk.injEq,
            ScopeListRec.find] at hi
          simp only [hi.1, hi.2]
          cases hc : chainFind name (sc.hashTable (hash name)) with
          | none => simpa using ih sc.parent
          | some l => rfl

theorem st_add_lineno_spec (s : State) (name : String) (n : Int) (i : Nat)
    (r : BucketListRec) (hr : st_lookup_bucket s name = some (some (i, r)))
    (hl : r.lines ≠ []) :
    ∃ t sc pre post, st_add_lineno s name n = some t ∧
      s.scopes[i]? = some sc ∧ sc.hashTable (hash name) = pre ++ r :: post ∧
      (∀ x ∈ pre, x.name ≠ name) ∧
      t.scopes[i]? = some (sc.setBucket (hash name)
        (pre ++ { r with lines := r.lines ++ [n] } :: post)) ∧
      (∀ k : Nat, k ≠ i → t.scopes[k]? = s.scopes[k]?) ∧
      t.scopes.length = s.scopes.length ∧
      st_lookup_bucket t name = some (some (i, { r with lines := r.lines ++ [n] })) ∧
      (∀ m, m ≠ name → st_lookup_bucket t m = st_lookup_bucket s m) ∧
      t.stack = s.stack ∧ t.stackIdx = s.stackIdx ∧ t.nodes = s.nodes ∧
      t.listing = s.listing ∧ t.Error = s.Error ∧ t.location = s.location := by
  obtain ⟨sc, hsc, hf⟩ := lookupFrom_found _ _ hr
  obtain ⟨pre, post, e, hpre, hu⟩ :=
    chainUpdate_spec (fun l => { l with lines := l.lines ++ [n] }) hf
  have hrn : r.name = name := (chainFind_some hf).2
  have hadd : st_add_lineno s name n = some (s.setScope i (sc.setBucket (hash name)
      (pre ++ { r with lines := r.lines ++ [n] } :: post))) := by
    unfold st_add_lineno
    rw [hr]
    simp only
    cases hlines : r.lines with
    | nil => exact absurd hlines hl
    | cons a as =>
      simp only [hsc]
      rw [hu, hlines]
  refine ⟨_, sc, pre, post, hadd, hsc, e, hpre, ?_, ?_, ?_, ?_, ?_,
    rfl, rfl, rfl, rfl, rfl, rfl⟩
  · simp only [setScope_scopes_getElem?, if_true, hsc, Option.map_some']
  · intro k hk
    simp only [setScope_scopes_getElem?, if_neg (Ne.symm hk)]
  · exact setScope_scopes_length _ _ _
  · unfold st_lookup_bucket at hr ⊢
    rw [setScope_scopes_length, scTop_setScope,
      lookupFrom_map name (fun k x => if k = i then { x with lines := x.lines ++ [n] } else x),
      hr]
    · simp
    · intro k
      rw [setScope_scopes_getElem?]
      by_cases hk : i = k
      · subst hk
        simp only [if_true, hsc, Option.map_some', Option.some.injEq, Prod.mk.injEq]
        refine ⟨?_, rfl⟩
        rw [find_setBucket_same, hf,
          chainFind_append_cons hpre (show ({ r with lines := r.lines ++ [n] } :
            BucketListRec).name = name from hrn)]
        rfl
      · simp only [if_neg hk, if_neg (Ne.symm hk)]
        cases s.scopes[k]? with
        | none => rfl
        | some x =>
          simp only [Option.map_some', Option.some.injEq, Prod.mk.injEq, and_true]
          cases x.find name <;> rfl
  · intro m hm
    unfold st_lookup_bucket
    rw [setScope_scopes_length, scTop_setScope]
    refine lookupFrom_congr m (fun k => ?_) _ _
    rw [setScope_scopes_getElem?]
    by_cases hk : i = k
    · subst hk
      simp only [if_true, hsc, Option.map_some', Option.some.injEq, Prod.mk.injEq, and_true]
      simp only [ScopeListRec.find, ScopeListRec.setBucket]
      by_cases hh : hash m = hash name
      · rw [if_pos hh, hh, e]
        exact ⟨chainFind_append_cons_ne hrn (show ({ r with lines := r.lines ++ [n] } :
          BucketListRec).name = name from hrn) hm, trivial⟩
      · rw [if_neg hh]
        exact ⟨rfl, trivial⟩
    · simp only [if_neg hk]

/-- C5: when `st_lookup_bucket name` resolves to the record `r` of scope `i` (the top
scope or an enclosing one) and `r` has a line list `L` with a first cell,
`st_add_lineno name n` returns and replaces `r`, at its place in its chain, by `r` with
line list `L ++ [n]`: every chain of every scope keeps its length and its other records,
the registry keeps its length, the scope stack and every other part of the state are
unchanged, and the name now resolves to the updated record of the same scope. -/
theorem st_add_lineno_appends (s : State) (name : String) (n : Int) (i : Nat)
    (r : BucketListRec) (hr : st_lookup_bucket s name = some (some (i, r)))
    (hl : r.lines ≠ []) :
    ∃ t sc pre post, st_add_lineno s name n = some t ∧
      s.scopes[i]? = some sc ∧ sc.hashTable (hash name) = pre ++ r :: post ∧
      (∀ x ∈ pre, x.name ≠ name) ∧
      t.scopes[i]? = some (sc.setBucket (hash name)
        (pre ++ { r with lines := r.lines ++ [n] } :: post)) ∧
      (∀ k : Nat, k ≠ i → t.scopes[k]? = s.scopes[k]?) ∧
      t.scopes.length = s.scopes.length ∧
      st_lookup_bucket t name = some (some (i, { r with lines := r.lines ++ [n] })) ∧
      (∀ m, m ≠ name → st_lookup_bucket t m = st_lookup_bucket s m) ∧
      t.stack = s.stack ∧ t.stackIdx = s.stackIdx ∧ t.nodes = s.nodes ∧
      t.listing = s.listing ∧ t.Error = s.Error ∧ t.location = s.location :=
  st_add_lineno_spec s name n i r hr hl

/-- Witness for C5: in `exampleNested` the name `y` resolves to the record of the global
scope, not of the top scope; line 9 is appended to it. -/
theorem st_add_lineno_appends_witness :
    ∃ t, st_add_lineno exampleNested "y" 9 = some t ∧
      st_lookup_bucket t "y" =
        some (some (0, { name := "y", treeNode := some 1, lines := [2, 9], memloc := 0 })) := by
  obtain ⟨t, sc, pre, post, h⟩ := st_add_lineno_appends exampleNested "y" 9 0
    { name := "y", treeNode := some 1, lines := [2], memloc := 0 } (by decide) (by decide)
  exact ⟨t, h.1, h.2.2.2.2.2.2.2.1⟩

/-! ## Single visitor calls of the Builder pass -/

theorem st_lookup_sc_of_find {s : State} {top : Nat} {sc : ScopeListRec} (name : String)
    (htop : scTop s = some top) (hsc : s.scopes[top]? = some sc) :
    st_lookup_sc s name = some (sc.find name).isSome := by
  simp only [st_lookup_sc, htop, hsc, ScopeListRec.find]
  cases chainFind name (sc.hashTable (hash name)) <;> rfl

theorem lookup_none_top {s : State} {top : Nat} {sc : ScopeListRec} {name : String}
    (htop : scTop s = some top) (hsc : s.scopes[top]? = some sc)
    (h : st_lookup_bucket s name = some none) : sc.find name = none := by
  have hlt : top < s.scopes.length := by
    by_contra hge
    rw [List.getElem?_eq_none (by omega)] at hsc
    cases hsc
  obtain ⟨n, hn⟩ : ∃ n, s.scopes.length = n + 1 := ⟨s.scopes.length - 1, by omega⟩
  unfold st_lookup_bucket at h
  rw [hn, htop] at h
  simp only [lookupFrom, hsc] at h
  unfold ScopeListRec.find
  cases hc : chainFind name (sc.hashTable (hash name)) with
  | none => rfl
  | some l => rw [hc] at h; cases h

theorem lookup_top_found {s : State} {top : Nat} {sc : ScopeListRec} {name : String}
    {r : BucketListRec} (htop : scTop s = some top) (hsc : s.scopes[top]? = some sc)
    (h : sc.find name = some r) : st_lookup_bucket s name = some (some (top, r)) := by
  have hlt : top < s.scopes.length := by
    by_contra hge
    rw [List.getElem?_eq_none (by omega)] at hsc
    cases hsc
  obtain ⟨n, hn⟩ : ∃ n, s.scopes.length = n + 1 := ⟨s.scopes.length - 1, by omega⟩
  unfold st_lookup_bucket
  unfold ScopeListRec.find at h
  rw [hn, htop]
  simp only [lookupFrom, hsc, h]

theorem insertNode_redeclared (G : Globals) (s : State) (t : Nat) (n : TreeNode)
    (name : String) (top : Nat) (sc : ScopeListRec) (r : BucketListRec)
    (hn : s.nodes[t]? = some n) (hk : n.nodekind = .DeclK)
    (hd : (n.kind = G.FunK ∧ n.name = some name) ∨
      (n.kind ≠ G.FunK ∧ (n.kind = G.VarK ∨ n.kind = G.VarArrK) ∧
        n.type ≠ .Void ∧ n.type ≠ .VoidArray ∧
        (if n.kind = G.VarK then n.name else n.arrayName) = some name))
    (htop : scTop s = some top) (hsc : s.scopes[top]? = some sc)
    (hr : sc.find name = some r) :
    insertNode G t s = some
      { s with
        funcName := if n.kind = G.FunK then n.name else s.funcName
        listing := s.listing ++ [{ kind := .SymbolError, line := n.lineno, message :=
          if n.kind = G.FunK then "function already declared for current scope"
          else "symbol already declared for current scope" }]
        Error := true } := by
  have hl : st_lookup_sc s name = some true := by
    rw [st_lookup_sc_of_find name htop hsc, hr]; rfl
  unfold insertNode
  rw [hn]
  simp only [hk]
  rcases hd with ⟨hf, hname⟩ | ⟨hnf, hv, hty1, hty2, hname⟩
  · rw [if_pos hf]
    unfold insertFun
    simp only [hname]
    have hl2 : st_lookup_sc { s with funcName := some name } name = some true := hl
    rw [hl2]
    simp only [symbolError, if_pos hf, hname]
  · rw [if_neg hnf, if_pos hv]
    unfold insertVar
    rw [if_neg (by simp [hty1, hty2]), hname]
    simp only [hl, symbolError, if_neg hnf]

/-- C3: when the current top scope already holds a record for the name of a declaration
node (a function, or a variable or array variable of non-void type), `insertNode` reports
exactly one redeclaration error at the node's line ('function already declared for current
scope' for a function, 'symbol already declared for current scope' otherwise), sets the
Error flag and leaves every scope of the registry, hence the first declaration's record and
every other record, the node heap and the scope stack unchanged.  On
`int f(void){ int y; return y; } int f(void){ return 0; }` the Builder pass reports exactly
one error, 'function already declared for current scope' at the second declaration's
line. -/
theorem insertNode_redeclaration_error :
    (∀ (G : Globals) (s : State) (t : Nat) (n : TreeNode) (name : String) (top : Nat)
      (sc : ScopeListRec) (r : BucketListRec),
      s.nodes[t]? = some n → n.nodekind = .DeclK →
      ((n.kind = G.FunK ∧ n.name = some name) ∨
        (n.kind ≠ G.FunK ∧ (n.kind = G.VarK ∨ n.kind = G.VarArrK) ∧
          n.type ≠ .Void ∧ n.type ≠ .VoidArray ∧
          (if n.kind = G.VarK then n.name else n.arrayName) = some name)) →
      scTop s = some top → s.scopes[top]? = some sc → sc.find name = some r →
      ∃ s1, insertNode G t s = some s1 ∧
        s1.listing = s.listing ++ [{ kind := .SymbolError, line := n.lineno, message :=
          if n.kind = G.FunK then "function already declared for current scope"
          else "symbol already declared for current scope" }] ∧
        s1.Error = true ∧ s1.scopes = s.scopes ∧ s1.nodes = s.nodes ∧
        s1.stack = s.stack ∧ s1.stackIdx = s.stackIdx ∧ s1.location = s.location ∧
        s1.preserveLastScope = s.preserveLastScope) ∧
    (buildSymtab sampleGlobals 5 (some 0) (State.init exampleRedecl)).map
        (fun s => (s.listing, s.Error)) =
      some ([{ kind := .SymbolError, line := 2,
               message := "function already declared for current scope" }], true) := by
  refine ⟨?_, by decide⟩
  intro G s t n name top sc r hn hk hd htop hsc hr
  exact ⟨_, insertNode_redeclared G s t n name top sc r hn hk hd htop hsc hr,
    rfl, rfl, rfl, rfl, rfl, rfl, rfl, rfl⟩

/-- Witness for C3: the pre-visit of the second declaration of `f` in `exampleRedecl`. -/
theorem insertNode_redeclaration_error_witness :
    ∃ s1, insertNode sampleGlobals 6 exampleRedeclAtSecond = some s1 ∧
      s1.listing = [{ kind := .SymbolError, line := 2,
                      message := "function already declared for current scope" }] ∧
      s1.scopes = exampleRedeclAtSecond.scopes := by
  obtain ⟨s1, h1, h2, _, h4, _⟩ := insertNode_redeclaration_error.1 sampleGlobals
    exampleRedeclAtSecond 6 _ "f" 0 _
    { name := "f", treeNode := some 0, lines := [1], memloc := 0 }
    (by rfl) (by decide) (Or.inl ⟨by decide, by decide⟩) (by decide) (by rfl) (by decide)
  exact ⟨s1, h1, h2.trans (by decide), h4⟩

theorem st_lookup_none {s : State} {name : String}
    (h : st_lookup_bucket s name = some none) : st_lookup s name = some (-1) := by
  unfold st_lookup
  rw [h]

theorem st_lookup_some {s : State} {name : String} {i : Nat} {r : BucketListRec}
    (h : st_lookup_bucket s name = some (some (i, r))) :
    st_lookup s name = some r.memloc := by
  unfold st_lookup
  rw [h]

theorem insertNode_use (G : Globals) (s : State) (t : Nat) (n : TreeNode)
    (hn : s.nodes[t]? = some n) (hk : n.nodekind = .ExpK)
    (hu : n.kind = G.IdK ∨ n.kind = G.IdArrK ∨ n.kind = G.CallK) :
    insertNode G t s = insertUse t n s := by
  unfold insertNode
  rw [hn]
  simp only [hk, if_pos hu]

theorem insertUse_undeclared (s : State) (t : Nat) (n : TreeNode) (name : String) (top : Nat)
    (sc : ScopeListRec) (hname : n.name = some name)
    (htop : scTop s = some top) (hsc : s.scopes[top]? = some sc)
    (hnone : st_lookup_bucket s name = some none) :
    insertUse t n s = some
      (((symbolError s n "using undeclared symbol").setNode t
          { n with nodekind := .DeclK, type := .TypeError }).setScope top
        (sc.setBucket (hash name)
          ({ name := name, treeNode := some t, lines := [n.lineno], memloc := s.location } ::
            sc.hashTable (hash name)))) := by
  unfold insertUse
  split
  · rename_i h0; rw [hname] at h0; cases h0
  · rename_i nm h0
    rw [hname] at h0
    cases h0
    simp only [st_lookup_none hnone, if_true]
    exact st_insert_eq (s := (symbolError s n "using undeclared symbol").setNode t
      { n with nodekind := .DeclK, type := .TypeError }) n.lineno s.location (some t) htop hsc
      (lookup_none_top htop hsc hnone)

theorem insertUse_declared (s : State) (t : Nat) (n : TreeNode) (name : String) (i : Nat)
    (r : BucketListRec) (hname : n.name = some name)
    (hfound : st_lookup_bucket s name = some (some (i, r))) (hloc : r.memloc ≠ -1) :
    insertUse t n s = st_add_lineno s name n.lineno := by
  unfold insertUse
  split
  · rename_i h0; rw [hname] at h0; cases h0
  · rename_i nm h0
    rw [hname] at h0
    cases h0
    simp only [st_lookup_some hfound, if_neg hloc]

theorem lookup_through {u : State} {name : String} {c : List Nat} {top : Nat}
    {sc : ScopeListRec} {r : BucketListRec} (hc : Chain u (scTop u) c) (hmem : top ∈ c)
    (hsc : u.scopes[top]? = some sc) (hf : sc.find name = some r) :
    ∃ j l, st_lookup_bucket u name = some (some (j, l)) := by
  rw [st_lookup_bucket_chain name hc]
  cases hfh : firstHolder u name c with
  | none =>
    have := firstHolder_none.1 hfh top hmem sc hsc
    rw [hf] at this
    cases this
  | some jl => exact ⟨jl.1, jl.2, rfl⟩

theorem getElem?_set_nodes (l : List TreeNode) (t u : Nat) (a : TreeNode) :
    (l.set t a)[u]? = if t = u then (l[u]?).map (fun _ => a) else l[u]? := by
  rw [List.getElem?_set]
  by_cases h : t = u
  · subst h
    by_cases hl : t < l.length
    · simp [hl, List.getElem?_eq_getElem hl]
    · simp [hl, List.getElem?_eq_none (not_lt.1 hl)]
  · simp [h]

/-- C7: for an identifier, array-identifier or call node with name `name`, visited when
the scope stack has top scope `top`: if the upward lookup of the name finds no record,
`insertNode` reports exactly one 'using undeclared symbol' error at the node's line, sets
the Error flag, makes the node a declaration node of type `TypeError` (no other node
changes) and puts a record for the name (this node, slot `location`, the node's line) in
front of the name's chain in the top scope (no other scope changes), so that the lookup of
the name now finds that record, and so does every lookup whose finite parent chain
passes through scope `top`; if the lookup finds record `r` of scope `i` (with a slot other
than -1, as every slot the pass assigns is, and a line list with a first cell),
`insertNode` reports no error, changes no node, keeps the length of every chain and of the
registry, and only replaces `r` by `r` with the node's line appended to its line list. -/
theorem insertNode_use_site (G : Globals) (s : State) (t : Nat) (n : TreeNode)
    (name : String) (top : Nat) (sc : ScopeListRec)
    (hn : s.nodes[t]? = some n) (hk : n.nodekind = .ExpK)
    (hu : n.kind = G.IdK ∨ n.kind = G.IdArrK ∨ n.kind = G.CallK)
    (hname : n.name = some name)
    (htop : scTop s = some top) (hsc : s.scopes[top]? = some sc) :
    (st_lookup_bucket s name = some none →
      ∃ s1, insertNode G t s = some s1 ∧
        s1.listing = s.listing ++
          [{ kind := .SymbolError, line := n.lineno, message := "using undeclared symbol" }] ∧
        s1.Error = true ∧
        s1.nodes[t]? = some { n with nodekind := .DeclK, type := .TypeError } ∧
        (∀ u : Nat, u ≠ t → s1.nodes[u]? = s.nodes[u]?) ∧
        s1.scopes[top]? = some (sc.setBucket (hash name)
          ({ name := name, treeNode := some t, lines := [n.lineno], memloc := s.location } ::
            sc.hashTable (hash name))) ∧
        (∀ k : Nat, k ≠ top → s1.scopes[k]? = s.scopes[k]?) ∧
        s1.scopes.length = s.scopes.length ∧
        s1.stack = s.stack ∧ s1.stackIdx = s.stackIdx ∧
        st_lookup_bucket s1 name = some (some (top,
          { name := name, treeNode := some t, lines := [n.lineno], memloc := s.location })) ∧
        (∀ (u : State) (c : List Nat), u.scopes[top]? = s1.scopes[top]? →
          Chain u (scTop u) c → top ∈ c →
          ∃ j l, st_lookup_bucket u name = some (some (j, l)))) ∧
    (∀ (i : Nat) (r : BucketListRec), st_lookup_bucket s name = some (some (i, r)) →
      r.memloc ≠ -1 → r.lines ≠ [] →
      ∃ s1 sci pre post, insertNode G t s = some s1 ∧
        s1.listing = s.listing ∧ s1.Error = s.Error ∧ s1.nodes = s.nodes ∧
        s.scopes[i]? = some sci ∧ sci.hashTable (hash name) = pre ++ r :: post ∧
        (∀ x ∈ pre, x.name ≠ name) ∧
        s1.scopes[i]? = some (sci.setBucket (hash name)
          (pre ++ { r with lines := r.lines ++ [n.lineno] } :: post)) ∧
        (∀ k : Nat, k ≠ i → s1.scopes[k]? = s.scopes[k]?) ∧
        s1.scopes.length = s.scopes.length ∧
        s1.stack = s.stack ∧ s1.stackIdx = s.stackIdx) := by
  have hlt : t < s.nodes.length := by
    by_contra hge
    rw [List.getElem?_eq_none (by omega)] at hn
    cases hn
  constructor
  · intro hnone
    have hf : (sc.setBucket (hash name)
        ({ name := name, treeNode := some t, lines := [n.lineno], memloc := s.location } ::
          sc.hashTable (hash name))).find name =
        some { name := name, treeNode := some t, lines := [n.lineno], memloc := s.location } := by
      rw [find_setBucket_same]; simp [chainFind]
    refine ⟨_, (insertNode_use G s t n hn hk hu).trans
      (insertUse_undeclared s t n name top sc hname htop hsc hnone),
      rfl, rfl, ?_, ?_, ?_, ?_, ?_, rfl, rfl, ?_, ?_⟩
    · show (s.nodes.set t _)[t]? = _
      rw [getElem?_set_nodes, if_pos rfl, hn]; rfl
    · intro u hu2
      show (s.nodes.set t _)[u]? = _
      rw [getElem?_set_nodes, if_neg (Ne.symm hu2)]
    · rw [setScope_scopes_getElem?, if_pos rfl]
      show (s.scopes[top]?).map _ = _
      rw [hsc]; rfl
    · intro k hk2
      rw [setScope_scopes_getElem?, if_neg (Ne.symm hk2)]
      rfl
    · rw [setScope_scopes_length]; rfl
    · refine lookup_top_found htop ?_ hf
      rw [setScope_scopes_getElem?, if_pos rfl]
      show (s.scopes[top]?).map _ = _
      rw [hsc]; rfl
    · intro u c hu2 hc hmem
      refine lookup_through hc hmem (hu2.trans ?_) hf
      rw [setScope_scopes_getElem?, if_pos rfl]
      show (s.scopes[top]?).map _ = _
      rw [hsc]; rfl
  · intro i r hfound hloc hlines
    obtain ⟨s1, sci, pre, post, h1, h2, h3, h4, h5, h6, h7, _, _, h10, h11, h12, h13, h14, _⟩ :=
      st_add_lineno_spec s name n.lineno i r hfound hlines
    exact ⟨s1, sci, pre, post, ((insertNode_use G s t n hn hk hu).trans
      (insertUse_declared s t n name i r hname hfound hloc)).trans h1,
      h13, h14, h12, h2, h3, h4, h5, h6, h7, h10, h11⟩

/-! ## Preservation of the invariants by the symbol-table operations -/

theorem recOK_of_scopes {s t : State} (h : RecOK s) (e : t.scopes = s.scopes) : RecOK t := by
  intro k sc hh r hsc hr
  rw [e] at hsc
  exact h k sc hh r hsc hr

theorem recOK_setScope {s : State} {i : Nat} {sc x : ScopeListRec} (h : RecOK s)
    (hsc : s.scopes[i]? = some sc) (hl : x.nestedLevel = sc.nestedLevel)
    (hx : ∀ hh r, r ∈ x.hashTable hh → r ∈ sc.hashTable hh ∨
      (hash r.name = hh ∧ r.lines ≠ [] ∧ r.memloc = sc.nestedLevel ∧ 0 ≤ r.memloc)) :
    RecOK (s.setScope i x) := by
  intro k tc hh r htc hr
  rw [setScope_scopes_getElem?] at htc
  by_cases hk : i = k
  · subst hk
    rw [if_pos rfl, hsc] at htc
    simp only [Option.map_some', Option.some.injEq] at htc
    subst htc
    rcases hx hh r hr with h1 | h1
    · rw [hl]; exact h i sc hh r hsc h1
    · rw [hl]; exact h1
  · rw [if_neg hk] at htc
    exact h k tc hh r htc hr

theorem recOK_st_insert {s s1 : State} {name : String} {lineno loc : Int} {node : Ptr}
    (h : RecOK s) (hi : st_insert s name lineno loc node = some s1)
    (hloc : ∀ top sc, scTop s = some top → s.scopes[top]? = some sc →
      loc = sc.nestedLevel ∧ 0 ≤ loc) : RecOK s1 := by
  unfold st_insert at hi
  dsimp only at hi
  split at hi
  · cases hi
  · rename_i top htop
    split at hi
    · cases hi
    · rename_i sc hsc
      split at hi
      · cases hi
        refine recOK_setScope h hsc rfl ?_
        intro hh r hr
        simp only [ScopeListRec.setBucket] at hr
        by_cases hhh : hh = hash name
        · rw [if_pos hhh] at hr
          rcases List.mem_cons.1 hr with rfl | hr
          · right
            obtain ⟨h1, h2⟩ := hloc top sc htop hsc
            exact ⟨hhh.symm, by simp, h1, h2⟩
          · left; rw [hhh]; exact hr
        · rw [if_neg hhh] at hr
          left; exact hr
      · cases hi
        exact recOK_of_scopes h rfl

theorem mem_chainUpdate {name : String} {f : BucketListRec → BucketListRec}
    {l : List BucketListRec} {r : BucketListRec} (h : r ∈ chainUpdate name f l) :
    r ∈ l ∨ ∃ x ∈ l, r = f x := by
  induction l with
  | nil => simp [chainUpdate] at h
  | cons a t ih =>
    unfold chainUpdate at h
    split at h
    · rcases List.mem_cons.1 h with rfl | h
      · exact Or.inr ⟨a, List.mem_cons_self _ _, rfl⟩
      · exact Or.inl (List.mem_cons_of_mem _ h)
    · rcases List.mem_cons.1 h with rfl | h
      · exact Or.inl (List.mem_cons_self _ _)
      · rcases ih h with h1 | ⟨x, hx, e⟩
        · exact Or.inl (List.mem_cons_of_mem _ h1)
        · exact Or.inr ⟨x, List.mem_cons_of_mem _ hx, e⟩

theorem recOK_st_add_lineno {s s1 : State} {name : String} {lineno : Int}
    (h : RecOK s) (hi : st_add_lineno s name lineno = some s1) : RecOK s1 := by
  unfold st_add_lineno at hi
  split at hi
  · cases hi
  · cases hi
  · split at hi
    · cases hi
    · split at hi
      · cases hi
      · rename_i sc hsc
        dsimp only at hi
        cases hi
        refine recOK_setScope h hsc rfl ?_
        intro hh r hr
        simp only [ScopeListRec.setBucket] at hr
        by_cases hhh : hh = hash name
        · rw [if_pos hhh] at hr
          rcases mem_chainUpdate hr with h1 | ⟨x, hx, e⟩
          · left; rw [hhh]; exact h1
          · right
            obtain ⟨a1, _, a3, a4⟩ := h _ sc _ x hsc hx
            subst e
            exact ⟨by rw [hhh]; exact a1, by simp, a3, a4⟩
        · rw [if_neg hhh] at hr
          left; exact hr

theorem recOK_scCreate {s : State} (h : RecOK s) (name : Option String) :
    RecOK (scCreate s name).1 := by
  intro k sc hh r hsc hr
  simp only [scCreate] at hsc
  by_cases hk : k < s.scopes.length
  · rw [List.getElem?_append_left hk] at hsc
    exact h k sc hh r hsc hr
  · rw [List.getElem?_append_right (not_lt.1 hk)] at hsc
    by_cases hk0 : k - s.scopes.length = 0
    · rw [hk0] at hsc
      simp only [List.getElem?_cons_zero, Option.some.injEq] at hsc
      subst hsc
      simp at hr
    · obtain ⟨m, hm⟩ : ∃ m, k - s.scopes.length = m + 1 :=
        ⟨k - s.scopes.length - 1, by omega⟩
      rw [hm] at hsc
      simp at hsc

theorem stackOK_push_create {s : State} (h : StackOK s) (name : Option String) :
    StackOK (scPush (scCreate s name).1 (scCreate s name).2) := by
  refine ⟨?_, ?_, ?_⟩
  · show 0 < s.stackIdx + 1
    have := h.1; omega
  · show (if (-1 : Int) = s.stackIdx then _ else s.stack (-1)) = none
    have := h.1
    rw [if_neg (by omega)]
    exact h.2.1
  · intro i hi hlt
    have hlt2 : i < s.stackIdx + 1 := hlt
    show ∃ k sc, (if i = s.stackIdx then some s.scopes.length else s.stack i) = some k ∧
      (s.scopes ++ [_])[k]? = some sc ∧
      sc.parent = (if i - 1 = s.stackIdx then some s.scopes.length else s.stack (i - 1)) ∧
      sc.nestedLevel = i
    by_cases hi2 : i = s.stackIdx
    · subst hi2
      refine ⟨s.scopes.length,
        { scopeName := name, nestedLevel := s.stackIdx, hashTable := fun _ => [],
          parent := scTop s }, by simp, by simp, ?_, rfl⟩
      rw [if_neg (by omega)]
      rfl
    · obtain ⟨k, sc, hk, hsc, hp, hlv⟩ := h.2.2 i hi (by omega)
      refine ⟨k, sc, by rw [if_neg hi2]; exact hk, ?_, ?_, hlv⟩
      · have hklt : k < s.scopes.length := by
          by_contra hge
          rw [List.getElem?_eq_none (by omega)] at hsc
          cases hsc
        rw [List.getElem?_append_left hklt]
        exact hsc
      · rw [if_neg (by omega)]
        exact hp

theorem stackOK_pop {s : State} (h : StackOK s) (h2 : 2 ≤ s.stackIdx) : StackOK (scPop s) := by
  refine ⟨?_, h.2.1, ?_⟩
  · show 0 < s.stackIdx - 1
    omega
  · intro i hi hlt
    have hlt2 : i < s.stackIdx - 1 := hlt
    exact h.2.2 i hi (by omega)

/-! ## The visitor calls of the Builder pass under its invariant -/

theorem quiet_refl {s : State} (h : BInv s) : Quiet s s := ⟨h, rfl, rfl, rfl, rfl⟩

theorem quiet_symbolError {s : State} (h : BInv s) (n : TreeNode) (m : String) :
    Quiet s (symbolError s n m) :=
  ⟨⟨h.1, h.2.1, recOK_of_scopes h.2.2 rfl⟩, rfl, rfl, rfl, rfl⟩

theorem quiet_st_insert {s : State} (h : BInv s) (name : String) (lineno : Int) (node : Ptr) :
    ∃ s1, st_insert s name lineno s.location node = some s1 ∧ Quiet s s1 ∧
      s1.nodes = s.nodes := by
  obtain ⟨top, sc, htop, hsc, hlv⟩ := stackOK_top h.1
  have hex : ∃ s1, st_insert s name lineno s.location node = some s1 := by
    simp only [st_insert, htop, hsc]
    cases chainFind name (sc.hashTable (hash name)) <;> exact ⟨_, rfl⟩
  obtain ⟨s1, hs1⟩ := hex
  have hf := st_insert_frame hs1
  have hrec : RecOK s1 := by
    refine recOK_st_insert h.2.2 hs1 ?_
    intro top2 sc2 htop2 hsc2
    rw [htop] at htop2
    cases htop2
    rw [hsc] at hsc2
    cases hsc2
    have := h.1.1
    rw [hlv, h.2.1]
    exact ⟨rfl, by omega⟩
  refine ⟨s1, hs1, ⟨⟨stackOK_of_same h.1 hf.2.1 hf.2.2.1 (st_insert_parents hs1), ?_, hrec⟩,
    hf.2.1, hf.2.2.1, hf.2.2.2.2.2.1, hf.2.2.2.2.2.2.2.2.2.2.2⟩, hf.1⟩
  rw [hf.2.2.2.2.2.2.1, hf.2.2.1]
  exact h.2.1

theorem binv_lookup_total {s : State} (h : BInv s) (name : String) :
    ∃ b, st_lookup_bucket s name = some b ∧
      (∀ i r, b = some (i, r) → r.lines ≠ [] ∧ r.memloc ≠ -1) := by
  refine ⟨_, stackOK_lookup h.1 name, ?_⟩
  intro i r hb
  have hb2 : st_lookup_bucket s name = some (some (i, r)) := by
    rw [← hb]; exact stackOK_lookup h.1 name
  obtain ⟨sc, hsc, hf⟩ := lookupFrom_found _ _ hb2
  obtain ⟨_, h2, _, h4⟩ := h.2.2 i sc _ r hsc (chainFind_some hf).1
  exact ⟨h2, by omega⟩

theorem binv_lookup_sc_total {s : State} (h : BInv s) (name : String) :
    ∃ b, st_lookup_sc s name = some b := by
  obtain ⟨top, sc, htop, hsc, _⟩ := stackOK_top h.1
  exact ⟨_, st_lookup_sc_of_find name htop hsc⟩

theorem quiet_st_add_lineno {s : State} (h : BInv s) (name : String) (lineno : Int) (i : Nat)
    (r : BucketListRec) (hr : st_lookup_bucket s name = some (some (i, r))) :
    ∃ s1, st_add_lineno s name lineno = some s1 ∧ Quiet s s1 ∧ s1.nodes = s.nodes := by
  obtain ⟨b, hb, hrec⟩ := binv_lookup_total h name
  rw [hr] at hb
  cases hb
  obtain ⟨s1, _, _, _, hs1, _⟩ := st_add_lineno_spec s name lineno i r hr (hrec i r rfl).1
  have hf := st_add_lineno_frame hs1
  refine ⟨s1, hs1, ⟨⟨stackOK_of_same h.1 hf.2.1 hf.2.2.1 (st_add_lineno_parents hs1), ?_,
    recOK_st_add_lineno h.2.2 hs1⟩, hf.2.1, hf.2.2.1, hf.2.2.2.2.2.1,
    hf.2.2.2.2.2.2.2.2.2.2.2.2⟩, hf.1⟩
  rw [hf.2.2.2.2.2.2.1, hf.2.2.1]
  exact h.2.1

theorem quiet_insertVar (G : Globals) {s : State} (h : BInv s) (t : Nat) (n : TreeNode)
    (hname : (n.type = .Void ∨ n.type = .VoidArray) ∨
      (if n.kind = G.VarK then n.name else n.arrayName).isSome = true) :
    ∃ s1, insertVar G t n s = some s1 ∧ Quiet s s1 ∧ s1.nodes = s.nodes := by
  unfold insertVar
  by_cases hv : n.type = .Void ∨ n.type = .VoidArray
  · rw [if_pos hv]
    exact ⟨_, rfl, quiet_symbolError h _ _, rfl⟩
  · rw [if_neg hv]
    rcases hname with hname | hname
    · exact absurd hname hv
    · obtain ⟨name, hnm⟩ := Option.isSome_iff_exists.1 hname
      rw [hnm]
      obtain ⟨b, hb⟩ := binv_lookup_sc_total h name
      simp only [hb]
      cases b with
      | false => exact quiet_st_insert h name n.lineno (some t)
      | true => exact ⟨_, rfl, quiet_symbolError h _ _, rfl⟩

theorem quiet_insertParam {s : State} (h : BInv s) (t : Nat) (n : TreeNode) :
    ∃ s1, insertParam t n s = some s1 ∧ Quiet s s1 ∧ s1.nodes = s.nodes := by
  unfold insertParam
  split
  · split
    · exact ⟨_, rfl, quiet_refl h, rfl⟩
    · exact ⟨_, rfl, quiet_symbolError h _ _, rfl⟩
  · rename_i name _
    obtain ⟨b, hb, _⟩ := binv_lookup_total h name
    cases b with
    | none =>
      simp only [st_lookup_none hb, if_true]
      exact quiet_st_insert h name n.lineno (some t)
    | some jr =>
      obtain ⟨j, r⟩ := jr
      simp only [st_lookup_some hb]
      split
      · exact quiet_st_insert h name n.lineno (some t)
      · exact ⟨_, rfl, quiet_symbolError h _ _, rfl⟩

theorem quiet_insertUse {s : State} (h : BInv s) (t : Nat) (n : TreeNode)
    (hname : n.name.isSome = true) :
    ∃ s1, insertUse t n s = some s1 ∧ Quiet s s1 := by
  obtain ⟨name, hnm⟩ := Option.isSome_iff_exists.1 hname
  obtain ⟨b, hb, hrec⟩ := binv_lookup_total h name
  cases b with
  | none =>
    obtain ⟨top, sc, htop, hsc, _⟩ := stackOK_top h.1
    rw [insertUse_undeclared s t n name top sc hnm htop hsc hb]
    have h2 : BInv ((symbolError s n "using undeclared symbol").setNode t
        { n with nodekind := .DeclK, type := .TypeError }) := h
    obtain ⟨s1, hs1, hq, _⟩ := quiet_st_insert h2 name n.lineno (some t)
    rw [← st_insert_eq (s := (symbolError s n "using undeclared symbol").setNode t
      { n with nodekind := .DeclK, type := .TypeError }) n.lineno s.location (some t) htop hsc
      (lookup_none_top htop hsc hb)]
    exact ⟨s1, hs1, hq⟩
  | some jr =>
    obtain ⟨j, r⟩ := jr
    rw [insertUse_declared s t n name j r hnm hb (hrec j r rfl).2]
    obtain ⟨s1, hs1, hq, _⟩ := quiet_st_add_lineno h name n.lineno j r hb
    exact ⟨s1, hs1, hq⟩

theorem binv_insertFun {s : State} (h : BInv s) (t : Nat) (n : TreeNode)
    (hname : n.name.isSome = true) :
    ∃ s1, insertFun t n s = some s1 ∧ s1.nodes = s.nodes ∧
      (Quiet s s1 ∨
        (BInv s1 ∧ s1.stackIdx = s.stackIdx + 1 ∧ s1.preserveLastScope = true)) := by
  obtain ⟨name, hnm⟩ := Option.isSome_iff_exists.1 hname
  have h1 : BInv { s with funcName := some name } := h
  obtain ⟨b, hb⟩ := binv_lookup_sc_total h1 name
  unfold insertFun
  simp only [hnm, hb]
  cases b with
  | true =>
    have hq : Quiet s (symbolError { s with funcName := some name } n
        "function already declared for current scope") := quiet_symbolError h1 _ _
    exact ⟨_, rfl, rfl, Or.inl hq⟩
  | false =>
    obtain ⟨s2, hs2, hq, hnodes⟩ := quiet_st_insert h1 name n.lineno (some t)
    have hs3 : st_insert { s with funcName := some name } name n.lineno s.location (some t) =
        some s2 := hs2
    simp only [hs3]
    refine ⟨_, rfl, hnodes, Or.inr ⟨⟨stackOK_push_create hq.1.1 _, ?_, ?_⟩, ?_, rfl⟩⟩
    · show s2.location + 1 = s2.stackIdx + 1 - 1
      rw [hq.1.2.1]; omega
    · exact recOK_of_scopes (recOK_scCreate hq.1.2.2 _) rfl
    · show s2.stackIdx + 1 = s.stackIdx + 1
      rw [hq.2.2.1]

theorem binv_insertComp {s : State} (h : BInv s) (t : Nat) (n : TreeNode) :
    BInv (insertComp t n s) ∧ (insertComp t n s).preserveLastScope = false ∧
      (insertComp t n s).stackIdx =
        (if s.preserveLastScope then s.stackIdx else s.stackIdx + 1) := by
  unfold insertComp
  by_cases hf : s.preserveLastScope = true
  · simp only [hf, if_true]
    exact ⟨h, rfl, rfl⟩
  · simp only [hf]
    refine ⟨⟨stackOK_push_create h.1 _, ?_, recOK_of_scopes (recOK_scCreate h.2.2 _) rfl⟩,
      ?_, rfl⟩
    · show s.location + 1 = s.stackIdx + 1 - 1
      rw [h.2.1]; omega
    · show s.preserveLastScope = false
      simpa using hf

theorem binv_afterInsertNode (G : Globals) {s : State} (h : BInv s) (t : Nat) (n : TreeNode)
    (hn : s.nodes[t]? = some n) :
    ∃ s1, afterInsertNode G t s = some s1 ∧ s1.nodes = s.nodes ∧
      s1.preserveLastScope = s.preserveLastScope ∧
      (if n.nodekind = .StmtK ∧ n.kind = G.CompK then
        s1.stackIdx = s.stackIdx - 1 ∧ (2 ≤ s.stackIdx → BInv s1)
      else s1 = s) := by
  unfold afterInsertNode
  rw [hn]
  by_cases hc : n.nodekind = .StmtK ∧ n.kind = G.CompK
  · simp only [if_pos hc]
    refine ⟨_, rfl, rfl, rfl, rfl, fun h2 => ⟨stackOK_pop h.1 h2, ?_,
      recOK_of_scopes h.2.2 rfl⟩⟩
    show s.location - 1 = s.stackIdx - 1 - 1
    rw [h.2.1]
  · simp only [if_neg hc]
    exact ⟨_, rfl, rfl, rfl, rfl⟩

/-! ## Properties that hold all along a run -/

theorem always_head {pre post : Nat → State → Option State} {P : State → Prop}
    {evs : List Ev} {s : State} (h : Always pre post P evs s) : P s := by
  cases evs with
  | nil => exact h
  | cons e es => exact h.1

theorem always_mono {pre post : Nat → State → Option State} {P Q : State → Prop}
    (hPQ : ∀ x, P x → Q x) :
    ∀ (evs : List Ev) (s : State), Always pre post P evs s → Always pre post Q evs s := by
  intro evs
  induction evs with
  | nil => intro s h; exact hPQ s h
  | cons e es ih =>
    intro s h
    exact ⟨hPQ s h.1, fun s1 h1 => ih s1 (h.2 s1 h1)⟩

theorem always_append {pre post : Nat → State → Option State} {P : State → Prop}
    {B : List Ev} :
    ∀ (A : List Ev) (s : State), Always pre post P A s →
      (∀ s1, run pre post A s = some s1 → Always pre post P B s1) →
      Always pre post P (A ++ B) s := by
  intro A
  induction A with
  | nil =>
    intro s _ hB
    exact hB s rfl
  | cons e es ih =>
    intro s hA hB
    refine ⟨hA.1, fun s1 h1 => ih s1 (hA.2 s1 h1) (fun s2 h2 => hB s2 ?_)⟩
    simp only [run, h1]
    exact h2

theorem always_upto {pre post : Nat → State → Option State} {P : State → Prop} :
    ∀ (A B : List Ev) (s s1 : State), Always pre post P (A ++ B) s →
      run pre post A s = some s1 → P s1 := by
  intro A
  induction A with
  | nil =>
    intro B s s1 h hr
    cases hr
    exact always_head h
  | cons e es ih =>
    intro B s s1 h hr
    simp only [run] at hr
    cases he : runEv pre post s e with
    | none => rw [he] at hr; cases hr
    | some s2 =>
      rw [he] at hr
      exact ih B s2 s1 (h.2 s2 he) hr

theorem runsBalanced_nil (G : Globals) {s : State} (h : BInv s)
    (hf : s.preserveLastScope = false) : RunsBalanced G [] [] s :=
  ⟨s, rfl, h, rfl, hf, fun _ _ => rfl, ⟨h, le_refl _⟩⟩

theorem runsBalanced_append (G : Globals) {A B : List Ev} {pA pB : List Nat} {s : State}
    (hA : RunsBalanced G A pA s)
    (hB : ∀ s1, BInv s1 → s1.stackIdx = s.stackIdx → s1.preserveLastScope = false →
      (∀ u : Nat, u ∉ pA → s1.nodes[u]? = s.nodes[u]?) → RunsBalanced G B pB s1) :
    RunsBalanced G (A ++ B) (pA ++ pB) s := by
  obtain ⟨s1, hr1, hi1, hs1, hf1, hn1, ha1⟩ := hA
  obtain ⟨s2, hr2, hi2, hs2, hf2, hn2, ha2⟩ := hB s1 hi1 hs1 hf1 hn1
  refine ⟨s2, ?_, hi2, hs2.trans hs1, hf2, ?_, ?_⟩
  · rw [run_append, hr1]; exact hr2
  · intro u hu
    rw [List.mem_append, not_or] at hu
    rw [hn2 u hu.2, hn1 u hu.1]
  · refine always_append A s ha1 (fun s3 h3 => ?_)
    rw [hr1] at h3
    cases h3
    rw [← hs1]
    exact ha2

/-! ## Well-formedness depends only on the nodes of the tree -/

theorem paramList_congr {a b : List TreeNode} :
    ∀ T : SynTree, (∀ u ∈ T.ptrs, a[u]? = b[u]?) → paramList a T = paramList b T
  | .null, _ => rfl
  | .node t cs sib, h => by
    have ht : a[t]? = b[t]? := h t (by simp [SynTree.ptrs])
    have hs := paramList_congr sib (fun u hu => h u (by simp [SynTree.ptrs, hu]))
    simp only [paramList, ht, hs]

mutual
theorem wellFormed_congr (G : Globals) {a b : List TreeNode} :
    ∀ T : SynTree, (∀ u ∈ T.ptrs, a[u]? = b[u]?) → wellFormed G a T = wellFormed G b T
  | .null, _ => rfl
  | .node t cs sib, h => by
    have ht : a[t]? = b[t]? := h t (by simp [SynTree.ptrs])
    have h1 := wellFormedAll_congr G cs (fun u hu => h u (by simp [SynTree.ptrs, hu]))
    have h2 := funShape_congr G cs (fun u hu => h u (by simp [SynTree.ptrs, hu]))
    have h3 := wellFormed_congr G sib (fun u hu => h u (by simp [SynTree.ptrs, hu]))
    simp only [wellFormed, ht, h1, h2, h3]
theorem wellFormedAll_congr (G : Globals) {a b : List TreeNode} :
    ∀ F : SynForest, (∀ u ∈ F.ptrs, a[u]? = b[u]?) →
      wellFormedAll G a F = wellFormedAll G b F
  | .nil, _ => rfl
  | .cons c cs, h => by
    have h1 := wellFormed_congr G c (fun u hu => h u (by simp [SynForest.ptrs, hu]))
    have h2 := wellFormedAll_congr G cs (fun u hu => h u (by simp [SynForest.ptrs, hu]))
    simp only [wellFormedAll, h1, h2]
theorem funShape_congr (G : Globals) {a b : List TreeNode} :
    ∀ F : SynForest, (∀ u ∈ F.ptrs, a[u]? = b[u]?) → funShape G a F = funShape G b F
  | .nil, _ => rfl
  | .cons _ .nil, _ => rfl
  | .cons _ (.cons .null _), _ => rfl
  | .cons ps (.cons (.node t bcs bsib) rest), h => by
    have hb : a[t]? = b[t]? := h t (by simp [SynForest.ptrs, SynTree.ptrs])
    have h0 := paramList_congr ps (fun u hu => h u (by simp [SynForest.ptrs, hu]))
    have h1 := wellFormedAll_congr G bcs
      (fun u hu => h u (by simp [SynForest.ptrs, SynTree.ptrs, hu]))
    have h2 := wellFormed_congr G bsib
      (fun u hu => h u (by simp [SynForest.ptrs, SynTree.ptrs, hu]))
    have h3 := wellFormedAll_congr G rest
      (fun u hu => h u (by simp [SynForest.ptrs, hu]))
    simp only [funShape, hb, h0, h1, h2, h3]
end

/-! ## The Builder pass on a parameter list -/

theorem quiet_trans {a b c : State} (h1 : Quiet a b) (h2 : Quiet b c) : Quiet a c :=
  ⟨h2.1, h2.2.1.trans h1.2.1, h2.2.2.1.trans h1.2.2.1, h2.2.2.2.1.trans h1.2.2.2.1,
    h2.2.2.2.2.trans h1.2.2.2.2⟩

theorem allNull_events : ∀ F : SynForest, F.allNull = true → F.events = [] ∧ F.ptrs = []
  | .nil, _ => ⟨rfl, rfl⟩
  | .cons .null cs, h => by
    have := allNull_events cs (by simpa [SynForest.allNull] using h)
    simp [SynForest.events, SynForest.ptrs, SynTree.events, SynTree.ptrs, this.1, this.2]
  | .cons (.node _ _ _) _, h => by simp [SynForest.allNull] at h

theorem afterInsertNode_plain (G : Globals) {s : State} {t : Nat} {n : TreeNode}
    (hn : s.nodes[t]? = some n) (hc : ¬ (n.nodekind = .StmtK ∧ n.kind = G.CompK)) :
    afterInsertNode G t s = some s := by
  unfold afterInsertNode
  rw [hn]
  simp only [if_neg hc]

theorem params_run (G : Globals) :
    ∀ (P : SynTree) (s : State), paramList s.nodes P = true → BInv s →
      ∃ s1, run (insertNode G) (afterInsertNode G) P.events s = some s1 ∧ Quiet s s1 ∧
        s1.nodes = s.nodes ∧
        Always (insertNode G) (afterInsertNode G)
          (fun x => BInv x ∧ s.stackIdx ≤ x.stackIdx) P.events s
  | .null, s, _, h => ⟨s, rfl, quiet_refl h, rfl, ⟨h, le_refl _⟩⟩
  | .node t cs sib, s, hp, h => by
    cases hn : s.nodes[t]? with
    | none => simp [paramList, hn] at hp
    | some n =>
      simp only [paramList, hn, Bool.and_eq_true, decide_eq_true_eq] at hp
      obtain ⟨⟨hk, hnull⟩, hsib⟩ := hp
      obtain ⟨s1, hs1, hq1, hn1⟩ := quiet_insertParam h t n
      have hpre : insertNode G t s = some s1 := by
        unfold insertNode
        rw [hn]
        simp only [hk]
        exact hs1
      have hn1t : s1.nodes[t]? = some n := by rw [hn1]; exact hn
      have hpost : afterInsertNode G t s1 = some s1 :=
        afterInsertNode_plain G hn1t (by simp [hk])
      obtain ⟨s2, hs2, hq2, hn2, ha2⟩ := params_run G sib s1 (by rw [hn1]; exact hsib) hq1.1
      have hev : (SynTree.node t cs sib).events = Ev.pre t :: Ev.post t :: sib.events := by
        simp [SynTree.events, (allNull_events cs hnull).1]
      rw [hev]
      refine ⟨s2, ?_, quiet_trans hq1 hq2, hn2.trans hn1, ?_⟩
      · simp only [run, runEv, hpre, hpost]
        exact hs2
      · refine ⟨⟨h, le_refl _⟩, fun x hx => ?_⟩
        simp only [runEv] at hx
        rw [hpre] at hx
        cases hx
        refine ⟨⟨hq1.1, by rw [hq1.2.2.1]⟩, fun y hy => ?_⟩
        simp only [runEv] at hy
        rw [hpost] at hy
        cases hy
        rw [← hq1.2.2.1]
        exact ha2

/-! ## The Builder pass on a well-formed tree -/

theorem quiet_insertNode_plain (G : Globals) {s : State} (h : BInv s) {t : Nat} {n : TreeNode}
    (hn : s.nodes[t]? = some n) (hnames : namesOk G n = true)
    (hfun : isFunDecl G n = false) (hcomp : isCompStmt G n = false) :
    ∃ s1, insertNode G t s = some s1 ∧ Quiet s s1 := by
  unfold insertNode
  rw [hn]
  cases hk : n.nodekind with
  | StmtK =>
    have hc : ¬ n.kind = G.CompK := by
      intro hc
      simp [isCompStmt, hk, hc] at hcomp
    simp only [hk, if_neg hc]
    exact ⟨s, rfl, quiet_refl h⟩
  | DeclK =>
    have hf : ¬ n.kind = G.FunK := by
      intro hf
      simp [isFunDecl, hk, hf] at hfun
    simp only [hk, if_neg hf]
    by_cases hv : n.kind = G.VarK ∨ n.kind = G.VarArrK
    · rw [if_pos hv]
      have hnm : (n.type = .Void ∨ n.type = .VoidArray) ∨
          (if n.kind = G.VarK then n.name else n.arrayName).isSome = true := by
        simp only [namesOk, hk, if_neg hf, if_pos hv, Bool.or_eq_true,
          decide_eq_true_eq] at hnames
        exact hnames
      obtain ⟨s1, hs1, hq, _⟩ := quiet_insertVar G h t n hnm
      exact ⟨s1, hs1, hq⟩
    · rw [if_neg hv]
      exact ⟨s, rfl, quiet_refl h⟩
  | ExpK =>
    simp only [hk]
    by_cases hu : n.kind = G.IdK ∨ n.kind = G.IdArrK ∨ n.kind = G.CallK
    · rw [if_pos hu]
      have hnm : n.name.isSome = true := by
        simp only [namesOk, hk, if_pos hu] at hnames
        exact hnames
      exact quiet_insertUse h t n hnm
    · rw [if_neg hu]
      exact ⟨s, rfl, quiet_refl h⟩
  | ParamK =>
    simp only [hk]
    obtain ⟨s1, hs1, hq, _⟩ := quiet_insertParam h t n
    exact ⟨s1, hs1, hq⟩

theorem insertNode_frame {G : Globals} {t : Nat} {s s1 : State}
    (h : insertNode G t s = some s1) :
    (∀ u : Nat, u ≠ t → s1.nodes[u]? = s.nodes[u]?) ∧
    ∃ n m, s.nodes[t]? = some n ∧ s1.nodes[t]? = some m ∧ m.SameShape n := by
  obtain ⟨n, m, hn, e, hm⟩ := insertNode_nodes h
  refine ⟨fun u hu => ?_, n, m, hn, ?_, hm⟩
  · rw [e, getElem?_set_nodes, if_neg (Ne.symm hu)]
  · rw [e, getElem?_set_nodes, if_pos rfl, hn]; rfl

theorem sameShape_comp (G : Globals) {m n : TreeNode} (h : m.SameShape n) :
    (m.nodekind = .StmtK ∧ m.kind = G.CompK) ↔ (n.nodekind = .StmtK ∧ n.kind = G.CompK) := by
  rw [h.2.2.2.2.2.2, h.2.2.1]

theorem comp_block (G : Globals) {b : Nat} {bcs : SynForest} {bsib : SynTree}
    (hF : BuilderAllOK G bcs) (hT : BuilderOK G bsib) (s : State) (mb : TreeNode)
    (hnb : s.nodes[b]? = some mb) (hcomp : mb.nodekind = .StmtK ∧ mb.kind = G.CompK)
    (hwf1 : wellFormedAll G s.nodes bcs = true) (hwf2 : wellFormed G s.nodes bsib = true)
    (hnd : (SynTree.node b bcs bsib).ptrs.Nodup) (hinv : BInv s) (base : Int)
    (hbase : s.stackIdx = if s.preserveLastScope then base + 1 else base) (h1 : 1 ≤ base) :
    ∃ s1, run (insertNode G) (afterInsertNode G) (SynTree.node b bcs bsib).events s = some s1 ∧
      BInv s1 ∧ s1.stackIdx = base ∧ s1.preserveLastScope = false ∧
      (∀ u : Nat, u ∉ (SynTree.node b bcs bsib).ptrs → s1.nodes[u]? = s.nodes[u]?) ∧
      Always (insertNode G) (afterInsertNode G) (fun x => BInv x ∧ base ≤ x.stackIdx)
        (SynTree.node b bcs bsib).events s := by
  simp only [SynTree.ptrs, List.nodup_cons, List.mem_append, not_or, List.nodup_append] at hnd
  obtain ⟨⟨hb1, hb2⟩, hnd1, hnd2, hdisj⟩ := hnd
  have hpre : insertNode G b s = some (insertComp b mb s) := by
    unfold insertNode
    rw [hnb]
    simp only [hcomp.1, hcomp.2, if_true]
  obtain ⟨hi1, hf1, hs1⟩ := binv_insertComp hinv b mb
  have hs1b : (insertComp b mb s).stackIdx = base + 1 := by
    rw [hs1, hbase]
    by_cases hfl : s.preserveLastScope = true
    · simp only [hfl, if_true]
    · simp only [hfl]
      rfl
  have hle : base ≤ s.stackIdx := by
    rw [hbase]
    by_cases hfl : s.preserveLastScope = true
    · simp only [hfl, if_true]; omega
    · simp only [hfl]; exact le_refl _
  obtain ⟨hfr, n0, m0, hn0, hm0, hshape⟩ := insertNode_frame hpre
  rw [hnb] at hn0
  cases hn0
  have hwf1b : wellFormedAll G (insertComp b mb s).nodes bcs = true := by
    rw [wellFormedAll_congr G bcs (fun u hu => hfr u (fun e => hb1 (e ▸ hu)))]
    exact hwf1
  obtain ⟨s2, hr2, hi2, hs2, hf2, hn2, ha2⟩ := hF _ hwf1b hnd1 hi1 hf1
  have hb2n : s2.nodes[b]? = some m0 := by rw [hn2 b hb1]; exact hm0
  obtain ⟨s3, hpost, hn3, hf3, hif3⟩ := binv_afterInsertNode G hi2 b m0 hb2n
  rw [if_pos ((sameShape_comp G hshape).2 hcomp)] at hif3
  have hs3 : s3.stackIdx = base := by rw [hif3.1, hs2, hs1b]; omega
  have hi3 : BInv s3 := hif3.2 (by rw [hs2, hs1b]; omega)
  have hwf2b : wellFormed G s3.nodes bsib = true := by
    rw [wellFormed_congr G bsib (fun u hu => ?_)]
    · exact hwf2
    · rw [hn3, hn2 u (fun hu1 => hdisj hu1 hu), hfr u (fun e => hb2 (e ▸ hu))]
  obtain ⟨s4, hr4, hi4, hs4, hf4, hn4, ha4⟩ := hT s3 hwf2b hnd2 hi3 (hf3.trans hf2)
  refine ⟨s4, ?_, hi4, hs4.trans hs3, hf4, ?_, ?_⟩
  · simp only [SynTree.events, run, runEv, hpre, run_append, hr2, Option.some_bind, hpost]
    exact hr4
  · intro u hu
    simp only [SynTree.ptrs, List.mem_cons, List.mem_append, not_or] at hu
    rw [hn4 u hu.2.2, hn3, hn2 u hu.2.1, hfr u hu.1]
  · simp only [SynTree.events]
    refine ⟨⟨hinv, hle⟩, fun x hx => ?_⟩
    simp only [runEv] at hx
    rw [hpre] at hx
    cases hx
    have hmono : Always (insertNode G) (afterInsertNode G)
        (fun x => BInv x ∧ base ≤ x.stackIdx) bcs.events (insertComp b mb s) := by
      refine always_mono (fun y hy => ⟨hy.1, ?_⟩) _ _ ha2
      have := hy.2
      rw [hs1b] at this
      omega
    refine always_append _ _ hmono (fun y hy => ?_)
    rw [hr2] at hy
    cases hy
    refine ⟨⟨hi2, by rw [hs2, hs1b]; omega⟩, fun z hz => ?_⟩
    simp only [runEv] at hz
    rw [hpost] at hz
    cases hz
    rw [← hs3]
    exact ha4

theorem plain_block (G : Globals) {t : Nat} {cs : SynForest} {sib : SynTree}
    (hF : BuilderAllOK G cs) (hT : BuilderOK G sib) (s : State) (n : TreeNode)
    (hn : s.nodes[t]? = some n) (hnames : namesOk G n = true)
    (hfun : isFunDecl G n = false) (hcomp : isCompStmt G n = false)
    (hwf1 : wellFormedAll G s.nodes cs = true) (hwf2 : wellFormed G s.nodes sib = true)
    (hnd : (SynTree.node t cs sib).ptrs.Nodup) (hinv : BInv s)
    (hflag : s.preserveLastScope = false) :
    RunsBalanced G (SynTree.node t cs sib).events (SynTree.node t cs sib).ptrs s := by
  simp only [SynTree.ptrs, List.nodup_cons, List.mem_append, not_or, List.nodup_append] at hnd
  obtain ⟨⟨ht1, ht2⟩, hnd1, hnd2, hdisj⟩ := hnd
  obtain ⟨s1, hpre, hq1⟩ := quiet_insertNode_plain G hinv hn hnames hfun hcomp
  obtain ⟨hfr, n0, m0, hn0, hm0, hshape⟩ := insertNode_frame hpre
  rw [hn] at hn0
  cases hn0
  have hwf1b : wellFormedAll G s1.nodes cs = true := by
    rw [wellFormedAll_congr G cs (fun u hu => hfr u (fun e => ht1 (e ▸ hu)))]
    exact hwf1
  obtain ⟨s2, hr2, hi2, hs2, hf2, hn2, ha2⟩ :=
    hF s1 hwf1b hnd1 hq1.1 (hq1.2.2.2.1.trans hflag)
  have ht2n : s2.nodes[t]? = some m0 := by rw [hn2 t ht1]; exact hm0
  have hnc : ¬ (m0.nodekind = .StmtK ∧ m0.kind = G.CompK) := by
    rw [sameShape_comp G hshape]
    simpa [isCompStmt] using hcomp
  have hpost : afterInsertNode G t s2 = some s2 := afterInsertNode_plain G ht2n hnc
  have hwf2b : wellFormed G s2.nodes sib = true := by
    rw [wellFormed_congr G sib (fun u hu => ?_)]
    · exact hwf2
    · rw [hn2 u (fun hu1 => hdisj hu1 hu), hfr u (fun e => ht2 (e ▸ hu))]
  obtain ⟨s3, hr3, hi3, hs3, hf3, hn3, ha3⟩ := hT s2 hwf2b hnd2 hi2 hf2
  have hs21 : s2.stackIdx = s.stackIdx := hs2.trans hq1.2.2.1
  refine ⟨s3, ?_, hi3, hs3.trans hs21, hf3, ?_, ?_⟩
  · simp only [SynTree.events, run, runEv, hpre, run_append, hr2, Option.some_bind, hpost]
    exact hr3
  · intro u hu
    simp only [SynTree.ptrs, List.mem_cons, List.mem_append, not_or] at hu
    rw [hn3 u hu.2.2, hn2 u hu.2.1, hfr u hu.1]
  · simp only [SynTree.events]
    refine ⟨⟨hinv, le_refl _⟩, fun x hx => ?_⟩
    simp only [runEv] at hx
    rw [hpre] at hx
    cases hx
    have hmono : Always (insertNode G) (afterInsertNode G)
        (fun x => BInv x ∧ s.stackIdx ≤ x.stackIdx) cs.events s1 := by
      rw [← hq1.2.2.1]
      exact ha2
    refine always_append _ _ hmono (fun y hy => ?_)
    rw [hr2] at hy
    cases hy
    refine ⟨⟨hi2, by rw [hs21]⟩, fun z hz => ?_⟩
    simp only [runEv] at hz
    rw [hpost] at hz
    cases hz
    rw [← hs21]
    exact ha3

theorem run_cons (pre post : Nat → State → Option State) (e : Ev) (es : List Ev)
    (s : State) :
    run pre post (e :: es) s = (runEv pre post s e).bind (run pre post es) := by
  simp only [run]
  cases runEv pre post s e <;> rfl

theorem fun_block (G : Globals) {t b : Nat} {ps : SynTree} {bcs : SynForest} {bsib : SynTree}
    {rest : SynForest} {sib : SynTree}
    (hFb : BuilderAllOK G bcs) (hTb : BuilderOK G bsib) (hFr : BuilderAllOK G rest)
    (hTs : BuilderOK G sib) (s : State) (n mb : TreeNode)
    (hn : s.nodes[t]? = some n) (hk : n.nodekind = .DeclK ∧ n.kind = G.FunK)
    (hname : n.name.isSome = true) (hps : paramList s.nodes ps = true)
    (hb : s.nodes[b]? = some mb) (hcomp : mb.nodekind = .StmtK ∧ mb.kind = G.CompK)
    (hwfb : wellFormedAll G s.nodes bcs = true) (hwfbs : wellFormed G s.nodes bsib = true)
    (hwfr : wellFormedAll G s.nodes rest = true) (hwfs : wellFormed G s.nodes sib = true)
    (hnd : (t :: ((ps.ptrs ++ ((SynTree.node b bcs bsib).ptrs ++ rest.ptrs)) ++
      sib.ptrs)).Nodup)
    (hinv : BInv s) (hflag : s.preserveLastScope = false) :
    RunsBalanced G
      (Ev.pre t :: ((ps.events ++ ((SynTree.node b bcs bsib).events ++ rest.events)) ++
        Ev.post t :: sib.events))
      (t :: ((ps.ptrs ++ ((SynTree.node b bcs bsib).ptrs ++ rest.ptrs)) ++ sib.ptrs)) s := by
  simp only [List.nodup_cons, List.nodup_append, List.mem_append, not_or,
    List.disjoint_append_left, List.disjoint_append_right] at hnd
  obtain ⟨⟨⟨_, htB, htR⟩, htS⟩, ⟨_, ⟨hndB, hndR, hBR⟩, _, _⟩, hndS, ⟨_, hBS, hRS⟩⟩ := hnd
  have hpre0 : insertNode G t s = insertFun t n s := by
    unfold insertNode
    rw [hn]
    simp only [hk.1, hk.2, if_true]
  obtain ⟨s1, hs1, hn1, hcase⟩ := binv_insertFun hinv t n hname
  have hpre : insertNode G t s = some s1 := hpre0.trans hs1
  have hi1 : BInv s1 := by
    rcases hcase with hq | hp
    · exact hq.1
    · exact hp.1
  have hst1 : s1.stackIdx = if s1.preserveLastScope then s.stackIdx + 1 else s.stackIdx := by
    rcases hcase with hq | hp
    · rw [hq.2.2.2.1, hflag, hq.2.2.1]; rfl
    · rw [hp.2.2, hp.2.1]; rfl
  have hle1 : s.stackIdx ≤ s1.stackIdx := by
    rcases hcase with hq | hp
    · rw [hq.2.2.1]
    · rw [hp.2.1]; omega
  obtain ⟨s2, hr2, hq2, hn2, ha2⟩ := params_run G ps s1 (by rw [hn1]; exact hps) hi1
  have hn2s : s2.nodes = s.nodes := hn2.trans hn1
  obtain ⟨s3, hr3, hi3, hs3, hf3, hn3, ha3⟩ := comp_block G hFb hTb s2 mb
    (by rw [hn2s]; exact hb) hcomp (by rw [hn2s]; exact hwfb) (by rw [hn2s]; exact hwfbs)
    hndB hq2.1 s.stackIdx (by rw [hq2.2.2.1, hq2.2.2.2.1]; exact hst1) hinv.1.1
  have hwfr3 : wellFormedAll G s3.nodes rest = true := by
    rw [wellFormedAll_congr G rest (fun u hu => ?_)]
    · exact hwfr
    · rw [hn3 u (fun hu1 => hBR hu1 hu), hn2s]
  obtain ⟨s4, hr4, hi4, hs4, hf4, hn4, ha4⟩ := hFr s3 hwfr3 hndR hi3 hf3
  have ht4 : s4.nodes[t]? = some n := by rw [hn4 t htR, hn3 t htB, hn2s]; exact hn
  have hpost : afterInsertNode G t s4 = some s4 :=
    afterInsertNode_plain G ht4 (by simp [hk.1])
  have hwfs4 : wellFormed G s4.nodes sib = true := by
    rw [wellFormed_congr G sib (fun u hu => ?_)]
    · exact hwfs
    · rw [hn4 u (fun hu1 => hRS hu1 hu), hn3 u (fun hu1 => hBS hu1 hu), hn2s]
  obtain ⟨s5, hr5, hi5, hs5, hf5, hn5, ha5⟩ := hTs s4 hwfs4 hndS hi4 hf4
  have hs4s : s4.stackIdx = s.stackIdx := hs4.trans hs3
  refine ⟨s5, ?_, hi5, hs5.trans hs4s, hf5, ?_, ?_⟩
  · rw [run_cons, runEv, hpre, Option.some_bind, run_append, run_append, hr2,
      Option.some_bind, run_append, hr3, Option.some_bind, hr4, Option.some_bind,
      run_cons, runEv, hpost, Option.some_bind]
    exact hr5
  · intro u hu
    simp only [List.mem_cons, List.mem_append, not_or] at hu
    rw [hn5 u hu.2.2, hn4 u hu.2.1.2.2, hn3 u hu.2.1.2.1, hn2s]
  · refine ⟨⟨hinv, le_refl _⟩, fun x hx => ?_⟩
    simp only [runEv] at hx
    rw [hpre] at hx
    cases hx
    have hA2 : Always (insertNode G) (afterInsertNode G)
        (fun x => BInv x ∧ s.stackIdx ≤ x.stackIdx) ps.events s1 :=
      always_mono (fun y hy => ⟨hy.1, le_trans hle1 hy.2⟩) _ _ ha2
    have hA4 : Always (insertNode G) (afterInsertNode G)
        (fun x => BInv x ∧ s.stackIdx ≤ x.stackIdx) rest.events s3 := by
      rw [← hs3]; exact ha4
    have hA5 : Always (insertNode G) (afterInsertNode G)
        (fun x => BInv x ∧ s.stackIdx ≤ x.stackIdx) sib.events s4 := by
      rw [← hs4s]; exact ha5
    refine always_append _ _ (always_append _ _ hA2 (fun y hy => ?_)) (fun y hy => ?_)
    · rw [hr2] at hy
      cases hy
      refine always_append _ _ ha3 (fun z hz => ?_)
      rw [hr3] at hz
      cases hz
      exact hA4
    · rw [run_append, hr2, Option.some_bind, run_append, hr3, Option.some_bind, hr4] at hy
      cases hy
      refine ⟨⟨hi4, by rw [hs4s]⟩, fun z hz => ?_⟩
      simp only [runEv] at hz
      rw [hpost] at hz
      cases hz
      exact hA5

theorem synTree_size_pos (T : SynTree) : 0 < T.size := by
  cases T <;> simp [SynTree.size]

theorem synForest_size_pos (F : SynForest) : 0 < F.size := by
  cases F <;> simp [SynForest.size]

theorem builder_balanced (G : Globals) :
    ∀ N : Nat, (∀ T : SynTree, T.size ≤ N → BuilderOK G T) ∧
      (∀ F : SynForest, F.size ≤ N → BuilderAllOK G F) := by
  intro N
  induction N with
  | zero =>
    exact ⟨fun T h => absurd (synTree_size_pos T) (by omega),
      fun F h => absurd (synForest_size_pos F) (by omega)⟩
  | succ N ih =>
    constructor
    · intro T hT
      cases T with
      | null =>
        intro s _ _ hinv hflag
        exact runsBalanced_nil G hinv hflag
      | node t cs sib =>
        simp only [SynTree.size] at hT
        have hcsz := synForest_size_pos cs
        have hssz := synTree_size_pos sib
        intro s hwf hnd hinv hflag
        cases hn : s.nodes[t]? with
        | none => simp [wellFormed, hn] at hwf
        | some n =>
          simp only [wellFormed, hn, Bool.and_eq_true] at hwf
          obtain ⟨⟨hnames, hshape⟩, hwfs⟩ := hwf
          by_cases hfun : isFunDecl G n = true
          · rw [if_pos hfun] at hshape
            have hk : n.nodekind = .DeclK ∧ n.kind = G.FunK := by
              simpa [isFunDecl] using hfun
            have hname : n.name.isSome = true := by
              simpa [namesOk, hk.1, hk.2] using hnames
            cases cs with
            | nil => simp [funShape] at hshape
            | cons ps cs2 =>
              cases cs2 with
              | nil => simp [funShape] at hshape
              | cons body rest =>
                cases body with
                | null => simp [funShape] at hshape
                | node b bcs bsib =>
                  simp only [SynForest.size, SynTree.size] at hT
                  have h1 := synForest_size_pos bcs
                  have h2 := synTree_size_pos bsib
                  have h3 := synForest_size_pos rest
                  have h4 := synTree_size_pos ps
                  cases hb : s.nodes[b]? with
                  | none => simp [funShape, hb] at hshape
                  | some mb =>
                    simp only [funShape, hb, Bool.and_eq_true] at hshape
                    obtain ⟨⟨⟨⟨hps, hcomp⟩, hwfb⟩, hwfbs⟩, hwfr⟩ := hshape
                    exact fun_block G (ih.2 bcs (by omega)) (ih.1 bsib (by omega))
                      (ih.2 rest (by omega)) (ih.1 sib (by omega)) s n mb hn hk hname hps hb
                      (by simpa [isCompStmt] using hcomp) hwfb hwfbs hwfr hwfs hnd hinv hflag
          · have hfun2 : isFunDecl G n = false := by simpa using hfun
            rw [if_neg hfun] at hshape
            by_cases hcomp : isCompStmt G n = true
            · obtain ⟨s1, hr, hi, hs, hf, hfr, ha⟩ := comp_block G (ih.2 cs (by omega))
                (ih.1 sib (by omega)) s n hn (by simpa [isCompStmt] using hcomp) hshape hwfs
                hnd hinv s.stackIdx (by rw [hflag]; rfl) hinv.1.1
              exact ⟨s1, hr, hi, hs, hf, hfr, ha⟩
            · exact plain_block G (ih.2 cs (by omega)) (ih.1 sib (by omega)) s n hn hnames
                hfun2 (by simpa using hcomp) hshape hwfs hnd hinv hflag
    · intro F hF
      cases F with
      | nil =>
        intro s _ _ hinv hflag
        exact runsBalanced_nil G hinv hflag
      | cons c cs =>
        simp only [SynForest.size] at hF
        have h1 := synTree_size_pos c
        have h2 := synForest_size_pos cs
        intro s hwf hnd hinv hflag
        simp only [wellFormedAll, Bool.and_eq_true] at hwf
        simp only [SynForest.ptrs, List.nodup_append] at hnd
        obtain ⟨hnd1, hnd2, hdisj⟩ := hnd
        refine runsBalanced_append G (ih.1 c (by omega) s hwf.1 hnd1 hinv hflag) ?_
        intro s1 hi1 _ hf1 hfr
        refine ih.2 cs (by omega) s1 ?_ hnd2 hi1 hf1
        rw [wellFormedAll_congr G cs (fun u hu => hfr u (fun hu1 => hdisj hu1 hu))]
        exact hwf.2

/-! ## The start of the Builder pass -/

theorem modifyNode_alloc (s : State) (x : TreeNode) (f : TreeNode → TreeNode) :
    modifyNode (allocNode s x).1 (allocNode s x).2 f = some (s.addNodes [f x]) := by
  simp [modifyNode, allocNode, State.setNode, State.addNodes]

theorem addNodes_addNodes (s : State) (a b : List TreeNode) :
    (s.addNodes a).addNodes b = s.addNodes (a ++ b) := by
  simp [State.addNodes]

theorem insertBuiltinFunc_eq (G : Globals) (s : State) :
    insertBuiltinFunc G s =
      (st_insert
        (s.addNodes (builtinNodes G s.lineno s.nodes.length "input" .Integer none .Void))
        "input" (-1) s.location (some (s.nodes.length + 2))).bind
      (fun b => st_insert
        (b.addNodes (builtinNodes G b.lineno b.nodes.length "output" .Void (some "arg")
          .Integer))
        "output" (-1) b.location (some (b.nodes.length + 2))) := by
  simp only [insertBuiltinFunc, newParamNode, newStmtNode, newDeclNode, modifyNode_alloc,
    bind, Option.bind, addNodes_addNodes]
  simp [builtinNodes, allocNode, State.addNodes]

theorem builderStart_spec (G : Globals) (s : State) (h0 : s.stackIdx = 0)
    (h1 : s.stack (-1) = none) (hrec : RecOK s) :
    ∃ s0, builderStart G s = some s0 ∧ BInv s0 ∧ s0.stackIdx = 1 ∧
      s0.preserveLastScope = s.preserveLastScope ∧
      s0.stack 0 = some s.scopes.length ∧
      s0.nodes = s.nodes ++ (builtinNodes G s.lineno s.nodes.length "input" .Integer none .Void ++
        builtinNodes G s.lineno (s.nodes.length + 3) "output" .Void (some "arg") .Integer) ∧
      s0.listing = s.listing ∧ s0.Error = s.Error ∧
      s0.scopes.length = s.scopes.length + 1 ∧
      BuiltinsIn G s0 s.scopes.length s.nodes.length s.lineno := by
  obtain ⟨gsc, hgsc⟩ : ∃ gsc : ScopeListRec, gsc =
      { scopeName := some "<GLOBAL>", nestedLevel := s.stackIdx, hashTable := fun _ => [],
        parent := scTop s } := ⟨_, rfl⟩
  obtain ⟨sA, hsA⟩ : ∃ sA : State, sA = scPush
      { (scCreate s (some "<GLOBAL>")).1 with
        globalScope := (scCreate s (some "<GLOBAL>")).2, location := 0 }
      (scCreate s (some "<GLOBAL>")).2 := ⟨_, rfl⟩
  have hstart : builderStart G s = insertBuiltinFunc G sA := by rw [hsA]; rfl
  have htopA : ∀ l, scTop (sA.addNodes l) = some s.scopes.length := by
    intro l
    rw [hsA]
    show (if s.stackIdx + 1 - 1 = s.stackIdx then some s.scopes.length else _) = _
    rw [if_pos (by omega)]
  have hscA : ∀ l, (sA.addNodes l).scopes[s.scopes.length]? = some gsc := by
    intro l
    rw [hsA, hgsc]
    show (s.scopes ++ [_])[s.scopes.length]? = _
    simp
  have hparent : gsc.parent = none := by
    rw [hgsc]
    show s.stack (s.stackIdx - 1) = none
    rw [h0]
    exact h1
  have hfind0 : ∀ n, gsc.find n = none := by
    intro n; rw [hgsc]; rfl
  have hinvA : BInv sA := by
    rw [hsA]
    refine ⟨⟨?_, ?_, ?_⟩, ?_, recOK_of_scopes (recOK_scCreate hrec (some "<GLOBAL>")) rfl⟩
    · show 0 < s.stackIdx + 1
      omega
    · show (if (-1 : Int) = s.stackIdx then _ else s.stack (-1)) = none
      rw [if_neg (by omega)]
      exact h1
    · intro i hi hlt
      have hlt2 : i < s.stackIdx + 1 := hlt
      have hi0 : i = s.stackIdx := by omega
      refine ⟨s.scopes.length, gsc, ?_, ?_, ?_, ?_⟩
      · show (if i = s.stackIdx then some s.scopes.length else _) = _
        rw [if_pos hi0]
      · rw [hgsc]
        show (s.scopes ++ [_])[s.scopes.length]? = _
        simp
      · rw [hparent]
        show none = (if i - 1 = s.stackIdx then _ else s.stack (i - 1))
        rw [if_neg (by omega), hi0, h0]
        exact h1.symm
      · rw [hgsc, hi0]
    · show (0 : Int) = s.stackIdx + 1 - 1
      omega
  obtain ⟨l1, hl1⟩ : ∃ l1, l1 =
      builtinNodes G s.lineno s.nodes.length "input" .Integer none .Void := ⟨_, rfl⟩
  obtain ⟨l2, hl2⟩ : ∃ l2, l2 =
      builtinNodes G s.lineno (s.nodes.length + 3) "output" .Void (some "arg") .Integer :=
    ⟨_, rfl⟩
  obtain ⟨g1, hg1⟩ : ∃ g1, g1 = gsc.setBucket (hash "input")
      (builtinRecord "input" (s.nodes.length + 2) :: gsc.hashTable (hash "input")) := ⟨_, rfl⟩
  obtain ⟨g2, hg2⟩ : ∃ g2, g2 = g1.setBucket (hash "output")
      (builtinRecord "output" (s.nodes.length + 5) :: g1.hashTable (hash "output")) :=
    ⟨_, rfl⟩
  have e1 : st_insert (sA.addNodes l1) "input" (-1) sA.location (some (sA.nodes.length + 2)) =
      some ((sA.addNodes l1).setScope s.scopes.length g1) := by
    rw [hg1]
    have hnl : sA.nodes.length = s.nodes.length := by rw [hsA]; rfl
    have hloc : sA.location = 0 := by rw [hsA]; rfl
    rw [hnl, hloc]
    exact st_insert_eq (-1) 0 (some (s.nodes.length + 2)) (htopA l1) (hscA l1) (hfind0 _)
  obtain ⟨sB, hsB⟩ : ∃ sB, sB = (sA.addNodes l1).setScope s.scopes.length g1 := ⟨_, rfl⟩
  have hsBn : sB.nodes.length = s.nodes.length + 3 := by
    rw [hsB, hl1, hsA]
    show (s.nodes ++ _).length = _
    simp [builtinNodes]
  have hsBlin : sB.lineno = s.lineno := by rw [hsB, hsA]; rfl
  have hslt : s.scopes.length < (sA.addNodes l1).scopes.length := by
    rw [hsA]
    show s.scopes.length < (s.scopes ++ [_]).length
    simp
  have hscB : ∀ l, (sB.addNodes l).scopes[s.scopes.length]? = some g1 := by
    intro l
    rw [hsB]
    show ((sA.addNodes l1).scopes.set s.scopes.length g1)[s.scopes.length]? = _
    rw [List.getElem?_set_self hslt]
  have hg1out : g1.find "output" = none := by
    rw [hg1, find_setBucket_cons_ne gsc "input" "output" _ rfl (by decide)]
    exact hfind0 _
  have e2 : st_insert (sB.addNodes l2) "output" (-1) sB.location (some (sB.nodes.length + 2)) =
      some ((sB.addNodes l2).setScope s.scopes.length g2) := by
    rw [hg2, hsBn]
    have hloc : sB.location = 0 := by rw [hsB, hsA]; rfl
    rw [hloc]
    have htopB : scTop (sB.addNodes l2) = some s.scopes.length := by
      rw [hsB]; exact htopA l1
    exact st_insert_eq (-1) 0 (some (s.nodes.length + 3 + 2)) htopB (hscB l2) hg1out
  have hfinal : builderStart G s = some ((sB.addNodes l2).setScope s.scopes.length g2) := by
    rw [hstart, insertBuiltinFunc_eq]
    have hAl : sA.lineno = s.lineno := by rw [hsA]; rfl
    have hAn : sA.nodes.length = s.nodes.length := by rw [hsA]; rfl
    rw [hAl]
    rw [hAn] at e1 ⊢
    rw [← hl1, e1, Option.some_bind, ← hsB, hsBlin, hsBn, ← hl2]
    rw [hsBn] at e2
    exact e2
  have hiA1 : BInv (sA.addNodes l1) := hinvA
  obtain ⟨x1, hx1, hq1, _⟩ := quiet_st_insert hiA1 "input" (-1) (some (sA.nodes.length + 2))
  have hxB : x1 = sB := by
    have := hx1.symm.trans e1
    rw [hsB]
    exact Option.some.inj this
  subst hxB
  have hiB2 : BInv (x1.addNodes l2) := hq1.1
  obtain ⟨x2, hx2, hq2, _⟩ := quiet_st_insert hiB2 "output" (-1) (some (x1.nodes.length + 2))
  have hxF : x2 = (x1.addNodes l2).setScope s.scopes.length g2 :=
    Option.some.inj (hx2.symm.trans e2)
  have hg2 : g2.parent = none ∧
      g2.find "input" = some (builtinRecord "input" (s.nodes.length + 2)) ∧
      g2.find "output" = some (builtinRecord "output" (s.nodes.length + 5)) := by
    refine ⟨by rw [hg2, hg1]; exact hparent, ?_, ?_⟩
    · rw [hg2, find_setBucket_cons_ne g1 "output" "input" _ rfl (by decide), hg1,
        find_setBucket_same]
      simp [chainFind, builtinRecord]
    · rw [hg2, find_setBucket_same]
      simp [chainFind, builtinRecord]
  have hnodes : ((x1.addNodes l2).setScope s.scopes.length g2).nodes =
      s.nodes ++ (l1 ++ l2) := by
    rw [hsB, hsA]
    show (s.nodes ++ l1) ++ l2 = _
    rw [List.append_assoc]
  refine ⟨_, hfinal, hxF ▸ hq2.1, ?_, ?_, ?_, ?_, ?_, ?_, ?_, ?_, ?_, ?_⟩
  · rw [hsB, hsA]
    show s.stackIdx + 1 = 1
    omega
  · rw [hsB, hsA]; rfl
  · rw [hsB, hsA]
    show (if (0 : Int) = s.stackIdx then some s.scopes.length else _) = _
    rw [if_pos h0.symm]
  · rw [hnodes, hl1, hl2]
  · rw [hsB, hsA]; rfl
  · rw [hsB, hsA]; rfl
  · rw [hsB, hsA]
    simp [State.setScope, State.addNodes, scPush, scCreate]
  · rw [hsB, hsA]; rfl
  · refine ⟨g2, ?_, hg2.1, ⟨_, hg2.2.1, rfl⟩, ⟨_, hg2.2.2, rfl⟩⟩
    rw [setScope_scopes_getElem?, if_pos rfl]
    show (x1.scopes[s.scopes.length]?).map _ = _
    rw [hsB, setScope_scopes_getElem?, if_pos rfl, hscA l1]
    rfl
  · intro i hi
    rw [hnodes, List.getElem?_append_right (by omega), ← hl1, ← hl2]
    congr 1
    omega

/-! ## Trees in a grown heap -/

mutual
theorem represents_ptrs (G : Globals) {nodes : List TreeNode} :
    ∀ (T : SynTree) (p : Ptr), represents G nodes p T = true →
      ∀ u ∈ T.ptrs, u < nodes.length
  | .null, _, _ => by simp [SynTree.ptrs]
  | .node u cs sib, none, h => by simp [represents] at h
  | .node u cs sib, some t, h => by
    cases hn : nodes[t]? with
    | none => simp [represents, hn] at h
    | some n =>
      simp only [represents, hn, Bool.and_eq_true, decide_eq_true_eq] at h
      obtain ⟨⟨htu, hcs⟩, hsib⟩ := h
      subst htu
      intro v hv
      simp only [SynTree.ptrs, List.mem_cons, List.mem_append] at hv
      rcases hv with rfl | hv | hv
      · by_contra hge
        rw [List.getElem?_eq_none (by omega)] at hn
        cases hn
      · exact representsAll_ptrs G cs _ hcs v hv
      · exact represents_ptrs G sib _ hsib v hv
theorem representsAll_ptrs (G : Globals) {nodes : List TreeNode} :
    ∀ (F : SynForest) (ps : List Ptr), representsAll G nodes ps F = true →
      ∀ u ∈ F.ptrs, u < nodes.length
  | .nil, _, _ => by simp [SynForest.ptrs]
  | .cons c cs, [], h => by simp [representsAll] at h
  | .cons c cs, p :: ps, h => by
    simp only [representsAll, Bool.and_eq_true] at h
    intro v hv
    simp only [SynForest.ptrs, List.mem_append] at hv
    rcases hv with hv | hv
    · exact represents_ptrs G c p h.1 v hv
    · exact representsAll_ptrs G cs ps h.2 v hv
end

mutual
theorem represents_append (G : Globals) {nodes : List TreeNode} (l : List TreeNode) :
    ∀ (T : SynTree) (p : Ptr), represents G nodes p T = true →
      represents G (nodes ++ l) p T = true
  | .null, none, _ => by simp [represents]
  | .null, some _, h => by simp [represents] at h
  | .node u cs sib, none, h => by simp [represents] at h
  | .node u cs sib, some t, h => by
    cases hn : nodes[t]? with
    | none => simp [represents, hn] at h
    | some n =>
      have ht : t < nodes.length := by
        by_contra hge
        rw [List.getElem?_eq_none (by omega)] at hn
        cases hn
      simp only [represents, hn, Bool.and_eq_true, decide_eq_true_eq] at h
      simp only [represents, List.getElem?_append_left ht, hn, Bool.and_eq_true,
        decide_eq_true_eq]
      exact ⟨⟨h.1.1, representsAll_append G l cs _ h.1.2⟩, represents_append G l sib _ h.2⟩
theorem representsAll_append (G : Globals) {nodes : List TreeNode} (l : List TreeNode) :
    ∀ (F : SynForest) (ps : List Ptr), representsAll G nodes ps F = true →
      representsAll G (nodes ++ l) ps F = true
  | .nil, [], _ => by simp [representsAll]
  | .nil, _ :: _, h => by simp [representsAll] at h
  | .cons c cs, [], h => by simp [representsAll] at h
  | .cons c cs, p :: ps, h => by
    simp only [representsAll, Bool.and_eq_true] at h ⊢
    exact ⟨represents_append G l c p h.1, representsAll_append G l cs ps h.2⟩
end

theorem wellFormed_append (G : Globals) {nodes : List TreeNode} (l : List TreeNode)
    {T : SynTree} {p : Ptr} (hrep : represents G nodes p T = true) :
    wellFormed G (nodes ++ l) T = wellFormed G nodes T :=
  wellFormed_congr G T (fun u hu =>
    List.getElem?_append_left (represents_ptrs G T p hrep u hu))

/-! ## The Builder pass as a whole -/

theorem builder_pass (G : Globals) (T : SynTree) (t : Ptr) (s : State) (fuel : Nat)
    (hrep : represents G s.nodes t T = true) (hfuel : T.depth ≤ fuel)
    (hwf : wellFormed G s.nodes T = true) (hnd : T.ptrs.Nodup)
    (h0 : s.stackIdx = 0) (h1 : s.stack (-1) = none) (hrec : RecOK s)
    (hflag : s.preserveLastScope = false) :
    ∃ s0 s1, builderStart G s = some s0 ∧ BInv s0 ∧ s0.stackIdx = 1 ∧
      s0.listing = s.listing ∧ s0.Error = s.Error ∧
      BuiltinsIn G s0 s.scopes.length s.nodes.length s.lineno ∧
      run (insertNode G) (afterInsertNode G) T.events s0 = some s1 ∧
      BInv s1 ∧ s1.stackIdx = 1 ∧ s1.preserveLastScope = false ∧
      (∀ u : Nat, u ∉ T.ptrs → s1.nodes[u]? = s0.nodes[u]?) ∧
      Always (insertNode G) (afterInsertNode G) (fun x => BInv x ∧ 1 ≤ x.stackIdx)
        T.events s0 ∧
      buildSymtab G fuel t s = some (scPop s1) := by
  obtain ⟨s0, hs0, hi0, hst0, hfl0, _, hn0, hl0, he0, _, hb0⟩ :=
    builderStart_spec G s h0 h1 hrec
  have hrep0 : represents G s0.nodes t T = true := by
    rw [hn0]; exact represents_append G _ T t hrep
  have hwf0 : wellFormed G s0.nodes T = true := by
    rw [hn0, wellFormed_append G _ hrep]; exact hwf
  obtain ⟨s1, hr1, hi1, hs1, hf1, hfr1, ha1⟩ :=
    (builder_balanced G T.size).1 T (le_refl _) s0 hwf0 hnd hi0 (hfl0.trans hflag)
  refine ⟨s0, s1, hs0, hi0, hst0, hl0, he0, hb0, hr1, hi1, hs1.trans hst0, hf1, hfr1, ?_, ?_⟩
  · rw [← hst0]; exact ha1
  · unfold buildSymtab
    rw [hs0]
    simp only
    rw [traverse_eq_run G (insertNode_keepsLinks G) (afterInsertNode_keepsLinks G) T fuel t s0
      hrep0 hfuel, hr1]

/-! ## The visitor calls of the Type-Checking pass -/

theorem onlyTypes_refl (a : List TreeNode) : OnlyTypes a a := fun _ => rfl

theorem onlyTypes_trans {a b c : List TreeNode} (h1 : OnlyTypes a b) (h2 : OnlyTypes b c) :
    OnlyTypes a c := fun t => (h1 t).trans (h2 t)

theorem onlyTypes_set {nodes : List TreeNode} {t : Nat} {n : TreeNode} (ty : ExpType)
    (hn : nodes[t]? = some n) : OnlyTypes (nodes.set t { n with type := ty }) nodes := by
  intro u
  rw [getElem?_set_nodes]
  by_cases hu : t = u
  · subst hu
    rw [if_pos rfl, hn]
    rfl
  · rw [if_neg hu]

theorem onlyTypes_node {a b : List TreeNode} (h : OnlyTypes a b) {t : Nat} {n : TreeNode}
    (hn : b[t]? = some n) :
    ∃ m, a[t]? = some m ∧ m.nodekind = n.nodekind ∧ m.kind = n.kind ∧
      m.child = n.child ∧ m.sibling = n.sibling := by
  have ht := h t
  rw [hn] at ht
  cases ha : a[t]? with
  | none => rw [ha] at ht; cases ht
  | some m =>
    rw [ha] at ht
    simp only [Option.map_some', Option.some.injEq, TreeNode.mk.injEq] at ht
    exact ⟨m, rfl, ht.2.2.2.1, ht.2.2.2.2.1, ht.1, ht.2.1⟩

theorem checkQuiet_refl (s : State) : CheckQuiet s s :=
  ⟨rfl, rfl, rfl, onlyTypes_refl _, rfl, rfl, rfl⟩

theorem checkQuiet_typeError (s : State) (n : TreeNode) (m : String) :
    CheckQuiet s (typeError s n m) :=
  ⟨rfl, rfl, rfl, onlyTypes_refl _, rfl, rfl, rfl⟩

theorem checkQuiet_setType {s : State} {t : Nat} {n : TreeNode} (ty : ExpType)
    (hn : s.nodes[t]? = some n) : CheckQuiet s (s.setNode t { n with type := ty }) :=
  ⟨rfl, rfl, rfl, onlyTypes_set ty hn, rfl, rfl, rfl⟩

theorem checkQuiet_trans {a b c : State} (h1 : CheckQuiet a b) (h2 : CheckQuiet b c) :
    CheckQuiet a c :=
  ⟨h2.1.trans h1.1, h2.2.1.trans h1.2.1, h2.2.2.1.trans h1.2.2.1,
    onlyTypes_trans h2.2.2.2.1 h1.2.2.2.1, h2.2.2.2.2.1.trans h1.2.2.2.2.1,
    h2.2.2.2.2.2.1.trans h1.2.2.2.2.2.1, h2.2.2.2.2.2.2.trans h1.2.2.2.2.2.2⟩

theorem checkArgs_quiet (s : State) (n : TreeNode) :
    ∀ (fuel : Nat) (a p : Ptr) (s1 : State), checkArgs s n fuel a p = some s1 →
      CheckQuiet s s1 := by
  intro fuel
  induction fuel with
  | zero =>
    intro a p s1 h
    cases a with
    | none => simp only [checkArgs] at h; cases h; exact checkQuiet_refl s
    | some x =>
      cases p with
      | none => simp only [checkArgs] at h; cases h; exact checkQuiet_typeError _ _ _
      | some y => simp [checkArgs] at h
  | succ k ih =>
    intro a p s1 h
    cases a with
    | none => simp only [checkArgs] at h; cases h; exact checkQuiet_refl s
    | some x =>
      cases p with
      | none => simp only [checkArgs] at h; cases h; exact checkQuiet_typeError _ _ _
      | some y =>
        simp only [checkArgs] at h
        split at h
        · split at h
          · cases h; exact checkQuiet_typeError _ _ _
          · split at h
            · cases h; exact checkQuiet_typeError _ _ _
            · exact ih _ _ _ h
        · cases h

theorem checkId_quiet {G : Globals} {t : Nat} {n : TreeNode} {s s1 : State}
    (hn : s.nodes[t]? = some n) (h : checkId G t n s = some s1) : CheckQuiet s s1 := by
  unfold checkId at h
  repeat' split at h
  all_goals
    cases h <;> first
      | exact checkQuiet_refl _
      | exact checkQuiet_typeError _ _ _
      | exact checkQuiet_setType _ hn

theorem checkCall_quiet {G : Globals} {t : Nat} {n : TreeNode} {s s1 : State}
    (hn : s.nodes[t]? = some n) (h : checkCall G t n s = some s1) : CheckQuiet s s1 := by
  unfold checkCall at h
  split at h
  · cases h
  · split at h
    · cases h
    · cases h
    · split at h
      · cases h; exact checkQuiet_refl _
      · split at h
        · cases h
        · dsimp only at h
          split at h
          · cases h; exact checkQuiet_typeError _ _ _
          · split at h
            · cases h
            · rename_i x hx
              have hq1 : CheckQuiet s x := by
                repeat' split at hx
                all_goals
                  cases hx <;> exact checkQuiet_refl _
              split at h
              · cases h
              · rename_i y hy
                cases h
                have hq2 := checkArgs_quiet _ _ _ _ _ _ hy
                have hq := checkQuiet_trans hq1 hq2
                obtain ⟨m, hm, _⟩ := onlyTypes_node hq.2.2.2.1 hn
                refine ⟨hq.1, hq.2.1, hq.2.2.1, ?_, hq.2.2.2.2.1, hq.2.2.2.2.2.1, hq.2.2.2.2.2.2⟩
                refine onlyTypes_trans ?_ hq.2.2.2.1
                intro u
                show ((y.nodes.set t _)[u]?).map _ = _
                rw [getElem?_set_nodes]
                by_cases hu : t = u
                · subst hu
                  rw [if_pos rfl]
                  have := hq.2.2.2.1 t
                  rw [hn] at this
                  rw [hm] at this ⊢
                  simp only [Option.map_some', Option.some.injEq] at this ⊢
                  rw [this]
                · rw [if_neg hu]

theorem checkRet_quiet {n : TreeNode} {s s1 : State}
    (h : checkRet n s = some s1) : CheckQuiet s s1 := by
  unfold checkRet at h
  dsimp only at h
  repeat' split at h
  all_goals
    cases h <;> exact ⟨rfl, rfl, rfl, onlyTypes_refl _, rfl, rfl, rfl⟩

theorem checkExp_quiet {G : Globals} {t : Nat} {n : TreeNode} {s s1 : State}
    (hn : s.nodes[t]? = some n) (h : checkExp G t n s = some s1) : CheckQuiet s s1 := by
  unfold checkExp at h
  split at h
  · cases h; exact checkQuiet_setType _ hn
  · split at h
    · exact checkId_quiet hn h
    · split at h
      · exact checkCall_quiet hn h
      · repeat' split at h
        all_goals
          cases h <;> first
            | exact checkQuiet_refl _
            | exact checkQuiet_typeError _ _ _
            | exact checkQuiet_setType _ hn

theorem checkStmt_quiet {G : Globals} {n : TreeNode} {s s1 : State}
    (hc : ¬ n.kind = G.CompK) (h : checkStmt G n s = some s1) : CheckQuiet s s1 := by
  unfold checkStmt at h
  rw [if_neg hc] at h
  split at h
  · repeat' split at h
    all_goals
      cases h <;> exact checkQuiet_refl _
  · split at h
    · repeat' split at h
      all_goals
        cases h <;> exact checkQuiet_refl _
    · split at h
      · exact checkRet_quiet h
      · cases h; exact checkQuiet_refl _

theorem checkDecl_quiet (G : Globals) (n : TreeNode) (s : State) :
    CheckQuiet s (checkDecl G n s) := by
  unfold checkDecl
  repeat' split
  all_goals exact ⟨rfl, rfl, rfl, onlyTypes_refl _, rfl, rfl, rfl⟩

theorem checkParam_quiet (G : Globals) (n : TreeNode) (s : State) :
    CheckQuiet s (checkParam G n s) := by
  unfold checkParam
  repeat' split
  all_goals exact ⟨rfl, rfl, rfl, onlyTypes_refl _, rfl, rfl, rfl⟩

theorem checkNode_step {G : Globals} {t : Nat} {s s1 : State}
    (h : checkNode G t s = some s1) :
    ∃ n, s.nodes[t]? = some n ∧
      (if n.nodekind = .StmtK ∧ n.kind = G.CompK then s1 = scPop s else CheckQuiet s s1) := by
  unfold checkNode at h
  split at h
  · cases h
  · rename_i n hn
    refine ⟨n, hn, ?_⟩
    cases hk : n.nodekind with
    | ExpK =>
      rw [if_neg (by simp)]
      simp only [hk] at h
      exact checkExp_quiet hn h
    | StmtK =>
      simp only [hk] at h
      by_cases hc : n.kind = G.CompK
      · rw [if_pos ⟨rfl, hc⟩]
        unfold checkStmt at h
        rw [if_pos hc] at h
        cases h
        rfl
      · rw [if_neg (by simp [hc])]
        exact checkStmt_quiet hc h
    | DeclK =>
      rw [if_neg (by simp)]
      simp only [hk] at h
      cases h
      exact checkDecl_quiet G n s
    | ParamK =>
      rw [if_neg (by simp)]
      simp only [hk] at h
      cases h
      exact checkParam_quiet G n s

theorem beforeCheckNode_step {G : Globals} {t : Nat} {s s1 : State}
    (h : beforeCheckNode G t s = some s1) :
    ∃ n, s.nodes[t]? = some n ∧
      (if n.nodekind = .StmtK ∧ n.kind = G.CompK then s1 = scPush s n.scope
       else CheckQuiet s s1) := by
  unfold beforeCheckNode at h
  split at h
  · cases h
  · rename_i n hn
    refine ⟨n, hn, ?_⟩
    cases hk : n.nodekind with
    | StmtK =>
      simp only [hk] at h
      by_cases hc : n.kind = G.CompK
      · rw [if_pos ⟨rfl, hc⟩]
        rw [if_pos hc] at h
        cases h
        rfl
      · rw [if_neg (by simp [hc])]
        rw [if_neg hc] at h
        cases h
        exact checkQuiet_refl s
    | DeclK =>
      rw [if_neg (by simp)]
      simp only [hk] at h
      repeat' split at h
      all_goals
        cases h
        exact ⟨rfl, rfl, rfl, onlyTypes_refl _, rfl, rfl, rfl⟩
    | ExpK =>
      rw [if_neg (by simp)]
      simp only [hk] at h
      cases h
      exact checkQuiet_refl s
    | ParamK =>
      rw [if_neg (by simp)]
      simp only [hk] at h
      cases h
      exact checkQuiet_refl s

/-! ## The Type-Checking pass keeps the stack balanced -/

theorem checkerOK_nil (G : Globals) (s : State) : CheckerOK G [] s :=
  ⟨⟨le_refl _, rfl, onlyTypes_refl _⟩,
    fun s1 h => by cases h; exact ⟨rfl, rfl, onlyTypes_refl _⟩⟩

theorem checkerOK_append (G : Globals) {A B : List Ev} {s : State} (hA : CheckerOK G A s)
    (hB : ∀ s1, run (beforeCheckNode G) (checkNode G) A s = some s1 → CheckerOK G B s1) :
    CheckerOK G (A ++ B) s := by
  constructor
  · refine always_append A s hA.1 (fun s1 h1 => ?_)
    obtain ⟨e1, e2, e3⟩ := hA.2 s1 h1
    refine always_mono (fun x hx => ?_) _ _ (hB s1 h1).1
    exact ⟨by rw [← e1]; exact hx.1, hx.2.1.trans e2, onlyTypes_trans hx.2.2 e3⟩
  · intro s2 h2
    rw [run_append] at h2
    cases h1 : run (beforeCheckNode G) (checkNode G) A s with
    | none => rw [h1] at h2; cases h2
    | some s1 =>
      rw [h1] at h2
      obtain ⟨e1, e2, e3⟩ := hA.2 s1 h1
      obtain ⟨f1, f2, f3⟩ := (hB s1 h1).2 s2 h2
      exact ⟨f1.trans e1, f2.trans e2, onlyTypes_trans f3 e3⟩

theorem checkerOK_node (G : Globals) (t : Nat) {C S : List Ev}
    (hC : ∀ x, CheckerOK G C x) (hS : ∀ x, CheckerOK G S x) (s : State) :
    CheckerOK G (Ev.pre t :: (C ++ Ev.post t :: S)) s := by
  have key : ∀ x, beforeCheckNode G t s = some x →
      (s.stackIdx ≤ x.stackIdx ∧ x.scopes = s.scopes ∧ OnlyTypes x.nodes s.nodes) ∧
      ∀ y, run (beforeCheckNode G) (checkNode G) C x = some y →
        ∀ z, checkNode G t y = some z →
          z.stackIdx = s.stackIdx ∧ z.scopes = s.scopes ∧ OnlyTypes z.nodes s.nodes := by
    intro x hx
    obtain ⟨n, hn, hstep⟩ := beforeCheckNode_step hx
    have hx3 : x.scopes = s.scopes ∧ OnlyTypes x.nodes s.nodes ∧
        x.stackIdx = s.stackIdx + (if n.nodekind = .StmtK ∧ n.kind = G.CompK then 1 else 0) := by
      by_cases hc : n.nodekind = .StmtK ∧ n.kind = G.CompK
      · rw [if_pos hc] at hstep ⊢
        subst hstep
        exact ⟨rfl, onlyTypes_refl _, rfl⟩
      · rw [if_neg hc] at hstep ⊢
        exact ⟨hstep.1, hstep.2.2.2.1, by rw [hstep.2.2.1]; omega⟩
    refine ⟨⟨by rw [hx3.2.2]; split <;> omega, hx3.1, hx3.2.1⟩, ?_⟩
    intro y hy z hz
    obtain ⟨e1, e2, e3⟩ := (hC x).2 y hy
    obtain ⟨m, hm, hstep2⟩ := checkNode_step hz
    obtain ⟨m2, hm2, hk1, hk2, _, _⟩ := onlyTypes_node (onlyTypes_trans e3 hx3.2.1) hn
    rw [hm] at hm2
    cases hm2
    rw [hk1, hk2] at hstep2
    by_cases hc : n.nodekind = .StmtK ∧ n.kind = G.CompK
    · rw [if_pos hc] at hstep2
      subst hstep2
      refine ⟨?_, e2.trans hx3.1, onlyTypes_trans e3 hx3.2.1⟩
      show y.stackIdx - 1 = s.stackIdx
      rw [e1, hx3.2.2, if_pos hc]
      omega
    · rw [if_neg hc] at hstep2
      refine ⟨?_, (hstep2.1.trans e2).trans hx3.1,
        onlyTypes_trans hstep2.2.2.2.1 (onlyTypes_trans e3 hx3.2.1)⟩
      rw [hstep2.2.2.1, e1, hx3.2.2, if_neg hc]
      omega
  constructor
  · refine ⟨⟨le_refl _, rfl, onlyTypes_refl _⟩, fun x hx => ?_⟩
    obtain ⟨hx1, hx2⟩ := key x hx
    have hCx : Always (beforeCheckNode G) (checkNode G)
        (fun u => s.stackIdx ≤ u.stackIdx ∧ u.scopes = s.scopes ∧ OnlyTypes u.nodes s.nodes)
        C x :=
      always_mono (fun u hu => ⟨le_trans hx1.1 hu.1, hu.2.1.trans hx1.2.1,
        onlyTypes_trans hu.2.2 hx1.2.2⟩) _ _ (hC x).1
    refine always_append C x hCx (fun y hy => ?_)
    obtain ⟨e1, e2, e3⟩ := (hC x).2 y hy
    refine ⟨⟨by rw [e1]; exact hx1.1, e2.trans hx1.2.1, onlyTypes_trans e3 hx1.2.2⟩,
      fun z hz => ?_⟩
    obtain ⟨f1, f2, f3⟩ := hx2 y hy z hz
    exact always_mono (fun u hu => ⟨by rw [← f1]; exact hu.1, hu.2.1.trans f2,
      onlyTypes_trans hu.2.2 f3⟩) _ _ (hS z).1
  · intro s1 h1
    rw [run_cons] at h1
    cases hx : beforeCheckNode G t s with
    | none => simp [runEv, hx] at h1
    | some x =>
      simp only [runEv, hx, Option.some_bind] at h1
      rw [run_append] at h1
      cases hy : run (beforeCheckNode G) (checkNode G) C x with
      | none => rw [hy] at h1; cases h1
      | some y =>
        rw [hy, Option.some_bind, run_cons] at h1
        cases hz : checkNode G t y with
        | none => simp [runEv, hz] at h1
        | some z =>
          simp only [runEv, hz, Option.some_bind] at h1
          obtain ⟨f1, f2, f3⟩ := (key x hx).2 y hy z hz
          obtain ⟨g1, g2, g3⟩ := (hS z).2 s1 h1
          exact ⟨g1.trans f1, g2.trans f2, onlyTypes_trans g3 f3⟩

mutual
theorem checker_balanced (G : Globals) : ∀ (T : SynTree) (s : State), CheckerOK G T.events s
  | .null, s => checkerOK_nil G s
  | .node t cs sib, s =>
    checkerOK_node G t (fun x => checkerAll_balanced G cs x)
      (fun x => checker_balanced G sib x) s
theorem checkerAll_balanced (G : Globals) :
    ∀ (F : SynForest) (s : State), CheckerOK G F.events s
  | .nil, s => checkerOK_nil G s
  | .cons c cs, s =>
    checkerOK_append G (checker_balanced G c s) (fun s1 _ => checkerAll_balanced G cs s1)
end

theorem onlyTypes_sameLinks {a b : List TreeNode} (h : OnlyTypes a b) : SameLinks a b := by
  intro t
  have ht := h t
  cases ha : a[t]? with
  | none =>
    cases hb : b[t]? with
    | none => rfl
    | some n => rw [ha, hb] at ht; cases ht
  | some m =>
    cases hb : b[t]? with
    | none => rw [ha, hb] at ht; cases ht
    | some n =>
      rw [ha, hb] at ht
      simp only [Option.map_some', Option.some.injEq, TreeNode.mk.injEq] at ht
      simp only [Option.map_some', ht.1, ht.2.1]

theorem beforeCheckNode_keepsLinks (G : Globals) : KeepsLinks (beforeCheckNode G) := by
  intro t s s1 h
  obtain ⟨n, hn, hstep⟩ := beforeCheckNode_step h
  split at hstep
  · subst hstep; exact sameLinks_refl _
  · exact onlyTypes_sameLinks hstep.2.2.2.1

theorem checkNode_keepsLinks (G : Globals) : KeepsLinks (checkNode G) := by
  intro t s s1 h
  obtain ⟨n, hn, hstep⟩ := checkNode_step h
  split at hstep
  · subst hstep; exact sameLinks_refl _
  · exact onlyTypes_sameLinks hstep.2.2.2.1

theorem typeCheck_eq_run (G : Globals) (T : SynTree) (t : Ptr) (s : State) (fuel : Nat)
    (hrep : represents G s.nodes t T = true) (hfuel : T.depth ≤ fuel) :
    typeCheck G fuel t s =
      (run (beforeCheckNode G) (checkNode G) T.events (scPush s s.globalScope)).map scPop := by
  unfold typeCheck
  simp only
  rw [traverse_eq_run G (beforeCheckNode_keepsLinks G) (checkNode_keepsLinks G) T fuel t
    (scPush s s.globalScope) hrep hfuel]
  cases run (beforeCheckNode G) (checkNode G) T.events (scPush s s.globalScope) <;> rfl

theorem stack_depth_at_calls (G : Globals) (T : SynTree) (t : Ptr) (s : State) (fuel : Nat)
    (hrep : represents G s.nodes t T = true) (hfuel : T.depth ≤ fuel)
    (hwf : wellFormed G s.nodes T = true) (hnd : T.ptrs.Nodup)
    (h0 : s.stackIdx = 0) (h1 : s.stack (-1) = none) (hrec : RecOK s)
    (hflag : s.preserveLastScope = false) :
    ∃ s0 s1, builderStart G s = some s0 ∧ s0.stackIdx = 1 ∧
      buildSymtab G fuel t s = some s1 ∧ s1.stackIdx = 0 ∧ s1.location = 0 ∧
      (∀ A B x, T.events = A ++ B →
        run (insertNode G) (afterInsertNode G) A s0 = some x → 1 ≤ x.stackIdx) ∧
      typeCheck G fuel t s1 =
        (run (beforeCheckNode G) (checkNode G) T.events (scPush s1 s1.globalScope)).map
          scPop ∧
      (scPush s1 s1.globalScope).stackIdx = 1 ∧
      (∀ A B x, T.events = A ++ B →
        run (beforeCheckNode G) (checkNode G) A (scPush s1 s1.globalScope) = some x →
          1 ≤ x.stackIdx) ∧
      (∀ s2, typeCheck G fuel t s1 = some s2 → s2.stackIdx = 0) := by
  obtain ⟨s0, s1, hs0, hi0, hst0, _, _, _, hr1, hi1, hst1, _, _, ha1, hb1⟩ :=
    builder_pass G T t s fuel hrep hfuel hwf hnd h0 h1 hrec hflag
  have hn0 : SameLinks s1.nodes s0.nodes :=
    run_sameLinks (insertNode_keepsLinks G) (afterInsertNode_keepsLinks G) _ _ _ hr1
  obtain ⟨s0b, hs0b, _, _, _, _, hn0b, _⟩ := builderStart_spec G s h0 h1 hrec
  rw [hs0] at hs0b
  cases hs0b
  have hrep1 : represents G (scPop s1).nodes t T = true := by
    show represents G s1.nodes t T = true
    rw [represents_congr G hn0, hn0b]
    exact represents_append G _ T t hrep
  have htc := typeCheck_eq_run G T t (scPop s1) fuel hrep1 hfuel
  have hpush : (scPush (scPop s1) (scPop s1).globalScope).stackIdx = 1 := by
    show s1.stackIdx - 1 + 1 = 1
    rw [hst1]; rfl
  have hck := checker_balanced G T (scPush (scPop s1) (scPop s1).globalScope)
  refine ⟨s0, scPop s1, hs0, hst0, hb1, ?_, ?_, ?_, htc, hpush, ?_, ?_⟩
  · show s1.stackIdx - 1 = 0
    rw [hst1]; rfl
  · show s1.location = 0
    rw [hi1.2.1, hst1]; rfl
  · intro A B x hAB hx
    rw [hAB] at ha1
    exact (always_upto A B s0 x ha1 hx).2
  · intro A B x hAB hx
    have hall := hck.1
    rw [hAB] at hall
    have := (always_upto A B _ x hall hx).1
    rw [hpush] at this
    exact this
  · intro s2 h2
    rw [htc] at h2
    cases hr : run (beforeCheckNode G) (checkNode G) T.events
        (scPush (scPop s1) (scPop s1).globalScope) with
    | none => rw [hr] at h2; cases h2
    | some y =>
      rw [hr] at h2
      cases h2
      show y.stackIdx - 1 = 0
      rw [(hck.2 y hr).1, hpush]; rfl

/-! ## Lookups see only the scopes on the stack -/

theorem firstHolder_mem {s : State} {name : String} {c : List Nat} {j : Nat}
    {r : BucketListRec} (h : firstHolder s name c = some (j, r)) : j ∈ c := by
  obtain ⟨pre, post, _, hc, _⟩ := firstHolder_some h
  rw [hc]
  simp

theorem chain_head {s : State} {p : Ptr} {c : List Nat} (h : Chain s p c) :
    ∀ i, p = some i → i ∈ c := by
  cases h with
  | null => intro i hi; cases hi
  | step j sc rest _ _ =>
    intro i hi
    cases hi
    exact List.mem_cons_self _ _

theorem lookups_on_stack {s : State} (h : StackOK s) :
    (∀ name j r, st_lookup_bucket s name = some (some (j, r)) →
      j ∈ stackList s ∧ ∃ sc, s.scopes[j]? = some sc ∧ sc.find name = some r) ∧
    (∀ name, st_lookup_sc s name = some true →
      ∃ top sc, scTop s = some top ∧ top ∈ stackList s ∧ s.scopes[top]? = some sc ∧
        (sc.find name).isSome = true) ∧
    (∀ name, (∀ j ∈ stackList s, ∀ sc, s.scopes[j]? = some sc → sc.find name = none) →
      st_lookup_bucket s name = some none ∧ st_lookup s name = some (-1) ∧
      st_lookup_sc s name = some false) := by
  obtain ⟨top, sc, htop, hsc, _⟩ := stackOK_top h
  have hchain := stackList_chain h
  have htopmem : top ∈ stackList s := chain_head hchain top htop
  refine ⟨?_, ?_, ?_⟩
  · intro name j r hjr
    rw [stackOK_lookup h name] at hjr
    have hfh := Option.some.inj hjr
    obtain ⟨_, _, sc2, _, h2, h3, _⟩ := firstHolder_some hfh
    exact ⟨firstHolder_mem hfh, sc2, h2, h3⟩
  · intro name hl
    rw [st_lookup_sc_of_find name htop hsc] at hl
    exact ⟨top, sc, htop, htopmem, hsc, Option.some.inj hl⟩
  · intro name hnone
    have hb : st_lookup_bucket s name = some none := by
      rw [stackOK_lookup h name]
      congr 1
      exact firstHolder_none.2 hnone
    refine ⟨hb, st_lookup_none hb, ?_⟩
    rw [st_lookup_sc_of_find name htop hsc, hnone top htopmem sc hsc]
    rfl

theorem lookups_empty_stack {s : State} (h0 : s.stackIdx = 0) (h1 : s.stack (-1) = none)
    (name : String) :
    st_lookup_bucket s name = some none ∧ st_lookup s name = some (-1) ∧
      st_lookup_sc s name = some false := by
  have htop : scTop s = none := by
    show s.stack (s.stackIdx - 1) = none
    rw [h0]; exact h1
  have hb : st_lookup_bucket s name = some none := by
    unfold st_lookup_bucket
    rw [htop]
    cases s.scopes.length <;> rfl
  refine ⟨hb, st_lookup_none hb, ?_⟩
  unfold st_lookup_sc
  rw [htop]

theorem stackList_pop {s : State} (h : StackOK s) (h2 : 2 ≤ s.stackIdx) :
    ∃ k, scTop s = some k ∧ stackList s = k :: stackList (scPop s) ∧
      k ∉ stackList (scPop s) := by
  obtain ⟨n, hn⟩ : ∃ n : Nat, s.stackIdx = (n : Int) + 1 :=
    ⟨(s.stackIdx - 1).toNat, by omega⟩
  obtain ⟨k, sc, hk, _, _, _⟩ := h.2.2 (n : Int) (by omega) (by omega)
  have htop : scTop s = some k := by
    show s.stack (s.stackIdx - 1) = some k
    rw [hn]
    simpa using hk
  have e1 : s.stackIdx.toNat = n + 1 := by omega
  have e2 : (scPop s).stackIdx.toNat = n := by
    show (s.stackIdx - 1).toNat = n
    omega
  have hl : stackList s = k :: stackList (scPop s) := by
    unfold stackList
    rw [e1, e2]
    simp [stackBelow, List.range_succ, hk]
    rfl
  refine ⟨k, htop, hl, ?_⟩
  have hnd := chain_nodup (stackList_chain h)
  rw [hl] at hnd
  exact (List.nodup_cons.1 hnd).1

/-- C4: on a well-formed tree, from an empty scope stack: at every visitor call of the
Builder pass the scope stack is a parent chain, so that every record `st_lookup_bucket`
returns is stored in a scope that is on the scope stack, `st_lookup_sc` answers for the
top scope only, and a name held by no scope on the stack resolves to 'not found'
(`NULL`, -1, FALSE); the post-visit of a compound statement pops the top scope, which is
then nowhere on the stack; and after `buildSymtab` has returned, the stack is empty and
every lookup gives 'not found'. -/
theorem closed_scope_not_visible (G : Globals) (T : SynTree) (t : Ptr) (s : State)
    (fuel : Nat)
    (hrep : represents G s.nodes t T = true) (hfuel : T.depth ≤ fuel)
    (hwf : wellFormed G s.nodes T = true) (hnd : T.ptrs.Nodup)
    (h0 : s.stackIdx = 0) (h1 : s.stack (-1) = none) (hrec : RecOK s)
    (hflag : s.preserveLastScope = false) :
    ∃ s0 s1, builderStart G s = some s0 ∧ buildSymtab G fuel t s = some s1 ∧
      (∀ A B x, T.events = A ++ B →
        run (insertNode G) (afterInsertNode G) A s0 = some x →
        StackOK x ∧
        (∀ name j r, st_lookup_bucket x name = some (some (j, r)) →
          j ∈ stackList x ∧ ∃ sc, x.scopes[j]? = some sc ∧ sc.find name = some r) ∧
        (∀ name, st_lookup_sc x name = some true →
          ∃ top sc, scTop x = some top ∧ top ∈ stackList x ∧ x.scopes[top]? = some sc ∧
            (sc.find name).isSome = true) ∧
        (∀ name, (∀ j ∈ stackList x, ∀ sc, x.scopes[j]? = some sc → sc.find name = none) →
          st_lookup_bucket x name = some none ∧ st_lookup x name = some (-1) ∧
          st_lookup_sc x name = some false) ∧
        (∀ b n, x.nodes[b]? = some n → n.nodekind = .StmtK → n.kind = G.CompK →
          2 ≤ x.stackIdx →
          ∃ k, scTop x = some k ∧
            afterInsertNode G b x = some { scPop x with location := x.location - 1 } ∧
            stackList x = k :: stackList (scPop x) ∧ k ∉ stackList (scPop x))) ∧
      s1.stackIdx = 0 ∧
      (∀ name, st_lookup_bucket s1 name = some none ∧ st_lookup s1 name = some (-1) ∧
        st_lookup_sc s1 name = some false) := by
  obtain ⟨s0, s1, hs0, hi0, hst0, _, _, _, hr1, hi1, hst1, _, _, ha1, hb1⟩ :=
    builder_pass G T t s fuel hrep hfuel hwf hnd h0 h1 hrec hflag
  have hz : (scPop s1).stackIdx = 0 := by
    show s1.stackIdx - 1 = 0
    rw [hst1]; rfl
  refine ⟨s0, scPop s1, hs0, hb1, ?_, hz, fun name => lookups_empty_stack hz hi1.1.2.1 name⟩
  intro A B x hAB hx
  rw [hAB] at ha1
  have hx1 := (always_upto A B s0 x ha1 hx).1
  obtain ⟨l1, l2, l3⟩ := lookups_on_stack hx1.1
  refine ⟨hx1.1, l1, l2, l3, ?_⟩
  intro b n hn hk1 hk2 h2
  obtain ⟨k, hk, hl, hnot⟩ := stackList_pop hx1.1 h2
  refine ⟨k, hk, ?_, hl, hnot⟩
  unfold afterInsertNode
  rw [hn]
  simp only [hk1, hk2, and_self, if_true]
  rfl

/-- Witness for C4: after the Builder pass on `exampleRedecl` the local `y` of the first
function body is not found. -/
theorem closed_scope_not_visible_witness :
    ∃ s1, buildSymtab sampleGlobals 5 (some 0) (State.init exampleRedecl) = some s1 ∧
      st_lookup_bucket s1 "y" = some none ∧ st_lookup s1 "y" = some (-1) := by
  obtain ⟨s0, s1, _, h2, _, _, h5⟩ :=
    closed_scope_not_visible sampleGlobals exampleRedeclTree (some 0)
      (State.init exampleRedecl) 5 (by decide) (by decide) (by decide) (by decide) rfl rfl
      (fun k sc h r hsc _ => by simp [State.init] at hsc) rfl
  exact ⟨s1, h2, (h5 "y").1, (h5 "y").2.1⟩

/-- Witness for C7: the use of `y` in `return y;` of `exampleRedecl` finds the local
declaration and only adds its line. -/
theorem insertNode_use_site_witness :
    ∃ s1, insertNode sampleGlobals 5 exampleRedeclAtUse = some s1 ∧
      s1.listing = exampleRedeclAtUse.listing ∧ s1.nodes = exampleRedeclAtUse.nodes ∧
      s1.scopes.length = exampleRedeclAtUse.scopes.length := by
  obtain ⟨s1, _, _, _, h1, h2, _, h4, _, _, _, _, _, h10, _⟩ :=
    (insertNode_use_site sampleGlobals exampleRedeclAtUse 5 _ "y" 1 _
      (by rfl) (by decide) (by decide) (by decide) (by decide) (by rfl)).2 1
      { name := "y", treeNode := some 3, lines := [1], memloc := 1 }
      (by decide) (by decide) (by decide)
  exact ⟨s1, h1, h2, h4, h10⟩

/-! ## Records persist through the Builder pass -/

theorem persist_refl (s : State) : Persist s s :=
  ⟨rfl, fun _ sc hsc => ⟨sc, hsc, rfl, fun _ r hr => ⟨r, hr, rfl, rfl, rfl⟩⟩⟩

theorem persist_trans {a b c : State} (h1 : Persist a b) (h2 : Persist b c) : Persist a c := by
  refine ⟨h2.1.trans h1.1, fun k sc hsc => ?_⟩
  obtain ⟨sc1, hsc1, hp1, hf1⟩ := h1.2 k sc hsc
  obtain ⟨sc2, hsc2, hp2, hf2⟩ := h2.2 k sc1 hsc1
  refine ⟨sc2, hsc2, hp2.trans hp1, fun name r hr => ?_⟩
  obtain ⟨r1, hr1, a1, a2, a3⟩ := hf1 name r hr
  obtain ⟨r2, hr2, b1, b2, b3⟩ := hf2 name r1 hr1
  exact ⟨r2, hr2, b1.trans a1, b2.trans a2, b3.trans a3⟩

theorem persist_of_eq {s s1 : State} (h1 : s1.scopes = s.scopes)
    (h2 : s1.globalScope = s.globalScope) : Persist s s1 :=
  ⟨h2, fun _ sc hsc => ⟨sc, by rw [h1]; exact hsc, rfl, fun _ r hr => ⟨r, hr, rfl, rfl, rfl⟩⟩⟩

theorem persist_setScope {s : State} {i : Nat} {sc x : ScopeListRec}
    (hsc : s.scopes[i]? = some sc) (hp : x.parent = sc.parent)
    (hx : ∀ name r, sc.find name = some r →
      ∃ r1, x.find name = some r1 ∧ r1.treeNode = r.treeNode ∧ r1.memloc = r.memloc ∧
        r1.name = r.name) :
    Persist s (s.setScope i x) := by
  refine ⟨rfl, fun k sc2 hsc2 => ?_⟩
  rw [setScope_scopes_getElem?]
  by_cases hk : i = k
  · subst hk
    rw [hsc] at hsc2
    cases hsc2
    exact ⟨x, by rw [if_pos rfl, hsc]; rfl, hp, hx⟩
  · exact ⟨sc2, by rw [if_neg hk]; exact hsc2, rfl, fun _ r hr => ⟨r, hr, rfl, rfl, rfl⟩⟩

theorem persist_st_insert {s s1 : State} {name : String} {lineno loc : Int} {node : Ptr}
    (h : st_insert s name lineno loc node = some s1) : Persist s s1 := by
  unfold st_insert at h
  dsimp only at h
  split at h
  · cases h
  · split at h
    · cases h
    · rename_i sc hsc
      split at h
      · rename_i hnone
        cases h
        refine persist_setScope hsc rfl (fun n r hr => ?_)
        have hne : n ≠ name := by
          intro e
          subst e
          unfold ScopeListRec.find at hr
          rw [hnone] at hr
          cases hr
        exact ⟨r, by rw [find_setBucket_cons_ne sc name n _ rfl hne]; exact hr, rfl, rfl, rfl⟩
      · cases h
        exact persist_of_eq rfl rfl

theorem chainFind_chainUpdate_same (name : String) (f : BucketListRec → BucketListRec)
    (hf : ∀ x, (f x).name = x.name) (l : List BucketListRec) :
    chainFind name (chainUpdate name f l) = (chainFind name l).map f := by
  induction l with
  | nil => rfl
  | cons a t ih =>
    by_cases hn : name = a.name
    · simp only [chainUpdate, chainFind, if_pos hn]
      rw [if_pos (by rw [hf]; exact hn)]
      rfl
    · simp only [chainUpdate, chainFind, if_neg hn]
      exact ih

theorem chainFind_chainUpdate_ne {name n : String} (hne : n ≠ name)
    (f : BucketListRec → BucketListRec) (hf : ∀ x, (f x).name = x.name)
    (l : List BucketListRec) :
    chainFind n (chainUpdate name f l) = chainFind n l := by
  induction l with
  | nil => rfl
  | cons a t ih =>
    by_cases hn : name = a.name
    · simp only [chainUpdate, if_pos hn, chainFind]
      have h1 : ¬ n = a.name := fun e => hne (e.trans hn.symm)
      rw [if_neg (by rw [hf]; exact h1), if_neg h1]
    · simp only [chainUpdate, if_neg hn, chainFind, ih]

theorem persist_st_add_lineno {s s1 : State} {name : String} {lineno : Int}
    (h : st_add_lineno s name lineno = some s1) : Persist s s1 := by
  unfold st_add_lineno at h
  split at h
  · cases h
  · cases h
  · split at h
    · cases h
    · split at h
      · cases h
      · rename_i sc hsc
        dsimp only at h
        cases h
        refine persist_setScope hsc rfl (fun n r hr => ?_)
        unfold ScopeListRec.find at hr ⊢
        simp only [ScopeListRec.setBucket]
        by_cases hn : n = name
        · subst hn
          rw [if_pos rfl, chainFind_chainUpdate_same n
            (fun l => { l with lines := l.lines ++ [lineno] }) (fun _ => rfl), hr]
          exact ⟨_, rfl, rfl, rfl, rfl⟩
        · by_cases hh : hash n = hash name
          · rw [if_pos hh, chainFind_chainUpdate_ne hn
              (fun l => { l with lines := l.lines ++ [lineno] }) (fun _ => rfl), ← hh]
            exact ⟨r, hr, rfl, rfl, rfl⟩
          · rw [if_neg hh]
            exact ⟨r, hr, rfl, rfl, rfl⟩

theorem persist_scCreate (s : State) (name : Option String) :
    Persist s (scCreate s name).1 := by
  refine ⟨rfl, fun k sc hsc => ⟨sc, ?_, rfl, fun _ r hr => ⟨r, hr, rfl, rfl, rfl⟩⟩⟩
  have hk : k < s.scopes.length := by
    by_contra hge
    rw [List.getElem?_eq_none (by omega)] at hsc
    cases hsc
  show (s.scopes ++ [_])[k]? = some sc
  rw [List.getElem?_append_left hk]
  exact hsc

theorem persist_insertNode {G : Globals} {t : Nat} {s s1 : State}
    (h : insertNode G t s = some s1) : Persist s s1 := by
  unfold insertNode at h
  split at h
  · cases h
  · rename_i n hn
    split at h
    · split at h
      · cases h
        unfold insertComp
        by_cases hf : s.preserveLastScope = true
        · simp only [hf, if_true]
          exact persist_of_eq rfl rfl
        · simp only [hf]
          exact persist_trans (persist_scCreate s s.funcName) (persist_of_eq rfl rfl)
      · cases h; exact persist_refl s
    · split at h
      · unfold insertFun at h
        dsimp only at h
        split at h
        · cases h
        · split at h
          · cases h
          · cases h; exact persist_of_eq rfl rfl
          · split at h
            · cases h
            · rename_i s2 h2
              cases h
              have p1 : Persist s { s with funcName := n.name } := persist_of_eq rfl rfl
              exact persist_trans (persist_trans p1 (persist_st_insert h2))
                (persist_trans (persist_scCreate s2 s2.funcName) (persist_of_eq rfl rfl))
      · split at h
        · unfold insertVar at h
          split at h
          · cases h; exact persist_of_eq rfl rfl
          · split at h
            · cases h
            · split at h
              · cases h
              · exact persist_st_insert h
              · cases h; exact persist_of_eq rfl rfl
        · cases h; exact persist_refl s
    · split at h
      · unfold insertUse at h
        split at h
        · cases h
        · split at h
          · cases h
          · split at h
            · dsimp only at h
              have p1 : Persist s ((symbolError s n "using undeclared symbol").setNode t
                  { n with nodekind := .DeclK, type := .TypeError }) := persist_of_eq rfl rfl
              exact persist_trans p1 (persist_st_insert h)
            · exact persist_st_add_lineno h
      · cases h; exact persist_refl s
    · unfold insertParam at h
      split at h
      · split at h <;> cases h
        · exact persist_refl s
        · exact persist_of_eq rfl rfl
      · split at h
        · cases h
        · split at h
          · exact persist_st_insert h
          · cases h; exact persist_of_eq rfl rfl

theorem persist_afterInsertNode {G : Globals} {t : Nat} {s s1 : State}
    (h : afterInsertNode G t s = some s1) : Persist s s1 := by
  unfold afterInsertNode at h
  split at h
  · cases h
  · split at h <;> cases h
    · exact persist_of_eq rfl rfl
    · exact persist_refl s

theorem run_persist (G : Globals) :
    ∀ (evs : List Ev) (s s1 : State),
      run (insertNode G) (afterInsertNode G) evs s = some s1 → Persist s s1 := by
  intro evs
  induction evs with
  | nil => intro s s1 h; cases h; exact persist_refl s
  | cons e es ih =>
    intro s s1 h
    rw [run_cons] at h
    cases he : runEv (insertNode G) (afterInsertNode G) s e with
    | none => rw [he] at h; cases h
    | some s2 =>
      rw [he, Option.some_bind] at h
      have p1 : Persist s s2 := by
        cases e with
        | pre t => exact persist_insertNode he
        | post t => exact persist_afterInsertNode he
      exact persist_trans p1 (ih s2 s1 h)

theorem run_nodes_frame (G : Globals) :
    ∀ (evs : List Ev) (s s1 : State),
      run (insertNode G) (afterInsertNode G) evs s = some s1 →
      ∀ u : Nat, (∀ e ∈ evs, e.ptr ≠ u) → s1.nodes[u]? = s.nodes[u]? := by
  intro evs
  induction evs with
  | nil => intro s s1 h u _; cases h; rfl
  | cons e es ih =>
    intro s s1 h u hu
    rw [run_cons] at h
    cases he : runEv (insertNode G) (afterInsertNode G) s e with
    | none => rw [he] at h; cases h
    | some s2 =>
      rw [he, Option.some_bind] at h
      rw [ih s2 s1 h u (fun e2 he2 => hu e2 (List.mem_cons_of_mem _ he2))]
      have hne := hu e (List.mem_cons_self _ _)
      cases e with
      | pre t => exact (insertNode_frame he).1 u (fun e2 => hne e2.symm)
      | post t => rw [afterInsertNode_nodes he]

mutual
theorem events_ptr_mem : ∀ (T : SynTree) (e : Ev), e ∈ T.events → e.ptr ∈ T.ptrs
  | .null, e, h => by simp [SynTree.events] at h
  | .node t cs sib, e, h => by
    simp only [SynTree.events, List.mem_cons, List.mem_append] at h
    simp only [SynTree.ptrs, List.mem_cons, List.mem_append]
    rcases h with rfl | h | rfl | h
    · exact Or.inl rfl
    · exact Or.inr (Or.inl (eventsAll_ptr_mem cs e h))
    · exact Or.inl rfl
    · exact Or.inr (Or.inr (events_ptr_mem sib e h))
theorem eventsAll_ptr_mem : ∀ (F : SynForest) (e : Ev), e ∈ F.events → e.ptr ∈ F.ptrs
  | .nil, e, h => by simp [SynForest.events] at h
  | .cons c cs, e, h => by
    simp only [SynForest.events, List.mem_append] at h
    simp only [SynForest.ptrs, List.mem_append]
    rcases h with h | h
    · exact Or.inl (events_ptr_mem c e h)
    · exact Or.inr (eventsAll_ptr_mem cs e h)
end

/-! ## The builtin functions -/

theorem builtins_nodes (G : Globals) (hM : 2 ≤ G.MAXCHILDREN) (nodes : List TreeNode)
    (base : Nat) (lineno : Int)
    (h : ∀ i : Nat, i < 6 → nodes[base + i]? =
      (builtinNodes G lineno base "input" .Integer none .Void ++
        builtinNodes G lineno (base + 3) "output" .Void (some "arg") .Integer)[i]?) :
    IsFunctionOf G nodes (base + 2) "input" .Integer none .Void ∧
    IsFunctionOf G nodes (base + 5) "output" .Void (some "arg") .Integer := by
  obtain ⟨m, hm⟩ : ∃ m, G.MAXCHILDREN = m + 2 := ⟨G.MAXCHILDREN - 2, by omega⟩
  have e0 := h 0 (by omega)
  have e2 := h 2 (by omega)
  have e3 := h 3 (by omega)
  have e5 := h 5 (by omega)
  simp only [builtinNodes, hm, List.replicate_succ, List.set_cons_zero, List.set_cons_succ,
    List.cons_append, List.nil_append, List.getElem?_cons_zero, List.getElem?_cons_succ,
    Nat.add_zero] at e0 e2 e3 e5
  constructor
  · exact ⟨_, base, _, e2, rfl, rfl, rfl, rfl, rfl, rfl, e0, rfl, rfl, rfl, rfl, rfl⟩
  · exact ⟨_, base + 3, _, e5, rfl, rfl, rfl, rfl, rfl, rfl, e3, rfl, rfl, rfl, rfl, rfl⟩

theorem traverse_null (G : Globals) (pre post : Nat → State → Option State) (fuel : Nat)
    (s : State) : traverse G pre post fuel none s = some s := by
  cases fuel <;> rfl

/-- C6: `buildSymtab` on the tree held at `t` (any tree, the empty tree included), from
an empty scope stack and with `MAXCHILDREN` at least 2: whenever it returns, a lookup of
"input" or "output" with the global scope on top of the stack succeeds in the global
scope; "input" resolves to a function declaration of type Integer whose parameter list
is the single nameless Void parameter, "output" to a function declaration of type Void
whose parameter list is the single Integer parameter `arg`.  It does return on every
well-formed tree.  On the empty tree `buildSymtab` and a following `typeCheck` return
and report no error: `listing` and the Error flag are unchanged. -/
theorem builtins_resolvable (G : Globals) (T : SynTree) (t : Ptr) (s : State) (fuel : Nat)
    (hM : 2 ≤ G.MAXCHILDREN)
    (hrep : represents G s.nodes t T = true) (hfuel : T.depth ≤ fuel)
    (h0 : s.stackIdx = 0) (h1 : s.stack (-1) = none) (hrec : RecOK s) :
    (∀ s1, buildSymtab G fuel t s = some s1 →
      ∀ u : State, u.scopes = s1.scopes → u.nodes = s1.nodes → scTop u = s1.globalScope →
        ∃ g ri ro fi fo, s1.globalScope = some g ∧
          st_lookup_bucket u "input" = some (some (g, ri)) ∧ ri.treeNode = some fi ∧
          IsFunctionOf G u.nodes fi "input" .Integer none .Void ∧
          st_lookup_bucket u "output" = some (some (g, ro)) ∧ ro.treeNode = some fo ∧
          IsFunctionOf G u.nodes fo "output" .Void (some "arg") .Integer) ∧
    (wellFormed G s.nodes T = true → T.ptrs.Nodup → s.preserveLastScope = false →
      ∃ s1, buildSymtab G fuel t s = some s1) ∧
    (∃ s1 s2, buildSymtab G fuel none s = some s1 ∧ s1.listing = s.listing ∧
      s1.Error = s.Error ∧ typeCheck G fuel none s1 = some s2 ∧
      s2.listing = s.listing ∧ s2.Error = s.Error) := by
  obtain ⟨s0, hs0, hi0, hst0, _, _, hn0, hl0, he0, _, hg0, ⟨gsc, hgsc, hgp, hin, hout⟩, hbn⟩ :=
    builderStart_spec G s h0 h1 hrec
  refine ⟨?_, ?_, ?_⟩
  · intro s1 hb u hus hun htop
    have hrep0 : represents G s0.nodes t T = true := by
      rw [hn0]; exact represents_append G _ T t hrep
    unfold buildSymtab at hb
    rw [hs0] at hb
    simp only at hb
    rw [traverse_eq_run G (insertNode_keepsLinks G) (afterInsertNode_keepsLinks G) T fuel t s0
      hrep0 hfuel] at hb
    cases hr : run (insertNode G) (afterInsertNode G) T.events s0 with
    | none => rw [hr] at hb; cases hb
    | some x =>
      rw [hr] at hb
      cases hb
      obtain ⟨hpg, hps⟩ := run_persist G _ _ _ hr
      obtain ⟨sc1, hsc1, hp1, hf1⟩ := hps _ gsc hgsc
      obtain ⟨ri0, hri0, hti0⟩ := hin
      obtain ⟨ro0, hro0, hto0⟩ := hout
      obtain ⟨ri, hri, hti, _, _⟩ := hf1 "input" ri0 hri0
      obtain ⟨ro, hro, hto, _, _⟩ := hf1 "output" ro0 hro0
      have hg : (scPop x).globalScope = some s.scopes.length := hpg.trans hg0
      have hnodes : ∀ i : Nat, i < 6 → u.nodes[s.nodes.length + i]? =
          (builtinNodes G s.lineno s.nodes.length "input" .Integer none .Void ++
            builtinNodes G s.lineno (s.nodes.length + 3) "output" .Void (some "arg")
              .Integer)[i]? := by
        intro i hi
        rw [hun, ← hbn i hi]
        refine run_nodes_frame G _ _ _ hr _ (fun e he hp => ?_)
        have := represents_ptrs G T t hrep _ (events_ptr_mem T e he)
        omega
      obtain ⟨b1, b2⟩ := builtins_nodes G hM u.nodes s.nodes.length s.lineno hnodes
      have htop2 : scTop u = some s.scopes.length := htop.trans hg
      have husc : u.scopes[s.scopes.length]? = some sc1 := by rw [hus]; exact hsc1
      exact ⟨s.scopes.length, ri, ro, _, _, hg, lookup_top_found htop2 husc hri,
        hti.trans hti0, b1, lookup_top_found htop2 husc hro, hto.trans hto0, b2⟩
  · intro hwf hnd hflag
    obtain ⟨_, s1, _, _, _, _, _, _, _, _, _, _, _, _, hb⟩ :=
      builder_pass G T t s fuel hrep hfuel hwf hnd h0 h1 hrec hflag
    exact ⟨_, hb⟩
  · refine ⟨scPop s0, scPop (scPush (scPop s0) (scPop s0).globalScope), ?_, hl0, he0, ?_,
      hl0, he0⟩
    · unfold buildSymtab
      rw [hs0]
      simp only [traverse_null]
    · unfold typeCheck
      simp only [traverse_null]

theorem scTop_scPush (s : State) (p : Ptr) : scTop (scPush s p) = p := by
  show (if s.stackIdx + 1 - 1 = s.stackIdx then p else _) = p
  rw [if_pos (by omega)]

/-- Witness for C6: the builtin `input` after the Builder pass on `exampleRedecl`. -/
theorem builtins_resolvable_witness :
    ∃ s1 g ri, buildSymtab sampleGlobals 5 (some 0) (State.init exampleRedecl) = some s1 ∧
      st_lookup_bucket (scPush s1 s1.globalScope) "input" = some (some (g, ri)) := by
  have h := builtins_resolvable sampleGlobals exampleRedeclTree (some 0)
    (State.init exampleRedecl) 5 (by decide) (by decide) (by decide) rfl rfl
    (fun k sc h r hsc _ => by simp [State.init] at hsc)
  obtain ⟨s1, hs1⟩ := h.2.1 (by decide) (by decide) rfl
  obtain ⟨g, ri, _, _, _, _, h2, _⟩ :=
    h.1 s1 hs1 (scPush s1 s1.globalScope) rfl rfl (scTop_scPush _ _)
  exact ⟨s1, g, ri, hs1, h2⟩

/-! ## The parameters of a function declaration -/

theorem insertParam_cases {s : State} (h : BInv s) (t : Nat) (n : TreeNode) (k : Nat)
    (sc : ScopeListRec) (htop : scTop s = some k) (hsc : s.scopes[k]? = some sc) :
    ∃ s1, insertParam t n s = some s1 ∧ Quiet s s1 ∧ s1.nodes = s.nodes ∧
      ((s1.scopes = s.scopes ∧
          (∀ name, n.name = some name → st_lookup_bucket s name ≠ some none)) ∨
       (∃ name, n.name = some name ∧ st_lookup_bucket s name = some none ∧
          s1.scopes = s.scopes.set k (sc.setBucket (hash name)
            ({ name := name, treeNode := some t, lines := [n.lineno], memloc := s.location } ::
              sc.hashTable (hash name))))) := by
  obtain ⟨s1, hs1, hq, hn⟩ := quiet_insertParam h t n
  refine ⟨s1, hs1, hq, hn, ?_⟩
  unfold insertParam at hs1
  split at hs1
  · rename_i hnone
    left
    refine ⟨?_, fun name hname => by rw [hnone] at hname; cases hname⟩
    split at hs1 <;> cases hs1 <;> rfl
  · rename_i name hname
    obtain ⟨b, hb, hrec⟩ := binv_lookup_total h name
    cases b with
    | none =>
      right
      rw [st_lookup_none hb] at hs1
      simp only [if_true] at hs1
      rw [st_insert_eq n.lineno s.location (some t) htop hsc (lookup_none_top htop hsc hb)]
        at hs1
      cases hs1
      exact ⟨name, hname, hb, rfl⟩
    | some jr =>
      left
      obtain ⟨j, r⟩ := jr
      rw [st_lookup_some hb] at hs1
      simp only [if_neg (hrec j r rfl).2] at hs1
      cases hs1
      refine ⟨rfl, fun name2 hname2 => ?_⟩
      rw [hname] at hname2
      cases hname2
      rw [hb]
      simp

theorem st_lookup_bucket_congr {a b : State} (name : String) (h1 : a.scopes = b.scopes)
    (h2 : a.stack = b.stack) (h3 : a.stackIdx = b.stackIdx) :
    st_lookup_bucket a name = st_lookup_bucket b name := by
  unfold st_lookup_bucket scTop
  rw [h1, h2, h3]
  exact lookupFrom_congr name (fun i => by rw [h1]) _ _

theorem quiet_scTop {x y : State} (h : Quiet x y) : scTop y = scTop x := by
  unfold scTop
  rw [h.2.1, h.2.2.1]

theorem params_insert (G : Globals) (k : Nat) :
    ∀ (P : SynTree) (x : State), paramList x.nodes P = true → BInv x → scTop x = some k →
      ∃ y, run (insertNode G) (afterInsertNode G) P.events x = some y ∧
        ParamsResult P k x y
  | .null, x, _, hinv, htop => by
    obtain ⟨k2, sck, htop2, hsck, _⟩ := stackOK_top hinv.1
    rw [htop] at htop2
    cases htop2
    exact ⟨x, rfl, quiet_refl hinv, rfl, fun _ _ => rfl, sck, sck, hsck, hsck, rfl, rfl, rfl,
      fun _ r hr => Or.inl hr, fun _ r hr => ⟨r, hr⟩, fun p hp => by simp [SynTree.ptrs] at hp⟩
  | .node t cs sib, x, hp, hinv, htop => by
    obtain ⟨k2, sck, htop2, hsck, _⟩ := stackOK_top hinv.1
    rw [htop] at htop2
    cases htop2
    cases hn : x.nodes[t]? with
    | none => simp [paramList, hn] at hp
    | some n =>
      simp only [paramList, hn, Bool.and_eq_true, decide_eq_true_eq] at hp
      obtain ⟨⟨hk, hnull⟩, hsib⟩ := hp
      obtain ⟨s1, hs1, hq1, hn1, hcase⟩ := insertParam_cases hinv t n k sck htop hsck
      have hpre : insertNode G t x = some s1 := by
        unfold insertNode
        rw [hn]
        simp only [hk]
        exact hs1
      have hn1t : s1.nodes[t]? = some n := by rw [hn1]; exact hn
      have hpost : afterInsertNode G t s1 = some s1 :=
        afterInsertNode_plain G hn1t (by simp [hk])
      have htop1 : scTop s1 = some k := (quiet_scTop hq1).trans htop
      obtain ⟨y, hy, hq2, hn2, hother, sa, sb, hsa, hsb, e1, e2, e3, hA, hP, hB⟩ :=
        params_insert G k sib s1 (by rw [hn1]; exact hsib) hq1.1 htop1
      have hev : (SynTree.node t cs sib).events = Ev.pre t :: Ev.post t :: sib.events := by
        simp [SynTree.events, (allNull_events cs hnull).1]
      have hptrs : (SynTree.node t cs sib).ptrs = t :: sib.ptrs := by
        simp [SynTree.ptrs, (allNull_events cs hnull).2]
      rw [hev]
      have hrun : run (insertNode G) (afterInsertNode G) (Ev.pre t :: Ev.post t :: sib.events)
          x = some y := by
        rw [run_cons, runEv, hpre, Option.some_bind, run_cons, runEv, hpost, Option.some_bind]
        exact hy
      refine ⟨y, hrun, ?_⟩
      unfold ParamsResult
      rw [hptrs]
      refine ⟨quiet_trans hq1 hq2, hn2.trans hn1, ?_⟩
      rcases hcase with ⟨hsame, hfound⟩ | ⟨name, hname, hnone, hset⟩
      · rw [hsame] at hsa
        rw [hsck] at hsa
        cases hsa
        refine ⟨fun j hj => by rw [hother j hj, hsame], sck, sb, hsck, hsb, e1, e2, e3, ?_, hP,
          ?_⟩
        · intro h r hr
          rcases hA h r hr with h1 | ⟨p, hp1, m, hm, hm2, hm3⟩
          · exact Or.inl h1
          · exact Or.inr ⟨p, List.mem_cons_of_mem _ hp1, m, by rw [← hn1]; exact hm, hm2, hm3⟩
        · intro p hp1 m nm hm hnm hl
          rcases List.mem_cons.1 hp1 with rfl | hp2
          · rw [hn] at hm
            cases hm
            exact absurd hl (hfound nm hnm)
          · refine hB p hp2 m nm (by rw [hn1]; exact hm) hnm ?_
            rw [st_lookup_bucket_congr nm hsame hq1.2.1 hq1.2.2.1]
            exact hl
      · have hklt : k < x.scopes.length := by
          by_contra hge
          rw [List.getElem?_eq_none (by omega)] at hsck
          cases hsck
        have hsa2 : sa = sck.setBucket (hash name)
            ({ name := name, treeNode := some t, lines := [n.lineno], memloc := x.location } ::
              sck.hashTable (hash name)) := by
          rw [hset, List.getElem?_set_self hklt] at hsa
          exact (Option.some.inj hsa).symm
        have hfn : sck.find name = none := lookup_none_top htop hsck hnone
        have hsafind : sa.find name = some
            { name := name, treeNode := some t, lines := [n.lineno], memloc := x.location } := by
          rw [hsa2, find_setBucket_same]
          simp [chainFind]
        refine ⟨fun j hj => ?_, sck, sb, hsck, hsb, ?_, ?_, ?_, ?_, ?_, ?_⟩
        · rw [hother j hj, hset, getElem?_set_scopes, if_neg (Ne.symm hj)]
        · rw [e1, hsa2]; rfl
        · rw [e2, hsa2]; rfl
        · rw [e3, hsa2]; rfl
        · intro h r hr
          rcases hA h r hr with h1 | ⟨p, hp1, m, hm, hm2, hm3⟩
          · rw [hsa2] at h1
            simp only [ScopeListRec.setBucket] at h1
            by_cases hh : h = hash name
            · rw [if_pos hh] at h1
              rcases List.mem_cons.1 h1 with rfl | h2
              · exact Or.inr ⟨t, List.mem_cons_self _ _, n, hn, hname, rfl⟩
              · exact Or.inl (by rw [hh]; exact h2)
            · rw [if_neg hh] at h1
              exact Or.inl h1
          · exact Or.inr ⟨p, List.mem_cons_of_mem _ hp1, m, by rw [← hn1]; exact hm, hm2, hm3⟩
        · intro nm r hr
          have hne : nm ≠ name := by
            intro e
            rw [e, hfn] at hr
            cases hr
          exact hP nm r (by rw [hsa2, find_setBucket_cons_ne sck name nm _ rfl hne]; exact hr)
        · intro p hp1 m nm hm hnm hl
          by_cases hnn : nm = name
          · subst hnn
            exact hP nm _ hsafind
          · rcases List.mem_cons.1 hp1 with rfl | hp2
            · rw [hn] at hm
              cases hm
              rw [hname] at hnm
              exact absurd (Option.some.inj hnm).symm hnn
            · refine hB p hp2 m nm (by rw [hn1]; exact hm) hnm ?_
              have hl2 : st_lookup_bucket s1 nm = st_lookup_bucket (x.setScope k
                  (sck.setBucket (hash name)
                    ({ name := name, treeNode := some t, lines := [n.lineno],
                       memloc := x.location } :: sck.hashTable (hash name)))) nm :=
                st_lookup_bucket_congr nm hset hq1.2.1 hq1.2.2.1
              rw [hl2]
              obtain ⟨_, _, hins, _, _, _, _, _, _, _, _, _, _, hothers, _⟩ :=
                st_insert_spec x name n.lineno x.location (some t) k sck htop hsck
                  (chainFind_none.1 hfn)
              rw [st_insert_eq n.lineno x.location (some t) htop hsck hfn] at hins
              cases hins
              rw [hothers nm hnn]
              exact hl

/-! ## A function declaration, its parameters and its body -/

theorem insertFun_fresh (s : State) (f : Nat) (n : TreeNode) (fname : String) (top : Nat)
    (sc : ScopeListRec) (hname : n.name = some fname) (htop : scTop s = some top)
    (hsc : s.scopes[top]? = some sc) (hnew : sc.find fname = none) :
    ∃ s2 : State, s2 = ({ s with funcName := some fname } : State).setScope top
        (sc.setBucket (hash fname)
          ({ name := fname, treeNode := some f, lines := [n.lineno], memloc := s.location } ::
            sc.hashTable (hash fname))) ∧
      insertFun f n s = some
        { scPush (scCreate s2 (some fname)).1 (scCreate s2 (some fname)).2 with
          location := s.location + 1, preserveLastScope := true } := by
  refine ⟨_, rfl, ?_⟩
  have hl : st_lookup_sc { s with funcName := some fname } fname = some false := by
    have e := st_lookup_sc_of_find (s := { s with funcName := some fname }) fname htop hsc
    rw [e, hnew]; rfl
  have hi := st_insert_eq (s := { s with funcName := some fname }) n.lineno s.location (some f)
    htop hsc hnew
  unfold insertFun
  simp only [hname, hl, hi]
  rfl

theorem function_scope_spec (G : Globals) (s : State) (f b : Nat) (n mb : TreeNode)
    (fname : String) (ps : SynTree) (top : Nat) (sc : ScopeListRec)
    (hinv : BInv s) (hn : s.nodes[f]? = some n) (hk1 : n.nodekind = .DeclK)
    (hk2 : n.kind = G.FunK) (hname : n.name = some fname)
    (htop : scTop s = some top) (hsc : s.scopes[top]? = some sc)
    (hnew : sc.find fname = none) (hps : paramList s.nodes ps = true)
    (hb : s.nodes[b]? = some mb) (hc1 : mb.nodekind = .StmtK) (hc2 : mb.kind = G.CompK) :
    ∃ s1 s2 s3 nsc nsc2,
      insertNode G f s = some s1 ∧
      run (insertNode G) (afterInsertNode G) ps.events s1 = some s2 ∧
      insertNode G b s2 = some s3 ∧
      s1.scopes[top]? = some (sc.setBucket (hash fname)
        ({ name := fname, treeNode := some f, lines := [n.lineno], memloc := s.location } ::
          sc.hashTable (hash fname))) ∧
      s1.scopes.length = s.scopes.length + 1 ∧
      s1.scopes[s.scopes.length]? = some nsc ∧ nsc.scopeName = some fname ∧
      nsc.parent = some top ∧ nsc.nestedLevel = s.stackIdx ∧ (∀ h, nsc.hashTable h = []) ∧
      scTop s1 = some s.scopes.length ∧ s1.stackIdx = s.stackIdx + 1 ∧
      s1.preserveLastScope = true ∧
      s2.scopes.length = s.scopes.length + 1 ∧
      (∀ j : Nat, j ≠ s.scopes.length → s2.scopes[j]? = s1.scopes[j]?) ∧
      s2.scopes[s.scopes.length]? = some nsc2 ∧ nsc2.scopeName = some fname ∧
      nsc2.parent = some top ∧
      (∀ h r, r ∈ nsc2.hashTable h →
        ∃ p ∈ ps.ptrs, ∃ m, s.nodes[p]? = some m ∧ m.name = some r.name ∧
          r.treeNode = some p) ∧
      (∀ p ∈ ps.ptrs, ∀ m name, s.nodes[p]? = some m → m.name = some name →
        st_lookup_bucket s1 name = some none → ∃ r, nsc2.find name = some r) ∧
      s3.scopes = s2.scopes ∧ s3.nodes[b]? = some { mb with scope := some s.scopes.length } ∧
      scTop s3 = some s.scopes.length ∧ s3.stackIdx = s.stackIdx + 1 ∧
      s3.preserveLastScope = false := by
  have hpre0 : insertNode G f s = insertFun f n s := by
    unfold insertNode
    rw [hn]
    simp only [hk1, hk2, if_true]
  obtain ⟨x, hx, hfresh⟩ := insertFun_fresh s f n fname top sc hname htop hsc hnew
  obtain ⟨s1, hs1, hn1, hcase⟩ := binv_insertFun hinv f n (by rw [hname]; rfl)
  have hi1 : BInv s1 := by
    rcases hcase with hq | hp
    · exact hq.1
    · exact hp.1
  rw [hfresh] at hs1
  have hxl : x.scopes.length = s.scopes.length := by
    rw [hx]; exact setScope_scopes_length _ _ _
  have hxtop : scTop x = some top := by rw [hx]; exact htop
  have hlt : top < s.scopes.length := by
    by_contra hge
    rw [List.getElem?_eq_none (by omega)] at hsc
    cases hsc
  have hs1scopes : s1.scopes = x.scopes ++
      [{ scopeName := some fname, nestedLevel := x.stackIdx, hashTable := (fun _ => []),
         parent := scTop x }] := by
    rw [← Option.some.inj hs1]; rfl
  have hs1top : scTop s1 = some s.scopes.length := by
    rw [← Option.some.inj hs1]
    show (if x.stackIdx + 1 - 1 = x.stackIdx then (scCreate x (some fname)).2 else _) = _
    rw [if_pos (by omega)]
    show some x.scopes.length = _
    rw [hxl]
  have hs1idx : s1.stackIdx = s.stackIdx + 1 := by
    rw [← Option.some.inj hs1, hx]; rfl
  have hs1flag : s1.preserveLastScope = true := by
    rw [← Option.some.inj hs1]
  obtain ⟨s2, hr2, hq2, hn2, hother, sa, sb, hsa, hsb, e1, e2, _, hA, _, hB⟩ :=
    params_insert G s.scopes.length ps s1 (by rw [hn1]; exact hps) hi1 hs1top
  have hsa2 : sa =
      { scopeName := some fname, nestedLevel := x.stackIdx, hashTable := (fun _ => []),
        parent := scTop x } := by
    rw [hs1scopes, ← hxl, List.getElem?_append_right (le_refl _)] at hsa
    simp only [Nat.sub_self, List.getElem?_cons_zero, Option.some.injEq] at hsa
    exact hsa.symm
  have hb2 : s2.nodes[b]? = some mb := by rw [hn2, hn1]; exact hb
  have hpre3 : insertNode G b s2 = some (insertComp b mb s2) := by
    unfold insertNode
    rw [hb2]
    simp only [hc1, hc2, if_true]
  have hflag2 : s2.preserveLastScope = true := hq2.2.2.2.1.trans hs1flag
  have htop2 : scTop s2 = some s.scopes.length := (quiet_scTop hq2).trans hs1top
  have hcomp : insertComp b mb s2 =
      ({ s2 with preserveLastScope := false } : State).setNode b
        { mb with scope := some s.scopes.length } := by
    unfold insertComp
    simp only [hflag2, if_true]
    have : scTop ({ s2 with preserveLastScope := false } : State) = some s.scopes.length :=
      htop2
    rw [this]
  have hblt : b < s2.nodes.length := by
    by_contra hge
    rw [List.getElem?_eq_none (by omega)] at hb2
    cases hb2
  refine ⟨s1, s2, insertComp b mb s2, sa, sb, hpre0.trans (hfresh.trans hs1), hr2, hpre3,
    ?_, ?_, ?_, ?_, ?_, ?_, ?_, hs1top, hs1idx, hs1flag, ?_, hother, hsb, ?_, ?_, ?_, ?_, ?_,
    ?_, ?_, ?_, ?_⟩
  · rw [hs1scopes, List.getElem?_append_left (by rw [hxl]; exact hlt), hx,
      setScope_scopes_getElem?, if_pos rfl]
    show (s.scopes[top]?).map _ = _
    rw [hsc]; rfl
  · rw [hs1scopes, List.length_append, hxl]; rfl
  · exact hsa
  · rw [hsa2]
  · rw [hsa2]; exact hxtop
  · rw [hsa2, hx]; rfl
  · intro h; rw [hsa2]
  · rw [hq2.2.2.2.2, hs1scopes, List.length_append, hxl]; rfl
  · rw [e2, hsa2]
  · rw [e1, hsa2]; exact hxtop
  · intro h r hr
    rcases hA h r hr with h1 | ⟨p, hp, m, hm, hm2, hm3⟩
    · rw [hsa2] at h1
      simp at h1
    · exact ⟨p, hp, m, by rw [← hn1]; exact hm, hm2, hm3⟩
  · intro p hp m name hm hname2 hl
    exact hB p hp m name (by rw [hn1]; exact hm) hname2 hl
  · rw [hcomp]; rfl
  · rw [hcomp]
    show (s2.nodes.set b _)[b]? = _
    rw [List.getElem?_set_self hblt]
  · rw [hcomp]; exact htop2
  · rw [hcomp]
    show s2.stackIdx = _
    rw [hq2.2.2.1, hs1idx]
  · rw [hcomp]; rfl

theorem exampleRedeclStart_inv : BInv exampleRedeclStart := by
  obtain ⟨s0, hs0, hi0, _⟩ := builderStart_spec sampleGlobals (State.init exampleRedecl) rfl rfl
    (fun k sc h r hsc _ => by simp [State.init] at hsc)
  have e : exampleRedeclStart = s0 := by
    unfold exampleRedeclStart
    rw [hs0]
    rfl
  rw [e]
  exact hi0

/-- Counterexample to C8 as stated: on `int f(int a, int a){}` the second parameter, though
named, gets no record in the scope of `f`: when the body has been entered, the chain of
`a` in that scope holds the record of the first parameter only, and the pass has reported
'symbol already declared for current scope' for the second. -/
theorem duplicate_parameter_not_inserted :
    ∃ s3, run (insertNode sampleGlobals) (afterInsertNode sampleGlobals)
        (exampleDupParamTree.events.take 6) exampleDupParamStart = some s3 ∧
      s3.listing = [{ kind := .SymbolError, line := 1,
                      message := "symbol already declared for current scope" }] ∧
      ¬ ParamsAllInserted s3 1 [1, 2] := by
  have h : (run (insertNode sampleGlobals) (afterInsertNode sampleGlobals)
        (exampleDupParamTree.events.take 6) exampleDupParamStart).map
      (fun s => ((s.scopes[1]?).map (fun sc => sc.hashTable (hash "a")), s.listing,
        (s.nodes[2]?).map (fun n => n.name))) =
    some (some [{ name := "a", treeNode := some 1, lines := [1], memloc := 1 }],
      [{ kind := .SymbolError, line := 1,
         message := "symbol already declared for current scope" }], some (some "a")) := by
    decide
  cases hr : run (insertNode sampleGlobals) (afterInsertNode sampleGlobals)
      (exampleDupParamTree.events.take 6) exampleDupParamStart with
  | none => rw [hr] at h; cases h
  | some s3 =>
    rw [hr] at h
    simp only [Option.map_some', Option.some.injEq, Prod.mk.injEq] at h
    obtain ⟨hbucket, hlist, hnode⟩ := h
    refine ⟨s3, rfl, hlist, ?_⟩
    intro hall
    cases hn2 : s3.nodes[2]? with
    | none => rw [hn2] at hnode; cases hnode
    | some n2 =>
      rw [hn2] at hnode
      simp only [Option.map_some', Option.some.injEq] at hnode
      obtain ⟨sc, r, hsc, hmem, ht⟩ := hall 2 (by simp) n2 "a" hn2 hnode
      rw [hsc] at hbucket
      simp only [Option.map_some', Option.some.injEq] at hbucket
      rw [hbucket] at hmem
      simp only [List.mem_singleton] at hmem
      rw [hmem] at ht
      cases ht

/-! ## The scope stack, cell by cell -/

theorem stackBelow_succ {s : State} {n k : Nat} (hk : s.stack (n : Int) = some k) :
    stackBelow s (n + 1) = k :: stackBelow s n := by
  simp [stackBelow, List.range_succ, hk]

theorem stackBelow_succ_none {s : State} {n : Nat} (hk : s.stack (n : Int) = none) :
    stackBelow s (n + 1) = stackBelow s n := by
  simp [stackBelow, List.range_succ, hk]

theorem stackBelow_congr {s t : State} :
    ∀ n : Nat, (∀ i : Nat, i < n → t.stack (i : Int) = s.stack (i : Int)) →
      stackBelow t n = stackBelow s n := by
  intro n
  induction n with
  | zero => intro _; rfl
  | succ n ih =>
    intro h
    have h1 := ih (fun i hi => h i (by omega))
    have h2 := h n (by omega)
    cases hk : s.stack (n : Int) with
    | none => rw [stackBelow_succ_none hk, stackBelow_succ_none (h2.trans hk), h1]
    | some k => rw [stackBelow_succ hk, stackBelow_succ (h2.trans hk), h1]

theorem stackBelow_length {s : State} (h : StackOK s) :
    ∀ n : Nat, (n : Int) ≤ s.stackIdx → (stackBelow s n).length = n := by
  intro n
  induction n with
  | zero => intro _; rfl
  | succ n ih =>
    intro hn
    obtain ⟨k, sc, hk, _, _, _⟩ := h.2.2 (n : Int) (by omega) (by omega)
    rw [stackBelow_succ hk, List.length_cons, ih (by omega)]

theorem stackList_length {s : State} (h : StackOK s) :
    ((stackList s).length : Int) = s.stackIdx := by
  have h0 := h.1
  unfold stackList
  rw [stackBelow_length h _ (by omega)]
  omega

theorem stackList_head {s : State} (h : StackOK s) : (stackList s).head? = scTop s := by
  obtain ⟨n, hn⟩ : ∃ n : Nat, s.stackIdx = (n : Int) + 1 :=
    ⟨(s.stackIdx - 1).toNat, by have := h.1; omega⟩
  obtain ⟨k, sc, hk, _, _, _⟩ := h.2.2 (n : Int) (by omega) (by omega)
  have htop : scTop s = some k := by
    show s.stack (s.stackIdx - 1) = some k
    rw [hn]
    simpa using hk
  have e1 : s.stackIdx.toNat = n + 1 := by omega
  unfold stackList
  rw [e1, stackBelow_succ hk, htop]
  rfl

theorem stackOK_cells {s t : State} (h : StackOK s) (hsc : t.scopes = s.scopes)
    (hidx : t.stackIdx = s.stackIdx)
    (hcells : ∀ i : Int, i < s.stackIdx → t.stack i = s.stack i) :
    StackOK t ∧ stackList t = stackList s := by
  have h0 := h.1
  refine ⟨⟨by rw [hidx]; exact h0, by rw [hcells (-1) (by omega)]; exact h.2.1, ?_⟩, ?_⟩
  · intro i hi hlt
    rw [hidx] at hlt
    obtain ⟨k, sc, hk, hs, hp, hlv⟩ := h.2.2 i hi hlt
    exact ⟨k, sc, by rw [hcells i hlt]; exact hk, by rw [hsc]; exact hs,
      by rw [hcells (i - 1) (by omega)]; exact hp, hlv⟩
  · unfold stackList
    rw [hidx]
    exact stackBelow_congr _ (fun i hi => hcells i (by omega))

theorem stackOK_push {s : State} (h : StackOK s) {k : Nat} {sck : ScopeListRec}
    (hk : s.scopes[k]? = some sck) (hp : sck.parent = scTop s)
    (hl : sck.nestedLevel = s.stackIdx) :
    StackOK (scPush s (some k)) ∧ stackList (scPush s (some k)) = k :: stackList s := by
  have h0 := h.1
  refine ⟨⟨?_, ?_, ?_⟩, ?_⟩
  · show 0 < s.stackIdx + 1
    omega
  · show (if (-1 : Int) = s.stackIdx then _ else s.stack (-1)) = none
    rw [if_neg (by omega)]
    exact h.2.1
  · intro i hi hlt
    have hlt2 : i < s.stackIdx + 1 := hlt
    show ∃ k1 sc, (if i = s.stackIdx then some k else s.stack i) = some k1 ∧
      s.scopes[k1]? = some sc ∧
      sc.parent = (if i - 1 = s.stackIdx then some k else s.stack (i - 1)) ∧
      sc.nestedLevel = i
    by_cases hi2 : i = s.stackIdx
    · subst hi2
      refine ⟨k, sck, by simp, hk, ?_, hl⟩
      rw [if_neg (by omega)]
      exact hp
    · obtain ⟨k1, sc, hk1, hsc, hp1, hlv⟩ := h.2.2 i hi (by omega)
      exact ⟨k1, sc, by rw [if_neg hi2]; exact hk1, hsc,
        by rw [if_neg (by omega)]; exact hp1, hlv⟩
  · obtain ⟨n, hn⟩ : ∃ n : Nat, s.stackIdx = (n : Int) := ⟨s.stackIdx.toNat, by omega⟩
    have e1 : (scPush s (some k)).stackIdx.toNat = n + 1 := by
      show (s.stackIdx + 1).toNat = n + 1
      omega
    have e2 : s.stackIdx.toNat = n := by omega
    have hcell : (scPush s (some k)).stack (n : Int) = some k := by
      show (if (n : Int) = s.stackIdx then some k else s.stack n) = some k
      rw [if_pos hn.symm]
    unfold stackList
    rw [e1, e2, stackBelow_succ hcell]
    congr 1
    refine stackBelow_congr _ ?_
    intro i hi
    show (if (i : Int) = s.stackIdx then some k else s.stack i) = s.stack i
    rw [if_neg (by omega)]

theorem holds_lookup {s : State} (h : StackOK s) {j : Nat} {name : String}
    (hj : j ∈ stackList s) (hh : Holds s.scopes j name) :
    ∃ i r, st_lookup_bucket s name = some (some (i, r)) := by
  obtain ⟨sc, r, hsc, hf⟩ := hh
  exact lookup_through (stackList_chain h) hj hsc hf

/-! ## The visitor calls of the Type-Checking pass do not crash -/

theorem onlyTypes_symm {a b : List TreeNode} (h : OnlyTypes a b) : OnlyTypes b a :=
  fun t => (h t).symm

theorem onlyTypes_get {a b : List TreeNode} (h : OnlyTypes a b) {t : Nat} {n : TreeNode}
    (hn : b[t]? = some n) :
    ∃ m, a[t]? = some m ∧
      ({ m with type := ExpType.Void } : TreeNode) = { n with type := ExpType.Void } := by
  have ht := h t
  rw [hn] at ht
  cases ha : a[t]? with
  | none => rw [ha] at ht; cases ht
  | some m =>
    rw [ha] at ht
    simp only [Option.map_some', Option.some.injEq] at ht
    exact ⟨m, rfl, ht⟩

theorem onlyTypes_length {a b : List TreeNode} (h : OnlyTypes a b) : a.length = b.length := by
  rcases Nat.lt_trichotomy a.length b.length with hlt | heq | hgt
  · have ht := h a.length
    rw [List.getElem?_eq_none (le_refl _), List.getElem?_eq_getElem hlt] at ht
    cases ht
  · exact heq
  · have ht := h b.length
    rw [List.getElem?_eq_none (le_refl _), List.getElem?_eq_getElem hgt] at ht
    cases ht

theorem nodeOK_congr {G : Globals} {F : State} {L : List Nat} {fn : Option String}
    {m n : TreeNode}
    (h : ({ m with type := ExpType.Void } : TreeNode) = { n with type := ExpType.Void })
    (hok : NodeOK G F L fn n) : NodeOK G F L fn m := by
  cases m
  cases n
  simp only [TreeNode.mk.injEq] at h
  obtain ⟨rfl, rfl, rfl, rfl, rfl, rfl, rfl, rfl, _⟩ := h
  exact hok

theorem heapClosed_onlyTypes {a b : List TreeNode} (hb : HeapClosed b) (h : OnlyTypes a b) :
    HeapClosed a := by
  intro t n hn
  obtain ⟨m, hm, e⟩ := onlyTypes_get (onlyTypes_symm h) hn
  have es : m.sibling = n.sibling := by
    have := congrArg TreeNode.sibling e
    exact this
  have ec : m.child = n.child := by
    have := congrArg TreeNode.child e
    exact this
  obtain ⟨h1, h2⟩ := hb t m hm
  constructor
  · intro q hq
    obtain ⟨x, hx⟩ := h1 q (by rw [es]; exact hq)
    obtain ⟨y, hy, _⟩ := onlyTypes_get h hx
    exact ⟨y, hy⟩
  · intro i q hq
    obtain ⟨x, hx⟩ := h2 i q (by rw [ec]; exact hq)
    obtain ⟨y, hy, _⟩ := onlyTypes_get h hx
    exact ⟨y, hy⟩

theorem recNodes_lookup {G : Globals} {F c : State} (hrec : RecNodes G F)
    (hsc : c.scopes = F.scopes) (hty : OnlyTypes c.nodes F.nodes) {name : String} {i : Nat}
    {r : BucketListRec} (hl : st_lookup_bucket c name = some (some (i, r))) :
    ∃ fd m, r.treeNode = some fd ∧ c.nodes[fd]? = some m ∧
      (m.kind = G.FunK → ∃ p, m.child.getD 0 none = some p) := by
  obtain ⟨sc, hs, hf⟩ := lookupFrom_found _ _ hl
  rw [hsc] at hs
  obtain ⟨fd, x, hfd, hx, hfun⟩ := hrec i sc _ r hs (chainFind_some hf).1
  obtain ⟨m, hm, e⟩ := onlyTypes_get hty hx
  have ek : m.kind = x.kind := by
    have := congrArg TreeNode.kind e
    exact this
  have ec : m.child = x.child := by
    have := congrArg TreeNode.child e
    exact this
  exact ⟨fd, m, hfd, hm, by rw [ek, ec]; exact hfun⟩

theorem checkArgs_total (G : Globals) (s : State) (n : TreeNode) (hcl : HeapClosed s.nodes) :
    ∀ (A : SynTree) (fuel : Nat) (a p : Ptr), represents G s.nodes a A = true →
      A.sibLen ≤ fuel → (∀ q, p = some q → ∃ m, s.nodes[q]? = some m) →
      ∃ s1, checkArgs s n fuel a p = some s1
  | .null, fuel, a, p, hrep, _, _ => by
    cases a with
    | none => cases fuel <;> simp [checkArgs]
    | some t => simp [represents] at hrep
  | .node u cs sib, fuel, a, p, hrep, hfuel, hp => by
    cases a with
    | none => simp [represents] at hrep
    | some t =>
      cases hn : s.nodes[t]? with
      | none => simp [represents, hn] at hrep
      | some arg =>
        simp only [represents, hn, Bool.and_eq_true, decide_eq_true_eq] at hrep
        obtain ⟨_, hsib⟩ := hrep
        cases p with
        | none => cases fuel <;> simp [checkArgs]
        | some q =>
          obtain ⟨param, hq⟩ := hp q rfl
          obtain ⟨f, rfl⟩ : ∃ f, fuel = f + 1 :=
            ⟨fuel - 1, by simp only [SynTree.sibLen] at hfuel; omega⟩
          simp only [checkArgs, hn, hq]
          by_cases h1 : arg.type ≠ param.type
          · rw [if_pos h1]; exact ⟨_, rfl⟩
          · rw [if_neg h1]
            by_cases h2 : arg.type = .Void
            · rw [if_pos h2]; exact ⟨_, rfl⟩
            · rw [if_neg h2]
              refine checkArgs_total G s n hcl sib f arg.sibling param.sibling hsib
                (by simp only [SynTree.sibLen] at hfuel; omega) ?_
              intro q2 hq2
              exact (hcl q param hq).1 q2 hq2

theorem checkCall_total (G : Globals) (t : Nat) (n : TreeNode) (s : State)
    (hcl : HeapClosed s.nodes) (htg : Targets G s) {name : String}
    (hname : n.name = some name)
    (hfound : ∃ i r, st_lookup_bucket s name = some (some (i, r))) (A : SynTree)
    (hrep : represents G s.nodes (n.child.getD 0 none) A = true)
    (hlen : A.sibLen ≤ s.nodes.length) : ∃ s1, checkCall G t n s = some s1 := by
  obtain ⟨i, r, hl⟩ := hfound
  obtain ⟨fd, m, hfd, hm, hfun⟩ := htg name i r hl
  unfold checkCall
  simp only [hname, hl, hfd, hm]
  by_cases hk : m.kind ≠ G.FunK
  · rw [if_pos hk]; exact ⟨_, rfl⟩
  · rw [if_neg hk]
    obtain ⟨p, hp⟩ := hfun (not_not.1 hk)
    obtain ⟨pm, hpm⟩ := (hcl fd m hm).2 0 p hp
    have hvalid : ∀ q, m.child.getD 0 none = some q → ∃ x, s.nodes[q]? = some x :=
      fun q hq => (hcl fd m hm).2 0 q hq
    cases harg : n.child.getD 0 none with
    | none =>
      simp only [deref, hp, hpm]
      by_cases hv : pm.name = none ∧ pm.type = .Void
      · rw [if_pos hv]
        cases hlen2 : s.nodes.length <;> simp [checkArgs]
      · rw [if_neg hv]
        cases hlen2 : s.nodes.length <;> simp [checkArgs, typeError]
    | some a =>
      rw [harg] at hrep
      obtain ⟨s2, hs2⟩ := checkArgs_total G s n hcl A s.nodes.length (some a)
        (m.child.getD 0 none) hrep hlen hvalid
      simp only [hs2]
      exact ⟨_, rfl⟩

theorem checkId_total (G : Globals) (t : Nat) (n : TreeNode) (s : State)
    (hcl : HeapClosed s.nodes) (htg : Targets G s) (hst : StackOK s)
    (hn : s.nodes[t]? = some n) (hname : n.name.isSome = true)
    (hidx : n.kind = G.IdArrK → ∃ q, n.child.getD 0 none = some q) :
    ∃ s1, checkId G t n s = some s1 := by
  obtain ⟨name, hnm⟩ := Option.isSome_iff_exists.1 hname
  unfold checkId
  simp only [hnm, stackOK_lookup hst name]
  cases hfh : firstHolder s name (stackList s) with
  | none => exact ⟨_, rfl⟩
  | some ir =>
    obtain ⟨i, r⟩ := ir
    have hl : st_lookup_bucket s name = some (some (i, r)) := by
      rw [stackOK_lookup hst name, hfh]
    obtain ⟨fd, m, hfd, hm, _⟩ := htg name i r hl
    simp only [deref, hfd, hm]
    by_cases hk : n.kind = G.IdArrK
    · rw [if_pos hk]
      by_cases ha : m.kind ≠ G.VarArrK ∧ m.kind ≠ G.ArrParamK
      · rw [if_pos ha]; exact ⟨_, rfl⟩
      · rw [if_neg ha]
        obtain ⟨q, hq⟩ := hidx hk
        obtain ⟨x, hx⟩ := (hcl t n hn).2 0 q hq
        simp only [hq, hx]
        by_cases hi : x.type ≠ .Integer
        · rw [if_pos hi]
          cases x.type <;> exact ⟨_, rfl⟩
        · rw [if_neg hi]; exact ⟨_, rfl⟩
    · rw [if_neg hk]; exact ⟨_, rfl⟩

theorem checkRet_total (G : Globals) (n : TreeNode) (s : State) (t : Nat)
    (hcl : HeapClosed s.nodes) (htg : Targets G s) (hn : s.nodes[t]? = some n)
    {fname : String} (hfn : s.funcName = some fname)
    (hfound : ∃ i r, st_lookup_bucket s fname = some (some (i, r))) :
    ∃ s1, checkRet n s = some s1 := by
  obtain ⟨i, r, hl⟩ := hfound
  obtain ⟨fd, m, hfd, hm, _⟩ := htg fname i r hl
  unfold checkRet
  simp only [hfn, hl, deref, hfd, hm]
  have hchild : ∀ e, n.child.getD 0 none = some e → ∃ x, s.nodes[e]? = some x :=
    fun e he => (hcl t n hn).2 0 e he
  by_cases h1 : m.type = .Void
  · rw [if_pos h1]
    cases hc : n.child.getD 0 none with
    | none => exact ⟨_, rfl⟩
    | some e =>
      obtain ⟨x, hx⟩ := hchild e hc
      simp only [hx]
      by_cases h2 : x.type ≠ .Void
      · rw [if_pos h2]; exact ⟨_, rfl⟩
      · rw [if_neg h2]; exact ⟨_, rfl⟩
  · rw [if_neg h1]
    by_cases h3 : m.type = .Integer
    · rw [if_pos h3]
      cases hc : n.child.getD 0 none with
      | none => exact ⟨_, rfl⟩
      | some e =>
        obtain ⟨x, hx⟩ := hchild e hc
        simp only [hx]
        by_cases h2 : x.type ≠ .Integer
        · rw [if_pos h2]; exact ⟨_, rfl⟩
        · rw [if_neg h2]; exact ⟨_, rfl⟩
    · rw [if_neg h3]; exact ⟨_, rfl⟩

theorem bothInteger_total (s : State) (n : TreeNode) (t : Nat) (hcl : HeapClosed s.nodes)
    (hn : s.nodes[t]? = some n)
    (hc : ∃ q0 q1, n.child.getD 0 none = some q0 ∧ n.child.getD 1 none = some q1) :
    ∃ b, bothInteger s n = some b := by
  obtain ⟨q0, q1, h0, h1⟩ := hc
  obtain ⟨x0, hx0⟩ := (hcl t n hn).2 0 q0 h0
  obtain ⟨x1, hx1⟩ := (hcl t n hn).2 1 q1 h1
  unfold bothInteger
  simp only [deref, h0, hx0, h1, hx1]
  by_cases h : x0.type ≠ .Integer
  · rw [if_pos h]; exact ⟨_, rfl⟩
  · rw [if_neg h]; exact ⟨_, rfl⟩

theorem checkExp_total (G : Globals) (F : State) (L : List Nat) (fn : Option String)
    (t : Nat) (n : TreeNode) (s : State)
    (hcl : HeapClosed s.nodes) (htg : Targets G s) (hst : StackOK s)
    (hsc : s.scopes = F.scopes) (hlinks : SameLinks s.nodes F.nodes)
    (hlen : s.nodes.length = F.nodes.length)
    (hL : ∀ j ∈ L, j ∈ stackList s)
    (hn : s.nodes[t]? = some n) (hk : n.nodekind = .ExpK) (hok : NodeOK G F L fn n) :
    ∃ s1, checkExp G t n s = some s1 := by
  simp only [NodeOK, hk] at hok
  obtain ⟨hid, hidx, hcall, hops⟩ := hok
  unfold checkExp
  by_cases h1 : n.kind = G.ConstK
  · rw [if_pos h1]; exact ⟨_, rfl⟩
  rw [if_neg h1]
  by_cases h2 : n.kind = G.IdK ∨ n.kind = G.IdArrK
  · rw [if_pos h2]
    exact checkId_total G t n s hcl htg hst hn (hid h2) hidx
  rw [if_neg h2]
  by_cases h3 : n.kind = G.CallK
  · rw [if_pos h3]
    obtain ⟨name, hname, ⟨j, hj, hh⟩, A, hrep, hA⟩ := hcall h3
    refine checkCall_total G t n s hcl htg hname ?_ A ?_ (by rw [hlen]; exact hA)
    · exact holds_lookup hst (hL j hj) (by rw [hsc]; exact hh)
    · rw [represents_congr G hlinks]; exact hrep
  rw [if_neg h3]
  by_cases h4 : n.kind = G.AssignK
  · rw [if_pos h4]
    obtain ⟨q0, q1, h0, h1⟩ := hops (Or.inl h4)
    obtain ⟨x0, hx0⟩ := (hcl t n hn).2 0 q0 h0
    obtain ⟨x1, hx1⟩ := (hcl t n hn).2 1 q1 h1
    simp only [deref, h0, hx0, h1, hx1]
    by_cases ha : x0.type ≠ .Integer
    · rw [if_pos ha]; exact ⟨_, rfl⟩
    · rw [if_neg ha]
      by_cases hb : x1.type ≠ .Integer
      · rw [if_pos hb]; exact ⟨_, rfl⟩
      · rw [if_neg hb]; exact ⟨_, rfl⟩
  rw [if_neg h4]
  by_cases h5 : n.kind = G.RelopK
  · rw [if_pos h5]
    obtain ⟨b, hb⟩ := bothInteger_total s n t hcl hn (hops (Or.inr (Or.inl h5)))
    rw [hb]
    cases b <;> exact ⟨_, rfl⟩
  rw [if_neg h5]
  by_cases h6 : n.kind = G.OpK
  · rw [if_pos h6]
    obtain ⟨b, hb⟩ := bothInteger_total s n t hcl hn (hops (Or.inr (Or.inr h6)))
    rw [hb]
    cases b <;> exact ⟨_, rfl⟩
  rw [if_neg h6]
  exact ⟨_, rfl⟩

theorem checkStmt_total (G : Globals) (F : State) (L : List Nat) (fn : Option String)
    (t : Nat) (n : TreeNode) (s : State)
    (hcl : HeapClosed s.nodes) (htg : Targets G s) (hst : StackOK s)
    (hsc : s.scopes = F.scopes) (hL : ∀ j ∈ L, j ∈ stackList s)
    (hfn : ∀ f, fn = some f → s.funcName = some f)
    (hn : s.nodes[t]? = some n) (hk : n.nodekind = .StmtK) (hok : NodeOK G F L fn n) :
    ∃ s1, checkStmt G n s = some s1 := by
  simp only [NodeOK, hk] at hok
  obtain ⟨_, hcond, hret⟩ := hok
  unfold checkStmt
  by_cases h1 : n.kind = G.CompK
  · rw [if_pos h1]; exact ⟨_, rfl⟩
  rw [if_neg h1]
  by_cases h2 : n.kind = G.SelK
  · rw [if_pos h2]
    obtain ⟨q, hq⟩ := hcond (Or.inl h2)
    obtain ⟨x, hx⟩ := (hcl t n hn).2 0 q hq
    simp only [deref, hq, hx]
    by_cases ha : x.type ≠ .Integer
    · rw [if_pos ha]; exact ⟨_, rfl⟩
    · rw [if_neg ha]; exact ⟨_, rfl⟩
  rw [if_neg h2]
  by_cases h3 : n.kind = G.IterK
  · rw [if_pos h3]
    obtain ⟨q, hq⟩ := hcond (Or.inr h3)
    obtain ⟨x, hx⟩ := (hcl t n hn).2 0 q hq
    simp only [deref, hq, hx]
    by_cases ha : x.type ≠ .Integer
    · rw [if_pos ha]; exact ⟨_, rfl⟩
    · rw [if_neg ha]; exact ⟨_, rfl⟩
  rw [if_neg h3]
  by_cases h4 : n.kind = G.RetK
  · rw [if_pos h4]
    obtain ⟨fname, hf, j, hj, hh⟩ := hret h4
    exact checkRet_total G n s t hcl htg hn (hfn fname hf)
      (holds_lookup hst (hL j hj) (by rw [hsc]; exact hh))
  rw [if_neg h4]
  exact ⟨_, rfl⟩

theorem checkNode_total (G : Globals) (F : State) (L : List Nat) (fn : Option String)
    (t : Nat) (n : TreeNode) (s : State)
    (hrec : RecNodes G F) (hclF : HeapClosed F.nodes)
    (hsc : s.scopes = F.scopes) (hty : OnlyTypes s.nodes F.nodes) (hst : StackOK s)
    (hL : ∀ j ∈ L, j ∈ stackList s) (hfn : ∀ f, fn = some f → s.funcName = some f)
    (hn : s.nodes[t]? = some n) (hok : NodeOK G F L fn n) :
    ∃ s1, checkNode G t s = some s1 := by
  have hcl : HeapClosed s.nodes := heapClosed_onlyTypes hclF hty
  have htg : Targets G s := fun name i r hl => recNodes_lookup hrec hsc hty hl
  unfold checkNode
  simp only [hn]
  cases hk : n.nodekind with
  | ExpK =>
    exact checkExp_total G F L fn t n s hcl htg hst hsc (onlyTypes_sameLinks hty)
      (onlyTypes_length hty) hL hn hk hok
  | StmtK => exact checkStmt_total G F L fn t n s hcl htg hst hsc hL hfn hn hk hok
  | DeclK => exact ⟨_, rfl⟩
  | ParamK => exact ⟨_, rfl⟩

/-! ## The Type-Checking pass changes `funcName` at function declarations only -/

theorem checkArgs_funcName (s : State) (n : TreeNode) :
    ∀ (fuel : Nat) (a p : Ptr) (s1 : State), checkArgs s n fuel a p = some s1 →
      s1.funcName = s.funcName := by
  intro fuel
  induction fuel with
  | zero =>
    intro a p s1 h
    cases a with
    | none => simp only [checkArgs] at h; cases h; rfl
    | some x =>
      cases p with
      | none => simp only [checkArgs] at h; cases h; rfl
      | some y => simp [checkArgs] at h
  | succ k ih =>
    intro a p s1 h
    cases a with
    | none => simp only [checkArgs] at h; cases h; rfl
    | some x =>
      cases p with
      | none => simp only [checkArgs] at h; cases h; rfl
      | some y =>
        simp only [checkArgs] at h
        split at h
        · split at h
          · cases h; rfl
          · split at h
            · cases h; rfl
            · exact ih _ _ _ h
        · cases h

theorem checkId_funcName {G : Globals} {t : Nat} {n : TreeNode} {s s1 : State}
    (h : checkId G t n s = some s1) : s1.funcName = s.funcName := by
  unfold checkId at h
  repeat' split at h
  all_goals
    cases h <;> rfl

theorem checkCall_funcName {G : Globals} {t : Nat} {n : TreeNode} {s s1 : State}
    (h : checkCall G t n s = some s1) : s1.funcName = s.funcName := by
  unfold checkCall at h
  split at h
  · cases h
  · split at h
    · cases h
    · cases h
    · split at h
      · cases h; rfl
      · split at h
        · cases h
        · dsimp only at h
          split at h
          · cases h; rfl
          · split at h
            · cases h
            · rename_i x hx
              have hq1 : x.funcName = s.funcName := by
                repeat' split at hx
                all_goals
                  cases hx <;> rfl
              split at h
              · cases h
              · rename_i y hy
                cases h
                have hq2 := checkArgs_funcName _ _ _ _ _ _ hy
                exact hq2.trans hq1

theorem checkRet_funcName {n : TreeNode} {s s1 : State}
    (h : checkRet n s = some s1) : s1.funcName = s.funcName := by
  unfold checkRet at h
  dsimp only at h
  repeat' split at h
  all_goals
    cases h <;> rfl

theorem checkExp_funcName {G : Globals} {t : Nat} {n : TreeNode} {s s1 : State}
    (h : checkExp G t n s = some s1) : s1.funcName = s.funcName := by
  unfold checkExp at h
  split at h
  · cases h; rfl
  · split at h
    · exact checkId_funcName h
    · split at h
      · exact checkCall_funcName h
      · repeat' split at h
        all_goals
          cases h <;> rfl

theorem checkStmt_funcName {G : Globals} {n : TreeNode} {s s1 : State}
    (h : checkStmt G n s = some s1) : s1.funcName = s.funcName := by
  unfold checkStmt at h
  split at h
  · cases h; rfl
  · split at h
    · repeat' split at h
      all_goals
        cases h <;> rfl
    · split at h
      · repeat' split at h
        all_goals
          cases h <;> rfl
      · split at h
        · exact checkRet_funcName h
        · cases h; rfl

theorem checkNode_funcName {G : Globals} {t : Nat} {s s1 : State}
    (h : checkNode G t s = some s1) : s1.funcName = s.funcName := by
  unfold checkNode at h
  split at h
  · cases h
  · rename_i n hn
    cases hk : n.nodekind with
    | ExpK => simp only [hk] at h; exact checkExp_funcName h
    | StmtK => simp only [hk] at h; exact checkStmt_funcName h
    | DeclK =>
      simp only [hk] at h
      cases h
      unfold checkDecl
      repeat' split
      all_goals rfl
    | ParamK =>
      simp only [hk] at h
      cases h
      unfold checkParam
      repeat' split
      all_goals rfl

theorem childChain_congr {G : Globals} {L : List Nat} {m n : TreeNode}
    (h : ({ m with type := ExpType.Void } : TreeNode) = { n with type := ExpType.Void }) :
    childChain G L m = childChain G L n := by
  cases m
  cases n
  simp only [TreeNode.mk.injEq] at h
  obtain ⟨rfl, rfl, rfl, rfl, rfl, rfl, rfl, rfl, _⟩ := h
  rfl

theorem childFn_congr {G : Globals} {fn : Option String} {m n : TreeNode}
    (h : ({ m with type := ExpType.Void } : TreeNode) = { n with type := ExpType.Void }) :
    childFn G fn m = childFn G fn n := by
  cases m
  cases n
  simp only [TreeNode.mk.injEq] at h
  obtain ⟨rfl, rfl, rfl, rfl, rfl, rfl, rfl, rfl, _⟩ := h
  rfl

theorem beforeCheckNode_inv (G : Globals) (F : State) (L : List Nat) (fn : Option String)
    (p : Nat) (n : TreeNode) (c : State)
    (hsc : c.scopes = F.scopes) (hst : StackOK c) (hL : stackList c = L)
    (hfn : ∀ f, fn = some f → c.funcName = some f)
    (hn : c.nodes[p]? = some n) (hok : NodeOK G F L fn n) :
    ∃ c1, beforeCheckNode G p c = some c1 ∧ c1.scopes = c.scopes ∧ c1.nodes = c.nodes ∧
      StackOK c1 ∧ stackList c1 = childChain G L n ∧
      (∀ i : Int, i < c.stackIdx → c1.stack i = c.stack i) ∧
      (∀ f, childFn G fn n = some f → c1.funcName = some f) ∧
      c1.stackIdx = (if n.nodekind = .StmtK ∧ n.kind = G.CompK then c.stackIdx + 1
        else c.stackIdx) := by
  unfold beforeCheckNode
  simp only [hn]
  cases hk : n.nodekind with
  | StmtK =>
    have hfn2 : childFn G fn n = fn := by simp [childFn, hk]
    by_cases hc : n.kind = G.CompK
    · simp only [NodeOK, hk] at hok
      obtain ⟨k, sck, hscope, hFk, hpar, hlev⟩ := hok.1 hc
      have hpush := stackOK_push hst (by rw [hsc]; exact hFk)
        (by rw [hpar, ← hL]; exact stackList_head hst)
        (by rw [hlev, ← hL]; exact stackList_length hst)
      simp only [if_pos hc, hscope]
      refine ⟨_, rfl, rfl, rfl, hpush.1, ?_, ?_, ?_, ?_⟩
      · rw [hpush.2, hL]
        simp [childChain, hk, hc, hscope]
      · intro i hi
        show (if i = c.stackIdx then some k else c.stack i) = c.stack i
        rw [if_neg (by omega)]
      · rw [hfn2]; exact hfn
      · simp [hc]; rfl
    · simp only [if_neg hc]
      refine ⟨_, rfl, rfl, rfl, hst, ?_, fun _ _ => rfl, ?_, ?_⟩
      · rw [hL]; simp [childChain, hc]
      · rw [hfn2]; exact hfn
      · simp [hc]
  | DeclK =>
    have hch : childChain G L n = L := by simp [childChain, hk]
    by_cases hf : n.kind = G.FunK
    · have hfn2 : childFn G fn n = n.name := by simp [childFn, hk, hf]
      simp only [if_pos hf]
      by_cases hv : n.type = .Void
      · rw [if_pos hv]
        refine ⟨_, rfl, rfl, rfl, hst, ?_, fun _ _ => rfl, ?_, by simp⟩
        · rw [hch]; exact hL
        · rw [hfn2]; intro f hf2; exact hf2
      · rw [if_neg hv]
        refine ⟨_, rfl, rfl, rfl, hst, ?_, fun _ _ => rfl, ?_, by simp⟩
        · rw [hch]; exact hL
        · rw [hfn2]; intro f hf2; exact hf2
    · have hfn2 : childFn G fn n = fn := by simp [childFn, hf]
      simp only [if_neg hf]
      refine ⟨_, rfl, rfl, rfl, hst, by rw [hch]; exact hL, fun _ _ => rfl, ?_, by simp⟩
      rw [hfn2]; exact hfn
  | ExpK =>
    have hch : childChain G L n = L := by simp [childChain, hk]
    have hfn2 : childFn G fn n = fn := by simp [childFn, hk]
    refine ⟨_, rfl, rfl, rfl, hst, by rw [hch]; exact hL, fun _ _ => rfl, ?_, by simp⟩
    rw [hfn2]; exact hfn
  | ParamK =>
    have hch : childChain G L n = L := by simp [childChain, hk]
    have hfn2 : childFn G fn n = fn := by simp [childFn, hk]
    refine ⟨_, rfl, rfl, rfl, hst, by rw [hch]; exact hL, fun _ _ => rfl, ?_, by simp⟩
    rw [hfn2]; exact hfn

theorem checkRuns_node (G : Globals) (F : State) (hrec : RecNodes G F)
    (hclF : HeapClosed F.nodes) (p : Nat) (C S : List Ev) (L : List Nat)
    (fn : Option String) (nF : TreeNode)
    (hnF : F.nodes[p]? = some nF) (hok : NodeOK G F L fn nF)
    (hC : ∀ c1 : State, c1.scopes = F.scopes → OnlyTypes c1.nodes F.nodes → StackOK c1 →
      stackList c1 = childChain G L nF →
      (∀ f, childFn G fn nF = some f → c1.funcName = some f) →
      CheckRuns G F (childFn G fn nF) C c1)
    (hS : ∀ c3 : State, c3.scopes = F.scopes → OnlyTypes c3.nodes F.nodes → StackOK c3 →
      stackList c3 = L → (∀ f, fn = some f → c3.funcName = some f) →
      CheckRuns G F fn S c3)
    (c : State) (hsc : c.scopes = F.scopes) (hty : OnlyTypes c.nodes F.nodes)
    (hst : StackOK c) (hL : stackList c = L)
    (hfn : ∀ f, fn = some f → c.funcName = some f) :
    CheckRuns G F fn (Ev.pre p :: (C ++ Ev.post p :: S)) c := by
  obtain ⟨n, hn, e⟩ := onlyTypes_get hty hnF
  have hokn := nodeOK_congr e hok
  have ech : childChain G L n = childChain G L nF := childChain_congr e
  have efn : childFn G fn n = childFn G fn nF := childFn_congr e
  have ekn : n.nodekind = nF.nodekind := by
    have := congrArg TreeNode.nodekind e
    exact this
  have ekk : n.kind = nF.kind := by
    have := congrArg TreeNode.kind e
    exact this
  obtain ⟨c1, hpre, h1sc, h1n, h1st, h1L, h1cells, h1fn, h1idx⟩ :=
    beforeCheckNode_inv G F L fn p n c hsc hst hL hfn hn hokn
  obtain ⟨c2, hrunC, h2sc, h2ty, h2idx, h2cells, h2fn, h2alw⟩ :=
    hC c1 (h1sc.trans hsc) (by rw [h1n]; exact hty) h1st (by rw [h1L, ech])
      (by rw [← efn]; exact h1fn)
  obtain ⟨h2st, h2L⟩ := stackOK_cells h1st (h2sc.trans (h1sc.trans hsc).symm) h2idx h2cells
  obtain ⟨n2, hn2, e2⟩ := onlyTypes_get h2ty hnF
  have hok2 := nodeOK_congr e2 hok
  have e2kn : n2.nodekind = nF.nodekind := by
    have := congrArg TreeNode.nodekind e2
    exact this
  have e2kk : n2.kind = nF.kind := by
    have := congrArg TreeNode.kind e2
    exact this
  have hfn2 : ∀ f, fn = some f → c2.funcName = some f := by
    intro f hf
    by_cases hd : nF.nodekind = .DeclK ∧ nF.kind = G.FunK
    · have hnone : fn = none := by
        simp only [NodeOK, hd.1] at hok
        exact hok hd.2
      rw [hnone] at hf
      cases hf
    · have hcf : childFn G fn nF = fn := by
        unfold childFn
        rw [if_neg hd]
      exact h2fn f (by rw [hcf]; exact hf)
  have hsub : ∀ j ∈ L, j ∈ stackList c2 := by
    rw [h2L, h1L]
    intro j hj
    unfold childChain
    split
    · split
      · exact List.mem_cons_of_mem _ hj
      · exact hj
    · exact hj
  obtain ⟨c3, hpost⟩ :=
    checkNode_total G F L fn p n2 c2 hrec hclF h2sc h2ty h2st hsub hfn2 hn2 hok2
  obtain ⟨n2b, hn2b, hstep⟩ := checkNode_step hpost
  rw [hn2] at hn2b
  cases hn2b
  have h3fn := checkNode_funcName hpost
  have h3 : c3.scopes = F.scopes ∧ OnlyTypes c3.nodes F.nodes ∧ c3.stackIdx = c.stackIdx ∧
      ∀ i : Int, i < c.stackIdx → c3.stack i = c.stack i := by
    by_cases hcomp : n2.nodekind = .StmtK ∧ n2.kind = G.CompK
    · rw [if_pos hcomp] at hstep
      have hcn : n.nodekind = .StmtK ∧ n.kind = G.CompK := by
        rw [ekn, ← e2kn, ekk, ← e2kk]; exact hcomp
      rw [if_pos hcn] at h1idx
      subst hstep
      refine ⟨h2sc, h2ty, ?_, ?_⟩
      · show c2.stackIdx - 1 = c.stackIdx
        omega
      · intro i hi
        show c2.stack i = c.stack i
        rw [h2cells i (by omega), h1cells i hi]
    · rw [if_neg hcomp] at hstep
      have hcn : ¬ (n.nodekind = .StmtK ∧ n.kind = G.CompK) := by
        rw [ekn, ← e2kn, ekk, ← e2kk]; exact hcomp
      rw [if_neg hcn] at h1idx
      refine ⟨hstep.1.trans h2sc, onlyTypes_trans hstep.2.2.2.1 h2ty, ?_, ?_⟩
      · rw [hstep.2.2.1]; omega
      · intro i hi
        rw [hstep.2.1, h2cells i (by omega), h1cells i hi]
  obtain ⟨h3sc, h3ty, h3idx, h3cells⟩ := h3
  obtain ⟨h3st, h3L⟩ := stackOK_cells hst (h3sc.trans hsc.symm) h3idx h3cells
  obtain ⟨c4, hrunS, h4sc, h4ty, h4idx, h4cells, h4fn, h4alw⟩ :=
    hS c3 h3sc h3ty h3st (h3L.trans hL) (fun f hf => by rw [h3fn]; exact hfn2 f hf)
  refine ⟨c4, ?_, h4sc, h4ty, h4idx.trans h3idx, ?_, h4fn, ?_⟩
  · rw [run_cons]
    simp only [runEv, hpre, Option.bind]
    rw [run_append, hrunC]
    simp only [Option.bind]
    rw [run_cons]
    simp only [runEv, hpost, Option.bind]
    exact hrunS
  · intro i hi
    rw [h4cells i (by omega), h3cells i hi]
  · refine ⟨hst, ?_⟩
    intro s1 hs1
    simp only [runEv] at hs1
    rw [hpre] at hs1
    cases hs1
    refine always_append _ _ h2alw ?_
    intro s2 hs2
    rw [hrunC] at hs2
    cases hs2
    refine ⟨h2st, ?_⟩
    intro s3 hs3
    simp only [runEv] at hs3
    rw [hpost] at hs3
    cases hs3
    exact h4alw

theorem checkRuns_nil (G : Globals) (F : State) (fn : Option String) (c : State)
    (hsc : c.scopes = F.scopes) (hty : OnlyTypes c.nodes F.nodes) (hst : StackOK c)
    (hfn : ∀ f, fn = some f → c.funcName = some f) : CheckRuns G F fn [] c :=
  ⟨c, rfl, hsc, hty, rfl, fun _ _ => rfl, hfn, hst⟩

theorem checkRuns_append (G : Globals) (F : State) (fn : Option String) {A B : List Ev}
    {c : State} (hst : StackOK c) (hsc : c.scopes = F.scopes)
    (hA : CheckRuns G F fn A c)
    (hB : ∀ c1 : State, c1.scopes = F.scopes → OnlyTypes c1.nodes F.nodes → StackOK c1 →
      stackList c1 = stackList c → (∀ f, fn = some f → c1.funcName = some f) →
      CheckRuns G F fn B c1) :
    CheckRuns G F fn (A ++ B) c := by
  obtain ⟨c1, hrunA, h1sc, h1ty, h1idx, h1cells, h1fn, h1alw⟩ := hA
  obtain ⟨h1st, h1L⟩ := stackOK_cells hst (h1sc.trans hsc.symm) h1idx h1cells
  obtain ⟨c2, hrunB, h2sc, h2ty, h2idx, h2cells, h2fn, h2alw⟩ :=
    hB c1 h1sc h1ty h1st h1L h1fn
  refine ⟨c2, ?_, h2sc, h2ty, h2idx.trans h1idx, ?_, h2fn, ?_⟩
  · rw [run_append, hrunA]
    exact hrunB
  · intro i hi
    rw [h2cells i (by omega), h1cells i hi]
  · refine always_append _ _ h1alw ?_
    intro s1 hs1
    rw [hrunA] at hs1
    cases hs1
    exact h2alw

mutual
theorem check_runs (G : Globals) (F : State) (hrec : RecNodes G F)
    (hclF : HeapClosed F.nodes) :
    ∀ (T : SynTree) (L : List Nat) (fn : Option String) (c : State),
      ScopeTree G F L fn T → c.scopes = F.scopes → OnlyTypes c.nodes F.nodes →
      StackOK c → stackList c = L → (∀ f, fn = some f → c.funcName = some f) →
      CheckRuns G F fn T.events c
  | .null, _, fn, c, _, hsc, hty, hst, _, hfn => checkRuns_nil G F fn c hsc hty hst hfn
  | .node p cs sib, L, fn, c, htree, hsc, hty, hst, hL, hfn => by
    simp only [ScopeTree] at htree
    obtain ⟨nF, hnF, hok, hcs, hsib⟩ := htree
    exact checkRuns_node G F hrec hclF p cs.events sib.events L fn nF hnF hok
      (fun c1 h1 h2 h3 h4 h5 => checkAll_runs G F hrec hclF cs _ _ c1 hcs h1 h2 h3 h4 h5)
      (fun c3 h1 h2 h3 h4 h5 => check_runs G F hrec hclF sib L fn c3 hsib h1 h2 h3 h4 h5)
      c hsc hty hst hL hfn
theorem checkAll_runs (G : Globals) (F : State) (hrec : RecNodes G F)
    (hclF : HeapClosed F.nodes) :
    ∀ (Fo : SynForest) (L : List Nat) (fn : Option String) (c : State),
      ScopeForest G F L fn Fo → c.scopes = F.scopes → OnlyTypes c.nodes F.nodes →
      StackOK c → stackList c = L → (∀ f, fn = some f → c.funcName = some f) →
      CheckRuns G F fn Fo.events c
  | .nil, _, fn, c, _, hsc, hty, hst, _, hfn => checkRuns_nil G F fn c hsc hty hst hfn
  | .cons t ts, L, fn, c, hforest, hsc, hty, hst, hL, hfn => by
    simp only [ScopeForest] at hforest
    obtain ⟨ht, hts⟩ := hforest
    exact checkRuns_append G F fn hst hsc
      (check_runs G F hrec hclF t L fn c ht hsc hty hst hL hfn)
      (fun c1 h1 h2 h3 h4 h5 =>
        checkAll_runs G F hrec hclF ts L fn c1 hts h1 h2 h3 (h4.trans hL) h5)
end

/-! ## What a visitor call of the Builder pass does to the registry and the stack -/

theorem step_of_eq (t : Nat) {s s1 : State} (h1 : s1.scopes = s.scopes)
    (h2 : s1.stack = s.stack) : Step t s s1 := by
  refine ⟨fun k sc hsc => ⟨sc, by rw [h1]; exact hsc, rfl⟩, ?_, fun i _ => by rw [h2]⟩
  intro k sc1 h r1 hsc hr
  exact Or.inr ⟨sc1, r1, by rw [← h1]; exact hsc, hr, rfl⟩

theorem step_trans {t : Nat} {a b c : State} (h1 : Step t a b)
    (hidx : b.stackIdx = a.stackIdx) (h2 : Step t b c) : Step t a c := by
  refine ⟨?_, ?_, ?_⟩
  · intro k sc hsc
    obtain ⟨sc1, hsc1, hl1⟩ := h1.1 k sc hsc
    obtain ⟨sc2, hsc2, hl2⟩ := h2.1 k sc1 hsc1
    exact ⟨sc2, hsc2, hl2.trans hl1⟩
  · intro k sc2 h r2 hsc2 hr2
    rcases h2.2.1 k sc2 h r2 hsc2 hr2 with ht | ⟨sc1, r1, hsc1, hr1, e1⟩
    · exact Or.inl ht
    · rcases h1.2.1 k sc1 h r1 hsc1 hr1 with ht | ⟨sc, r, hsc, hr, e⟩
      · exact Or.inl (e1 ▸ ht)
      · exact Or.inr ⟨sc, r, hsc, hr, e.trans e1⟩
  · intro i hi
    rw [h2.2.2 i (by rw [hidx]; exact hi), h1.2.2 i hi]

theorem step_setScope (t : Nat) {s : State} {i : Nat} {sc x : ScopeListRec}
    (hsc : s.scopes[i]? = some sc) (hl : x.nestedLevel = sc.nestedLevel)
    (hx : ∀ hh r, r ∈ x.hashTable hh → r.treeNode = some t ∨
      ∃ r0, r0 ∈ sc.hashTable hh ∧ r0.treeNode = r.treeNode) :
    Step t s (s.setScope i x) := by
  refine ⟨?_, ?_, fun _ _ => rfl⟩
  · intro k sck hk
    rw [setScope_scopes_getElem?]
    by_cases hik : i = k
    · subst hik
      rw [hsc] at hk
      cases hk
      exact ⟨x, by rw [if_pos rfl, hsc]; rfl, hl⟩
    · exact ⟨sck, by rw [if_neg hik]; exact hk, rfl⟩
  · intro k sc1 hh r1 hk hr
    rw [setScope_scopes_getElem?] at hk
    by_cases hik : i = k
    · subst hik
      rw [if_pos rfl, hsc] at hk
      simp only [Option.map_some', Option.some.injEq] at hk
      subst hk
      rcases hx hh r1 hr with h1 | ⟨r0, hr0, e⟩
      · exact Or.inl h1
      · exact Or.inr ⟨sc, r0, hsc, hr0, e⟩
    · rw [if_neg hik] at hk
      exact Or.inr ⟨sc1, r1, hk, hr, rfl⟩

theorem step_st_insert {t : Nat} {s s1 : State} {name : String} {lineno loc : Int}
    (h : st_insert s name lineno loc (some t) = some s1) : Step t s s1 := by
  unfold st_insert at h
  dsimp only at h
  split at h
  · cases h
  · split at h
    · cases h
    · rename_i sc hsc
      split at h
      · cases h
        refine step_setScope t hsc rfl ?_
        intro hh r hr
        simp only [ScopeListRec.setBucket] at hr
        by_cases hhh : hh = hash name
        · rw [if_pos hhh] at hr
          rcases List.mem_cons.1 hr with rfl | hr
          · exact Or.inl rfl
          · exact Or.inr ⟨r, by rw [hhh]; exact hr, rfl⟩
        · rw [if_neg hhh] at hr
          exact Or.inr ⟨r, hr, rfl⟩
      · cases h
        exact step_of_eq t rfl rfl

theorem step_st_add_lineno {t : Nat} {s s1 : State} {name : String} {lineno : Int}
    (h : st_add_lineno s name lineno = some s1) : Step t s s1 := by
  unfold st_add_lineno at h
  split at h
  · cases h
  · cases h
  · split at h
    · cases h
    · split at h
      · cases h
      · rename_i sc hsc
        dsimp only at h
        cases h
        refine step_setScope t hsc rfl ?_
        intro hh r hr
        simp only [ScopeListRec.setBucket] at hr
        by_cases hhh : hh = hash name
        · rw [if_pos hhh] at hr
          rcases mem_chainUpdate hr with h1 | ⟨x, hx, e⟩
          · exact Or.inr ⟨r, by rw [hhh]; exact h1, rfl⟩
          · subst e
            exact Or.inr ⟨x, by rw [hhh]; exact hx, rfl⟩
        · rw [if_neg hhh] at hr
          exact Or.inr ⟨r, hr, rfl⟩

theorem step_push_create (t : Nat) (s : State) (name : Option String) :
    Step t s (scPush (scCreate s name).1 (scCreate s name).2) := by
  refine ⟨?_, ?_, ?_⟩
  · intro k sc hsc
    have hk : k < s.scopes.length := by
      by_contra hge
      rw [List.getElem?_eq_none (by omega)] at hsc
      cases hsc
    refine ⟨sc, ?_, rfl⟩
    show (s.scopes ++ [_])[k]? = some sc
    rw [List.getElem?_append_left hk]
    exact hsc
  · intro k sc1 h r1 hsc hr
    have hsc2 := hsc
    simp only [scPush, scCreate] at hsc2
    by_cases hk : k < s.scopes.length
    · rw [List.getElem?_append_left hk] at hsc2
      exact Or.inr ⟨sc1, r1, hsc2, hr, rfl⟩
    · rw [List.getElem?_append_right (not_lt.1 hk)] at hsc2
      by_cases hk0 : k - s.scopes.length = 0
      · rw [hk0] at hsc2
        simp only [List.getElem?_cons_zero, Option.some.injEq] at hsc2
        subst hsc2
        simp at hr
      · obtain ⟨m, hm⟩ : ∃ m, k - s.scopes.length = m + 1 :=
          ⟨k - s.scopes.length - 1, by omega⟩
        rw [hm] at hsc2
        simp at hsc2
  · intro i hi
    show (if i = s.stackIdx then _ else s.stack i) = s.stack i
    rw [if_neg hi]

theorem step_congr {t : Nat} {a b c : State} (h : Step t a b) (h1 : c.scopes = b.scopes)
    (h2 : c.stack = b.stack) : Step t a c := by
  refine ⟨?_, ?_, ?_⟩
  · intro k sc hsc
    obtain ⟨sc1, hsc1, hl⟩ := h.1 k sc hsc
    exact ⟨sc1, by rw [h1]; exact hsc1, hl⟩
  · intro k sc1 hh r1 hsc hr
    exact h.2.1 k sc1 hh r1 (by rw [← h1]; exact hsc) hr
  · intro i hi
    rw [h2]
    exact h.2.2 i hi

theorem step_insertNode {G : Globals} {t : Nat} {s s1 : State}
    (h : insertNode G t s = some s1) : Step t s s1 := by
  unfold insertNode at h
  split at h
  · cases h
  · rename_i n hn
    split at h
    · split at h
      · cases h
        unfold insertComp
        by_cases hf : s.preserveLastScope = true
        · simp only [hf, if_true]
          exact step_of_eq t rfl rfl
        · simp only [hf]
          exact step_congr (step_push_create t s s.funcName) rfl rfl
      · cases h; exact step_of_eq t rfl rfl
    · split at h
      · unfold insertFun at h
        dsimp only at h
        split at h
        · cases h
        · split at h
          · cases h
          · cases h; exact step_of_eq t rfl rfl
          · split at h
            · cases h
            · rename_i s2 h2
              cases h
              have p1 : Step t s { s with funcName := n.name } := step_of_eq t rfl rfl
              have p2 : Step t s s2 := step_trans p1 rfl (step_st_insert h2)
              exact step_trans p2 (st_insert_frame h2).2.2.1
                (step_congr (step_push_create t s2 s2.funcName) rfl rfl)
      · split at h
        · unfold insertVar at h
          split at h
          · cases h; exact step_of_eq t rfl rfl
          · split at h
            · cases h
            · split at h
              · cases h
              · exact step_st_insert h
              · cases h; exact step_of_eq t rfl rfl
        · cases h; exact step_of_eq t rfl rfl
    · split at h
      · unfold insertUse at h
        split at h
        · cases h
        · split at h
          · cases h
          · split at h
            · dsimp only at h
              have p1 : Step t s ((symbolError s n "using undeclared symbol").setNode t
                  { n with nodekind := .DeclK, type := .TypeError }) := step_of_eq t rfl rfl
              exact step_trans p1 rfl (step_st_insert h)
            · exact step_st_add_lineno h
      · cases h; exact step_of_eq t rfl rfl
    · unfold insertParam at h
      split at h
      · split at h <;> cases h
        · exact step_of_eq t rfl rfl
        · exact step_of_eq t rfl rfl
      · split at h
        · cases h
        · split at h
          · exact step_st_insert h
          · cases h; exact step_of_eq t rfl rfl

theorem step_afterInsertNode {G : Globals} {t : Nat} {s s1 : State}
    (h : afterInsertNode G t s = some s1) : Step t s s1 := by
  unfold afterInsertNode at h
  split at h
  · cases h
  · split at h <;> cases h
    · exact step_of_eq t rfl rfl
    · exact step_of_eq t rfl rfl

theorem extends_refl (s : State) : Extends s s := fun _ sc h => ⟨sc, h, rfl⟩

theorem extends_trans {a b c : State} (h1 : Extends a b) (h2 : Extends b c) :
    Extends a c := by
  intro k sc hsc
  obtain ⟨sc1, hsc1, hl1⟩ := h1 k sc hsc
  obtain ⟨sc2, hsc2, hl2⟩ := h2 k sc1 hsc1
  exact ⟨sc2, hsc2, hl2.trans hl1⟩

theorem runEv_step {G : Globals} {e : Ev} {s s1 : State}
    (h : runEv (insertNode G) (afterInsertNode G) s e = some s1) : Step e.ptr s s1 := by
  cases e with
  | pre t => exact step_insertNode h
  | post t => exact step_afterInsertNode h

theorem run_extends (G : Globals) :
    ∀ (evs : List Ev) (s s1 : State),
      run (insertNode G) (afterInsertNode G) evs s = some s1 → Extends s s1 := by
  intro evs
  induction evs with
  | nil => intro s s1 h; cases h; exact extends_refl s
  | cons e es ih =>
    intro s s1 h
    rw [run_cons] at h
    cases he : runEv (insertNode G) (afterInsertNode G) s e with
    | none => rw [he] at h; cases h
    | some s2 =>
      rw [he, Option.some_bind] at h
      exact extends_trans (runEv_step he).1 (ih s2 s1 h)

theorem run_cells (G : Globals) (base : Int) :
    ∀ (evs : List Ev) (s s1 : State),
      run (insertNode G) (afterInsertNode G) evs s = some s1 →
      Always (insertNode G) (afterInsertNode G) (fun x => base ≤ x.stackIdx) evs s →
      ∀ i : Int, i < base → s1.stack i = s.stack i := by
  intro evs
  induction evs with
  | nil => intro s s1 h _ i _; cases h; rfl
  | cons e es ih =>
    intro s s1 h ha i hi
    rw [run_cons] at h
    cases he : runEv (insertNode G) (afterInsertNode G) s e with
    | none => rw [he] at h; cases h
    | some s2 =>
      rw [he, Option.some_bind] at h
      have hb : base ≤ s.stackIdx := ha.1
      rw [ih s2 s1 h (ha.2 s2 he) i hi, (runEv_step he).2.2 i (by omega)]

/-! ## Records keep declaring nodes with a parameter list -/

theorem recNodes_from {G : Globals} {t : Nat} {s s1 : State} (hrec : RecNodes G s)
    (hfrom : RecsFrom t s s1)
    (hnodes : KeepsKinds s.nodes s1.nodes)
    (ht : ∃ m1, s1.nodes[t]? = some m1 ∧
      (m1.kind = G.FunK → ∃ p, m1.child.getD 0 none = some p)) : RecNodes G s1 := by
  intro k sc1 h r1 hsc hr
  rcases hfrom k sc1 h r1 hsc hr with h1 | ⟨sc, r, hsc0, hr0, e⟩
  · obtain ⟨m1, hm1, hf⟩ := ht
    exact ⟨t, m1, h1, hm1, hf⟩
  · obtain ⟨fd, m, hfd, hm, hf⟩ := hrec k sc h r hsc0 hr0
    obtain ⟨m1, hm1, ek, ec⟩ := hnodes fd m hm
    exact ⟨fd, m1, by rw [← e]; exact hfd, hm1, by rw [ek, ec]; exact hf⟩

theorem recNodes_noNew {G : Globals} {s s1 : State} (hrec : RecNodes G s)
    (h0 : RecsFrom 0 s s1) (h1 : RecsFrom 1 s s1)
    (hnodes : KeepsKinds s.nodes s1.nodes) :
    RecNodes G s1 := by
  intro k sc1 h r1 hsc hr
  have hfrom : ∃ sc r, s.scopes[k]? = some sc ∧ r ∈ sc.hashTable h ∧
      r.treeNode = r1.treeNode := by
    rcases h0 k sc1 h r1 hsc hr with a | a
    · rcases h1 k sc1 h r1 hsc hr with b | b
      · rw [a] at b
        simp at b
      · exact b
    · exact a
  obtain ⟨sc, r, hsc0, hr0, e⟩ := hfrom
  obtain ⟨fd, m, hfd, hm, hf⟩ := hrec k sc h r hsc0 hr0
  obtain ⟨m1, hm1, ek, ec⟩ := hnodes fd m hm
  exact ⟨fd, m1, by rw [← e]; exact hfd, hm1, by rw [ek, ec]; exact hf⟩

theorem insertNode_kinds {G : Globals} {t : Nat} {s s1 : State}
    (h : insertNode G t s = some s1) :
    KeepsKinds s.nodes s1.nodes := by
  obtain ⟨n, m0, hn, e, hm⟩ := insertNode_nodes h
  intro u m hu
  rw [e, getElem?_set_nodes]
  by_cases htu : t = u
  · subst htu
    rw [hn] at hu
    cases hu
    exact ⟨m0, by rw [if_pos rfl, hn]; rfl, hm.2.2.1, hm.1⟩
  · exact ⟨m, by rw [if_neg htu]; exact hu, rfl, rfl⟩

theorem sameLinks_length {a b : List TreeNode} (h : SameLinks a b) : a.length = b.length := by
  rcases Nat.lt_trichotomy a.length b.length with hlt | heq | hgt
  · have ht := h a.length
    rw [List.getElem?_eq_none (le_refl _), List.getElem?_eq_getElem hlt] at ht
    cases ht
  · exact heq
  · have ht := h b.length
    rw [List.getElem?_eq_none (le_refl _), List.getElem?_eq_getElem hgt] at ht
    cases ht

theorem heapClosed_sameLinks {a b : List TreeNode} (hb : HeapClosed b) (h : SameLinks a b) :
    HeapClosed a := by
  intro t n hn
  obtain ⟨m, hm, ec, es⟩ := sameLinks_node (sameLinks_symm h) hn
  obtain ⟨h1, h2⟩ := hb t m hm
  constructor
  · intro q hq
    obtain ⟨x, hx⟩ := h1 q (by rw [es]; exact hq)
    obtain ⟨y, hy, _⟩ := sameLinks_node h hx
    exact ⟨y, hy⟩
  · intro i q hq
    obtain ⟨x, hx⟩ := h2 i q (by rw [ec]; exact hq)
    obtain ⟨y, hy, _⟩ := sameLinks_node h hx
    exact ⟨y, hy⟩

/-! ## The scopes of a subtree stay what they are -/

theorem holds_persist {X Y : State} (hp : Persist X Y) {j : Nat} {name : String}
    (h : Holds X.scopes j name) : Holds Y.scopes j name := by
  obtain ⟨sc, r, hsc, hf⟩ := h
  obtain ⟨sc1, hsc1, _, hrec⟩ := hp.2 j sc hsc
  obtain ⟨r1, hr1, _⟩ := hrec name r hf
  exact ⟨sc1, r1, hsc1, hr1⟩

theorem nodeOK_mono {G : Globals} {X Y : State} (hp : Persist X Y) (he : Extends X Y)
    (hl : SameLinks Y.nodes X.nodes) {L : List Nat} {fn : Option String} {n : TreeNode}
    (h : NodeOK G X L fn n) : NodeOK G Y L fn n := by
  unfold NodeOK at h ⊢
  cases hk : n.nodekind with
  | ExpK =>
    simp only [hk] at h ⊢
    obtain ⟨h1, h2, h3, h4⟩ := h
    refine ⟨h1, h2, ?_, h4⟩
    intro hc
    obtain ⟨name, hname, ⟨j, hj, hh⟩, A, hrep, hlen⟩ := h3 hc
    refine ⟨name, hname, ⟨j, hj, holds_persist hp hh⟩, A, ?_, ?_⟩
    · rw [represents_congr G hl]; exact hrep
    · rw [sameLinks_length hl]; exact hlen
  | StmtK =>
    simp only [hk] at h ⊢
    obtain ⟨h1, h2, h3⟩ := h
    refine ⟨?_, h2, ?_⟩
    · intro hc
      obtain ⟨k, sck, hscope, hsck, hpar, hlev⟩ := h1 hc
      obtain ⟨sc1, hsc1, hp1, _⟩ := hp.2 k sck hsck
      obtain ⟨sc2, hsc2, hl2⟩ := he k sck hsck
      rw [hsc1] at hsc2
      cases hsc2
      exact ⟨k, sc1, hscope, hsc1, hp1.trans hpar, hl2.trans hlev⟩
    · intro hr
      obtain ⟨fname, hf, j, hj, hh⟩ := h3 hr
      exact ⟨fname, hf, j, hj, holds_persist hp hh⟩
  | DeclK =>
    simp only [hk] at h ⊢
    exact h
  | ParamK => simp only [hk]

mutual
theorem scopeTree_mono (G : Globals) {X Y : State} (hp : Persist X Y) (he : Extends X Y)
    (hl : SameLinks Y.nodes X.nodes) :
    ∀ (T : SynTree) (L : List Nat) (fn : Option String),
      (∀ p ∈ T.ptrs, Y.nodes[p]? = X.nodes[p]?) → ScopeTree G X L fn T →
      ScopeTree G Y L fn T
  | .null, _, _, _, _ => by simp only [ScopeTree]
  | .node p cs sib, L, fn, hag, h => by
    simp only [ScopeTree] at h ⊢
    obtain ⟨n, hn, hok, hcs, hsib⟩ := h
    refine ⟨n, ?_, nodeOK_mono hp he hl hok, ?_, ?_⟩
    · rw [hag p (by simp [SynTree.ptrs])]; exact hn
    · exact scopeForest_mono G hp he hl cs _ _
        (fun q hq => hag q (by simp [SynTree.ptrs, hq])) hcs
    · exact scopeTree_mono G hp he hl sib L fn
        (fun q hq => hag q (by simp [SynTree.ptrs, hq])) hsib
theorem scopeForest_mono (G : Globals) {X Y : State} (hp : Persist X Y) (he : Extends X Y)
    (hl : SameLinks Y.nodes X.nodes) :
    ∀ (F : SynForest) (L : List Nat) (fn : Option String),
      (∀ p ∈ F.ptrs, Y.nodes[p]? = X.nodes[p]?) → ScopeForest G X L fn F →
      ScopeForest G Y L fn F
  | .nil, _, _, _, _ => by simp only [ScopeForest]
  | .cons c cs, L, fn, hag, h => by
    simp only [ScopeForest] at h ⊢
    exact ⟨scopeTree_mono G hp he hl c L fn
        (fun q hq => hag q (by simp [SynForest.ptrs, hq])) h.1,
      scopeForest_mono G hp he hl cs L fn
        (fun q hq => hag q (by simp [SynForest.ptrs, hq])) h.2⟩
end

/-! ## Support for the passage from the Builder pass to the Type-Checking pass -/

mutual
theorem checkShape_congr (G : Globals) {a b : List TreeNode} :
    ∀ (T : SynTree) (inFun : Bool), (∀ u ∈ T.ptrs, a[u]? = b[u]?) →
      checkShape G a inFun T = checkShape G b inFun T
  | .null, _, _ => by simp only [checkShape]
  | .node t cs sib, inFun, h => by
    have ht : a[t]? = b[t]? := h t (by simp [SynTree.ptrs])
    have h1 := fun x => checkShapeAll_congr G cs x
      (fun u hu => h u (by simp [SynTree.ptrs, hu]))
    have h3 := checkShape_congr G sib inFun (fun u hu => h u (by simp [SynTree.ptrs, hu]))
    simp only [checkShape, ht, h1, h3]
theorem checkShapeAll_congr (G : Globals) {a b : List TreeNode} :
    ∀ (F : SynForest) (inFun : Bool), (∀ u ∈ F.ptrs, a[u]? = b[u]?) →
      checkShapeAll G a inFun F = checkShapeAll G b inFun F
  | .nil, _, _ => by simp only [checkShapeAll]
  | .cons c cs, inFun, h => by
    have h1 := checkShape_congr G c inFun (fun u hu => h u (by simp [SynForest.ptrs, hu]))
    have h2 := checkShapeAll_congr G cs inFun
      (fun u hu => h u (by simp [SynForest.ptrs, hu]))
    simp only [checkShapeAll, h1, h2]
end

theorem stackList_cells {s t : State} (hidx : t.stackIdx = s.stackIdx)
    (hcells : ∀ i : Int, i < s.stackIdx → t.stack i = s.stack i) :
    stackList t = stackList s := by
  unfold stackList
  rw [hidx]
  refine stackBelow_congr _ (fun i hi => hcells i ?_)
  omega

theorem builderOK_all (G : Globals) (T : SynTree) : BuilderOK G T :=
  (builder_balanced G T.size).1 T (le_refl _)

theorem builderAllOK_all (G : Globals) (F : SynForest) : BuilderAllOK G F :=
  (builder_balanced G F.size).2 F (le_refl _)

theorem sibLen_le_ptrs : ∀ A : SynTree, A.sibLen ≤ A.ptrs.length
  | .null => by simp [SynTree.sibLen]
  | .node t cs sib => by
    have := sibLen_le_ptrs sib
    simp only [SynTree.sibLen, SynTree.ptrs, List.length_cons, List.length_append]
    omega

theorem nodup_length_le {l : List Nat} {N : Nat} (hnd : l.Nodup) (h : ∀ x ∈ l, x < N) :
    l.length ≤ N := by
  have := (hnd.subperm (fun x hx => List.mem_range.2 (h x hx))).length_le
  rwa [List.length_range] at this

theorem sibLen_le (G : Globals) {nodes : List TreeNode} {A : SynTree} {p : Ptr}
    (hrep : represents G nodes p A = true) (hnd : A.ptrs.Nodup) :
    A.sibLen ≤ nodes.length :=
  le_trans (sibLen_le_ptrs A) (nodup_length_le hnd (represents_ptrs G A p hrep))

theorem first_child (G : Globals) (hM : 1 ≤ G.MAXCHILDREN) {nodes : List TreeNode}
    {n : TreeNode} {cs : SynForest} (h : representsAll G nodes (childPtrs G n) cs = true) :
    ∃ A rest, cs = .cons A rest ∧ represents G nodes (n.child.getD 0 none) A = true := by
  obtain ⟨m, hm⟩ : ∃ m, G.MAXCHILDREN = m + 1 := ⟨G.MAXCHILDREN - 1, by omega⟩
  have hcp : childPtrs G n =
      n.child.getD 0 none :: (List.range m).map (fun i => n.child.getD (i + 1) none) := by
    unfold childPtrs
    rw [hm, List.range_succ_eq_map]
    simp [List.map_map, Function.comp_def]
  rw [hcp] at h
  cases cs with
  | nil => simp [representsAll] at h
  | cons A rest =>
    simp only [representsAll, Bool.and_eq_true] at h
    exact ⟨A, rest, rfl, h.1⟩

theorem fnOK_persist {inFun : Bool} {fn : Option String} {X Y : State} {L L2 : List Nat}
    (h : FnOK inFun fn X.scopes L) (hp : Persist X Y) (hL : ∀ j ∈ L, j ∈ L2) :
    FnOK inFun fn Y.scopes L2 := by
  unfold FnOK at h ⊢
  by_cases hi : inFun = true
  · rw [if_pos hi] at h ⊢
    obtain ⟨fname, hf, j, hj, hh⟩ := h
    exact ⟨fname, hf, j, hL j hj, holds_persist hp hh⟩
  · rw [if_neg hi] at h ⊢
    exact h

theorem keepsKinds_refl (a : List TreeNode) : KeepsKinds a a :=
  fun _ m h => ⟨m, h, rfl, rfl⟩

theorem keepsKinds_trans {a b c : List TreeNode} (h1 : KeepsKinds a b)
    (h2 : KeepsKinds b c) : KeepsKinds a c := by
  intro u m hm
  obtain ⟨m1, hm1, e1, e2⟩ := h1 u m hm
  obtain ⟨m2, hm2, e3, e4⟩ := h2 u m1 hm1
  exact ⟨m2, hm2, e3.trans e1, e4.trans e2⟩

theorem insertUse_outcome {s : State} (hinv : BInv s) (t : Nat) (n : TreeNode)
    (hn : s.nodes[t]? = some n) {name : String} (hname : n.name = some name) :
    ∃ s1, insertUse t n s = some s1 ∧
      ((s1.nodes = s.nodes ∧ ∃ j r, st_lookup_bucket s name = some (some (j, r))) ∨
       s1.nodes[t]? = some { n with nodekind := .DeclK, type := .TypeError }) := by
  obtain ⟨b, hb, hbr⟩ := binv_lookup_total hinv name
  cases b with
  | none =>
    obtain ⟨top, sc, htop, hsc, _⟩ := stackOK_top hinv.1
    refine ⟨_, insertUse_undeclared s t n name top sc hname htop hsc hb, Or.inr ?_⟩
    show (s.nodes.set t _)[t]? = _
    rw [getElem?_set_nodes, if_pos rfl, hn]
    rfl
  | some ir =>
    obtain ⟨i, r⟩ := ir
    obtain ⟨s1, hs1, _, hnodes⟩ := quiet_st_add_lineno hinv name n.lineno i r hb
    refine ⟨s1, ?_, Or.inl ⟨hnodes, i, r, hb⟩⟩
    rw [insertUse_declared s t n name i r hname hb (hbr i r rfl).2]
    exact hs1

theorem plain_pre (G : Globals) (hM : 1 ≤ G.MAXCHILDREN) {inFun : Bool}
    {fn : Option String} {s s1 : State} (hinv : BInv s) {t : Nat} {n : TreeNode}
    (hn : s.nodes[t]? = some n) (hnames : namesOk G n = true)
    (hfun : isFunDecl G n = false) (hcomp : isCompStmt G n = false)
    (hshape : shapeOk G inFun n = true) (hrec : RecNodes G s)
    (hfn : FnOK inFun fn s.scopes (stackList s)) {cs : SynForest}
    (hrepC : representsAll G s.nodes (childPtrs G n) cs = true) (hndC : cs.ptrs.Nodup)
    (hpre : insertNode G t s = some s1) :
    RecNodes G s1 ∧ ∃ m, s1.nodes[t]? = some m ∧ NodeOK G s1 (stackList s) fn m ∧
      childChain G (stackList s) m = stackList s ∧ childFn G fn m = fn := by
  have hper := persist_insertNode hpre
  have hstep := step_insertNode hpre
  have hkeep := insertNode_kinds hpre
  have hlinks : SameLinks s1.nodes s.nodes := insertNode_keepsLinks G t s s1 hpre
  unfold insertNode at hpre
  rw [hn] at hpre
  cases hk : n.nodekind with
  | StmtK =>
    simp only [hk] at hpre
    have hc : n.kind ≠ G.CompK := by
      intro hc
      simp [isCompStmt, hk, hc] at hcomp
    rw [if_neg hc] at hpre
    cases hpre
    simp only [shapeOk, hk, Bool.and_eq_true, decide_eq_true_eq] at hshape
    refine ⟨hrec, n, hn, ?_, by simp [childChain, hc], by simp [childFn, hk]⟩
    simp only [NodeOK, hk]
    refine ⟨fun h => absurd h hc, fun h => Option.isSome_iff_exists.1 (hshape.1 h), ?_⟩
    intro h
    have hin := hshape.2 h
    unfold FnOK at hfn
    rw [if_pos hin] at hfn
    exact hfn
  | DeclK =>
    simp only [hk] at hpre
    have hfk : n.kind ≠ G.FunK := by
      intro hc
      simp [isFunDecl, hk, hc] at hfun
    rw [if_neg hfk] at hpre
    have hcc : childChain G (stackList s) n = stackList s := by simp [childChain, hk]
    have hcf : childFn G fn n = fn := by simp [childFn, hfk]
    have hok : NodeOK G s1 (stackList s) fn n := by
      simp only [NodeOK, hk]
      exact fun h => absurd h hfk
    by_cases hv : n.kind = G.VarK ∨ n.kind = G.VarArrK
    · rw [if_pos hv] at hpre
      have hnodes := insertVar_nodes hpre
      have hn1 : s1.nodes[t]? = some n := by rw [hnodes]; exact hn
      exact ⟨recNodes_from hrec hstep.2.1 hkeep ⟨n, hn1, fun h => absurd h hfk⟩,
        n, hn1, hok, hcc, hcf⟩
    · rw [if_neg hv] at hpre
      cases hpre
      exact ⟨hrec, n, hn, hok, hcc, hcf⟩
  | ExpK =>
    simp only [hk] at hpre
    simp only [shapeOk, hk, Bool.and_eq_true, decide_eq_true_eq] at hshape
    obtain ⟨⟨hsu, hsidx⟩, hsops⟩ := hshape
    by_cases hu : n.kind = G.IdK ∨ n.kind = G.IdArrK ∨ n.kind = G.CallK
    · rw [if_pos hu] at hpre
      have hnm : n.name.isSome = true := by
        simpa [namesOk, hk, hu] using hnames
      obtain ⟨name, hname⟩ := Option.isSome_iff_exists.1 hnm
      obtain ⟨s1b, hs1b, hout⟩ := insertUse_outcome hinv t n hn hname
      rw [hpre] at hs1b
      cases hs1b
      have hfk : n.kind ≠ G.FunK := hsu hu
      obtain ⟨m1, hm1, ek, _⟩ := hkeep t n hn
      have hrec1 : RecNodes G s1 :=
        recNodes_from hrec hstep.2.1 hkeep ⟨m1, hm1, fun h => absurd (ek ▸ h) hfk⟩
      refine ⟨hrec1, ?_⟩
      rcases hout with ⟨hnodes, j, r, hfound⟩ | hre
      · have hn1 : s1.nodes[t]? = some n := by rw [hnodes]; exact hn
        refine ⟨n, hn1, ?_, by simp [childChain, hk], by simp [childFn, hk]⟩
        simp only [NodeOK, hk]
        refine ⟨fun _ => hnm, fun h => Option.isSome_iff_exists.1 (hsidx h), ?_,
          fun h => ?_⟩
        · intro _
          obtain ⟨hj, sc, hsc, hf⟩ := (lookups_on_stack hinv.1).1 name j r hfound
          obtain ⟨A, rest, hcs, hrepA⟩ := first_child G hM hrepC
          have hndA : A.ptrs.Nodup := by
            rw [hcs] at hndC
            simp only [SynForest.ptrs] at hndC
            exact (List.nodup_append.1 hndC).1
          have hrepA1 : represents G s1.nodes (n.child.getD 0 none) A = true := by
            rw [represents_congr G hlinks]; exact hrepA
          exact ⟨name, hname, ⟨j, hj, holds_persist hper ⟨sc, r, hsc, hf⟩⟩, A, hrepA1,
            sibLen_le G hrepA1 hndA⟩
        · obtain ⟨h0, h1⟩ := hsops h
          obtain ⟨q0, hq0⟩ := Option.isSome_iff_exists.1 h0
          obtain ⟨q1, hq1⟩ := Option.isSome_iff_exists.1 h1
          exact ⟨q0, q1, hq0, hq1⟩
      · refine ⟨_, hre, ?_, by simp [childChain], by simp [childFn, hfk]⟩
        simp only [NodeOK]
        exact fun h => absurd h hfk
    · rw [if_neg hu] at hpre
      cases hpre
      refine ⟨hrec, n, hn, ?_, by simp [childChain, hk], by simp [childFn, hk]⟩
      simp only [NodeOK, hk]
      refine ⟨fun h => absurd (h.elim Or.inl (fun x => Or.inr (Or.inl x))) hu,
        fun h => absurd (Or.inr (Or.inl h)) hu, fun h => absurd (Or.inr (Or.inr h)) hu,
        fun h => ?_⟩
      obtain ⟨h0, h1⟩ := hsops h
      obtain ⟨q0, hq0⟩ := Option.isSome_iff_exists.1 h0
      obtain ⟨q1, hq1⟩ := Option.isSome_iff_exists.1 h1
      exact ⟨q0, q1, hq0, hq1⟩
  | ParamK =>
    simp only [hk] at hpre
    simp only [shapeOk, hk, decide_eq_true_eq] at hshape
    have hnodes := insertParam_nodes hpre
    have hn1 : s1.nodes[t]? = some n := by rw [hnodes]; exact hn
    refine ⟨recNodes_from hrec hstep.2.1 hkeep ⟨n, hn1, fun h => absurd h hshape⟩,
      n, hn1, ?_, by simp [childChain, hk], by simp [childFn, hk]⟩
    simp only [NodeOK, hk]

theorem scoped_plain (G : Globals) (hM : 1 ≤ G.MAXCHILDREN) {t : Nat} {cs : SynForest}
    {sib : SynTree} (hF : ScopedAllOK G cs) (hT : ScopedOK G sib) (inFun : Bool)
    (fn : Option String) (s s4 : State) (n : TreeNode)
    (hn : s.nodes[t]? = some n) (hnames : namesOk G n = true)
    (hfun : isFunDecl G n = false) (hcomp : isCompStmt G n = false)
    (hshape : shapeOk G inFun n = true)
    (hrepC : representsAll G s.nodes (childPtrs G n) cs = true)
    (hrepS : represents G s.nodes n.sibling sib = true)
    (hwf1 : wellFormedAll G s.nodes cs = true) (hwf2 : wellFormed G s.nodes sib = true)
    (hsh1 : checkShapeAll G s.nodes inFun cs = true)
    (hsh2 : checkShape G s.nodes inFun sib = true)
    (hnd : (SynTree.node t cs sib).ptrs.Nodup) (hinv : BInv s)
    (hflag : s.preserveLastScope = false) (hrec : RecNodes G s)
    (hfn : FnOK inFun fn s.scopes (stackList s))
    (hrun : run (insertNode G) (afterInsertNode G) (SynTree.node t cs sib).events s =
      some s4) :
    RecNodes G s4 ∧ ScopeTree G s4 (stackList s) fn (SynTree.node t cs sib) := by
  simp only [SynTree.ptrs, List.nodup_cons, List.mem_append, not_or, List.nodup_append] at hnd
  obtain ⟨⟨ht1, ht2⟩, hnd1, hnd2, hdisj⟩ := hnd
  obtain ⟨s1, hpre, hq⟩ := quiet_insertNode_plain G hinv hn hnames hfun hcomp
  obtain ⟨hrec1, m, hm, hokm, hcc, hcf⟩ :=
    plain_pre G hM hinv hn hnames hfun hcomp hshape hrec hfn hrepC hnd1 hpre
  obtain ⟨hfr, n0, m0, hn0, hm0, hshape0⟩ := insertNode_frame hpre
  rw [hn] at hn0
  cases hn0
  rw [hm] at hm0
  cases hm0
  have hlinks1 : SameLinks s1.nodes s.nodes := insertNode_keepsLinks G t s s1 hpre
  have hL1 : stackList s1 = stackList s :=
    stackList_cells hq.2.2.1 (fun i _ => by rw [hq.2.1])
  have hwf1b : wellFormedAll G s1.nodes cs = true := by
    rw [wellFormedAll_congr G cs (fun u hu => hfr u (fun e => ht1 (e ▸ hu)))]
    exact hwf1
  have hsh1b : checkShapeAll G s1.nodes inFun cs = true := by
    rw [checkShapeAll_congr G cs inFun (fun u hu => hfr u (fun e => ht1 (e ▸ hu)))]
    exact hsh1
  have hrepCb : representsAll G s1.nodes (childPtrs G n) cs = true := by
    rw [representsAll_congr G hlinks1]; exact hrepC
  have hflag1 : s1.preserveLastScope = false := hq.2.2.2.1.trans hflag
  obtain ⟨s2, hr2, hi2, hs2, hf2, hn2, ha2⟩ :=
    builderAllOK_all G cs s1 hwf1b hnd1 hq.1 hflag1
  have hper01 := persist_insertNode hpre
  have hfn1 : FnOK inFun fn s1.scopes (stackList s1) :=
    fnOK_persist hfn hper01 (by rw [hL1]; exact fun j hj => hj)
  obtain ⟨hrec2, hforest⟩ :=
    hF inFun fn s1 s2 (childPtrs G n) hrepCb hwf1b hsh1b hnd1 hq.1 hflag1 hrec1 hfn1 hr2
  have hm2 : s2.nodes[t]? = some m := by rw [hn2 t ht1]; exact hm
  have hncomp : ¬ (m.nodekind = .StmtK ∧ m.kind = G.CompK) := by
    rw [sameShape_comp G hshape0]
    intro hc
    simp [isCompStmt, hc.1, hc.2] at hcomp
  have hpost := afterInsertNode_plain G hm2 hncomp
  have hc2 := run_cells G s1.stackIdx cs.events s1 s2 hr2
    (always_mono (fun x hx => hx.2) _ _ ha2)
  have hL2 : stackList s2 = stackList s := (stackList_cells hs2 hc2).trans hL1
  have hag2 : ∀ u ∈ sib.ptrs, s2.nodes[u]? = s.nodes[u]? := by
    intro u hu
    rw [hn2 u (fun hu1 => hdisj hu1 hu), hfr u (fun e => ht2 (e ▸ hu))]
  have hlinks21 : SameLinks s2.nodes s1.nodes :=
    run_sameLinks (insertNode_keepsLinks G) (afterInsertNode_keepsLinks G) _ _ _ hr2
  have hlinks2 : SameLinks s2.nodes s.nodes := sameLinks_trans hlinks21 hlinks1
  have hwf2b : wellFormed G s2.nodes sib = true := by
    rw [wellFormed_congr G sib hag2]; exact hwf2
  have hsh2b : checkShape G s2.nodes inFun sib = true := by
    rw [checkShape_congr G sib inFun hag2]; exact hsh2
  have hrepSb : represents G s2.nodes n.sibling sib = true := by
    rw [represents_congr G hlinks2]; exact hrepS
  have hrun4 : run (insertNode G) (afterInsertNode G) sib.events s2 = some s4 := by
    simp only [SynTree.events, run_cons, runEv, hpre, Option.some_bind, run_append, hr2,
      hpost] at hrun
    exact hrun
  obtain ⟨s4b, hr4, _, _, _, hn4, _⟩ := builderOK_all G sib s2 hwf2b hnd2 hi2 hf2
  rw [hrun4] at hr4
  cases hr4
  have hper12 := run_persist G _ _ _ hr2
  have hfn2 : FnOK inFun fn s2.scopes (stackList s2) :=
    fnOK_persist hfn1 hper12 (by rw [hL2, hL1]; exact fun j hj => hj)
  obtain ⟨hrec4, htree⟩ :=
    hT inFun fn s2 s4 n.sibling hrepSb hwf2b hsh2b hnd2 hi2 hf2 hrec2 hfn2 hrun4
  have hper24 := run_persist G _ _ _ hrun4
  have hext24 := run_extends G _ _ _ hrun4
  have hlinks42 : SameLinks s4.nodes s2.nodes :=
    run_sameLinks (insertNode_keepsLinks G) (afterInsertNode_keepsLinks G) _ _ _ hrun4
  refine ⟨hrec4, ?_⟩
  simp only [ScopeTree]
  refine ⟨m, ?_, nodeOK_mono (persist_trans hper12 hper24)
    (extends_trans (run_extends G _ _ _ hr2) hext24) (sameLinks_trans hlinks42 hlinks21)
    hokm, ?_, ?_⟩
  · rw [hn4 t ht2]; exact hm2
  · rw [hcc, hcf]
    refine scopeForest_mono G hper24 hext24 hlinks42 cs _ _
      (fun p hp => hn4 p (fun hp2 => hdisj hp hp2)) ?_
    rw [← hL1]; exact hforest
  · rw [← hL2]; exact htree

theorem insertComp_node {b : Nat} {mb : TreeNode} {s : State} (hnb : s.nodes[b]? = some mb) :
    (insertComp b mb s).nodes[b]? = some { mb with scope := scTop (insertComp b mb s) } := by
  unfold insertComp
  by_cases hf : s.preserveLastScope = true
  · simp only [hf, if_true]
    show (s.nodes.set b _)[b]? = _
    rw [getElem?_set_nodes, if_pos rfl, hnb]
    rfl
  · simp only [hf]
    show (s.nodes.set b _)[b]? = _
    rw [getElem?_set_nodes, if_pos rfl, hnb]
    rfl

theorem insertComp_step (t : Nat) (b : Nat) (mb : TreeNode) (s : State) :
    Step t s (insertComp b mb s) := by
  unfold insertComp
  by_cases hf : s.preserveLastScope = true
  · simp only [hf, if_true]
    exact step_of_eq t rfl rfl
  · simp only [hf]
    exact step_congr (step_push_create t s s.funcName) rfl rfl

theorem afterInsertNode_same {G : Globals} {t : Nat} {s s1 : State}
    (h : afterInsertNode G t s = some s1) : s1.scopes = s.scopes ∧ s1.stack = s.stack := by
  unfold afterInsertNode at h
  split at h
  · cases h
  · split at h <;> cases h
    · exact ⟨rfl, rfl⟩
    · exact ⟨rfl, rfl⟩

theorem recNodes_of_eq {G : Globals} {s s1 : State} (h : RecNodes G s)
    (h1 : s1.scopes = s.scopes) (h2 : s1.nodes = s.nodes) : RecNodes G s1 := by
  intro k sc hh r hsc hr
  rw [h1] at hsc
  rw [h2]
  exact h k sc hh r hsc hr

theorem stackBelow_head {s : State} (h : StackOK s) {n : Nat} (h1 : 1 ≤ n)
    (hn : (n : Int) ≤ s.stackIdx) :
    (stackBelow s n).head? = s.stack ((n : Int) - 1) := by
  obtain ⟨m, rfl⟩ : ∃ m, n = m + 1 := ⟨n - 1, by omega⟩
  obtain ⟨k, sc, hk, _, _, _⟩ := h.2.2 (m : Int) (by omega) (by omega)
  rw [stackBelow_succ hk]
  have e : ((m + 1 : Nat) : Int) - 1 = (m : Int) := by omega
  rw [e, hk]
  rfl

theorem comp_pre (G : Globals) {inFun : Bool} {fn : Option String} {s : State} {b : Nat}
    {mb : TreeNode} (hnb : s.nodes[b]? = some mb)
    (hcomp : mb.nodekind = .StmtK ∧ mb.kind = G.CompK) (hshape : shapeOk G inFun mb = true)
    (hinv : BInv s) (base : Int)
    (hbase : s.stackIdx = if s.preserveLastScope then base + 1 else base) (h1 : 1 ≤ base)
    (hrec : RecNodes G s) (hfn : FnOK inFun fn s.scopes (stackBelow s base.toNat)) :
    ∃ k m, (insertComp b mb s).nodes[b]? = some m ∧
      NodeOK G (insertComp b mb s) (stackBelow s base.toNat) fn m ∧
      childChain G (stackBelow s base.toNat) m = k :: stackBelow s base.toNat ∧
      childFn G fn m = fn ∧
      stackList (insertComp b mb s) = k :: stackBelow s base.toNat ∧
      RecNodes G (insertComp b mb s) ∧
      (∀ i : Int, i < base → (insertComp b mb s).stack i = s.stack i) := by
  obtain ⟨hi1, hf1, hs1⟩ := binv_insertComp hinv b mb
  have hs1b : (insertComp b mb s).stackIdx = base + 1 := by
    rw [hs1, hbase]
    by_cases hfl : s.preserveLastScope = true
    · simp only [hfl, if_true]
    · simp only [hfl]
      rfl
  have hle : base ≤ s.stackIdx := by
    rw [hbase]
    by_cases hfl : s.preserveLastScope = true
    · simp only [hfl, if_true]; omega
    · simp only [hfl]; exact le_refl _
  have hcells : ∀ i : Int, i < base → (insertComp b mb s).stack i = s.stack i :=
    fun i hi => (insertComp_step 0 b mb s).2.2 i (by omega)
  obtain ⟨k, sck, hk, hsck, hpar, hlev⟩ := hi1.1.2.2 base (by omega) (by omega)
  obtain ⟨nb, hnb2⟩ : ∃ nb : Nat, base = (nb : Int) := ⟨base.toNat, by omega⟩
  have e1 : (insertComp b mb s).stackIdx.toNat = nb + 1 := by omega
  have e2 : base.toNat = nb := by omega
  have hL1 : stackList (insertComp b mb s) = k :: stackBelow s base.toNat := by
    unfold stackList
    rw [e1, e2, stackBelow_succ (by rw [← hnb2]; exact hk)]
    congr 1
    exact stackBelow_congr _ (fun i hi => hcells i (by omega))
  have htop : scTop (insertComp b mb s) = some k := by
    show (insertComp b mb s).stack ((insertComp b mb s).stackIdx - 1) = some k
    rw [hs1b]
    have e : base + 1 - 1 = base := by omega
    rw [e]
    exact hk
  have hhead : (stackBelow s base.toNat).head? = s.stack (base - 1) := by
    rw [e2, stackBelow_head hinv.1 (by omega) (by omega), hnb2]
  have hlen : ((stackBelow s base.toNat).length : Int) = base := by
    rw [e2, stackBelow_length hinv.1 nb (by omega)]
    exact hnb2.symm
  have hrec1 : RecNodes G (insertComp b mb s) := by
    have hpre : insertNode G b s = some (insertComp b mb s) := by
      unfold insertNode
      rw [hnb]
      simp only [hcomp.1, hcomp.2, if_true]
    exact recNodes_noNew hrec (insertComp_step 0 b mb s).2.1 (insertComp_step 1 b mb s).2.1
      (insertNode_kinds hpre)
  simp only [shapeOk, hcomp.1, Bool.and_eq_true, decide_eq_true_eq] at hshape
  refine ⟨k, { mb with scope := some k }, ?_, ?_, ?_, ?_, hL1, hrec1, hcells⟩
  · rw [insertComp_node hnb, htop]
  · simp only [NodeOK, hcomp.1]
    refine ⟨fun _ => ⟨k, sck, rfl, hsck, ?_, ?_⟩,
      fun h => Option.isSome_iff_exists.1 (hshape.1 h), ?_⟩
    · rw [hpar, hhead, hcells (base - 1) (by omega)]
    · rw [hlev, hlen]
    · intro h
      have hin := hshape.2 h
      unfold FnOK at hfn
      rw [if_pos hin] at hfn
      obtain ⟨fname, hf, j, hj, hh⟩ := hfn
      have hper : Persist s (insertComp b mb s) := by
        have hpre : insertNode G b s = some (insertComp b mb s) := by
          unfold insertNode
          rw [hnb]
          simp only [hcomp.1, hcomp.2, if_true]
        exact persist_insertNode hpre
      exact ⟨fname, hf, j, hj, holds_persist hper hh⟩
  · simp [childChain, hcomp.1, hcomp.2]
  · simp [childFn, hcomp.1]

theorem scoped_comp (G : Globals) {b : Nat} {bcs : SynForest} {bsib : SynTree}
    (hF : ScopedAllOK G bcs) (hT : ScopedOK G bsib) (inFun : Bool) (fn : Option String)
    (s s4 : State) (mb : TreeNode)
    (hnb : s.nodes[b]? = some mb) (hcomp : mb.nodekind = .StmtK ∧ mb.kind = G.CompK)
    (hshape : shapeOk G inFun mb = true)
    (hrepC : representsAll G s.nodes (childPtrs G mb) bcs = true)
    (hrepS : represents G s.nodes mb.sibling bsib = true)
    (hwf1 : wellFormedAll G s.nodes bcs = true) (hwf2 : wellFormed G s.nodes bsib = true)
    (hsh1 : checkShapeAll G s.nodes inFun bcs = true)
    (hsh2 : checkShape G s.nodes inFun bsib = true)
    (hnd : (SynTree.node b bcs bsib).ptrs.Nodup) (hinv : BInv s) (base : Int)
    (hbase : s.stackIdx = if s.preserveLastScope then base + 1 else base) (h1 : 1 ≤ base)
    (hrec : RecNodes G s) (hfn : FnOK inFun fn s.scopes (stackBelow s base.toNat))
    (hrun : run (insertNode G) (afterInsertNode G) (SynTree.node b bcs bsib).events s =
      some s4) :
    RecNodes G s4 ∧
      ScopeTree G s4 (stackBelow s base.toNat) fn (SynTree.node b bcs bsib) := by
  simp only [SynTree.ptrs, List.nodup_cons, List.mem_append, not_or, List.nodup_append] at hnd
  obtain ⟨⟨hb1, hb2⟩, hnd1, hnd2, hdisj⟩ := hnd
  have hpre : insertNode G b s = some (insertComp b mb s) := by
    unfold insertNode
    rw [hnb]
    simp only [hcomp.1, hcomp.2, if_true]
  obtain ⟨hi1, hf1, hs1⟩ := binv_insertComp hinv b mb
  have hs1b : (insertComp b mb s).stackIdx = base + 1 := by
    rw [hs1, hbase]
    by_cases hfl : s.preserveLastScope = true
    · simp only [hfl, if_true]
    · simp only [hfl]
      rfl
  obtain ⟨k, m, hm, hokm, hcc, hcf, hL1, hrec1, hcells1⟩ :=
    comp_pre G hnb hcomp hshape hinv base hbase h1 hrec hfn
  obtain ⟨hfr, n0, m0, hn0, hm0, hshape0⟩ := insertNode_frame hpre
  rw [hnb] at hn0
  cases hn0
  rw [hm] at hm0
  cases hm0
  have hlinks1 : SameLinks (insertComp b mb s).nodes s.nodes :=
    insertNode_keepsLinks G b s _ hpre
  have hwf1b : wellFormedAll G (insertComp b mb s).nodes bcs = true := by
    rw [wellFormedAll_congr G bcs (fun u hu => hfr u (fun e => hb1 (e ▸ hu)))]
    exact hwf1
  have hsh1b : checkShapeAll G (insertComp b mb s).nodes inFun bcs = true := by
    rw [checkShapeAll_congr G bcs inFun (fun u hu => hfr u (fun e => hb1 (e ▸ hu)))]
    exact hsh1
  have hrepCb : representsAll G (insertComp b mb s).nodes (childPtrs G mb) bcs = true := by
    rw [representsAll_congr G hlinks1]; exact hrepC
  obtain ⟨s2, hr2, hi2, hs2, hf2, hn2, ha2⟩ :=
    builderAllOK_all G bcs _ hwf1b hnd1 hi1 hf1
  have hper01 := persist_insertNode hpre
  have hfn1 : FnOK inFun fn (insertComp b mb s).scopes (stackList (insertComp b mb s)) :=
    fnOK_persist hfn hper01 (by rw [hL1]; exact fun j hj => List.mem_cons_of_mem _ hj)
  obtain ⟨hrec2, hforest⟩ :=
    hF inFun fn _ s2 (childPtrs G mb) hrepCb hwf1b hsh1b hnd1 hi1 hf1 hrec1 hfn1 hr2
  have hb2n : s2.nodes[b]? = some m := by rw [hn2 b hb1]; exact hm
  obtain ⟨s3, hpost, hn3, hf3, hif3⟩ := binv_afterInsertNode G hi2 b m hb2n
  rw [if_pos ((sameShape_comp G hshape0).2 hcomp)] at hif3
  have hs3 : s3.stackIdx = base := by rw [hif3.1, hs2, hs1b]; omega
  have hi3 : BInv s3 := hif3.2 (by rw [hs2, hs1b]; omega)
  have hsame3 := afterInsertNode_same hpost
  have hrec3 : RecNodes G s3 := recNodes_of_eq hrec2 hsame3.1 hn3
  have hc2 := run_cells G (insertComp b mb s).stackIdx bcs.events _ s2 hr2
    (always_mono (fun x hx => hx.2) _ _ ha2)
  have hcells3 : ∀ i : Int, i < base → s3.stack i = s.stack i := by
    intro i hi
    rw [hsame3.2, hc2 i (by rw [hs1b]; omega), hcells1 i hi]
  have hle : base ≤ s.stackIdx := by
    rw [hbase]
    by_cases hfl : s.preserveLastScope = true
    · simp only [hfl, if_true]; omega
    · simp only [hfl]; exact le_refl _
  have hL3 : stackList s3 = stackBelow s base.toNat := by
    unfold stackList
    rw [hs3]
    exact stackBelow_congr _ (fun i hi => hcells3 i (by omega))
  have hag3 : ∀ u ∈ bsib.ptrs, s3.nodes[u]? = s.nodes[u]? := by
    intro u hu
    rw [hn3, hn2 u (fun hu1 => hdisj hu1 hu), hfr u (fun e => hb2 (e ▸ hu))]
  have hlinks21 : SameLinks s2.nodes (insertComp b mb s).nodes :=
    run_sameLinks (insertNode_keepsLinks G) (afterInsertNode_keepsLinks G) _ _ _ hr2
  have hlinks3 : SameLinks s3.nodes s.nodes := by
    rw [hn3]; exact sameLinks_trans hlinks21 hlinks1
  have hwf2b : wellFormed G s3.nodes bsib = true := by
    rw [wellFormed_congr G bsib hag3]; exact hwf2
  have hsh2b : checkShape G s3.nodes inFun bsib = true := by
    rw [checkShape_congr G bsib inFun hag3]; exact hsh2
  have hrepSb : represents G s3.nodes mb.sibling bsib = true := by
    rw [represents_congr G hlinks3]; exact hrepS
  have hflag3 : s3.preserveLastScope = false := hf3.trans hf2
  have hrun4 : run (insertNode G) (afterInsertNode G) bsib.events s3 = some s4 := by
    simp only [SynTree.events, run_cons, runEv, hpre, Option.some_bind, run_append, hr2,
      hpost] at hrun
    exact hrun
  obtain ⟨s4b, hr4, _, _, _, hn4, _⟩ := builderOK_all G bsib s3 hwf2b hnd2 hi3 hflag3
  rw [hrun4] at hr4
  cases hr4
  have hper12 := run_persist G _ _ _ hr2
  have hper23 := persist_afterInsertNode hpost
  have hper03 := persist_trans hper01 (persist_trans hper12 hper23)
  have hfn3 : FnOK inFun fn s3.scopes (stackList s3) :=
    fnOK_persist hfn hper03 (by rw [hL3]; exact fun j hj => hj)
  obtain ⟨hrec4, htree⟩ :=
    hT inFun fn s3 s4 mb.sibling hrepSb hwf2b hsh2b hnd2 hi3 hflag3 hrec3 hfn3 hrun4
  have hper34 := run_persist G _ _ _ hrun4
  have hext34 := run_extends G _ _ _ hrun4
  have hlinks43 : SameLinks s4.nodes s3.nodes :=
    run_sameLinks (insertNode_keepsLinks G) (afterInsertNode_keepsLinks G) _ _ _ hrun4
  have hext23 : Extends s2 s3 := (step_afterInsertNode hpost).1
  have hlinks32 : SameLinks s3.nodes s2.nodes := by rw [hn3]; exact sameLinks_refl _
  refine ⟨hrec4, ?_⟩
  simp only [ScopeTree]
  refine ⟨m, ?_, nodeOK_mono (persist_trans hper12 (persist_trans hper23 hper34))
    (extends_trans (run_extends G _ _ _ hr2) (extends_trans hext23 hext34))
    (sameLinks_trans hlinks43 (sameLinks_trans hlinks32 hlinks21)) hokm, ?_, ?_⟩
  · rw [hn4 b hb2, hn3]; exact hb2n
  · rw [hcc, hcf]
    refine scopeForest_mono G (persist_trans hper23 hper34) (extends_trans hext23 hext34)
      (sameLinks_trans hlinks43 hlinks32) bcs _ _
      (fun p hp => by rw [hn4 p (fun hp2 => hdisj hp hp2), hn3]) ?_
    rw [← hL1]; exact hforest
  · rw [← hL3]; exact htree

theorem allNull_scopeForest (G : Globals) (F : State) (L : List Nat) (fn : Option String) :
    ∀ Fo : SynForest, Fo.allNull = true → ScopeForest G F L fn Fo
  | .nil, _ => by simp only [ScopeForest]
  | .cons .null cs, h => by
    simp only [ScopeForest, ScopeTree, true_and]
    exact allNull_scopeForest G F L fn cs (by simpa [SynForest.allNull] using h)
  | .cons (.node _ _ _) _, h => by simp [SynForest.allNull] at h

theorem params_scopeTree (G : Globals) (F : State) (L : List Nat) (fn : Option String) :
    ∀ P : SynTree, paramList F.nodes P = true → ScopeTree G F L fn P
  | .null, _ => by simp only [ScopeTree]
  | .node t cs sib, hp => by
    cases hn : F.nodes[t]? with
    | none => simp [paramList, hn] at hp
    | some n =>
      simp only [paramList, hn, Bool.and_eq_true, decide_eq_true_eq] at hp
      obtain ⟨⟨hk, hnull⟩, hsib⟩ := hp
      simp only [ScopeTree]
      refine ⟨n, hn, ?_, allNull_scopeForest G F _ _ cs hnull,
        params_scopeTree G F L fn sib hsib⟩
      simp only [NodeOK, hk]

theorem params_recNodes (G : Globals) (inFun : Bool) :
    ∀ (P : SynTree) (s s2 : State), paramList s.nodes P = true →
      checkShape G s.nodes inFun P = true → BInv s → RecNodes G s →
      run (insertNode G) (afterInsertNode G) P.events s = some s2 → RecNodes G s2
  | .null, s, s2, _, _, _, hrec, hrun => by
    simp only [SynTree.events, run] at hrun
    cases hrun
    exact hrec
  | .node t cs sib, s, s2, hp, hsh, h, hrec, hrun => by
    cases hn : s.nodes[t]? with
    | none => simp [paramList, hn] at hp
    | some n =>
      simp only [paramList, hn, Bool.and_eq_true, decide_eq_true_eq] at hp
      obtain ⟨⟨hk, hnull⟩, hsib⟩ := hp
      simp only [checkShape, hn, Bool.and_eq_true] at hsh
      obtain ⟨⟨hshn, _⟩, hshs⟩ := hsh
      simp only [shapeOk, hk, decide_eq_true_eq] at hshn
      obtain ⟨s1, hs1, hq1, hn1⟩ := quiet_insertParam h t n
      have hpre : insertNode G t s = some s1 := by
        unfold insertNode
        rw [hn]
        simp only [hk]
        exact hs1
      have hn1t : s1.nodes[t]? = some n := by rw [hn1]; exact hn
      have hpost : afterInsertNode G t s1 = some s1 :=
        afterInsertNode_plain G hn1t (by simp [hk])
      have hrec1 : RecNodes G s1 :=
        recNodes_from hrec (step_insertNode hpre).2.1 (insertNode_kinds hpre)
          ⟨n, hn1t, fun hf => absurd hf hshn⟩
      have hev : (SynTree.node t cs sib).events = Ev.pre t :: Ev.post t :: sib.events := by
        simp [SynTree.events, (allNull_events cs hnull).1]
      rw [hev] at hrun
      simp only [run, runEv, hpre, hpost] at hrun
      exact params_recNodes G inFun sib s1 s2 (by rw [hn1]; exact hsib)
        (by rw [hn1]; exact hshs) hq1.1 hrec1 hrun

theorem insertFun_holds {s s1 : State} (hinv : BInv s) {t : Nat} {n : TreeNode}
    {fname : String} (hname : n.name = some fname) (h : insertFun t n s = some s1) :
    ∃ top, scTop s = some top ∧ Holds s1.scopes top fname := by
  obtain ⟨top, sc, htop, hsc, _⟩ := stackOK_top hinv.1
  refine ⟨top, htop, ?_⟩
  cases hfind : sc.find fname with
  | none =>
    obtain ⟨s2, hs2, hins⟩ := insertFun_fresh s t n fname top sc hname htop hsc hfind
    rw [h] at hins
    cases hins
    have hlt : top < s.scopes.length := by
      by_contra hge
      rw [List.getElem?_eq_none (by omega)] at hsc
      cases hsc
    have h2 : s2.scopes[top]? = some (sc.setBucket (hash fname)
        ({ name := fname, treeNode := some t, lines := [n.lineno], memloc := s.location } ::
          sc.hashTable (hash fname))) := by
      rw [hs2, setScope_scopes_getElem?, if_pos rfl]
      show (s.scopes[top]?).map _ = _
      rw [hsc]
      rfl
    have hlt2 : top < s2.scopes.length := by
      by_contra hge
      rw [List.getElem?_eq_none (by omega)] at h2
      cases h2
    refine ⟨sc.setBucket (hash fname)
      (⟨fname, some t, [n.lineno], s.location⟩ :: sc.hashTable (hash fname)),
      ⟨fname, some t, [n.lineno], s.location⟩, ?_, ?_⟩
    · show (s2.scopes ++ [_])[top]? = _
      rw [List.getElem?_append_left hlt2]
      exact h2
    · rw [find_setBucket_same]
      simp [chainFind]
  | some r =>
    have hsc2 : st_lookup_sc ({ s with funcName := n.name } : State) fname = some true := by
      rw [st_lookup_sc_of_find fname (s := { s with funcName := n.name }) htop hsc, hfind]
      rfl
    unfold insertFun at h
    simp only [hname] at h
    rw [hname] at hsc2
    simp only [hsc2] at h
    cases h
    exact ⟨sc, r, hsc, hfind⟩

theorem scoped_fun (G : Globals) {t b : Nat} {ps : SynTree} {bcs : SynForest}
    {bsib : SynTree} {rest : SynForest} {sib : SynTree}
    (hFb : ScopedAllOK G bcs) (hTb : ScopedOK G bsib) (hFr : ScopedAllOK G rest)
    (hTs : ScopedOK G sib) (inFun : Bool) (fn : Option String) (s s6 : State)
    (n mb : TreeNode) (pb : Ptr) (pr : List Ptr)
    (hn : s.nodes[t]? = some n) (hk : n.nodekind = .DeclK ∧ n.kind = G.FunK)
    (hname : n.name.isSome = true) (hshape : shapeOk G inFun n = true)
    (hps : paramList s.nodes ps = true)
    (hb : s.nodes[b]? = some mb) (hcomp : mb.nodekind = .StmtK ∧ mb.kind = G.CompK)
    (hrepB : represents G s.nodes pb (SynTree.node b bcs bsib) = true)
    (hrepR : representsAll G s.nodes pr rest = true)
    (hrepS : represents G s.nodes n.sibling sib = true)
    (hwfb : wellFormedAll G s.nodes bcs = true) (hwfbs : wellFormed G s.nodes bsib = true)
    (hwfr : wellFormedAll G s.nodes rest = true) (hwfs : wellFormed G s.nodes sib = true)
    (hshP : checkShape G s.nodes true ps = true)
    (hshB : checkShape G s.nodes true (SynTree.node b bcs bsib) = true)
    (hshR : checkShapeAll G s.nodes true rest = true)
    (hshS : checkShape G s.nodes inFun sib = true)
    (hnd : (t :: ((ps.ptrs ++ ((SynTree.node b bcs bsib).ptrs ++ rest.ptrs)) ++
      sib.ptrs)).Nodup)
    (hinv : BInv s) (hflag : s.preserveLastScope = false) (hrec : RecNodes G s)
    (hfn : FnOK inFun fn s.scopes (stackList s))
    (hrun : run (insertNode G) (afterInsertNode G)
      (Ev.pre t :: ((ps.events ++ ((SynTree.node b bcs bsib).events ++ rest.events)) ++
        Ev.post t :: sib.events)) s = some s6) :
    RecNodes G s6 ∧ ScopeTree G s6 (stackList s) fn
      (SynTree.node t (.cons ps (.cons (.node b bcs bsib) rest)) sib) := by
  simp only [List.nodup_cons, List.nodup_append, List.mem_append, not_or,
    List.disjoint_append_left, List.disjoint_append_right] at hnd
  obtain ⟨⟨⟨htP, htB, htR⟩, htS⟩, ⟨hndP, ⟨hndB, hndR, hBR⟩, hPB, hPR⟩, hndS,
    ⟨hPS, hBS, hRS⟩⟩ := hnd
  simp only [shapeOk, hk.1, decide_eq_true_eq] at hshape
  obtain ⟨hinF, hch0⟩ := hshape hk.2
  have hfnn : fn = none := by
    unfold FnOK at hfn
    rw [hinF] at hfn
    simpa using hfn
  obtain ⟨fname, hfname⟩ := Option.isSome_iff_exists.1 hname
  have hpre0 : insertNode G t s = insertFun t n s := by
    unfold insertNode
    rw [hn]
    simp only [hk.1, hk.2, if_true]
  obtain ⟨s1, hs1, hn1, hcase⟩ := binv_insertFun hinv t n hname
  have hpre : insertNode G t s = some s1 := hpre0.trans hs1
  have hi1 : BInv s1 := by
    rcases hcase with hq | hp
    · exact hq.1
    · exact hp.1
  have hst1 : s1.stackIdx = if s1.preserveLastScope then s.stackIdx + 1 else s.stackIdx := by
    rcases hcase with hq | hp
    · rw [hq.2.2.2.1, hflag, hq.2.2.1]; rfl
    · rw [hp.2.2, hp.2.1]; rfl
  have hrec1 : RecNodes G s1 :=
    recNodes_from hrec (step_insertNode hpre).2.1 (insertNode_kinds hpre)
      ⟨n, by rw [hn1]; exact hn, fun _ => Option.isSome_iff_exists.1 hch0⟩
  obtain ⟨top, htop, hholds1⟩ := insertFun_holds hinv hfname hs1
  have htopL : top ∈ stackList s := by
    have h := stackList_head hinv.1
    rw [htop] at h
    exact List.mem_of_mem_head? (Option.mem_def.2 h)
  have hcells1 : ∀ i : Int, i < s.stackIdx → s1.stack i = s.stack i :=
    fun i hi => (step_insertNode hpre).2.2 i (by omega)
  obtain ⟨s2, hr2, hq2, hn2, ha2⟩ := params_run G ps s1 (by rw [hn1]; exact hps) hi1
  have hn2s : s2.nodes = s.nodes := hn2.trans hn1
  have hrec2 : RecNodes G s2 :=
    params_recNodes G true ps s1 s2 (by rw [hn1]; exact hps) (by rw [hn1]; exact hshP)
      hi1 hrec1 hr2
  have hper01 := persist_insertNode hpre
  have hper12 := run_persist G _ _ _ hr2
  have hcells2 : ∀ i : Int, i < s.stackIdx → s2.stack i = s.stack i := by
    intro i hi
    rw [hq2.2.1]
    exact hcells1 i hi
  have h0 := hinv.1.1
  have hLb : stackBelow s2 s.stackIdx.toNat = stackList s :=
    stackBelow_congr _ (fun i hi => hcells2 i (by omega))
  have hb2 : s2.nodes[b]? = some mb := by rw [hn2s]; exact hb
  have hbase : s2.stackIdx = if s2.preserveLastScope then s.stackIdx + 1 else s.stackIdx := by
    rw [hq2.2.2.1, hq2.2.2.2.1]; exact hst1
  obtain ⟨s3, hr3, hi3, hs3, hf3, hn3, ha3⟩ := comp_block G (builderAllOK_all G bcs)
    (builderOK_all G bsib) s2 mb hb2 hcomp (by rw [hn2s]; exact hwfb)
    (by rw [hn2s]; exact hwfbs) hndB hq2.1 s.stackIdx hbase hinv.1.1
  simp only [checkShape, hb, Bool.and_eq_true, Bool.true_or] at hshB
  obtain ⟨⟨hshb, hshB1⟩, hshB2⟩ := hshB
  have hrepB2 : representsAll G s.nodes (childPtrs G mb) bcs = true ∧
      represents G s.nodes mb.sibling bsib = true := by
    cases pb with
    | none => simp [represents] at hrepB
    | some q =>
      cases hq : s.nodes[q]? with
      | none => simp [represents, hq] at hrepB
      | some x =>
        simp only [represents, hq, Bool.and_eq_true, decide_eq_true_eq] at hrepB
        obtain ⟨⟨hqb, hc⟩, hsb⟩ := hrepB
        subst hqb
        rw [hb] at hq
        cases hq
        exact ⟨hc, hsb⟩
  have hfnB : FnOK true (some fname) s2.scopes (stackBelow s2 s.stackIdx.toNat) := by
    unfold FnOK
    rw [if_pos rfl]
    exact ⟨fname, rfl, top, by rw [hLb]; exact htopL, holds_persist hper12 hholds1⟩
  obtain ⟨hrec3, htreeB⟩ := scoped_comp G hFb hTb true (some fname) s2 s3 mb hb2 hcomp hshb
    (by rw [hn2s]; exact hrepB2.1) (by rw [hn2s]; exact hrepB2.2)
    (by rw [hn2s]; exact hwfb) (by rw [hn2s]; exact hwfbs)
    (by rw [hn2s]; exact hshB1) (by rw [hn2s]; exact hshB2) hndB hq2.1 s.stackIdx hbase
    hinv.1.1 hrec2 hfnB hr3
  rw [hLb] at htreeB
  have hlinks3 : SameLinks s3.nodes s.nodes := by
    have := run_sameLinks (insertNode_keepsLinks G) (afterInsertNode_keepsLinks G) _ _ _ hr3
    rw [hn2s] at this
    exact this
  have hag3R : ∀ u ∈ rest.ptrs, s3.nodes[u]? = s.nodes[u]? := by
    intro u hu
    rw [hn3 u (fun hu1 => hBR hu1 hu), hn2s]
  have hwfr3 : wellFormedAll G s3.nodes rest = true := by
    rw [wellFormedAll_congr G rest hag3R]; exact hwfr
  have hshR3 : checkShapeAll G s3.nodes true rest = true := by
    rw [checkShapeAll_congr G rest true hag3R]; exact hshR
  have hrepR3 : representsAll G s3.nodes pr rest = true := by
    rw [representsAll_congr G hlinks3]; exact hrepR
  obtain ⟨s4, hr4, hi4, hs4, hf4, hn4, ha4⟩ := builderAllOK_all G rest s3 hwfr3 hndR hi3 hf3
  have hc3 := run_cells G s.stackIdx _ s2 s3 hr3 (always_mono (fun x hx => hx.2) _ _ ha3)
  have hcells3 : ∀ i : Int, i < s.stackIdx → s3.stack i = s.stack i := by
    intro i hi
    rw [hc3 i hi, hcells2 i hi]
  have hL3 : stackList s3 = stackList s := stackList_cells hs3 hcells3
  have hper23 := run_persist G _ _ _ hr3
  have hfnR : FnOK true (some fname) s3.scopes (stackList s3) := by
    unfold FnOK
    rw [if_pos rfl]
    exact ⟨fname, rfl, top, by rw [hL3]; exact htopL,
      holds_persist (persist_trans hper12 hper23) hholds1⟩
  obtain ⟨hrec4, hforestR⟩ :=
    hFr true (some fname) s3 s4 pr hrepR3 hwfr3 hshR3 hndR hi3 hf3 hrec3 hfnR hr4
  rw [hL3] at hforestR
  have ht4 : s4.nodes[t]? = some n := by rw [hn4 t htR, hn3 t htB, hn2s]; exact hn
  have hpost : afterInsertNode G t s4 = some s4 :=
    afterInsertNode_plain G ht4 (by simp [hk.1])
  have hag4S : ∀ u ∈ sib.ptrs, s4.nodes[u]? = s.nodes[u]? := by
    intro u hu
    rw [hn4 u (fun hu1 => hRS hu1 hu), hn3 u (fun hu1 => hBS hu1 hu), hn2s]
  have hlinks43 : SameLinks s4.nodes s3.nodes :=
    run_sameLinks (insertNode_keepsLinks G) (afterInsertNode_keepsLinks G) _ _ _ hr4
  have hwfs4 : wellFormed G s4.nodes sib = true := by
    rw [wellFormed_congr G sib hag4S]; exact hwfs
  have hshS4 : checkShape G s4.nodes inFun sib = true := by
    rw [checkShape_congr G sib inFun hag4S]; exact hshS
  have hrepS4 : represents G s4.nodes n.sibling sib = true := by
    rw [represents_congr G (sameLinks_trans hlinks43 hlinks3)]; exact hrepS
  rw [run_cons, runEv, hpre, Option.some_bind, run_append, run_append, hr2,
    Option.some_bind, run_append, hr3, Option.some_bind, hr4, Option.some_bind,
    run_cons, runEv, hpost, Option.some_bind] at hrun
  obtain ⟨s5, hr5, _, _, _, hn5, _⟩ := builderOK_all G sib s4 hwfs4 hndS hi4 hf4
  rw [hrun] at hr5
  cases hr5
  have hc4 := run_cells G s3.stackIdx _ s3 s4 hr4 (always_mono (fun x hx => hx.2) _ _ ha4)
  have hL4 : stackList s4 = stackList s := (stackList_cells hs4 hc4).trans hL3
  have hfnS : FnOK inFun fn s4.scopes (stackList s4) := by
    unfold FnOK
    rw [hinF, hfnn]
    simp
  obtain ⟨hrec6, htreeS⟩ :=
    hTs inFun fn s4 s6 n.sibling hrepS4 hwfs4 hshS4 hndS hi4 hf4 hrec4 hfnS hrun
  rw [hL4] at htreeS
  have hper46 := run_persist G _ _ _ hrun
  have hext46 := run_extends G _ _ _ hrun
  have hlinks64 : SameLinks s6.nodes s4.nodes :=
    run_sameLinks (insertNode_keepsLinks G) (afterInsertNode_keepsLinks G) _ _ _ hrun
  have hper34 := run_persist G _ _ _ hr4
  have hext34 := run_extends G _ _ _ hr4
  refine ⟨hrec6, ?_⟩
  simp only [ScopeTree, ScopeForest]
  have hn6 : s6.nodes[t]? = some n := by rw [hn5 t htS]; exact ht4
  have hcc : childChain G (stackList s) n = stackList s := by simp [childChain, hk.1]
  have hcf : childFn G fn n = some fname := by simp [childFn, hk.1, hk.2, hfname]
  refine ⟨n, hn6, ?_, ?_, htreeS⟩
  · simp only [NodeOK, hk.1]
    exact fun _ => hfnn
  · rw [hcc, hcf]
    refine ⟨?_, ?_, ?_⟩
    · refine params_scopeTree G s6 _ _ ps ?_
      rw [paramList_congr ps (fun u hu => ?_)]
      · exact hps
      · rw [hn5 u (fun hu1 => hPS hu hu1), hn4 u (fun hu1 => hPR hu hu1),
          hn3 u (fun hu1 => hPB hu hu1), hn2s]
    · refine scopeTree_mono G (persist_trans hper34 hper46) (extends_trans hext34 hext46)
        (sameLinks_trans hlinks64 hlinks43) _ _ _ (fun u hu => ?_) htreeB
      rw [hn5 u (fun hu1 => hBS hu hu1), hn4 u (fun hu1 => hBR hu hu1)]
    · refine scopeForest_mono G hper46 hext46 hlinks64 rest _ _ (fun u hu => ?_) hforestR
      rw [hn5 u (fun hu1 => hRS hu hu1)]

theorem scoped_all (G : Globals) (hM : 1 ≤ G.MAXCHILDREN) :
    ∀ N : Nat, (∀ T : SynTree, T.size ≤ N → ScopedOK G T) ∧
      (∀ F : SynForest, F.size ≤ N → ScopedAllOK G F) := by
  intro N
  induction N with
  | zero =>
    exact ⟨fun T h => absurd (synTree_size_pos T) (by omega),
      fun F h => absurd (synForest_size_pos F) (by omega)⟩
  | succ N ih =>
    constructor
    · intro T hT
      cases T with
      | null =>
        intro inFun fn s s1 p _ _ _ _ _ _ hrec _ hrun
        simp only [SynTree.events, run] at hrun
        cases hrun
        exact ⟨hrec, by simp only [ScopeTree]⟩
      | node t cs sib =>
        simp only [SynTree.size] at hT
        have hcsz := synForest_size_pos cs
        have hssz := synTree_size_pos sib
        intro inFun fn s s1 p hrep hwf hsh hnd hinv hflag hrec hfn hrun
        cases hn : s.nodes[t]? with
        | none => simp [wellFormed, hn] at hwf
        | some n =>
          simp only [wellFormed, hn, Bool.and_eq_true] at hwf
          obtain ⟨⟨hnames, hshape⟩, hwfs⟩ := hwf
          simp only [checkShape, hn, Bool.and_eq_true] at hsh
          obtain ⟨⟨hshn, hshC⟩, hshS⟩ := hsh
          have hrep2 : representsAll G s.nodes (childPtrs G n) cs = true ∧
              represents G s.nodes n.sibling sib = true := by
            cases p with
            | none => simp [represents] at hrep
            | some q =>
              cases hq : s.nodes[q]? with
              | none => simp [represents, hq] at hrep
              | some x =>
                simp only [represents, hq, Bool.and_eq_true, decide_eq_true_eq] at hrep
                obtain ⟨⟨hqb, hc⟩, hsb⟩ := hrep
                subst hqb
                rw [hn] at hq
                cases hq
                exact ⟨hc, hsb⟩
          obtain ⟨hrepC, hrepS⟩ := hrep2
          by_cases hfun : isFunDecl G n = true
          · rw [if_pos hfun] at hshape
            simp only [hfun, Bool.or_true] at hshC
            have hk : n.nodekind = .DeclK ∧ n.kind = G.FunK := by
              simpa [isFunDecl] using hfun
            have hname : n.name.isSome = true := by
              simpa [namesOk, hk.1, hk.2] using hnames
            cases cs with
            | nil => simp [funShape] at hshape
            | cons ps cs2 =>
              cases cs2 with
              | nil => simp [funShape] at hshape
              | cons body rest =>
                cases body with
                | null => simp [funShape] at hshape
                | node b bcs bsib =>
                  simp only [SynForest.size, SynTree.size] at hT
                  have h1 := synForest_size_pos bcs
                  have h2 := synTree_size_pos bsib
                  have h3 := synForest_size_pos rest
                  have h4 := synTree_size_pos ps
                  cases hb : s.nodes[b]? with
                  | none => simp [funShape, hb] at hshape
                  | some mb =>
                    simp only [funShape, hb, Bool.and_eq_true] at hshape
                    obtain ⟨⟨⟨⟨hps, hcomp⟩, hwfb⟩, hwfbs⟩, hwfr⟩ := hshape
                    simp only [checkShapeAll, Bool.and_eq_true] at hshC
                    obtain ⟨hshP, hshB, hshR⟩ := hshC
                    cases hcp : childPtrs G n with
                    | nil => rw [hcp] at hrepC; simp [representsAll] at hrepC
                    | cons p0 l1 =>
                      cases l1 with
                      | nil => rw [hcp] at hrepC; simp [representsAll] at hrepC
                      | cons p1 pr =>
                        rw [hcp] at hrepC
                        simp only [representsAll, Bool.and_eq_true] at hrepC
                        obtain ⟨_, hrepB, hrepR⟩ := hrepC
                        exact scoped_fun G (ih.2 bcs (by omega)) (ih.1 bsib (by omega))
                          (ih.2 rest (by omega)) (ih.1 sib (by omega)) inFun fn s s1 n mb
                          p1 pr hn hk hname hshn hps hb (by simpa [isCompStmt] using hcomp)
                          hrepB hrepR hrepS hwfb hwfbs hwfr hwfs hshP hshB hshR hshS hnd
                          hinv hflag hrec hfn hrun
          · have hfun2 : isFunDecl G n = false := by simpa using hfun
            rw [if_neg hfun] at hshape
            simp only [hfun2, Bool.or_false] at hshC
            by_cases hcomp : isCompStmt G n = true
            · exact scoped_comp G (ih.2 cs (by omega)) (ih.1 sib (by omega)) inFun fn s s1 n
                hn (by simpa [isCompStmt] using hcomp) hshn hrepC hrepS hshape hwfs hshC
                hshS hnd hinv s.stackIdx (by rw [hflag]; rfl) hinv.1.1 hrec hfn hrun
            · exact scoped_plain G hM (ih.2 cs (by omega)) (ih.1 sib (by omega)) inFun fn
                s s1 n hn hnames hfun2 (by simpa using hcomp) hshn hrepC hrepS hshape hwfs
                hshC hshS hnd hinv hflag hrec hfn hrun
    · intro F hF
      cases F with
      | nil =>
        intro inFun fn s s1 ps _ _ _ _ _ _ hrec _ hrun
        simp only [SynForest.events, run] at hrun
        cases hrun
        exact ⟨hrec, by simp only [ScopeForest]⟩
      | cons c cs =>
        simp only [SynForest.size] at hF
        have h1 := synTree_size_pos c
        have h2 := synForest_size_pos cs
        intro inFun fn s s1 ps hrep hwf hsh hnd hinv hflag hrec hfn hrun
        simp only [wellFormedAll, Bool.and_eq_true] at hwf
        simp only [checkShapeAll, Bool.and_eq_true] at hsh
        simp only [SynForest.ptrs, List.nodup_append] at hnd
        obtain ⟨hnd1, hnd2, hdisj⟩ := hnd
        cases ps with
        | nil => simp [representsAll] at hrep
        | cons p prs =>
          simp only [representsAll, Bool.and_eq_true] at hrep
          obtain ⟨sm, hrm, him, hsm, hfm, hnm, ham⟩ :=
            builderOK_all G c s hwf.1 hnd1 hinv hflag
          simp only [SynForest.events, run_append, hrm, Option.some_bind] at hrun
          obtain ⟨hrecm, htreec⟩ :=
            ih.1 c (by omega) inFun fn s sm p hrep.1 hwf.1 hsh.1 hnd1 hinv hflag hrec hfn hrm
          have hag : ∀ u ∈ cs.ptrs, sm.nodes[u]? = s.nodes[u]? :=
            fun u hu => hnm u (fun hu1 => hdisj hu1 hu)
          have hlinks : SameLinks sm.nodes s.nodes :=
            run_sameLinks (insertNode_keepsLinks G) (afterInsertNode_keepsLinks G) _ _ _ hrm
          have hcm := run_cells G s.stackIdx _ s sm hrm
            (always_mono (fun x hx => hx.2) _ _ ham)
          have hLm : stackList sm = stackList s := stackList_cells hsm hcm
          have hperm := run_persist G _ _ _ hrm
          obtain ⟨s1b, hr1, _, _, _, hn1, _⟩ := builderAllOK_all G cs sm
            (by rw [wellFormedAll_congr G cs hag]; exact hwf.2) hnd2 him hfm
          rw [hrun] at hr1
          cases hr1
          obtain ⟨hrec1, hforest⟩ :=
            ih.2 cs (by omega) inFun fn sm s1 prs
              (by rw [representsAll_congr G hlinks]; exact hrep.2)
              (by rw [wellFormedAll_congr G cs hag]; exact hwf.2)
              (by rw [checkShapeAll_congr G cs inFun hag]; exact hsh.2) hnd2 him hfm hrecm
              (fnOK_persist hfn hperm (by rw [hLm]; exact fun j hj => hj)) hrun
          refine ⟨hrec1, ?_⟩
          simp only [ScopeForest]
          refine ⟨scopeTree_mono G (run_persist G _ _ _ hrun) (run_extends G _ _ _ hrun)
            (run_sameLinks (insertNode_keepsLinks G) (afterInsertNode_keepsLinks G) _ _ _ hrun)
            c _ _ (fun u hu => hn1 u (fun hu1 => hdisj hu hu1)) htreec, ?_⟩
          rw [← hLm]; exact hforest

/-! ## The start of the Builder pass, for the Type-Checking pass -/

theorem getD_replicate_set2 (M : Nat) (a b : Ptr) (i q : Nat)
    (h : (((List.replicate M (none : Ptr)).set 0 a).set 1 b).getD i none = some q) :
    (i = 0 ∧ a = some q) ∨ (i = 1 ∧ b = some q) := by
  rw [List.getD_eq_getElem?_getD, List.getElem?_set, List.getElem?_set] at h
  by_cases h1 : 1 = i
  · subst h1
    simp only [if_true] at h
    split at h
    · right; exact ⟨rfl, by simpa using h⟩
    · simp at h
  · rw [if_neg h1] at h
    by_cases h0 : 0 = i
    · subst h0
      simp only [if_true] at h
      split at h
      · left; exact ⟨rfl, by simpa using h⟩
      · simp at h
    · rw [if_neg h0] at h
      rw [List.getElem?_replicate] at h
      split at h <;> simp at h

theorem getD_replicate_set0 (M : Nat) (hM : 1 ≤ M) (a b : Ptr) :
    (((List.replicate M (none : Ptr)).set 0 a).set 1 b).getD 0 none = a := by
  obtain ⟨m, rfl⟩ : ∃ m, M = m + 1 := ⟨M - 1, by omega⟩
  cases m <;> simp [List.replicate]

theorem recNodes_addNodes {G : Globals} {s : State} (h : RecNodes G s) (l : List TreeNode) :
    RecNodes G (s.addNodes l) := by
  intro k sc hh r hsc hr
  obtain ⟨fd, m, hfd, hm, hf⟩ := h k sc hh r hsc hr
  have hlt : fd < s.nodes.length := by
    by_contra hge
    rw [List.getElem?_eq_none (by omega)] at hm
    cases hm
  refine ⟨fd, m, hfd, ?_, hf⟩
  show (s.nodes ++ l)[fd]? = some m
  rw [List.getElem?_append_left hlt]
  exact hm

theorem builtinNodes_fun (G : Globals) (hM : 1 ≤ G.MAXCHILDREN) (pre : List TreeNode)
    (lineno : Int) (base : Nat) (name : String) (ty : ExpType) (pn : Option String)
    (pty : ExpType) :
    ∃ m, (pre ++ builtinNodes G lineno base name ty pn pty)[pre.length + 2]? = some m ∧
      (m.kind = G.FunK → ∃ p, m.child.getD 0 none = some p) := by
  have h3 : ∃ a b c : TreeNode, builtinNodes G lineno base name ty pn pty = [a, b, c] ∧
      c.child = ((List.replicate G.MAXCHILDREN none).set 0 (some base)).set 1
        (some (base + 1)) := ⟨_, _, _, rfl, rfl⟩
  obtain ⟨a, b, c, hl, hc⟩ := h3
  rw [hl]
  refine ⟨c, ?_, fun _ => ⟨base, ?_⟩⟩
  · rw [List.getElem?_append_right (by omega)]
    have e : pre.length + 2 - pre.length = 2 := by omega
    rw [e]
    rfl
  · rw [hc]
    exact getD_replicate_set0 G.MAXCHILDREN hM _ _

theorem builderStart_recNodes (G : Globals) (hM : 1 ≤ G.MAXCHILDREN) {s s0 : State}
    (hrec : RecNodes G s) (h : builderStart G s = some s0) : RecNodes G s0 := by
  unfold builderStart at h
  rw [insertBuiltinFunc_eq] at h
  obtain ⟨sA, hsA⟩ : ∃ sA : State, sA = scPush
      { (scCreate s (some "<GLOBAL>")).1 with
        globalScope := (scCreate s (some "<GLOBAL>")).2, location := 0 }
      (scCreate s (some "<GLOBAL>")).2 := ⟨_, rfl⟩
  have hrecA : RecNodes G sA := by
    rw [hsA]
    exact recNodes_noNew hrec
      (step_congr (step_push_create 0 s (some "<GLOBAL>")) rfl rfl).2.1
      (step_congr (step_push_create 1 s (some "<GLOBAL>")) rfl rfl).2.1
      (keepsKinds_refl _)
  simp only at h
  rw [← hsA] at h
  cases h1 : st_insert
      (sA.addNodes (builtinNodes G sA.lineno sA.nodes.length "input" .Integer none .Void))
      "input" (-1) sA.location (some (sA.nodes.length + 2)) with
  | none => rw [h1] at h; cases h
  | some sB =>
    rw [h1, Option.some_bind] at h
    have hf1 := st_insert_frame h1
    have hrecB : RecNodes G sB := by
      refine recNodes_from (recNodes_addNodes hrecA _) (step_st_insert h1).2.1 ?_ ?_
      · rw [hf1.1]; exact keepsKinds_refl _
      · rw [hf1.1]
        exact builtinNodes_fun G hM sA.nodes sA.lineno sA.nodes.length "input" .Integer none
          .Void
    have hf2 := st_insert_frame h
    refine recNodes_from (recNodes_addNodes hrecB _) (step_st_insert h).2.1 ?_ ?_
    · rw [hf2.1]; exact keepsKinds_refl _
    · rw [hf2.1]
      exact builtinNodes_fun G hM sB.nodes sB.lineno sB.nodes.length "output" .Void
        (some "arg") .Integer

theorem getD_replicate_none (M i q : Nat) :
    (List.replicate M (none : Ptr)).getD i none ≠ some q := by
  rw [List.getD_eq_getElem?_getD, List.getElem?_replicate]
  split <;> simp

theorem heapClosed_builtins (G : Globals) (nodes : List TreeNode) (lineno : Int)
    (hcl : HeapClosed nodes) :
    HeapClosed (nodes ++
      (builtinNodes G lineno nodes.length "input" .Integer none .Void ++
        builtinNodes G lineno (nodes.length + 3) "output" .Void (some "arg") .Integer)) := by
  have hlen : (builtinNodes G lineno nodes.length "input" .Integer none .Void ++
      builtinNodes G lineno (nodes.length + 3) "output" .Void (some "arg") .Integer).length
        = 6 := by
    simp [builtinNodes]
  have hnew : ∀ j : Nat, j < 6 → ∃ m, (nodes ++
      (builtinNodes G lineno nodes.length "input" .Integer none .Void ++
        builtinNodes G lineno (nodes.length + 3) "output" .Void (some "arg")
          .Integer))[nodes.length + j]? = some m := by
    intro j hj
    have hlt : nodes.length + j < (nodes ++
      (builtinNodes G lineno nodes.length "input" .Integer none .Void ++
        builtinNodes G lineno (nodes.length + 3) "output" .Void (some "arg")
          .Integer)).length := by
      rw [List.length_append, hlen]; omega
    exact ⟨_, List.getElem?_eq_getElem hlt⟩
  have hold : ∀ q : Nat, (∃ m, nodes[q]? = some m) → ∃ m, (nodes ++
      (builtinNodes G lineno nodes.length "input" .Integer none .Void ++
        builtinNodes G lineno (nodes.length + 3) "output" .Void (some "arg")
          .Integer))[q]? = some m := by
    intro q ⟨m, hm⟩
    have hlt : q < nodes.length := by
      by_contra hge
      rw [List.getElem?_eq_none (by omega)] at hm
      cases hm
    exact ⟨m, by rw [List.getElem?_append_left hlt]; exact hm⟩
  intro t n hn
  by_cases ht : t < nodes.length
  · rw [List.getElem?_append_left ht] at hn
    obtain ⟨h1, h2⟩ := hcl t n hn
    exact ⟨fun q hq => hold q (h1 q hq), fun i q hq => hold q (h2 i q hq)⟩
  · rw [List.getElem?_append_right (not_lt.1 ht)] at hn
    have hi : t - nodes.length < 6 := by
      by_contra hge
      rw [List.getElem?_eq_none (by rw [hlen]; omega)] at hn
      cases hn
    have hcases : t - nodes.length = 0 ∨ t - nodes.length = 1 ∨ t - nodes.length = 2 ∨
        t - nodes.length = 3 ∨ t - nodes.length = 4 ∨ t - nodes.length = 5 := by omega
    rcases hcases with e | e | e | e | e | e <;> rw [e] at hn <;>
      simp only [builtinNodes, List.cons_append, List.nil_append, List.getElem?_cons_succ,
        List.getElem?_cons_zero, Option.some.injEq] at hn <;> subst hn <;>
      refine ⟨fun q hq => (by cases hq), fun i q hq => ?_⟩
    · exact absurd hq (getD_replicate_none _ _ _)
    · rcases getD_replicate_set2 _ _ _ _ _ hq with ⟨_, h⟩ | ⟨_, h⟩ <;> cases h
    · rcases getD_replicate_set2 _ _ _ _ _ hq with ⟨_, h⟩ | ⟨_, h⟩
      · cases h; exact hnew 0 (by omega)
      · cases h; exact hnew 1 (by omega)
    · exact absurd hq (getD_replicate_none _ _ _)
    · rcases getD_replicate_set2 _ _ _ _ _ hq with ⟨_, h⟩ | ⟨_, h⟩ <;> cases h
    · rcases getD_replicate_set2 _ _ _ _ _ hq with ⟨_, h⟩ | ⟨_, h⟩
      · cases h; exact hnew 3 (by omega)
      · cases h; exact hnew 4 (by omega)

/-! ## Both passes run to their end -/

theorem checkShape_append (G : Globals) {nodes : List TreeNode} (l : List TreeNode)
    {T : SynTree} {p : Ptr} (inFun : Bool) (hrep : represents G nodes p T = true) :
    checkShape G (nodes ++ l) inFun T = checkShape G nodes inFun T :=
  checkShape_congr G T inFun (fun u hu =>
    List.getElem?_append_left (represents_ptrs G T p hrep u hu))

theorem passes_total (G : Globals) (hM : 1 ≤ G.MAXCHILDREN) (T : SynTree) (t : Ptr)
    (s : State) (fuel : Nat)
    (hrep : represents G s.nodes t T = true) (hfuel : T.depth ≤ fuel)
    (hwf : wellFormed G s.nodes T = true) (hsh : checkShape G s.nodes false T = true)
    (hnd : T.ptrs.Nodup) (h0 : s.stackIdx = 0) (h1 : s.stack (-1) = none) (hrec : RecOK s)
    (hflag : s.preserveLastScope = false) (hrn : RecNodes G s)
    (hcl : HeapClosed s.nodes) :
    ∃ s1 c1, buildSymtab G fuel t s = some s1 ∧
      run (beforeCheckNode G) (checkNode G) T.events (scPush s1 s1.globalScope) = some c1 ∧
      typeCheck G fuel t s1 = some (scPop c1) ∧ (scPop c1).stackIdx = 0 ∧
      c1.scopes = s1.scopes ∧ OnlyTypes c1.nodes s1.nodes ∧
      Always (beforeCheckNode G) (checkNode G) (fun x => StackOK x) T.events
        (scPush s1 s1.globalScope) := by
  obtain ⟨s0, sF, hs0, hi0, hst0, _, _, hb0, hrF, hiF, hsF, hfF, _, haF, hbuild⟩ :=
    builder_pass G T t s fuel hrep hfuel hwf hnd h0 h1 hrec hflag
  obtain ⟨s0b, hs0b, _, _, hfl0, hstk0, hn0, _⟩ := builderStart_spec G s h0 h1 hrec
  rw [hs0] at hs0b
  cases hs0b
  have hrec0 : RecNodes G s0 := builderStart_recNodes G hM hrn hs0
  have hcl0 : HeapClosed s0.nodes := by
    rw [hn0]; exact heapClosed_builtins G s.nodes s.lineno hcl
  have hrep0 : represents G s0.nodes t T = true := by
    rw [hn0]; exact represents_append G _ T t hrep
  have hwf0 : wellFormed G s0.nodes T = true := by
    rw [hn0, wellFormed_append G _ hrep]; exact hwf
  have hsh0 : checkShape G s0.nodes false T = true := by
    rw [hn0, checkShape_append G _ false hrep]; exact hsh
  have hfn0 : FnOK false none s0.scopes (stackList s0) := by
    unfold FnOK
    simp
  obtain ⟨hrecF, htree⟩ := (scoped_all G hM T.size).1 T (le_refl _) false none s0 sF t
    hrep0 hwf0 hsh0 hnd hi0 (hfl0.trans hflag) hrec0 hfn0 hrF
  have hlinksF : SameLinks sF.nodes s0.nodes :=
    run_sameLinks (insertNode_keepsLinks G) (afterInsertNode_keepsLinks G) _ _ _ hrF
  have hclF : HeapClosed sF.nodes := heapClosed_sameLinks hcl0 hlinksF
  have hperF := run_persist G _ _ _ hrF
  have hcF := run_cells G 1 T.events s0 sF hrF (always_mono (fun x hx => hx.2) _ _ haF)
  have hg : sF.globalScope = sF.stack 0 := by
    rw [hperF.1, hb0.1, hcF 0 (by omega), hstk0]
  have hc0 : StackOK (scPush (scPop sF) (scPop sF).globalScope) ∧
      stackList (scPush (scPop sF) (scPop sF).globalScope) = stackList sF := by
    refine stackOK_cells hiF.1 rfl ?_ ?_
    · show sF.stackIdx - 1 + 1 = sF.stackIdx
      omega
    · intro i _
      show (if i = sF.stackIdx - 1 then sF.globalScope else sF.stack i) = sF.stack i
      by_cases hi : i = sF.stackIdx - 1
      · rw [if_pos hi, hg, hi, hsF]
        rfl
      · rw [if_neg hi]
  have hLF : stackList sF = stackList s0 :=
    stackList_cells (hsF.trans hst0.symm) (by rw [hst0]; exact hcF)
  obtain ⟨c1, hrun, hsc, hty, hidx, _, _, halw⟩ :=
    check_runs G sF hrecF hclF T (stackList s0) none
      (scPush (scPop sF) (scPop sF).globalScope) htree rfl (onlyTypes_refl _) hc0.1
      (hc0.2.trans hLF) (fun f hf => by cases hf)
  have hrepF : represents G (scPop sF).nodes t T = true := by
    show represents G sF.nodes t T = true
    rw [represents_congr G hlinksF]; exact hrep0
  refine ⟨scPop sF, c1, hbuild, hrun, ?_, ?_, hsc, hty, halw⟩
  · rw [typeCheck_eq_run G T t (scPop sF) fuel hrepF hfuel, hrun]
    rfl
  · show c1.stackIdx - 1 = 0
    rw [hidx]
    show sF.stackIdx - 1 + 1 - 1 = 0
    omega

/-! ## The scope stack operations on their own -/

/-- C19, as the code has it: `scPop` is `--stackIdx` without a test, so the depth goes
down by one from any value, 0 included, and the cells of the stack stay as they are; a
following `scPush` brings the depth back to its value before the pop. -/
theorem scPop_decrements (s : State) (scope : Ptr) :
    (scPop s).stackIdx = s.stackIdx - 1 ∧ (scPop s).stack = s.stack ∧
    (scPush (scPop s) scope).stackIdx = s.stackIdx := by
  refine ⟨rfl, rfl, ?_⟩
  simp [scPush, scPop]

/-- Counterexample to C19 as stated: on the empty stack of the start state `scPop` leaves
the depth at -1, not 0, and a following `scPush` leaves it at 0, not 1. -/
theorem scPop_empty_underflows :
    (State.init []).stackIdx = 0 ∧ (scPop (State.init [])).stackIdx = -1 ∧
    (scPush (scPop (State.init [])) (some 0)).stackIdx = 0 := by
  decide

/-- Counterexample to C20 as stated: after `scCreate("a")`, `scPop` on the empty stack and
`scPush` of the scope created, the stack is empty (depth 0), and the scope that
`scCreate("b")` then creates has that scope as parent: not no parent. -/
theorem scCreate_parent_on_empty_stack :
    exampleUnderflow.stackIdx = 0 ∧
    ((scCreate exampleUnderflow (some "b")).1.scopes[1]?).map (fun sc => sc.scopeName) =
      some (some "b") ∧
    ((scCreate exampleUnderflow (some "b")).1.scopes[1]?).map (fun sc => sc.parent) =
      some (some 0) := by
  decide

/-- C20, as amended: `scCreate` returns a pointer to a scope that was not in the registry,
the registry is the old one with that scope appended, the new scope has the given name, as
parent what `scTop` returns, which is the content of the stack cell just below the depth,
and the stack depth as nesting level, and neither the stack nor its depth changes. On an
empty stack the parent is the content of the cell under the bottom of the stack: the new
scope has no parent if and only if that cell holds `NULL`. -/
theorem scCreate_spec (s : State) (scopeName : Option String) :
    ∃ newScope : ScopeListRec,
      (scCreate s scopeName).2 = some s.scopes.length ∧
      s.scopes[s.scopes.length]? = none ∧
      (scCreate s scopeName).1.scopes = s.scopes ++ [newScope] ∧
      (scCreate s scopeName).1.scopes[s.scopes.length]? = some newScope ∧
      newScope.scopeName = scopeName ∧
      newScope.parent = scTop s ∧
      newScope.parent = s.stack (s.stackIdx - 1) ∧
      (s.stackIdx = 0 → newScope.parent = s.stack (-1)) ∧
      (s.stackIdx = 0 → (newScope.parent = none ↔ s.stack (-1) = none)) ∧
      newScope.nestedLevel = s.stackIdx ∧
      (scCreate s scopeName).1.stack = s.stack ∧
      (scCreate s scopeName).1.stackIdx = s.stackIdx := by
  refine ⟨_, rfl, by simp, rfl, by simp [scCreate], rfl, rfl, rfl, ?_, ?_, rfl, rfl, rfl⟩
  · intro h0
    simp [scTop, h0]
  · intro h0
    simp [scTop, h0]

theorem scCreate_spec_witness :
    ∃ newScope : ScopeListRec,
      (scCreate (State.init []) (some "<GLOBAL>")).1.scopes = [newScope] ∧
      newScope.scopeName = some "<GLOBAL>" ∧ newScope.parent = none ∧
      newScope.nestedLevel = 0 := by
  obtain ⟨sc, _, _, h3, _, h5, _, _, h8, _, h10, _, _⟩ :=
    scCreate_spec (State.init []) (some "<GLOBAL>")
  exact ⟨sc, h3, h5, (h8 rfl).trans rfl, h10⟩

/-! ## Whole programs -/

theorem pass_holds {b : Option State} {P : State → Prop} [∀ a, Decidable (P a)]
    (h : b.map (fun s1 => decide (P s1)) = some true) : ∃ s1, b = some s1 ∧ P s1 := by
  cases hb : b with
  | none => rw [hb] at h; cases h
  | some s1 =>
    rw [hb] at h
    simp only [Option.map_some', Option.some.injEq, decide_eq_true_eq] at h
    exact ⟨s1, rfl, h⟩

theorem two_passes {b : Option State} {g : State → Option State}
    {P : State → State → Prop} [∀ a c, Decidable (P a c)]
    (h : b.bind (fun s1 => (g s1).map (fun s2 => decide (P s1 s2))) = some true) :
    ∃ s1 s2, b = some s1 ∧ g s1 = some s2 ∧ P s1 s2 := by
  cases hb : b with
  | none => rw [hb] at h; cases h
  | some s1 =>
    rw [hb] at h
    simp only [Option.some_bind] at h
    obtain ⟨s2, h2, hp⟩ := pass_holds h
    exact ⟨s1, s2, rfl, h2, hp⟩

/-- Divergence behind C18: on `int x; int f(int x){}` the parameter `x`, which the scope
of `f` does not hold, is not inserted: `buildSymtab` reports 'symbol already declared for
current scope' because the global scope declares `x`, and the scope of `f` ends without a
record for `x`. -/
theorem parameter_rejected_for_outer_declaration :
    ∃ s1, buildSymtab sampleGlobals 10 (some 0) (State.init exampleParamOuter) = some s1 ∧
      s1.listing = [{ kind := .SymbolError, line := 1,
                      message := "symbol already declared for current scope" }] ∧
      s1.Error = true ∧
      (s1.scopes[0]?).map (fun sc => sc.scopeName) = some (some "<GLOBAL>") ∧
      (s1.scopes[0]?).map (fun sc => sc.hashTable (hash "x")) =
        some [{ name := "x", treeNode := some 0, lines := [1], memloc := 0 }] ∧
      (s1.scopes[1]?).map (fun sc => sc.scopeName) = some (some "f") ∧
      (s1.scopes[1]?).map (fun sc => sc.hashTable (hash "x")) = some [] :=
  pass_holds (by decide)

/-- Counterexample to C16 as stated: on the program of the scenario the two passes do
report an error and set the `Error` flag, because `output` is one of the two builtin
functions that `buildSymtab` has inserted into the global scope beforehand. -/
theorem array_program_reports_error :
    ∃ s1 s2, buildSymtab sampleGlobals 7 (some 0) (State.init exampleArrayProgram) = some s1 ∧
      typeCheck sampleGlobals 7 (some 0) s1 = some s2 ∧
      s2.Error = true ∧
      s2.listing = [{ kind := .SymbolError, line := 1,
                      message := "function already declared for current scope" }] :=
  two_passes (by decide)

/-- C16, amended: on the program of the scenario `buildSymtab` followed by `typeCheck`
reports exactly one error, the symbol error 'function already declared for current scope'
for the declaration of `output`, and no type error; the global scope (scope 0) holds the
one record of `x`, which carries the line of the use in `main` and points to the array
declaration of type `IntegerArray`; `x[0]` gets type `Integer`; and after the post-visit
of the return statement of `main` the has-returned flag is 1, no type error has been
reported, and `x` resolves from inside `main` to that record of the global scope. -/
theorem array_program_analysis :
    ∃ s1 s2, buildSymtab sampleGlobals 7 (some 0) (State.init exampleArrayProgram) = some s1 ∧
      typeCheck sampleGlobals 7 (some 0) s1 = some s2 ∧
      s2.Error = true ∧
      s2.listing = [{ kind := .SymbolError, line := 1,
                      message := "function already declared for current scope" }] ∧
      s1.globalScope = some 0 ∧
      (s2.scopes[0]?).map (fun sc => sc.hashTable (hash "x")) =
        some [{ name := "x", treeNode := some 0, lines := [1, 1], memloc := 0 }] ∧
      (s2.nodes[0]?).map (fun n => (n.nodekind, n.kind, n.type)) =
        some (.DeclK, sampleGlobals.VarArrK, .IntegerArray) ∧
      (s2.nodes[8]?).map (fun n => n.type) = some .Integer ∧
      (s2.nodes[12]?).map (fun n => n.type) = some .Integer ∧
      ∃ c, run (beforeCheckNode sampleGlobals) (checkNode sampleGlobals)
          (exampleArrayProgramTree.events.take 24) (scPush s1 s1.globalScope) = some c ∧
        c.funcReturn = 1 ∧ c.listing = s1.listing ∧
        (st_lookup_bucket c "x").map (Option.map (fun p => (p.1, p.2.treeNode))) =
          some (some (0, some 0)) := by
  have h : ∃ s1 s2,
      buildSymtab sampleGlobals 7 (some 0) (State.init exampleArrayProgram) = some s1 ∧
      typeCheck sampleGlobals 7 (some 0) s1 = some s2 ∧
      (s2.Error = true ∧
      s2.listing = [{ kind := .SymbolError, line := 1,
                      message := "function already declared for current scope" }] ∧
      s1.globalScope = some 0 ∧
      (s2.scopes[0]?).map (fun sc => sc.hashTable (hash "x")) =
        some [{ name := "x", treeNode := some 0, lines := [1, 1], memloc := 0 }] ∧
      (s2.nodes[0]?).map (fun n => (n.nodekind, n.kind, n.type)) =
        some (.DeclK, sampleGlobals.VarArrK, .IntegerArray) ∧
      (s2.nodes[8]?).map (fun n => n.type) = some .Integer ∧
      (s2.nodes[12]?).map (fun n => n.type) = some .Integer ∧
      (run (beforeCheckNode sampleGlobals) (checkNode sampleGlobals)
          (exampleArrayProgramTree.events.take 24) (scPush s1 s1.globalScope)).map
        (fun c => decide (c.funcReturn = 1 ∧ c.listing = s1.listing ∧
          (st_lookup_bucket c "x").map (Option.map (fun p => (p.1, p.2.treeNode))) =
            some (some (0, some 0)))) = some true) :=
    two_passes (by decide)
  obtain ⟨s1, s2, h1, h2, e1, e2, e3, e4, e5, e6, e7, e8⟩ := h
  exact ⟨s1, s2, h1, h2, e1, e2, e3, e4, e5, e6, e7, pass_holds e8⟩

/-- Counterexample to C17 as stated: on `int main(void){ return g(); }` the return
statement does get a type error of its own, 'invalid return type (return value should be
Integer)', after the symbol error for `g`. -/
theorem undeclared_call_return_error :
    ∃ s1 s2, buildSymtab sampleGlobals 10 (some 0) (State.init exampleUndeclaredCall) = some s1 ∧
      typeCheck sampleGlobals 10 (some 0) s1 = some s2 ∧
      s2.listing.length = 3 ∧
      s2.listing[1]? =
        some { kind := .TypeError, line := 1,
               message := "invalid return type (return value should be Integer)" } :=
  two_passes (by decide)

/-- C17, amended: on `int main(void){ return g(); }` `buildSymtab` reports the one symbol
error 'using undeclared symbol' and turns the call node of `g` into a declaration node of
type `TypeError`; `typeCheck` leaves that node as it is and reports two type errors that
follow from it: 'invalid return type (return value should be Integer)' for the return
statement, whose expression has type `TypeError`, and 'return statement is missing or not
properly stated in this funciton' at the exit of `main`. -/
theorem undeclared_call_cascade :
    ∃ s1 s2, buildSymtab sampleGlobals 10 (some 0) (State.init exampleUndeclaredCall) = some s1 ∧
      typeCheck sampleGlobals 10 (some 0) s1 = some s2 ∧
      s1.listing = [{ kind := .SymbolError, line := 1, message := "using undeclared symbol" }] ∧
      (s1.nodes[4]?).map (fun n => (n.nodekind, n.type)) = some (.DeclK, .TypeError) ∧
      (s2.nodes[4]?).map (fun n => (n.nodekind, n.type)) = some (.DeclK, .TypeError) ∧
      s2.listing =
        [{ kind := .SymbolError, line := 1, message := "using undeclared symbol" },
         { kind := .TypeError, line := 1,
           message := "invalid return type (return value should be Integer)" },
         { kind := .TypeError, line := 1,
           message := "return statement is missing or not properly stated in this funciton" }] :=
  two_passes (by decide)

/-- Divergence behind C14: on
`int f(int a, int b){ return a; } int main(void){ return f(1); }` the call passes one
argument to a function of two parameters, and the two passes report nothing: the loop over
the arguments ends when the arguments run out and the parameter left over is not looked
at; the call gets the type of `f`. -/
theorem too_few_arguments_unreported :
    ∃ s1 s2, buildSymtab sampleGlobals 10 (some 0) (State.init exampleTooFewArgs) = some s1 ∧
      typeCheck sampleGlobals 10 (some 0) s1 = some s2 ∧
      s2.listing = [] ∧ s2.Error = false ∧
      (s2.nodes[10]?).map (fun n => n.type) = some .Integer :=
  two_passes (by decide)

/-- Divergence behind C13: on `int f(void){ int f[2]; return 0; }` the return statement of
the Integer function `f` has an Integer expression, yet its post-visit leaves the
has-returned flag at 0, because the name `f` resolves to the local array at that point; no
error is reported at the return statement, and the exit of `f` reports 'return statement is
missing or not properly stated in this funciton'. -/
theorem return_checked_against_local_array :
    ∃ s1 s2, buildSymtab sampleGlobals 10 (some 0) (State.init exampleShadowedByArray) = some s1 ∧
      typeCheck sampleGlobals 10 (some 0) s1 = some s2 ∧
      s1.listing = [] ∧
      (∃ c, run (beforeCheckNode sampleGlobals) (checkNode sampleGlobals)
          [.pre 0, .pre 1, .post 1, .pre 2, .pre 3, .post 3, .pre 4, .pre 5, .post 5, .post 4]
          (scPush s1 s1.globalScope) = some c ∧
        c.funcReturn = 0 ∧ c.listing = [] ∧
        (c.nodes[5]?).map (fun n => n.type) = some .Integer ∧
        (st_lookup_bucket c "f").map (Option.map (fun p => p.2.treeNode)) =
          some (some (some 3))) ∧
      s2.listing =
        [{ kind := .TypeError, line := 1,
           message := "return statement is missing or not properly stated in this funciton" }] := by
  have h : ∃ s1 s2,
      buildSymtab sampleGlobals 10 (some 0) (State.init exampleShadowedByArray) = some s1 ∧
      typeCheck sampleGlobals 10 (some 0) s1 = some s2 ∧
      (s1.listing = [] ∧
      (run (beforeCheckNode sampleGlobals) (checkNode sampleGlobals)
          [.pre 0, .pre 1, .post 1, .pre 2, .pre 3, .post 3, .pre 4, .pre 5, .post 5, .post 4]
          (scPush s1 s1.globalScope)).map
        (fun c => decide (c.funcReturn = 0 ∧ c.listing = [] ∧
          (c.nodes[5]?).map (fun n => n.type) = some .Integer ∧
          (st_lookup_bucket c "f").map (Option.map (fun p => p.2.treeNode)) =
            some (some (some 3)))) = some true ∧
      s2.listing =
        [{ kind := .TypeError, line := 1,
           message := "return statement is missing or not properly stated in this funciton" }]) :=
    two_passes (by decide)
  obtain ⟨s1, s2, h1, h2, e1, e2, e3⟩ := h
  exact ⟨s1, s2, h1, h2, e1, pass_holds e2, e3⟩

/-- Divergence behind C12: on `void f(void){ int f; return f; }` the one return statement
of the Void function `f` returns an expression of type `Integer`, and the two passes
report nothing, because the name `f` resolves to the local variable where the return
statement is checked. -/
theorem void_function_return_unreported :
    ∃ s1 s2, buildSymtab sampleGlobals 10 (some 0) (State.init exampleShadowedByInt) = some s1 ∧
      typeCheck sampleGlobals 10 (some 0) s1 = some s2 ∧
      s2.listing = [] ∧ s2.Error = false ∧
      (s2.nodes[0]?).map (fun n => n.type) = some .Void ∧
      (s2.nodes[5]?).map (fun n => n.type) = some .Integer :=
  two_passes (by decide)

/-- Counterexample to C11 as stated: on `int f(void){ if (1) return 1; }`, whose only
return statement sits in the then-branch of an if without else, the two passes report
nothing. -/
theorem return_in_one_branch_unreported :
    ∃ s1 s2, buildSymtab sampleGlobals 10 (some 0) (State.init exampleReturnInBranch) = some s1 ∧
      typeCheck sampleGlobals 10 (some 0) s1 = some s2 ∧
      s2.listing = [] ∧ s2.Error = false :=
  two_passes (by decide)

/-! ## Sibling lists and the loop over the arguments -/

theorem sibChain_nil {nodes : List TreeNode} {p : Ptr} (h : sibChain nodes p [] = true) :
    p = none := by
  cases p with
  | none => rfl
  | some a => simp [sibChain] at h

theorem sibChain_cons {nodes : List TreeNode} {p : Ptr} {b : Nat} {rest : List Nat}
    (h : sibChain nodes p (b :: rest) = true) :
    p = some b ∧ ∃ n, nodes[b]? = some n ∧ sibChain nodes n.sibling rest = true := by
  cases p with
  | none => simp [sibChain] at h
  | some a =>
    simp only [sibChain, Bool.and_eq_true, decide_eq_true_eq] at h
    obtain ⟨hab, h2⟩ := h
    subst hab
    cases hn : nodes[a]? with
    | none => rw [hn] at h2; cases h2
    | some n => rw [hn] at h2; exact ⟨rfl, n, rfl, h2⟩

theorem sibChain_unique {nodes : List TreeNode} :
    ∀ (l1 l2 : List Nat) (p : Ptr), sibChain nodes p l1 = true → sibChain nodes p l2 = true →
      l1 = l2
  | [], [], _, _, _ => rfl
  | [], b :: r, p, h1, h2 => by
    rw [sibChain_nil h1] at h2
    simp [sibChain] at h2
  | a :: r, [], p, h1, h2 => by
    rw [sibChain_nil h2] at h1
    simp [sibChain] at h1
  | a :: r1, b :: r2, p, h1, h2 => by
    obtain ⟨hp1, n1, hn1, hr1⟩ := sibChain_cons h1
    obtain ⟨hp2, n2, hn2, hr2⟩ := sibChain_cons h2
    rw [hp1] at hp2
    cases hp2
    rw [hn1] at hn2
    cases hn2
    rw [sibChain_unique r1 r2 _ hr1 hr2]

theorem sibChain_from_mem {nodes : List TreeNode} :
    ∀ (l : List Nat) (p : Ptr) (a : Nat), sibChain nodes p l = true → a ∈ l →
      ∃ l1, sibChain nodes (some a) l1 = true ∧ l1.length ≤ l.length
  | [], _, _, _, ha => by cases ha
  | b :: rest, p, a, h, ha => by
    obtain ⟨hp, n, hn, hr⟩ := sibChain_cons h
    rcases List.mem_cons.1 ha with hab | hmem
    · subst hab
      rw [hp] at h
      exact ⟨_, h, le_refl _⟩
    · obtain ⟨l1, h1, hlen⟩ := sibChain_from_mem rest _ a hr hmem
      exact ⟨l1, h1, by simp only [List.length_cons]; omega⟩

theorem sibChain_nodup {nodes : List TreeNode} :
    ∀ (l : List Nat) (p : Ptr), sibChain nodes p l = true → l.Nodup
  | [], _, _ => List.nodup_nil
  | b :: rest, p, h => by
    obtain ⟨hp, n, hn, hr⟩ := sibChain_cons h
    refine List.nodup_cons.2 ⟨?_, sibChain_nodup rest _ hr⟩
    intro hmem
    obtain ⟨l1, h1, hlen⟩ := sibChain_from_mem rest _ b hr hmem
    rw [hp] at h
    have := sibChain_unique _ _ _ h h1
    rw [← this] at hlen
    simp only [List.length_cons] at hlen
    omega

theorem sibChain_lt {nodes : List TreeNode} :
    ∀ (l : List Nat) (p : Ptr), sibChain nodes p l = true → ∀ x ∈ l, x < nodes.length
  | [], _, _, x, hx => by cases hx
  | b :: rest, p, h, x, hx => by
    obtain ⟨_, n, hn, hr⟩ := sibChain_cons h
    rcases List.mem_cons.1 hx with hxb | hmem
    · subst hxb
      by_contra hlt
      rw [List.getElem?_eq_none (not_lt.1 hlt)] at hn
      cases hn
    · exact sibChain_lt rest _ hr x hmem

theorem sibChain_length_le {nodes : List TreeNode} {l : List Nat} {p : Ptr}
    (h : sibChain nodes p l = true) : l.length ≤ nodes.length :=
  nodup_length_le (sibChain_nodup l p h) (sibChain_lt l p h)

theorem checkArgs_fits (s : State) (n : TreeNode) :
    ∀ (as ps : List Nat) (fuel : Nat) (a p : Ptr), sibChain s.nodes a as = true →
      sibChain s.nodes p ps = true → List.Forall₂ (ArgFits s.nodes) as ps →
      as.length ≤ fuel → checkArgs s n fuel a p = some s
  | [], _, fuel, a, p, ha, _, _, _ => by
    rw [sibChain_nil ha]
    cases fuel <;> simp [checkArgs]
  | x :: as, [], _, _, _, _, _, hf, _ => by cases hf
  | x :: as, y :: ps, fuel, a, p, ha, hp, hf, hlen => by
    obtain ⟨ea, arg, harg, hra⟩ := sibChain_cons ha
    obtain ⟨ep, param, hparam, hrp⟩ := sibChain_cons hp
    obtain ⟨f, rfl⟩ : ∃ f, fuel = f + 1 :=
      ⟨fuel - 1, by simp only [List.length_cons] at hlen; omega⟩
    cases hf with
    | cons hxy hrest =>
      obtain ⟨arg1, param1, h1, h2, hty, hnv⟩ := hxy
      rw [harg] at h1
      cases h1
      rw [hparam] at h2
      cases h2
      rw [ea, ep]
      simp only [checkArgs, harg, hparam]
      rw [if_neg (not_not.2 hty), if_neg hnv]
      exact checkArgs_fits s n as ps f _ _ hra hrp hrest
        (by simp only [List.length_cons] at hlen; omega)

/-- C15: let the node `t` be a call whose name resolves to a record whose declaring node
`funcDecl` is a function declaration, let `as` be the argument list of the call and `ps`
the parameter list of the function. If the call has no argument and the parameter list is
the one nameless parameter of type `Void`, or the call has arguments, as many as the
function has parameters, each of the type of the parameter at its position and none of
type `Void`, then `checkNode` returns, reports nothing, leaves the `Error` flag as it is,
and changes nothing but the type of the call node, which becomes the type of the function
declaration. -/
theorem checkNode_valid_call (G : Globals) (hD : G.Distinct) (s : State) (t : Nat)
    (n : TreeNode) (callFuncName : String) (k fd : Nat) (bucket : BucketListRec)
    (funcDecl : TreeNode) (as ps : List Nat)
    (hn : s.nodes[t]? = some n) (hexp : n.nodekind = .ExpK) (hcall : n.kind = G.CallK)
    (hname : n.name = some callFuncName)
    (hlook : st_lookup_bucket s callFuncName = some (some (k, bucket)))
    (hfd : bucket.treeNode = some fd) (hdecl : s.nodes[fd]? = some funcDecl)
    (hfun : funcDecl.nodekind = .DeclK ∧ funcDecl.kind = G.FunK)
    (hargs : sibChain s.nodes (n.child.getD 0 none) as = true)
    (hparams : sibChain s.nodes (funcDecl.child.getD 0 none) ps = true)
    (hvalid : (as = [] ∧ ∃ p param, ps = [p] ∧ s.nodes[p]? = some param ∧
                param.name = none ∧ param.type = .Void) ∨
              (as ≠ [] ∧ List.Forall₂ (ArgFits s.nodes) as ps)) :
    ∃ s1, checkNode G t s = some s1 ∧
      s1 = s.setNode t { n with type := funcDecl.type } ∧
      s1.listing = s.listing ∧ s1.Error = s.Error ∧
      (s1.nodes[t]?).map (fun m => m.type) = some funcDecl.type := by
  have hlt : t < s.nodes.length := by
    by_contra hlt
    rw [List.getElem?_eq_none (not_lt.1 hlt)] at hn
    cases hn
  have hres : (((s.setNode t { n with type := funcDecl.type }).nodes[t]?).map
      (fun m => m.type)) = some funcDecl.type := by
    simp [State.setNode, List.getElem?_set_self hlt]
  obtain ⟨_, hD2, _, _⟩ := hD
  simp only [List.nodup_cons, List.mem_cons, List.mem_singleton, not_or, List.not_mem_nil,
    not_false_eq_true, and_true, List.nodup_nil] at hD2
  have e1 : ¬ n.kind = G.ConstK := by rw [hcall]; omega
  have e2 : ¬ (n.kind = G.IdK ∨ n.kind = G.IdArrK) := by rw [hcall]; omega
  have hcheck : checkNode G t s = checkCall G t n s := by
    unfold checkNode
    simp only [hn, hexp]
    unfold checkExp
    rw [if_neg e1, if_neg e2, if_pos hcall]
  refine ⟨_, ?_, rfl, rfl, rfl, hres⟩
  rw [hcheck]
  unfold checkCall
  simp only [hname, hlook, hfd, hdecl]
  rw [if_neg (not_not.2 hfun.2)]
  rcases hvalid with ⟨has, p, param, hps, hp, hnone, hvoid⟩ | ⟨has, hfits⟩
  · subst has
    subst hps
    rw [sibChain_nil hargs]
    rw [(sibChain_cons hparams).1]
    simp only [deref, hp]
    rw [if_pos ⟨hnone, hvoid⟩]
    cases hlen : s.nodes.length <;> simp [checkArgs]
  · cases as with
    | nil => exact absurd rfl has
    | cons a rest =>
      have ha := (sibChain_cons hargs).1
      simp only [ha]
      rw [← ha, checkArgs_fits s n (a :: rest) ps s.nodes.length _ _ hargs hparams hfits
        (sibChain_length_le hargs)]

theorem checkNode_valid_call_witness :
    ∃ s1, checkNode sampleGlobals 3 exampleCallOutputAtCall = some s1 ∧
      s1.listing = [] ∧ s1.Error = false ∧
      (s1.nodes[3]?).map (fun m => m.type) = some .Void := by
  obtain ⟨s1, h1, _, h3, h4, h5⟩ :=
    checkNode_valid_call sampleGlobals (by decide) exampleCallOutputAtCall 3
      { blankNode with nodekind := .ExpK, kind := sampleGlobals.CallK, name := some "output"
                       lineno := 1, child := [some 4, none, none] }
      "output" 0 10 { name := "output", treeNode := some 10, lines := [-1, 1], memloc := 0 }
      { blankNode with nodekind := .DeclK, kind := sampleGlobals.FunK, name := some "output"
                       type := .Void, child := [some 8, some 9, none] }
      [4] [8] (by decide) (by decide) (by decide) (by decide) (by decide) (by decide)
      (by decide) (by decide) (by decide) (by decide)
      (Or.inr ⟨by decide, List.Forall₂.cons
        ⟨{ blankNode with nodekind := .ExpK, kind := sampleGlobals.ConstK, lineno := 1
                          type := .Integer },
         { blankNode with nodekind := .ParamK, kind := sampleGlobals.SingleParamK
                          name := some "arg", type := .Integer },
         by decide, by decide, by decide, by decide⟩ List.Forall₂.nil⟩)
  refine ⟨s1, h1, ?_, ?_, h5⟩
  · rw [h3]; decide
  · rw [h4]; decide

/-! ## What the two passes make of a node -/

theorem evolvesTo_refl (G : Globals) (m : TreeNode) : m.EvolvesTo G m :=
  ⟨rfl, rfl, fun _ => ⟨rfl, rfl⟩, fun h => Or.inl h⟩

theorem evolvesTo_trans {G : Globals} {a b c : TreeNode} (h1 : a.EvolvesTo G b)
    (h2 : b.EvolvesTo G c) : a.EvolvesTo G c := by
  obtain ⟨k1, l1, n1, e1⟩ := h1
  obtain ⟨k2, l2, n2, e2⟩ := h2
  refine ⟨k2.trans k1, l2.trans l1, ?_, ?_⟩
  · intro ha
    obtain ⟨x1, x2⟩ := n1 ha
    obtain ⟨y1, y2⟩ := n2 (by rw [x1]; exact ha)
    exact ⟨y1.trans x1, y2.trans x2⟩
  · intro ha
    rcases e1 ha with hb | ⟨hb, hu⟩
    · rcases e2 hb with hc | ⟨hc, hu⟩
      · exact Or.inl hc
      · exact Or.inr ⟨hc, by rw [← k1]; exact hu⟩
    · obtain ⟨y1, _⟩ := n2 (by rw [hb]; decide)
      exact Or.inr ⟨y1.trans hb, hu⟩

theorem evolves_refl (G : Globals) (a : List TreeNode) : Evolves G a a :=
  fun _ m hm => ⟨m, hm, evolvesTo_refl G m⟩

theorem evolves_of_eq {G : Globals} {a b : List TreeNode} (h : b = a) : Evolves G a b := by
  subst h
  exact evolves_refl G _

theorem evolves_trans {G : Globals} {a b c : List TreeNode} (h1 : Evolves G a b)
    (h2 : Evolves G b c) : Evolves G a c := by
  intro u m hm
  obtain ⟨m1, hm1, e1⟩ := h1 u m hm
  obtain ⟨m2, hm2, e2⟩ := h2 u m1 hm1
  exact ⟨m2, hm2, evolvesTo_trans e1 e2⟩

theorem evolves_append (G : Globals) (a l : List TreeNode) : Evolves G a (a ++ l) := by
  intro u m hm
  have hlt : u < a.length := by
    by_contra hlt
    rw [List.getElem?_eq_none (not_lt.1 hlt)] at hm
    cases hm
  exact ⟨m, by rw [List.getElem?_append_left hlt]; exact hm, evolvesTo_refl G m⟩

theorem evolves_set {G : Globals} {a : List TreeNode} {t : Nat} {n n1 : TreeNode}
    (hn : a[t]? = some n) (h : n.EvolvesTo G n1) : Evolves G a (a.set t n1) := by
  intro u m hm
  rw [getElem?_set_nodes]
  by_cases htu : t = u
  · subst htu
    rw [hn] at hm
    cases hm
    exact ⟨n1, by rw [if_pos rfl, hn]; rfl, h⟩
  · exact ⟨m, by rw [if_neg htu]; exact hm, evolvesTo_refl G m⟩

theorem evolves_onlyTypes {G : Globals} {a b : List TreeNode} (h : Evolves G a b)
    {d : List TreeNode} (hc : OnlyTypes d b)
    (hty : ∀ (u : Nat) (m : TreeNode), b[u]? = some m → m.nodekind ≠ NodeKind.ExpK →
      d[u]? = some m) :
    Evolves G a d := by
  intro u m hm
  obtain ⟨m1, hm1, k1, l1, n1, e1⟩ := h u m hm
  obtain ⟨m2, hm2, hk, hkind, _, _⟩ := onlyTypes_node hc hm1
  by_cases hx : m1.nodekind = .ExpK
  · refine ⟨m2, hm2, hkind.trans k1, ?_, ?_, ?_⟩
    · have := onlyTypes_get hc hm1
      obtain ⟨m3, hm3, e3⟩ := this
      rw [hm2] at hm3
      cases hm3
      have := congrArg TreeNode.lineno e3
      exact this.trans l1
    · intro hne
      exact absurd hx (by rw [(n1 hne).1]; exact hne)
    · intro he
      exact Or.inl (hk.trans hx)
  · have := hty u m1 hm1 hx
    rw [hm2] at this
    cases this
    exact ⟨_, hm2, k1, l1, n1, e1⟩

theorem insertNode_evolves {G : Globals} {t : Nat} {s s1 : State}
    (h : insertNode G t s = some s1) : Evolves G s.nodes s1.nodes := by
  unfold insertNode at h
  split at h
  · cases h
  · rename_i n hn
    split at h
    · split at h
      · cases h
        obtain ⟨sc, e⟩ := insertComp_nodes t n s
        rw [e]
        exact evolves_set hn ⟨rfl, rfl, fun _ => ⟨rfl, rfl⟩, fun hx => Or.inl hx⟩
      · cases h
        exact evolves_refl G _
    · split at h
      · exact evolves_of_eq (insertFun_nodes h)
      · split at h
        · exact evolves_of_eq (insertVar_nodes h)
        · cases h
          exact evolves_refl G _
    · rename_i hexp
      split at h
      · rename_i huse
        rcases insertUse_nodes h with e | e
        · exact evolves_of_eq e
        · rw [e]
          exact evolves_set hn ⟨rfl, rfl, fun hne => absurd hexp hne,
            fun _ => Or.inr ⟨rfl, huse⟩⟩
      · cases h
        exact evolves_refl G _
    · exact evolves_of_eq (insertParam_nodes h)

theorem run_insert_evolves (G : Globals) :
    ∀ (evs : List Ev) (s s1 : State),
      run (insertNode G) (afterInsertNode G) evs s = some s1 → Evolves G s.nodes s1.nodes := by
  intro evs
  induction evs with
  | nil =>
    intro s s1 h
    cases h
    exact evolves_refl G _
  | cons e es ih =>
    intro s s1 h
    rw [run_cons] at h
    cases he : runEv (insertNode G) (afterInsertNode G) s e with
    | none => rw [he] at h; cases h
    | some s2 =>
      rw [he] at h
      have h12 : Evolves G s.nodes s2.nodes := by
        cases e with
        | pre t => exact insertNode_evolves he
        | post t => exact evolves_of_eq (afterInsertNode_nodes he)
      exact evolves_trans h12 (ih s2 s1 h)

/-! ## The heap along the Type-Checking pass -/

theorem checkArgs_nodes (s : State) (n : TreeNode) :
    ∀ (fuel : Nat) (a p : Ptr) (s1 : State), checkArgs s n fuel a p = some s1 →
      s1.nodes = s.nodes := by
  intro fuel
  induction fuel with
  | zero =>
    intro a p s1 h
    cases a with
    | none => simp only [checkArgs] at h; cases h; rfl
    | some x =>
      cases p with
      | none => simp only [checkArgs] at h; cases h; rfl
      | some y => simp [checkArgs] at h
  | succ k ih =>
    intro a p s1 h
    cases a with
    | none => simp only [checkArgs] at h; cases h; rfl
    | some x =>
      cases p with
      | none => simp only [checkArgs] at h; cases h; rfl
      | some y =>
        simp only [checkArgs] at h
        split at h
        · split at h
          · cases h; rfl
          · split at h
            · cases h; rfl
            · exact ih _ _ _ h
        · cases h

theorem checkId_nodes {G : Globals} {t : Nat} {n : TreeNode} {s s1 : State}
    (h : checkId G t n s = some s1) :
    s1.nodes = s.nodes ∨ ∃ ty, s1.nodes = s.nodes.set t { n with type := ty } := by
  unfold checkId at h
  repeat' split at h
  all_goals
    cases h <;> first
      | exact Or.inl rfl
      | exact Or.inr ⟨_, rfl⟩

theorem checkCall_nodes {G : Globals} {t : Nat} {n : TreeNode} {s s1 : State}
    (h : checkCall G t n s = some s1) :
    s1.nodes = s.nodes ∨ ∃ ty, s1.nodes = s.nodes.set t { n with type := ty } := by
  unfold checkCall at h
  split at h
  · cases h
  · split at h
    · cases h
    · cases h
    · split at h
      · cases h; exact Or.inl rfl
      · split at h
        · cases h
        · dsimp only at h
          split at h
          · cases h; exact Or.inl rfl
          · split at h
            · cases h
            · rename_i x hx
              have hq1 : x.nodes = s.nodes := by
                repeat' split at hx
                all_goals
                  cases hx <;> rfl
              split at h
              · cases h
              · rename_i y hy
                cases h
                have hq2 := checkArgs_nodes _ _ _ _ _ _ hy
                have e : y.nodes = s.nodes := hq2.trans hq1
                exact Or.inr ⟨_, congrArg (fun l => List.set l t _) e⟩

theorem checkRet_nodes {n : TreeNode} {s s1 : State}
    (h : checkRet n s = some s1) : s1.nodes = s.nodes := by
  unfold checkRet at h
  dsimp only at h
  repeat' split at h
  all_goals
    cases h <;> rfl

theorem checkExp_nodes {G : Globals} {t : Nat} {n : TreeNode} {s s1 : State}
    (h : checkExp G t n s = some s1) :
    s1.nodes = s.nodes ∨ ∃ ty, s1.nodes = s.nodes.set t { n with type := ty } := by
  unfold checkExp at h
  split at h
  · cases h; exact Or.inr ⟨_, rfl⟩
  · split at h
    · exact checkId_nodes h
    · split at h
      · exact checkCall_nodes h
      · repeat' split at h
        all_goals
          cases h <;> first
            | exact Or.inl rfl
            | exact Or.inr ⟨_, rfl⟩

theorem checkStmt_nodes {G : Globals} {n : TreeNode} {s s1 : State}
    (h : checkStmt G n s = some s1) : s1.nodes = s.nodes := by
  unfold checkStmt at h
  split at h
  · cases h; rfl
  · split at h
    · repeat' split at h
      all_goals
        cases h <;> rfl
    · split at h
      · repeat' split at h
        all_goals
          cases h <;> rfl
      · split at h
        · exact checkRet_nodes h
        · cases h; rfl

theorem checkDecl_nodes (G : Globals) (n : TreeNode) (s : State) :
    (checkDecl G n s).nodes = s.nodes := by
  unfold checkDecl
  repeat' split
  all_goals rfl

theorem checkParam_nodes (G : Globals) (n : TreeNode) (s : State) :
    (checkParam G n s).nodes = s.nodes := by
  unfold checkParam
  repeat' split
  all_goals rfl

theorem checkNode_nodes {G : Globals} {t : Nat} {s s1 : State}
    (h : checkNode G t s = some s1) :
    s1.nodes = s.nodes ∨ ∃ n ty, s.nodes[t]? = some n ∧ n.nodekind = .ExpK ∧
      s1.nodes = s.nodes.set t { n with type := ty } := by
  unfold checkNode at h
  split at h
  · cases h
  · rename_i n hn
    split at h
    · rename_i hk
      rcases checkExp_nodes h with e | ⟨ty, e⟩
      · exact Or.inl e
      · exact Or.inr ⟨n, ty, hn, hk, e⟩
    · exact Or.inl (checkStmt_nodes h)
    · cases h; exact Or.inl (checkDecl_nodes G n s)
    · cases h; exact Or.inl (checkParam_nodes G n s)

theorem beforeCheckNode_nodes {G : Globals} {t : Nat} {s s1 : State}
    (h : beforeCheckNode G t s = some s1) : s1.nodes = s.nodes := by
  unfold beforeCheckNode at h
  split at h
  · cases h
  · repeat' split at h
    all_goals
      cases h
      rfl

theorem checkEv_evolves {G : Globals} {e : Ev} {s s1 : State}
    (h : runEv (beforeCheckNode G) (checkNode G) s e = some s1) :
    Evolves G s.nodes s1.nodes := by
  cases e with
  | pre t => exact evolves_of_eq (beforeCheckNode_nodes h)
  | post t =>
    rcases checkNode_nodes h with e | ⟨n, ty, hn, hk, e⟩
    · exact evolves_of_eq e
    · rw [e]
      exact evolves_set hn ⟨rfl, rfl, fun hne => absurd hk hne, fun _ => Or.inl hk⟩

theorem run_check_evolves (G : Globals) :
    ∀ (evs : List Ev) (s s1 : State),
      run (beforeCheckNode G) (checkNode G) evs s = some s1 → Evolves G s.nodes s1.nodes := by
  intro evs
  induction evs with
  | nil =>
    intro s s1 h
    cases h
    exact evolves_refl G _
  | cons e es ih =>
    intro s s1 h
    rw [run_cons] at h
    cases he : runEv (beforeCheckNode G) (checkNode G) s e with
    | none => rw [he] at h; cases h
    | some s2 =>
      rw [he] at h
      exact evolves_trans (checkEv_evolves he) (ih s2 s1 h)

/-! ## Where the has-returned flag changes -/

theorem checkArgs_flag (s : State) (n : TreeNode) :
    ∀ (fuel : Nat) (a p : Ptr) (s1 : State), checkArgs s n fuel a p = some s1 →
      s1.funcReturn = s.funcReturn := by
  intro fuel
  induction fuel with
  | zero =>
    intro a p s1 h
    cases a with
    | none => simp only [checkArgs] at h; cases h; rfl
    | some x =>
      cases p with
      | none => simp only [checkArgs] at h; cases h; rfl
      | some y => simp [checkArgs] at h
  | succ k ih =>
    intro a p s1 h
    cases a with
    | none => simp only [checkArgs] at h; cases h; rfl
    | some x =>
      cases p with
      | none => simp only [checkArgs] at h; cases h; rfl
      | some y =>
        simp only [checkArgs] at h
        split at h
        · split at h
          · cases h; rfl
          · split at h
            · cases h; rfl
            · exact ih _ _ _ h
        · cases h

theorem checkId_flag {G : Globals} {t : Nat} {n : TreeNode} {s s1 : State}
    (h : checkId G t n s = some s1) : s1.funcReturn = s.funcReturn := by
  unfold checkId at h
  repeat' split at h
  all_goals
    cases h <;> rfl

theorem checkCall_flag {G : Globals} {t : Nat} {n : TreeNode} {s s1 : State}
    (h : checkCall G t n s = some s1) : s1.funcReturn = s.funcReturn := by
  unfold checkCall at h
  split at h
  · cases h
  · split at h
    · cases h
    · cases h
    · split at h
      · cases h; rfl
      · split at h
        · cases h
        · dsimp only at h
          split at h
          · cases h; rfl
          · split at h
            · cases h
            · rename_i x hx
              have hq1 : x.funcReturn = s.funcReturn := by
                repeat' split at hx
                all_goals
                  cases hx <;> rfl
              split at h
              · cases h
              · rename_i y hy
                cases h
                have hq2 := checkArgs_flag _ _ _ _ _ _ hy
                exact hq2.trans hq1

theorem checkExp_flag {G : Globals} {t : Nat} {n : TreeNode} {s s1 : State}
    (h : checkExp G t n s = some s1) : s1.funcReturn = s.funcReturn := by
  unfold checkExp at h
  split at h
  · cases h; rfl
  · split at h
    · exact checkId_flag h
    · split at h
      · exact checkCall_flag h
      · repeat' split at h
        all_goals
          cases h <;> rfl

theorem checkStmt_flag {G : Globals} {n : TreeNode} {s s1 : State}
    (hr : ¬ n.kind = G.RetK) (h : checkStmt G n s = some s1) :
    s1.funcReturn = s.funcReturn := by
  unfold checkStmt at h
  split at h
  · cases h; rfl
  · split at h
    · repeat' split at h
      all_goals
        cases h <;> rfl
    · split at h
      · repeat' split at h
        all_goals
          cases h <;> rfl
      · cases h
        rfl

theorem checkDecl_flag {G : Globals} {n : TreeNode} (s : State) (hf : ¬ n.kind = G.FunK) :
    (checkDecl G n s).funcReturn = s.funcReturn := by
  unfold checkDecl
  split
  · split <;> rfl
  · rfl

theorem checkParam_flag (G : Globals) (n : TreeNode) (s : State) :
    (checkParam G n s).funcReturn = s.funcReturn := by
  unfold checkParam
  repeat' split
  all_goals rfl

theorem checkNode_flag {G : Globals} {t : Nat} {s s1 : State}
    (h : checkNode G t s = some s1) (hf : isFunNode G s.nodes t = false)
    (hr : isRetStmt G s.nodes t = false) : s1.funcReturn = s.funcReturn := by
  unfold checkNode at h
  split at h
  · cases h
  · rename_i n hn
    simp only [isFunNode, isRetStmt, hn, isFunDecl, decide_eq_false_iff_not, not_and] at hf hr
    split at h
    · exact checkExp_flag h
    · rename_i hk
      exact checkStmt_flag (hr hk) h
    · rename_i hk
      cases h
      exact checkDecl_flag s (hf hk)
    · cases h
      exact checkParam_flag G n s

theorem beforeCheckNode_flag {G : Globals} {t : Nat} {s s1 : State}
    (h : beforeCheckNode G t s = some s1) (hf : isFunNode G s.nodes t = false) :
    s1.funcReturn = s.funcReturn := by
  unfold beforeCheckNode at h
  split at h
  · cases h
  · rename_i n hn
    simp only [isFunNode, hn, isFunDecl, decide_eq_false_iff_not, not_and] at hf
    split at h
    · split at h <;> cases h <;> rfl
    · rename_i hk
      rw [if_neg (hf hk)] at h
      cases h
      rfl
    · cases h
      rfl

theorem evolves_isRet {G : Globals} {a b : List TreeNode} (h : Evolves G a b) {u : Nat}
    {m : TreeNode} (hm : a[u]? = some m) : isRetStmt G b u = isRetStmt G a u := by
  obtain ⟨m1, hm1, hk, _, hn, he⟩ := h u m hm
  simp only [isRetStmt, hm, hm1]
  by_cases hx : m.nodekind = .ExpK
  · have h1 : ¬ m1.nodekind = .StmtK := by
      rcases he hx with h2 | ⟨h2, _⟩ <;> rw [h2] <;> decide
    have h2 : ¬ m.nodekind = .StmtK := by rw [hx]; decide
    simp [h1, h2]
  · rw [(hn hx).1, hk]

theorem evolves_isFun {G : Globals} {a b : List TreeNode} (h : Evolves G a b) {u : Nat}
    {m : TreeNode} (hm : a[u]? = some m) {inFun : Bool} (hs : shapeOk G inFun m = true) :
    isFunNode G b u = isFunNode G a u := by
  obtain ⟨m1, hm1, hk, _, hn, he⟩ := h u m hm
  simp only [isFunNode, hm, hm1, isFunDecl]
  by_cases hx : m.nodekind = .ExpK
  · have h2 : ¬ m.nodekind = .DeclK := by rw [hx]; decide
    have h1 : ¬ (m1.nodekind = .DeclK ∧ m1.kind = G.FunK) := by
      rintro ⟨hd, hf⟩
      rcases he hx with h3 | ⟨_, huse⟩
      · rw [h3] at hd; cases hd
      · unfold shapeOk at hs
        simp only [hx, Bool.and_eq_true, decide_eq_true_eq] at hs
        exact hs.1.1 huse (hk ▸ hf)
    simp [h1, h2]
  · rw [(hn hx).1, hk]

mutual
theorem subtree_root_mem :
    ∀ (T : SynTree) (u : Nat) (cs : SynForest) (sib : SynTree),
      SynTree.node u cs sib ∈ T.subtrees → u ∈ T.ptrs
  | .null, u, cs, sib, h => by simp [SynTree.subtrees] at h
  | .node t ts s, u, cs, sib, h => by
    simp only [SynTree.subtrees, List.mem_cons, List.mem_append] at h
    simp only [SynTree.ptrs, List.mem_cons, List.mem_append]
    rcases h with h | h | h
    · cases h
      exact Or.inl rfl
    · exact Or.inr (Or.inl (subforest_root_mem ts u cs sib h))
    · exact Or.inr (Or.inr (subtree_root_mem s u cs sib h))
theorem subforest_root_mem :
    ∀ (F : SynForest) (u : Nat) (cs : SynForest) (sib : SynTree),
      SynTree.node u cs sib ∈ F.subtrees → u ∈ F.ptrs
  | .nil, u, cs, sib, h => by simp [SynForest.subtrees] at h
  | .cons c rest, u, cs, sib, h => by
    simp only [SynForest.subtrees, List.mem_append] at h
    simp only [SynForest.ptrs, List.mem_append]
    rcases h with h | h
    · exact Or.inl (subtree_root_mem c u cs sib h)
    · exact Or.inr (subforest_root_mem rest u cs sib h)
end

mutual
theorem shape_nodes (G : Globals) (a : List TreeNode) :
    ∀ (T : SynTree) (inFun : Bool), checkShape G a inFun T = true →
      ∀ u ∈ T.ptrs, ∃ m i, a[u]? = some m ∧ shapeOk G i m = true
  | .null, _, _, u, hu => by simp [SynTree.ptrs] at hu
  | .node t cs sib, inFun, h, u, hu => by
    unfold checkShape at h
    cases hn : a[t]? with
    | none => rw [hn] at h; cases h
    | some n =>
      rw [hn] at h
      simp only [Bool.and_eq_true] at h
      simp only [SynTree.ptrs, List.mem_cons, List.mem_append] at hu
      rcases hu with hu | hu | hu
      · subst hu
        exact ⟨n, inFun, hn, h.1.1⟩
      · exact shapeAll_nodes G a cs _ h.1.2 u hu
      · exact shape_nodes G a sib _ h.2 u hu
theorem shapeAll_nodes (G : Globals) (a : List TreeNode) :
    ∀ (F : SynForest) (inFun : Bool), checkShapeAll G a inFun F = true →
      ∀ u ∈ F.ptrs, ∃ m i, a[u]? = some m ∧ shapeOk G i m = true
  | .nil, _, _, u, hu => by simp [SynForest.ptrs] at hu
  | .cons c rest, inFun, h, u, hu => by
    unfold checkShapeAll at h
    simp only [Bool.and_eq_true] at h
    simp only [SynForest.ptrs, List.mem_append] at hu
    rcases hu with hu | hu
    · exact shape_nodes G a c _ h.1 u hu
    · exact shapeAll_nodes G a rest _ h.2 u hu
end

mutual
theorem shape_inFun (G : Globals) (a : List TreeNode) :
    ∀ (T : SynTree), checkShape G a true T = true →
      ∀ u ∈ T.ptrs, isFunNode G a u = false
  | .null, _, u, hu => by simp [SynTree.ptrs] at hu
  | .node t cs sib, h, u, hu => by
    unfold checkShape at h
    cases hn : a[t]? with
    | none => rw [hn] at h; cases h
    | some n =>
      rw [hn] at h
      simp only [Bool.and_eq_true, Bool.true_or] at h
      simp only [SynTree.ptrs, List.mem_cons, List.mem_append] at hu
      rcases hu with hu | hu | hu
      · subst hu
        simp only [isFunNode, hn, isFunDecl, decide_eq_false_iff_not, not_and]
        intro hd hf
        have hs := h.1.1
        unfold shapeOk at hs
        simp only [hd, decide_eq_true_eq] at hs
        exact absurd (hs hf).1 (by decide)
      · exact shapeAll_inFun G a cs h.1.2 u hu
      · exact shape_inFun G a sib h.2 u hu
theorem shapeAll_inFun (G : Globals) (a : List TreeNode) :
    ∀ (F : SynForest), checkShapeAll G a true F = true →
      ∀ u ∈ F.ptrs, isFunNode G a u = false
  | .nil, _, u, hu => by simp [SynForest.ptrs] at hu
  | .cons c rest, h, u, hu => by
    unfold checkShapeAll at h
    simp only [Bool.and_eq_true] at h
    simp only [SynForest.ptrs, List.mem_append] at hu
    rcases hu with hu | hu
    · exact shape_inFun G a c h.1 u hu
    · exact shapeAll_inFun G a rest h.2 u hu
end

theorem run_flag_frame (G : Globals) (a : List TreeNode) :
    ∀ (evs : List Ev) (c c1 : State),
      run (beforeCheckNode G) (checkNode G) evs c = some c1 → Evolves G a c.nodes →
      (∀ e ∈ evs, ∃ m i, a[e.ptr]? = some m ∧ shapeOk G i m = true) →
      (∀ e ∈ evs, isFunNode G a e.ptr = false) →
      (∀ r, Ev.post r ∈ evs → isRetStmt G a r = false) →
      c1.funcReturn = c.funcReturn := by
  intro evs
  induction evs with
  | nil =>
    intro c c1 h _ _ _ _
    cases h
    rfl
  | cons e es ih =>
    intro c c1 h hev hsh hfun hret
    rw [run_cons] at h
    cases he : runEv (beforeCheckNode G) (checkNode G) c e with
    | none => rw [he] at h; cases h
    | some c2 =>
      rw [he] at h
      obtain ⟨m, i, hm, hs⟩ := hsh e (List.mem_cons_self _ _)
      have hf : isFunNode G c.nodes e.ptr = false := by
        rw [evolves_isFun hev hm hs]
        exact hfun e (List.mem_cons_self _ _)
      have h2 : c2.funcReturn = c.funcReturn := by
        cases e with
        | pre t => exact beforeCheckNode_flag he hf
        | post t =>
          refine checkNode_flag he hf ?_
          have hm2 : a[t]? = some m := hm
          rw [evolves_isRet hev hm2]
          exact hret t (List.mem_cons_self _ _)
      rw [← h2]
      exact ih c2 c1 h (evolves_trans hev (checkEv_evolves he))
        (fun x hx => hsh x (List.mem_cons_of_mem _ hx))
        (fun x hx => hfun x (List.mem_cons_of_mem _ hx))
        (fun r hr => hret r (List.mem_cons_of_mem _ hr))

theorem fun_entry {G : Globals} {fd : Nat} {n : TreeNode} {c : State}
    (hn : c.nodes[fd]? = some n) (hfun : isFunDecl G n = true) (hty : n.type ≠ .Void) :
    beforeCheckNode G fd c = some { c with funcName := n.name } := by
  unfold isFunDecl at hfun
  simp only [decide_eq_true_eq] at hfun
  unfold beforeCheckNode
  simp only [hn, hfun.1]
  rw [if_pos hfun.2, if_neg hty]

theorem fun_exit {G : Globals} (hD : G.Distinct) {fd : Nat} {n : TreeNode} {c : State}
    (hn : c.nodes[fd]? = some n) (hfun : isFunDecl G n = true) :
    ∃ cx, checkNode G fd c = some cx ∧ cx.funcReturn = 0 ∧
      (c.funcReturn = 1 → cx.listing = c.listing) ∧
      (c.funcReturn ≠ 1 → cx.listing = c.listing ++ [missingReturn n]) := by
  unfold isFunDecl at hfun
  simp only [decide_eq_true_eq] at hfun
  obtain ⟨_, _, hD3, _⟩ := hD
  simp only [List.nodup_cons, List.mem_cons, List.mem_singleton, not_or, List.not_mem_nil,
    not_false_eq_true, and_true, List.nodup_nil] at hD3
  have hv : ¬ (n.kind = G.VarK ∨ n.kind = G.VarArrK) := by rw [hfun.2]; omega
  unfold checkNode
  simp only [hn, hfun.1]
  unfold checkDecl
  rw [if_neg hv, if_pos hfun.2]
  by_cases h1 : c.funcReturn = 1
  · rw [if_neg (not_not.2 h1)]
    exact ⟨_, rfl, rfl, fun _ => rfl, fun h => absurd h1 h⟩
  · rw [if_pos h1]
    exact ⟨_, rfl, rfl, fun h => absurd h h1, fun _ => rfl⟩

theorem run_append_split {pre post : Nat → State → Option State} {X Y : List Ev}
    {c c1 : State} (h : run pre post (X ++ Y) c = some c1) :
    ∃ c2, run pre post X c = some c2 ∧ run pre post Y c2 = some c1 := by
  rw [run_append] at h
  cases hx : run pre post X c with
  | none => rw [hx] at h; cases h
  | some c2 => rw [hx] at h; exact ⟨c2, rfl, h⟩

theorem run_append_some {pre post : Nat → State → Option State} {X Y : List Ev}
    {c c2 c1 : State} (hx : run pre post X c = some c2) (hy : run pre post Y c2 = some c1) :
    run pre post (X ++ Y) c = some c1 := by
  rw [run_append, hx]
  exact hy

theorem run_cons_split {pre post : Nat → State → Option State} {e : Ev} {Y : List Ev}
    {c c1 : State} (h : run pre post (e :: Y) c = some c1) :
    ∃ c2, runEv pre post c e = some c2 ∧ run pre post Y c2 = some c1 := by
  rw [run_cons] at h
  cases hx : runEv pre post c e with
  | none => rw [hx] at h; cases h
  | some c2 => rw [hx] at h; exact ⟨c2, rfl, h⟩

theorem run_cons_some {pre post : Nat → State → Option State} {e : Ev} {Y : List Ev}
    {c c2 c1 : State} (hx : runEv pre post c e = some c2) (hy : run pre post Y c2 = some c1) :
    run pre post (e :: Y) c = some c1 := by
  rw [run_cons, hx]
  exact hy

theorem run_node_split {pre post : Nat → State → Option State} {t : Nat} {X Y : List Ev}
    {c c1 : State} (h : run pre post (Ev.pre t :: (X ++ Ev.post t :: Y)) c = some c1) :
    ∃ c2 c3 c4, pre t c = some c2 ∧ run pre post X c2 = some c3 ∧ post t c3 = some c4 ∧
      run pre post Y c4 = some c1 := by
  obtain ⟨c2, h2, hr⟩ := run_cons_split h
  obtain ⟨c3, h3, hr⟩ := run_append_split hr
  obtain ⟨c4, h4, hr⟩ := run_cons_split hr
  exact ⟨c2, c3, c4, h2, h3, h4, hr⟩

/-! ## The has-returned flag between the function declarations -/

mutual
theorem flag_top (G : Globals) (hD : G.Distinct) (a : List TreeNode) :
    ∀ (T : SynTree) (c c1 : State),
      checkShape G a false T = true → Evolves G a c.nodes →
      run (beforeCheckNode G) (checkNode G) T.events c = some c1 → c.funcReturn = 0 →
      c1.funcReturn = 0 ∧
      ∀ fd cs sib, SynTree.node fd cs sib ∈ T.subtrees → isFunNode G a fd = true →
        ∃ A B x, T.events = A ++ Ev.pre fd :: (cs.events ++ Ev.post fd :: B) ∧
          run (beforeCheckNode G) (checkNode G) A c = some x ∧ x.funcReturn = 0 ∧
          checkShapeAll G a true cs = true
  | .null, c, c1, _, _, hrun, h0 => by
    cases hrun
    refine ⟨h0, ?_⟩
    intro fd cs sib hmem
    simp [SynTree.subtrees] at hmem
  | .node t ts sb, c, c1, hsh, hev, hrun, h0 => by
    unfold checkShape at hsh
    cases hn : a[t]? with
    | none => rw [hn] at hsh; cases hsh
    | some n =>
      rw [hn] at hsh
      simp only [Bool.and_eq_true, Bool.false_or] at hsh
      obtain ⟨⟨hok, hts⟩, hsb⟩ := hsh
      simp only [SynTree.events] at hrun
      obtain ⟨c2, c3, c4, h2, h3, h4, h5⟩ := run_node_split hrun
      have hpre : runEv (beforeCheckNode G) (checkNode G) c (Ev.pre t) = some c2 := h2
      have hpost : runEv (beforeCheckNode G) (checkNode G) c3 (Ev.post t) = some c4 := h4
      have hev2 : Evolves G a c2.nodes := evolves_trans hev (checkEv_evolves hpre)
      have hev3 : Evolves G a c3.nodes := evolves_trans hev2 (run_check_evolves G _ _ _ h3)
      have hev4 : Evolves G a c4.nodes := evolves_trans hev3 (checkEv_evolves hpost)
      by_cases hf : isFunDecl G n = true
      · -- a function declaration
        obtain ⟨n3, hn3, hk3, _, hnk3, _⟩ := hev3 t n hn
        have hfd := hf
        unfold isFunDecl at hfd
        simp only [decide_eq_true_eq] at hfd
        have hne : n.nodekind ≠ .ExpK := by rw [hfd.1]; decide
        have hf3 : isFunDecl G n3 = true := by
          unfold isFunDecl
          simp only [decide_eq_true_eq]
          exact ⟨(hnk3 hne).1.trans hfd.1, hk3.trans hfd.2⟩
        obtain ⟨cx, hcx, hcx0, _, _⟩ := fun_exit hD hn3 hf3
        rw [h4] at hcx
        cases hcx
        obtain ⟨hres, hsub⟩ := flag_top G hD a sb c4 c1 hsb hev4 h5 hcx0
        refine ⟨hres, ?_⟩
        intro fd cs sib hmem hfun
        simp only [SynTree.subtrees, List.mem_cons, List.mem_append] at hmem
        rcases hmem with hmem | hmem | hmem
        · cases hmem
          refine ⟨[], sb.events, c, rfl, rfl, h0, ?_⟩
          rw [hf] at hts
          exact hts
        · rw [hf] at hts
          have := shapeAll_inFun G a ts hts fd (subforest_root_mem ts fd cs sib hmem)
          rw [this] at hfun
          cases hfun
        · obtain ⟨A, B, x, hdec, hrunA, hx0, hcs⟩ := hsub fd cs sib hmem hfun
          refine ⟨Ev.pre t :: (ts.events ++ Ev.post t :: A), B, x, ?_, ?_, hx0, hcs⟩
          · simp only [SynTree.events, hdec, List.cons_append, List.append_assoc]
          · exact run_cons_some hpre (run_append_some h3 (run_cons_some hpost hrunA))
      · -- any other node outside the functions
        have hff : isFunDecl G n = false := by
          cases hx : isFunDecl G n with
          | true => exact absurd hx hf
          | false => rfl
        rw [hff] at hts
        have hfa : isFunNode G a t = false := by simp only [isFunNode, hn, hff]
        have hra : isRetStmt G a t = false := by
          simp only [isRetStmt, hn, decide_eq_false_iff_not, not_and]
          intro hs hr
          unfold shapeOk at hok
          simp only [hs, Bool.and_eq_true, decide_eq_true_eq] at hok
          exact absurd (hok.2 hr) (by decide)
        have hfc : isFunNode G c.nodes t = false := by
          rw [evolves_isFun hev hn hok]; exact hfa
        have hfc3 : isFunNode G c3.nodes t = false := by
          rw [evolves_isFun hev3 hn hok]; exact hfa
        have hrc3 : isRetStmt G c3.nodes t = false := by
          rw [evolves_isRet hev3 hn]; exact hra
        have e2 : c2.funcReturn = 0 := (beforeCheckNode_flag h2 hfc).trans h0
        obtain ⟨e3, hsubts⟩ := flagAll_top G hD a ts c2 c3 hts hev2 h3 e2
        have e4 : c4.funcReturn = 0 := (checkNode_flag h4 hfc3 hrc3).trans e3
        obtain ⟨hres, hsub⟩ := flag_top G hD a sb c4 c1 hsb hev4 h5 e4
        refine ⟨hres, ?_⟩
        intro fd cs sib hmem hfun
        simp only [SynTree.subtrees, List.mem_cons, List.mem_append] at hmem
        rcases hmem with hmem | hmem | hmem
        · cases hmem
          rw [hfa] at hfun
          cases hfun
        · obtain ⟨A, B, x, hdec, hrunA, hx0, hcs⟩ := hsubts fd cs sib hmem hfun
          refine ⟨Ev.pre t :: A, B ++ Ev.post t :: sb.events, x, ?_, ?_, hx0, hcs⟩
          · simp only [SynTree.events, hdec, List.cons_append, List.append_assoc]
          · exact run_cons_some hpre hrunA
        · obtain ⟨A, B, x, hdec, hrunA, hx0, hcs⟩ := hsub fd cs sib hmem hfun
          refine ⟨Ev.pre t :: (ts.events ++ Ev.post t :: A), B, x, ?_, ?_, hx0, hcs⟩
          · simp only [SynTree.events, hdec, List.cons_append, List.append_assoc]
          · exact run_cons_some hpre (run_append_some h3 (run_cons_some hpost hrunA))
theorem flagAll_top (G : Globals) (hD : G.Distinct) (a : List TreeNode) :
    ∀ (F : SynForest) (c c1 : State),
      checkShapeAll G a false F = true → Evolves G a c.nodes →
      run (beforeCheckNode G) (checkNode G) F.events c = some c1 → c.funcReturn = 0 →
      c1.funcReturn = 0 ∧
      ∀ fd cs sib, SynTree.node fd cs sib ∈ F.subtrees → isFunNode G a fd = true →
        ∃ A B x, F.events = A ++ Ev.pre fd :: (cs.events ++ Ev.post fd :: B) ∧
          run (beforeCheckNode G) (checkNode G) A c = some x ∧ x.funcReturn = 0 ∧
          checkShapeAll G a true cs = true
  | .nil, c, c1, _, _, hrun, h0 => by
    cases hrun
    refine ⟨h0, ?_⟩
    intro fd cs sib hmem
    simp [SynForest.subtrees] at hmem
  | .cons T rest, c, c1, hsh, hev, hrun, h0 => by
    unfold checkShapeAll at hsh
    simp only [Bool.and_eq_true] at hsh
    simp only [SynForest.events] at hrun
    obtain ⟨c2, h2, h3⟩ := run_append_split hrun
    have hev2 : Evolves G a c2.nodes := evolves_trans hev (run_check_evolves G _ _ _ h2)
    obtain ⟨e2, hsubT⟩ := flag_top G hD a T c c2 hsh.1 hev h2 h0
    obtain ⟨hres, hsub⟩ := flagAll_top G hD a rest c2 c1 hsh.2 hev2 h3 e2
    refine ⟨hres, ?_⟩
    intro fd cs sib hmem hfun
    simp only [SynForest.subtrees, List.mem_append] at hmem
    rcases hmem with hmem | hmem
    · obtain ⟨A, B, x, hdec, hrunA, hx0, hcs⟩ := hsubT fd cs sib hmem hfun
      refine ⟨A, B ++ rest.events, x, ?_, hrunA, hx0, hcs⟩
      simp only [SynForest.events, hdec, List.cons_append, List.append_assoc]
    · obtain ⟨A, B, x, hdec, hrunA, hx0, hcs⟩ := hsub fd cs sib hmem hfun
      refine ⟨T.events ++ A, B, x, ?_, run_append_some h2 hrunA, hx0, hcs⟩
      simp only [SynForest.events, hdec, List.append_assoc]
end

/-! ## The Builder pass leaves the has-returned flag alone -/

theorem insertNode_flag {G : Globals} {t : Nat} {s s1 : State}
    (h : insertNode G t s = some s1) : s1.funcReturn = s.funcReturn := by
  unfold insertNode at h
  split at h
  · cases h
  · rename_i n hn
    split at h
    · split at h
      · cases h
        unfold insertComp
        by_cases hp : s.preserveLastScope = true
        · simp only [hp, if_true]; rfl
        · simp only [hp]; rfl
      · cases h; rfl
    · split at h
      · unfold insertFun at h
        dsimp only at h
        split at h
        · cases h
        · split at h
          · cases h
          · cases h; rfl
          · split at h
            · cases h
            · rename_i s2 h2
              cases h
              exact (st_insert_frame h2).2.2.2.2.2.2.2.1
      · split at h
        · unfold insertVar at h
          split at h
          · cases h; rfl
          · split at h
            · cases h
            · split at h
              · cases h
              · exact (st_insert_frame h).2.2.2.2.2.2.2.1
              · cases h; rfl
        · cases h; rfl
    · split at h
      · unfold insertUse at h
        split at h
        · cases h
        · split at h
          · cases h
          · split at h
            · dsimp only at h
              exact (st_insert_frame h).2.2.2.2.2.2.2.1
            · exact (st_add_lineno_frame h).2.2.2.2.2.2.2.1
      · cases h; rfl
    · unfold insertParam at h
      split at h
      · split at h <;> cases h <;> rfl
      · split at h
        · cases h
        · split at h
          · exact (st_insert_frame h).2.2.2.2.2.2.2.1
          · cases h; rfl

theorem afterInsertNode_flag {G : Globals} {t : Nat} {s s1 : State}
    (h : afterInsertNode G t s = some s1) : s1.funcReturn = s.funcReturn := by
  unfold afterInsertNode at h
  split at h
  · cases h
  · split at h <;> cases h <;> rfl

theorem run_insert_flag (G : Globals) :
    ∀ (evs : List Ev) (s s1 : State),
      run (insertNode G) (afterInsertNode G) evs s = some s1 →
      s1.funcReturn = s.funcReturn := by
  intro evs
  induction evs with
  | nil =>
    intro s s1 h
    cases h
    rfl
  | cons e es ih =>
    intro s s1 h
    obtain ⟨s2, h2, h3⟩ := run_cons_split h
    have e2 : s2.funcReturn = s.funcReturn := by
      cases e with
      | pre t => exact insertNode_flag h2
      | post t => exact afterInsertNode_flag h2
    exact (ih s2 s1 h3).trans e2

theorem builderStart_flag {G : Globals} {s s0 : State} (h : builderStart G s = some s0) :
    s0.funcReturn = s.funcReturn := by
  unfold builderStart at h
  dsimp only at h
  rw [insertBuiltinFunc_eq] at h
  cases h1 : st_insert
      ((scPush { (scCreate s (some "<GLOBAL>")).1 with
          globalScope := (scCreate s (some "<GLOBAL>")).2, location := 0 }
        (scCreate s (some "<GLOBAL>")).2).addNodes
        (builtinNodes G s.lineno s.nodes.length "input" .Integer none .Void))
      "input" (-1) 0 (some (s.nodes.length + 2)) with
  | none =>
    exfalso
    revert h
    simp only [scPush, scCreate, State.addNodes] at h1 ⊢
    rw [h1]
    intro h
    cases h
  | some b =>
    revert h
    simp only [scPush, scCreate, State.addNodes] at h1 ⊢
    rw [h1]
    intro h
    simp only [Option.some_bind] at h
    have f1 := (st_insert_frame h1).2.2.2.2.2.2.2.1
    have f2 := (st_insert_frame h).2.2.2.2.2.2.2.1
    exact f2.trans f1

/-- C11, amended: take a well-formed tree `T` of the shape the Type-Checking pass needs,
a start state with an empty scope stack and the has-returned flag at 0, and a function
declaration `fd` of `T` of type `Integer` with the child slots `cs`. Then `buildSymtab`
and `typeCheck` both return, and along the calls of `typeCheck`: the flag is 0 when `fd`
is entered; the post-visit of `fd` returns, resets the flag to 0, and appends to the
listing exactly the one missing-return error when the flag is not 1 at that moment, and
nothing when it is 1; the flag at that moment is 0 when no node below `fd` is a return
statement, and otherwise it is the flag that the post-visit of the last return statement
below `fd` left, on whatever path that statement sits. -/
theorem missing_return_follows_flag (G : Globals) (hD : G.Distinct)
    (hM : 1 ≤ G.MAXCHILDREN) (T : SynTree) (t : Ptr) (s : State) (fuel : Nat)
    (hrep : represents G s.nodes t T = true) (hfuel : T.depth ≤ fuel)
    (hwf : wellFormed G s.nodes T = true) (hsh : checkShape G s.nodes false T = true)
    (hnd : T.ptrs.Nodup) (h0 : s.stackIdx = 0) (h1 : s.stack (-1) = none) (hrec : RecOK s)
    (hflag : s.preserveLastScope = false) (hrn : RecNodes G s)
    (hcl : HeapClosed s.nodes) (hfr : s.funcReturn = 0)
    (fd : Nat) (cs : SynForest) (sib : SynTree) (n : TreeNode)
    (hsub : SynTree.node fd cs sib ∈ T.subtrees)
    (hn : s.nodes[fd]? = some n) (hfun : isFunDecl G n = true) (hint : n.type = .Integer) :
    ∃ s1 s2 A B c c2 cx,
      buildSymtab G fuel t s = some s1 ∧ typeCheck G fuel t s1 = some s2 ∧
      T.events = A ++ Ev.pre fd :: (cs.events ++ Ev.post fd :: B) ∧
      run (beforeCheckNode G) (checkNode G) A (scPush s1 s1.globalScope) = some c ∧
      run (beforeCheckNode G) (checkNode G) (Ev.pre fd :: cs.events) c = some c2 ∧
      checkNode G fd c2 = some cx ∧
      c.funcReturn = 0 ∧ cx.funcReturn = 0 ∧
      (c2.funcReturn = 1 → cx.listing = c2.listing) ∧
      (c2.funcReturn ≠ 1 → cx.listing = c2.listing ++ [missingReturn n]) ∧
      ((∀ r ∈ cs.ptrs, isRetStmt G s.nodes r = false) → c2.funcReturn = 0) ∧
      (∀ E r E2 x y, cs.events = E ++ Ev.post r :: E2 →
        (∀ r2, Ev.post r2 ∈ E2 → isRetStmt G s.nodes r2 = false) →
        run (beforeCheckNode G) (checkNode G) (Ev.pre fd :: E) c = some x →
        checkNode G r x = some y → c2.funcReturn = y.funcReturn) := by
  obtain ⟨s0, sF, hs0, _, _, _, _, _, hrF, _, _, _, _, _, hbuild⟩ :=
    builder_pass G T t s fuel hrep hfuel hwf hnd h0 h1 hrec hflag
  obtain ⟨s0b, hs0b, _, _, _, _, hn0, _⟩ := builderStart_spec G s h0 h1 hrec
  rw [hs0] at hs0b
  cases hs0b
  obtain ⟨s1, cend, hb1, hrun, htc, _⟩ :=
    passes_total G hM T t s fuel hrep hfuel hwf hsh hnd h0 h1 hrec hflag hrn hcl
  rw [hbuild] at hb1
  cases hb1
  have hevF : Evolves G s.nodes sF.nodes :=
    evolves_trans (by rw [hn0]; exact evolves_append G _ _) (run_insert_evolves G _ _ _ hrF)
  have hfrF : sF.funcReturn = 0 :=
    ((run_insert_flag G _ _ _ hrF).trans (builderStart_flag hs0)).trans hfr
  have hfa : isFunNode G s.nodes fd = true := by simp only [isFunNode, hn, hfun]
  obtain ⟨_, hsubs⟩ := flag_top G hD s.nodes T (scPush (scPop sF) (scPop sF).globalScope) cend
    hsh hevF hrun hfrF
  obtain ⟨A, B, c, hdec, hrunA, hc0, hcs⟩ := hsubs fd cs sib hsub hfa
  rw [hdec] at hrun
  obtain ⟨c', hrunA', hrest⟩ := run_append_split hrun
  rw [hrunA] at hrunA'
  cases hrunA'
  obtain ⟨c1, c2, cx, hpre, hbody, hpost, _⟩ := run_node_split hrest
  have hpreE : runEv (beforeCheckNode G) (checkNode G) c (Ev.pre fd) = some c1 := hpre
  have hevS : Evolves G s.nodes (scPush (scPop sF) (scPop sF).globalScope).nodes := hevF
  have hevc : Evolves G s.nodes c.nodes := evolves_trans hevS (run_check_evolves G _ _ _ hrunA)
  have hevc1 : Evolves G s.nodes c1.nodes := evolves_trans hevc (checkEv_evolves hpreE)
  have hevc2 : Evolves G s.nodes c2.nodes :=
    evolves_trans hevc1 (run_check_evolves G _ _ _ hbody)
  have hfd := hfun
  unfold isFunDecl at hfd
  simp only [decide_eq_true_eq] at hfd
  have hne : n.nodekind ≠ .ExpK := by rw [hfd.1]; decide
  -- the node of the function when it is entered and when it is left
  obtain ⟨nc, hnc, hkc, _, hnkc, _⟩ := hevc fd n hn
  have hfc : isFunDecl G nc = true := by
    unfold isFunDecl
    simp only [decide_eq_true_eq]
    exact ⟨(hnkc hne).1.trans hfd.1, hkc.trans hfd.2⟩
  have hentry := fun_entry (c := c) hnc hfc (by rw [(hnkc hne).2, hint]; decide)
  rw [hentry] at hpre
  have hc1 : c1.funcReturn = 0 := by
    cases hpre
    exact hc0
  obtain ⟨n2, hn2, hk2, hl2, hnk2, _⟩ := hevc2 fd n hn
  have hf2 : isFunDecl G n2 = true := by
    unfold isFunDecl
    simp only [decide_eq_true_eq]
    exact ⟨(hnk2 hne).1.trans hfd.1, hk2.trans hfd.2⟩
  obtain ⟨cx2, hcx2, hx0, hx1, hx2⟩ := fun_exit hD hn2 hf2
  rw [hpost] at hcx2
  cases hcx2
  have hmiss : missingReturn n2 = missingReturn n := by
    unfold missingReturn
    rw [hl2]
  rw [hmiss] at hx2
  have hshape : ∀ e ∈ cs.events, ∃ m i, s.nodes[e.ptr]? = some m ∧ shapeOk G i m = true :=
    fun e he => shapeAll_nodes G s.nodes cs true hcs e.ptr (eventsAll_ptr_mem cs e he)
  have hnofun : ∀ e ∈ cs.events, isFunNode G s.nodes e.ptr = false :=
    fun e he => shapeAll_inFun G s.nodes cs hcs e.ptr (eventsAll_ptr_mem cs e he)
  refine ⟨scPop sF, scPop cend, A, B, c, c2, cx, hbuild, htc, hdec, hrunA,
    run_cons_some hpreE hbody, hpost, hc0, hx0, hx1, hx2, ?_, ?_⟩
  · intro hnoret
    rw [← hc1]
    exact run_flag_frame G s.nodes cs.events c1 c2 hbody hevc1 hshape hnofun
      (fun r hr => hnoret r (eventsAll_ptr_mem cs (Ev.post r) hr))
  · intro E r E2 x y hE hE2 hx hy
    obtain ⟨c1b, hpreb, hxE⟩ := run_cons_split hx
    rw [hpreE] at hpreb
    cases hpreb
    rw [hE] at hbody
    obtain ⟨xb, hxb, hrest2⟩ := run_append_split hbody
    rw [hxE] at hxb
    cases hxb
    obtain ⟨yb, hyb, htail⟩ := run_cons_split hrest2
    have hyE : runEv (beforeCheckNode G) (checkNode G) x (Ev.post r) = some y := hy
    rw [hyE] at hyb
    cases hyb
    have hevx : Evolves G s.nodes x.nodes :=
      evolves_trans hevc1 (run_check_evolves G _ _ _ hxE)
    have hevy : Evolves G s.nodes y.nodes := evolves_trans hevx (checkEv_evolves hyE)
    have hsubE : ∀ e ∈ E2, e ∈ cs.events := by
      intro e he
      rw [hE]
      exact List.mem_append_right _ (List.mem_cons_of_mem _ he)
    exact run_flag_frame G s.nodes E2 y c2 htail hevy
      (fun e he => hshape e (hsubE e he)) (fun e he => hnofun e (hsubE e he)) hE2

theorem heapClosed_of_check {nodes : List TreeNode} (h : heapClosedB nodes = true) :
    HeapClosed nodes := by
  unfold heapClosedB at h
  rw [List.all_eq_true] at h
  intro t n hn
  have hmem : n ∈ nodes := List.getElem?_mem hn
  have hnode := h n hmem
  simp only [Bool.and_eq_true, List.all_eq_true] at hnode
  obtain ⟨hs, hc⟩ := hnode
  constructor
  · intro q hq
    rw [hq] at hs
    simp only [decide_eq_true_eq] at hs
    exact ⟨_, List.getElem?_eq_getElem hs⟩
  · intro i q hq
    have hin : some q ∈ n.child := by
      by_cases hi : i < n.child.length
      · rw [List.getD_eq_getElem _ _ hi] at hq
        rw [← hq]
        exact List.getElem_mem hi
      · rw [List.getD_eq_default _ _ (not_lt.1 hi)] at hq
        cases hq
    have := hc (some q) hin
    simp only [decide_eq_true_eq] at this
    exact ⟨_, List.getElem?_eq_getElem this⟩

theorem missing_return_follows_flag_witness :
    ∃ s1 s2 c c2 cx,
      buildSymtab sampleGlobals 5 (some 0) (State.init exampleReturnInBranch) = some s1 ∧
      typeCheck sampleGlobals 5 (some 0) s1 = some s2 ∧
      run (beforeCheckNode sampleGlobals) (checkNode sampleGlobals) []
        (scPush s1 s1.globalScope) = some c ∧
      c.funcReturn = 0 ∧ checkNode sampleGlobals 0 c2 = some cx ∧ cx.funcReturn = 0 ∧
      (c2.funcReturn = 1 → cx.listing = c2.listing) := by
  obtain ⟨s1, s2, A, B, c, c2, cx, h1, h2, hdec, h4, _, h6, h7, h8, h9, _⟩ :=
    missing_return_follows_flag sampleGlobals (by decide) (by decide)
      exampleReturnInBranchTree (some 0) (State.init exampleReturnInBranch) 5
      (by decide) (by decide) (by decide) (by decide) (by decide) rfl rfl
      (fun k sc h r hsc _ => by simp [State.init] at hsc) rfl
      (fun k sc h r hsc _ => by simp [State.init] at hsc)
      (heapClosed_of_check (by decide)) rfl
      0 _ .null _ (List.mem_cons_self _ _) rfl (by decide) (by decide)
  have hA : A = [] := by
    cases A with
    | nil => rfl
    | cons e es =>
      have := congrArg List.length hdec
      simp [exampleReturnInBranchTree, SynTree.events, SynForest.events, SynTree.leaf] at this
      omega
  subst hA
  exact ⟨s1, s2, c, c2, cx, h1, h2, h4, h7, h6, h8, h9⟩

/-! ## Memory slots -/

/-- C25: on a well-formed tree, from an empty scope stack and a registry whose records
have the nesting level of their scope as memory slot, `buildSymtab` returns; at every
visitor call of its traversal `location` is the depth of the scope stack minus one, and
the stack holds at least the global scope; and in the registry it leaves, every record
has as memory slot the nesting level of the scope that holds it, the records of `input`
and `output` in the global scope included. -/
theorem location_is_nesting_depth (G : Globals) (T : SynTree) (t : Ptr) (s : State)
    (fuel : Nat)
    (hrep : represents G s.nodes t T = true) (hfuel : T.depth ≤ fuel)
    (hwf : wellFormed G s.nodes T = true) (hnd : T.ptrs.Nodup)
    (h0 : s.stackIdx = 0) (h1 : s.stack (-1) = none) (hrec : RecOK s)
    (hflag : s.preserveLastScope = false) :
    ∃ s0 s1, builderStart G s = some s0 ∧ buildSymtab G fuel t s = some s1 ∧
      s0.location = 0 ∧ s0.stackIdx = 1 ∧
      (∀ A B x, T.events = A ++ B →
        run (insertNode G) (afterInsertNode G) A s0 = some x →
          x.location = x.stackIdx - 1 ∧ 1 ≤ x.stackIdx) ∧
      (∀ (k : Nat) (sc : ScopeListRec) (h : Nat) (r : BucketListRec),
        s1.scopes[k]? = some sc → r ∈ sc.hashTable h →
        r.memloc = sc.nestedLevel) ∧
      ∃ g gsc ri ro, s1.globalScope = some g ∧ s1.scopes[g]? = some gsc ∧
        gsc.nestedLevel = 0 ∧
        gsc.find "input" = some ri ∧ ri.memloc = 0 ∧
        gsc.find "output" = some ro ∧ ro.memloc = 0 := by
  obtain ⟨s0, sF, hs0, hi0, hst0, _, _, hb0, hrF, hiF, _, _, _, haF, hbuild⟩ :=
    builder_pass G T t s fuel hrep hfuel hwf hnd h0 h1 hrec hflag
  have hper := run_persist G _ _ _ hrF
  obtain ⟨hg0, ⟨gsc0, hgsc0, _, ⟨ri0, hri0, _⟩, ⟨ro0, hro0, _⟩⟩, _⟩ := hb0
  obtain ⟨gsc, hgsc, _, hfind⟩ := hper.2 _ gsc0 hgsc0
  obtain ⟨ri, hri, _, hmi, _⟩ := hfind "input" ri0 hri0
  obtain ⟨ro, hro, _, hmo, _⟩ := hfind "output" ro0 hro0
  have hlev0 : gsc0.nestedLevel = 0 := by
    obtain ⟨k, sc, hk, hsc, _, hlv⟩ := hi0.1.2.2 0 (le_refl _) (by rw [hst0]; decide)
    have hg : s0.stack 0 = some s.scopes.length := by
      obtain ⟨s0b, hs0b, _, _, _, hstk, _⟩ := builderStart_spec G s h0 h1 hrec
      rw [hs0] at hs0b
      cases hs0b
      exact hstk
    rw [hg] at hk
    cases hk
    rw [hgsc0] at hsc
    cases hsc
    exact hlv
  have hmem : ∀ (sc : ScopeListRec) (name : String) (r : BucketListRec),
      sc.find name = some r → r ∈ sc.hashTable (hash name) :=
    fun sc name r h => (chainFind_some h).1
  have hri0m : ri0.memloc = 0 :=
    ((hi0.2.2 _ gsc0 _ ri0 hgsc0 (hmem _ _ _ hri0)).2.2.1).trans hlev0
  have hro0m : ro0.memloc = 0 :=
    ((hi0.2.2 _ gsc0 _ ro0 hgsc0 (hmem _ _ _ hro0)).2.2.1).trans hlev0
  have hlev : gsc.nestedLevel = 0 := by
    have := (hiF.2.2 _ gsc _ ri hgsc (hmem _ _ _ hri)).2.2.1
    rw [← this, hmi]
    exact hri0m
  refine ⟨s0, scPop sF, hs0, hbuild, ?_, hst0, ?_, ?_, ?_⟩
  · have := hi0.2.1
    rw [hst0] at this
    exact this
  · intro A B x hAB hx
    rw [hAB] at haF
    have := always_upto A B s0 x haF hx
    exact ⟨this.1.2.1, this.2⟩
  · intro k sc h r hsc hr
    exact (hiF.2.2 k sc h r hsc hr).2.2.1
  · exact ⟨s.scopes.length, gsc, ri, ro, hper.1.trans hg0, hgsc, hlev, hri,
      hmi.trans hri0m, hro, hmo.trans hro0m⟩

theorem location_is_nesting_depth_witness :
    ∃ s1, buildSymtab sampleGlobals 5 (some 0) (State.init exampleRedecl) = some s1 ∧
      ∀ (k : Nat) (sc : ScopeListRec) (h : Nat) (r : BucketListRec),
        s1.scopes[k]? = some sc → r ∈ sc.hashTable h →
        r.memloc = sc.nestedLevel := by
  obtain ⟨_, s1, _, h2, _, _, _, h6, _⟩ :=
    location_is_nesting_depth sampleGlobals exampleRedeclTree (some 0)
      (State.init exampleRedecl) 5 (by decide) (by decide) (by decide) (by decide) rfl rfl
      (fun k sc h r hsc _ => by simp [State.init] at hsc) rfl
  exact ⟨s1, h2, h6⟩

/-- Counterexample to C22 as stated: after `buildSymtab` on `int x; int y;` the global
scope holds the records of `x` and of `y`, two records with different names, and both
have memory slot 0. -/
theorem two_globals_share_slot :
    ∃ s1, buildSymtab sampleGlobals 5 (some 0) (State.init exampleTwoGlobals) = some s1 ∧
      (s1.scopes[0]?).map (fun sc => sc.scopeName) = some (some "<GLOBAL>") ∧
      (s1.scopes[0]?).map (fun sc => sc.hashTable (hash "x")) =
        some [{ name := "x", treeNode := some 0, lines := [1], memloc := 0 }] ∧
      (s1.scopes[0]?).map (fun sc => sc.hashTable (hash "y")) =
        some [{ name := "y", treeNode := some 1, lines := [1], memloc := 0 }] :=
  pass_holds (by decide)

/-- C22, amended: on a well-formed tree, from an empty scope stack and a registry whose
records have the nesting level of their scope as memory slot, `buildSymtab` returns, and
in the registry it leaves any two records of the same scope have the same memory slot:
the slot tells the records of different nesting levels apart, not those of one scope. -/
theorem same_scope_same_slot (G : Globals) (T : SynTree) (t : Ptr) (s : State)
    (fuel : Nat)
    (hrep : represents G s.nodes t T = true) (hfuel : T.depth ≤ fuel)
    (hwf : wellFormed G s.nodes T = true) (hnd : T.ptrs.Nodup)
    (h0 : s.stackIdx = 0) (h1 : s.stack (-1) = none) (hrec : RecOK s)
    (hflag : s.preserveLastScope = false) :
    ∃ s1, buildSymtab G fuel t s = some s1 ∧
      ∀ (k : Nat) (sc : ScopeListRec) (i j : Nat) (r1 r2 : BucketListRec),
        s1.scopes[k]? = some sc → r1 ∈ sc.hashTable i →
        r2 ∈ sc.hashTable j → r1.memloc = r2.memloc := by
  obtain ⟨s0, sF, _, _, _, _, _, _, _, hiF, _, _, _, _, hbuild⟩ :=
    builder_pass G T t s fuel hrep hfuel hwf hnd h0 h1 hrec hflag
  refine ⟨scPop sF, hbuild, ?_⟩
  intro k sc h1 h2 r1 r2 hsc hr1 hr2
  exact ((hiF.2.2 k sc h1 r1 hsc hr1).2.2.1).trans ((hiF.2.2 k sc h2 r2 hsc hr2).2.2.1).symm

theorem same_scope_same_slot_witness :
    ∃ s1, buildSymtab sampleGlobals 5 (some 0) (State.init exampleTwoGlobals) = some s1 ∧
      ∀ (k : Nat) (sc : ScopeListRec) (i j : Nat) (r1 r2 : BucketListRec),
        s1.scopes[k]? = some sc → r1 ∈ sc.hashTable i →
        r2 ∈ sc.hashTable j → r1.memloc = r2.memloc :=
  same_scope_same_slot sampleGlobals exampleTwoGlobalsTree (some 0)
    (State.init exampleTwoGlobals) 5 (by decide) (by decide) (by decide) (by decide) rfl rfl
    (fun k sc h r hsc _ => by simp [State.init] at hsc) rfl

/-! ## Names are unique within a scope -/

theorem namesOK_setScope {s : State} {i : Nat} {sc sc1 : ScopeListRec} (h : NamesOK s)
    (hsc : s.scopes[i]? = some sc) (b : Nat)
    (hother : ∀ x, x ≠ b → sc1.hashTable x = sc.hashTable x)
    (hnd : ((sc1.hashTable b).map (fun r => r.name)).Nodup)
    (hhash : ∀ r ∈ sc1.hashTable b, hash r.name = b) : NamesOK (s.setScope i sc1) := by
  intro k sck hk x
  simp only [State.setScope, getElem?_set_scopes] at hk
  by_cases hik : i = k
  · subst hik
    rw [if_pos rfl, hsc] at hk
    simp only [Option.map_some', Option.some.injEq] at hk
    subst hk
    by_cases hx : x = b
    · subst hx
      exact ⟨hnd, hhash⟩
    · rw [hother x hx]
      exact h i sc hsc x
  · rw [if_neg hik] at hk
    exact h k sck hk x

theorem chainUpdate_names (name : String) (f : BucketListRec → BucketListRec)
    (hf : ∀ x, (f x).name = x.name) :
    ∀ l : List BucketListRec,
      (chainUpdate name f l).map (fun r => r.name) = l.map (fun r => r.name)
  | [] => rfl
  | a :: t => by
    unfold chainUpdate
    split
    · simp [hf]
    · simp [chainUpdate_names name f hf t]

theorem namesOK_st_insert {s s1 : State} {name : String} {lineno loc : Int} {node : Ptr}
    (h : NamesOK s) (hi : st_insert s name lineno loc node = some s1) : NamesOK s1 := by
  unfold st_insert at hi
  dsimp only at hi
  split at hi
  · cases hi
  · rename_i top htop
    split at hi
    · cases hi
    · rename_i sc hsc
      split at hi
      · rename_i hnone
        cases hi
        refine namesOK_setScope h hsc (hash name) ?_ ?_ ?_
        · intro x hx
          simp [ScopeListRec.setBucket, hx]
        · simp only [ScopeListRec.setBucket, if_true, List.map_cons, List.nodup_cons]
          refine ⟨?_, (h top sc hsc (hash name)).1⟩
          intro hmem
          obtain ⟨r, hr, hrn⟩ := List.mem_map.1 hmem
          exact chainFind_none.1 hnone r hr hrn
        · intro r hr
          simp only [ScopeListRec.setBucket, if_true, List.mem_cons] at hr
          rcases hr with rfl | hr
          · rfl
          · exact (h top sc hsc (hash name)).2 r hr
      · cases hi
        exact h

theorem namesOK_st_add_lineno {s s1 : State} {name : String} {lineno : Int}
    (h : NamesOK s) (hi : st_add_lineno s name lineno = some s1) : NamesOK s1 := by
  unfold st_add_lineno at hi
  split at hi
  · cases hi
  · cases hi
  · split at hi
    · cases hi
    · split at hi
      · cases hi
      · rename_i sc hsc
        dsimp only at hi
        cases hi
        refine namesOK_setScope h hsc (hash name) ?_ ?_ ?_
        · intro x hx
          simp [ScopeListRec.setBucket, hx]
        · simp only [ScopeListRec.setBucket, if_true]
          rw [chainUpdate_names name
            (fun l => { l with lines := l.lines ++ [lineno] }) (fun _ => rfl)]
          exact (h _ sc hsc (hash name)).1
        · intro r hr
          simp only [ScopeListRec.setBucket, if_true] at hr
          rcases mem_chainUpdate hr with hr | ⟨x, hx, rfl⟩
          · exact (h _ sc hsc (hash name)).2 r hr
          · exact (h _ sc hsc (hash name)).2 x hx

theorem namesOK_scCreate {s : State} (h : NamesOK s) (name : Option String) :
    NamesOK (scCreate s name).1 := by
  intro k sc hsc x
  simp only [scCreate] at hsc
  by_cases hk : k < s.scopes.length
  · rw [List.getElem?_append_left hk] at hsc
    exact h k sc hsc x
  · rw [List.getElem?_append_right (not_lt.1 hk)] at hsc
    by_cases hk0 : k - s.scopes.length = 0
    · rw [hk0] at hsc
      simp only [List.getElem?_cons_zero, Option.some.injEq] at hsc
      subst hsc
      simp
    · obtain ⟨m, hm⟩ : ∃ m, k - s.scopes.length = m + 1 :=
        ⟨k - s.scopes.length - 1, by omega⟩
      rw [hm] at hsc
      simp at hsc

theorem reachable_namesOK {s : State} (h : Reachable s) : NamesOK s := by
  induction h with
  | init nodes =>
    intro k sc hsc
    simp [State.init] at hsc
  | create s name _ ih => exact namesOK_scCreate ih name
  | push s p _ ih => exact ih
  | pop s _ ih => exact ih
  | insert s s1 name lineno loc node _ hi ih => exact namesOK_st_insert ih hi
  | addLineno s s1 name lineno _ hi ih => exact namesOK_st_add_lineno ih hi

/-- C21: in every state reachable from the empty table through `scCreate`, `scPush`,
`scPop`, `st_insert` and `st_add_lineno`, two records of one scope with the same name are
the same record (same bucket, same place in its chain); and `st_insert` of a name that
the top scope holds returns with the registry unchanged, in a state that is reachable
again. -/
theorem names_unique_per_scope (s : State) (hs : Reachable s) :
    (∀ (k : Nat) (sc : ScopeListRec) (i j a b : Nat) (r1 r2 : BucketListRec),
      s.scopes[k]? = some sc → (sc.hashTable i)[a]? = some r1 →
      (sc.hashTable j)[b]? = some r2 → r1.name = r2.name → i = j ∧ a = b) ∧
    (∀ (name : String) (lineno loc : Int) (treeNode : Ptr) (top : Nat) (sc : ScopeListRec)
        (i : Nat) (r : BucketListRec),
      scTop s = some top → s.scopes[top]? = some sc → r ∈ sc.hashTable i → r.name = name →
      ∃ s1, st_insert s name lineno loc treeNode = some s1 ∧ s1.scopes = s.scopes ∧
        Reachable s1) := by
  have hinv := reachable_namesOK hs
  constructor
  · intro k sc i j a b r1 r2 hsc h1 h2 hname
    have hi := (hinv k sc hsc i).2 r1 (List.getElem?_mem h1)
    have hj := (hinv k sc hsc j).2 r2 (List.getElem?_mem h2)
    have hij : i = j := by rw [← hi, ← hj, hname]
    subst hij
    refine ⟨rfl, ?_⟩
    have hnd := (hinv k sc hsc i).1
    obtain ⟨ha, e1⟩ := List.getElem?_eq_some.1 h1
    obtain ⟨hb, e2⟩ := List.getElem?_eq_some.1 h2
    have ha2 : a < ((sc.hashTable i).map (fun r => r.name)).length := by
      rw [List.length_map]; exact ha
    have hb2 : b < ((sc.hashTable i).map (fun r => r.name)).length := by
      rw [List.length_map]; exact hb
    have heq : ((sc.hashTable i).map (fun r => r.name))[a] =
        ((sc.hashTable i).map (fun r => r.name))[b] := by
      rw [List.getElem_map, List.getElem_map, e1, e2]
      exact hname
    exact (List.Nodup.getElem_inj_iff hnd).1 heq
  · intro name lineno loc node top sc i r htop hsc hr hname
    have hi := (hinv top sc hsc i).2 r hr
    rw [hname] at hi
    subst hi
    have hfound : chainFind name (sc.hashTable (hash name)) ≠ none := by
      intro hnone
      exact chainFind_none.1 hnone r hr hname
    have hres : st_insert s name lineno loc node =
        some { s with stdout := s.stdout ++ ["Error occured in st_insert()\n"] } := by
      unfold st_insert
      simp only [htop, hsc]
      cases hc : chainFind name (sc.hashTable (hash name)) with
      | none => exact absurd hc hfound
      | some x => rfl
    exact ⟨_, hres, rfl, Reachable.insert s _ name lineno loc node hs hres⟩

theorem eq_some_getD {o : Option State} (d : State) (h : o.isSome = true) :
    o = some (o.getD d) := by
  cases o with
  | none => cases h
  | some x => rfl

theorem exampleOneRecord_reachable : Reachable exampleOneRecord :=
  Reachable.insert _ _ "x" 1 0 none
    (Reachable.push _ (scCreate (State.init []) (some "<GLOBAL>")).2
      (Reachable.create _ (some "<GLOBAL>") (Reachable.init [])))
    (eq_some_getD (State.init []) (by decide))

theorem names_unique_per_scope_witness :
    ∃ s1, st_insert exampleOneRecord "x" 2 0 none = some s1 ∧
      s1.scopes = exampleOneRecord.scopes :=
  let ⟨s1, h1, h2, _⟩ := (names_unique_per_scope exampleOneRecord
    exampleOneRecord_reachable).2 "x" 2 0 none 0
    { scopeName := some "<GLOBAL>", nestedLevel := 0, parent := none
      hashTable := fun i =>
        if i = hash "x" then [{ name := "x", treeNode := none, lines := [1], memloc := 0 }]
        else [] }
    (hash "x") { name := "x", treeNode := none, lines := [1], memloc := 0 }
    rfl rfl (by decide) rfl
  ⟨s1, h1, h2⟩

/-! ## What the Type-Checking pass leaves alone -/

theorem checkFrame_refl (s : State) : CheckFrame s s := ⟨rfl, rfl, rfl, rfl, rfl, rfl⟩

theorem checkFrame_trans {a b c : State} (h1 : CheckFrame a b) (h2 : CheckFrame b c) :
    CheckFrame a c :=
  ⟨h2.1.trans h1.1, h2.2.1.trans h1.2.1, h2.2.2.1.trans h1.2.2.1,
    h2.2.2.2.1.trans h1.2.2.2.1, h2.2.2.2.2.1.trans h1.2.2.2.2.1,
    h2.2.2.2.2.2.trans h1.2.2.2.2.2⟩

theorem checkArgs_frame (s : State) (n : TreeNode) :
    ∀ (fuel : Nat) (a p : Ptr) (s1 : State), checkArgs s n fuel a p = some s1 →
      CheckFrame s s1 := by
  intro fuel
  induction fuel with
  | zero =>
    intro a p s1 h
    cases a with
    | none => simp only [checkArgs] at h; cases h; exact checkFrame_refl _
    | some x =>
      cases p with
      | none => simp only [checkArgs] at h; cases h; exact checkFrame_refl _
      | some y => simp [checkArgs] at h
  | succ k ih =>
    intro a p s1 h
    cases a with
    | none => simp only [checkArgs] at h; cases h; exact checkFrame_refl _
    | some x =>
      cases p with
      | none => simp only [checkArgs] at h; cases h; exact checkFrame_refl _
      | some y =>
        simp only [checkArgs] at h
        split at h
        · split at h
          · cases h; exact checkFrame_refl _
          · split at h
            · cases h; exact checkFrame_refl _
            · exact ih _ _ _ h
        · cases h

theorem checkId_frame {G : Globals} {t : Nat} {n : TreeNode} {s s1 : State}
    (h : checkId G t n s = some s1) : CheckFrame s s1 := by
  unfold checkId at h
  repeat' split at h
  all_goals
    cases h <;> exact checkFrame_refl _

theorem checkCall_frame {G : Globals} {t : Nat} {n : TreeNode} {s s1 : State}
    (h : checkCall G t n s = some s1) : CheckFrame s s1 := by
  unfold checkCall at h
  split at h
  · cases h
  · split at h
    · cases h
    · cases h
    · split at h
      · cases h; exact checkFrame_refl _
      · split at h
        · cases h
        · dsimp only at h
          split at h
          · cases h; exact checkFrame_refl _
          · split at h
            · cases h
            · rename_i x hx
              have hq1 : CheckFrame s x := by
                repeat' split at hx
                all_goals
                  cases hx <;> exact checkFrame_refl _
              split at h
              · cases h
              · rename_i y hy
                cases h
                have hq2 := checkArgs_frame _ _ _ _ _ _ hy
                exact checkFrame_trans hq1 (checkFrame_trans hq2 (checkFrame_refl _))

theorem checkRet_frame {n : TreeNode} {s s1 : State}
    (h : checkRet n s = some s1) : CheckFrame s s1 := by
  unfold checkRet at h
  dsimp only at h
  repeat' split at h
  all_goals
    cases h <;> exact checkFrame_refl _

theorem checkExp_frame {G : Globals} {t : Nat} {n : TreeNode} {s s1 : State}
    (h : checkExp G t n s = some s1) : CheckFrame s s1 := by
  unfold checkExp at h
  split at h
  · cases h; exact checkFrame_refl _
  · split at h
    · exact checkId_frame h
    · split at h
      · exact checkCall_frame h
      · repeat' split at h
        all_goals
          cases h <;> exact checkFrame_refl _

theorem checkStmt_frame {G : Globals} {n : TreeNode} {s s1 : State}
    (h : checkStmt G n s = some s1) : CheckFrame s s1 := by
  unfold checkStmt at h
  split at h
  · cases h; exact checkFrame_refl _
  · split at h
    · repeat' split at h
      all_goals
        cases h <;> exact checkFrame_refl _
    · split at h
      · repeat' split at h
        all_goals
          cases h <;> exact checkFrame_refl _
      · split at h
        · exact checkRet_frame h
        · cases h; exact checkFrame_refl _

theorem checkDecl_frame (G : Globals) (n : TreeNode) (s : State) :
    CheckFrame s (checkDecl G n s) := by
  unfold checkDecl
  repeat' split
  all_goals exact checkFrame_refl _

theorem checkParam_frame (G : Globals) (n : TreeNode) (s : State) :
    CheckFrame s (checkParam G n s) := by
  unfold checkParam
  repeat' split
  all_goals exact checkFrame_refl _

theorem checkEv_frame {G : Globals} {e : Ev} {s s1 : State}
    (h : runEv (beforeCheckNode G) (checkNode G) s e = some s1) : CheckFrame s s1 := by
  cases e with
  | pre t =>
    have h' : beforeCheckNode G t s = some s1 := h
    unfold beforeCheckNode at h'
    split at h'
    · cases h'
    · repeat' split at h'
      all_goals
        cases h'
        exact checkFrame_refl _
  | post t =>
    have h' : checkNode G t s = some s1 := h
    unfold checkNode at h'
    split at h'
    · cases h'
    · split at h'
      · exact checkExp_frame h'
      · exact checkStmt_frame h'
      · cases h'; exact checkDecl_frame G _ s
      · cases h'; exact checkParam_frame G _ s

theorem run_check_frame (G : Globals) :
    ∀ (evs : List Ev) (s s1 : State),
      run (beforeCheckNode G) (checkNode G) evs s = some s1 → CheckFrame s s1 := by
  intro evs
  induction evs with
  | nil =>
    intro s s1 h
    cases h
    exact checkFrame_refl _
  | cons e es ih =>
    intro s s1 h
    obtain ⟨s2, h2, h3⟩ := run_cons_split h
    exact checkFrame_trans (checkEv_frame h2) (ih s2 s1 h3)

theorem checkEv_cells {G : Globals} {e : Ev} {s s1 : State}
    (h : runEv (beforeCheckNode G) (checkNode G) s e = some s1) :
    ∀ i : Int, i ≠ s.stackIdx → s1.stack i = s.stack i := by
  intro i hi
  cases e with
  | pre t =>
    obtain ⟨n, _, hstep⟩ := beforeCheckNode_step (G := G) (t := t) h
    by_cases hc : n.nodekind = .StmtK ∧ n.kind = G.CompK
    · rw [if_pos hc] at hstep
      subst hstep
      show (if i = s.stackIdx then n.scope else s.stack i) = s.stack i
      rw [if_neg hi]
    · rw [if_neg hc] at hstep
      rw [hstep.2.1]
  | post t =>
    obtain ⟨n, _, hstep⟩ := checkNode_step (G := G) (t := t) h
    by_cases hc : n.nodekind = .StmtK ∧ n.kind = G.CompK
    · rw [if_pos hc] at hstep
      subst hstep
      rfl
    · rw [if_neg hc] at hstep
      rw [hstep.2.1]

theorem run_check_cells (G : Globals) (base : Int) :
    ∀ (evs : List Ev) (s s1 : State),
      run (beforeCheckNode G) (checkNode G) evs s = some s1 →
      Always (beforeCheckNode G) (checkNode G) (fun x => base ≤ x.stackIdx) evs s →
      ∀ i : Int, i < base → s1.stack i = s.stack i := by
  intro evs
  induction evs with
  | nil => intro s s1 h _ i _; cases h; rfl
  | cons e es ih =>
    intro s s1 h ha i hi
    obtain ⟨s2, h2, h3⟩ := run_cons_split h
    have hb : base ≤ s.stackIdx := ha.1
    rw [ih s2 s1 h3 (ha.2 s2 h2) i hi, checkEv_cells h2 i (by omega)]

theorem always_initial {pre post : Nat → State → Option State} {P : State → Prop} :
    ∀ (A B : List Ev) (s : State), Always pre post P (A ++ B) s → Always pre post P A s := by
  intro A
  induction A with
  | nil =>
    intro B s h
    exact always_head h
  | cons e es ih =>
    intro B s h
    exact ⟨h.1, fun s1 h1 => ih B s1 (h.2 s1 h1)⟩

/-- C23: for every finite tree `T` held by the heap at `t`, every start state and
recursion depth enough for `T`: at every visitor call that `typeCheck` reaches, the scope
registry is the one of the start, records and all, and the heap differs from the one of
the start in node types only; and when `typeCheck` returns, the same holds of the final
state, the scope stack is as deep as at the start with the cells below that depth
unchanged, and `globalScope`, `location`, the preserve-last-scope flag, the scanner's
line and standard output are unchanged. -/
theorem typeCheck_frame (G : Globals) (T : SynTree) (t : Ptr) (s : State) (fuel : Nat)
    (hrep : represents G s.nodes t T = true) (hfuel : T.depth ≤ fuel) :
    (∀ A B x, T.events = A ++ B →
      run (beforeCheckNode G) (checkNode G) A (scPush s s.globalScope) = some x →
        x.scopes = s.scopes ∧ OnlyTypes x.nodes s.nodes ∧ s.stackIdx + 1 ≤ x.stackIdx ∧
        ∀ i : Int, i < s.stackIdx → x.stack i = s.stack i) ∧
    (∀ s2, typeCheck G fuel t s = some s2 →
      s2.scopes = s.scopes ∧ OnlyTypes s2.nodes s.nodes ∧ s2.stackIdx = s.stackIdx ∧
      (∀ i : Int, i < s.stackIdx → s2.stack i = s.stack i) ∧
      s2.globalScope = s.globalScope ∧ s2.location = s.location ∧
      s2.preserveLastScope = s.preserveLastScope ∧ s2.lineno = s.lineno ∧
      s2.stdout = s.stdout) := by
  have hok := checker_balanced G T (scPush s s.globalScope)
  have hcell0 : ∀ i : Int, i < s.stackIdx → (scPush s s.globalScope).stack i = s.stack i := by
    intro i hi
    show (if i = s.stackIdx then s.globalScope else s.stack i) = s.stack i
    rw [if_neg (by omega)]
  constructor
  · intro A B x hAB hx
    have ha := hok.1
    rw [hAB] at ha
    obtain ⟨hdepth, hsc, hty⟩ := always_upto A B _ x ha hx
    have hal : Always (beforeCheckNode G) (checkNode G)
        (fun y => s.stackIdx + 1 ≤ y.stackIdx) A (scPush s s.globalScope) := by
      exact always_mono (fun y hy => hy.1) _ _ (always_initial A B _ ha)
    refine ⟨hsc, hty, hdepth, ?_⟩
    intro i hi
    rw [run_check_cells G (s.stackIdx + 1) A _ x hx hal i (by omega)]
    exact hcell0 i hi
  · intro s2 h2
    rw [typeCheck_eq_run G T t s fuel hrep hfuel] at h2
    cases hr : run (beforeCheckNode G) (checkNode G) T.events (scPush s s.globalScope) with
    | none => rw [hr] at h2; cases h2
    | some c1 =>
      rw [hr] at h2
      simp only [Option.map_some', Option.some.injEq] at h2
      subst h2
      obtain ⟨hidx, hsc, hty⟩ := hok.2 c1 hr
      obtain ⟨_, f2, f3, f4, f5, f6⟩ := run_check_frame G _ _ _ hr
      refine ⟨hsc, hty, ?_, ?_, f2, f3, f4, f5, f6⟩
      · show c1.stackIdx - 1 = s.stackIdx
        rw [hidx]
        show s.stackIdx + 1 - 1 = s.stackIdx
        omega
      · intro i hi
        show c1.stack i = s.stack i
        rw [run_check_cells G (s.stackIdx + 1) T.events _ c1 hr
          (always_mono (fun y hy => hy.1) _ _ hok.1) i (by omega)]
        exact hcell0 i hi

theorem typeCheck_frame_witness :
    ∃ s1 s2, buildSymtab sampleGlobals 5 (some 0) (State.init exampleRedecl) = some s1 ∧
      typeCheck sampleGlobals 5 (some 0) s1 = some s2 ∧
      s2.scopes = s1.scopes ∧ OnlyTypes s2.nodes s1.nodes ∧ s2.stackIdx = s1.stackIdx := by
  have h : ∃ s1 s2,
      buildSymtab sampleGlobals 5 (some 0) (State.init exampleRedecl) = some s1 ∧
      typeCheck sampleGlobals 5 (some 0) s1 = some s2 ∧
      represents sampleGlobals s1.nodes (some 0) exampleRedeclTree = true :=
    two_passes (by decide)
  obtain ⟨s1, s2, h1, h2, hrep⟩ := h
  obtain ⟨e1, e2, e3, _⟩ :=
    (typeCheck_frame sampleGlobals exampleRedeclTree (some 0) s1 5 hrep (by decide)).2 s2 h2
  exact ⟨s1, s2, h1, h2, e1, e2, e3⟩

/-! ## Array identifiers -/

/-- Claim C24, counterexample: in `int x[2]; void main(void){ x[y]; }` the name `x`
resolves to an array declaration, and the index `y` is not declared, so that the Builder
pass retags it with type `TypeError`. Both passes return; the listing holds the one symbol
error of the Builder pass and no type error, and the node of `x[y]` (node 4) keeps the
type `Void`: neither type `Integer` nor a type error. -/
theorem undeclared_index_unreported :
    ∃ s1 s2, buildSymtab sampleGlobals 7 (some 0) (State.init exampleUndeclaredIndex) = some s1 ∧
      typeCheck sampleGlobals 7 (some 0) s1 = some s2 ∧
      s2.listing = [{ kind := .SymbolError, line := 1, message := "using undeclared symbol" }] ∧
      (s1.nodes[5]?).map (fun m => m.type) = some .TypeError ∧
      (s2.nodes[4]?).map (fun m => m.nodekind) = some .ExpK ∧
      (s2.nodes[4]?).map (fun m => m.kind) = some sampleGlobals.IdArrK ∧
      (s2.nodes[4]?).map (fun m => m.name) = some (some "x") ∧
      (s2.nodes[4]?).map (fun m => m.child) = some [some 5, none, none] ∧
      (s2.nodes[4]?).map (fun m => m.type) = some .Void ∧
      ((st_lookup_bucket (scPush s1 s1.globalScope) "x").bind
        (fun o => o.bind (fun p => p.2.treeNode))) = some 0 ∧
      (s1.nodes[0]?).map (fun m => m.kind) = some sampleGlobals.VarArrK ∧
      (s1.nodes[0]?).map (fun m => m.type) = some .IntegerArray :=
  two_passes (by decide)

/-- The kind test of `checkNode` reads the `kind` field without regard to the category of
the declaration node: under `sampleGlobals`, where `VarK` and `ArrParamK` have the same
code, in `int x; void main(void){ x[0]; }` the plain variable `x` passes for an array: both
passes return, nothing is reported and the node of `x[0]` (node 4) gets type `Integer`. -/
theorem scalar_indexed_unreported :
    ∃ s1 s2, buildSymtab sampleGlobals 7 (some 0) (State.init exampleScalarIndexed) = some s1 ∧
      typeCheck sampleGlobals 7 (some 0) s1 = some s2 ∧
      s2.listing = [] ∧ s2.Error = false ∧
      (s1.nodes[0]?).map (fun m => m.nodekind) = some .DeclK ∧
      (s1.nodes[0]?).map (fun m => m.kind) = some sampleGlobals.VarK ∧
      (s2.nodes[4]?).map (fun m => m.kind) = some sampleGlobals.IdArrK ∧
      (s2.nodes[4]?).map (fun m => m.type) = some .Integer :=
  two_passes (by decide)

/-- Claim C24, amended: let `t` be an expression node of kind `IdArrK` whose name resolves
to a record with declaration node `symbolDecl`, and let the `kind` of `symbolDecl` hold
the code of `VarArrK` or of `ArrParamK` only if `symbolDecl` is an array variable or an
array parameter. If the declaration is not an array, `checkNode` reports the one type
error 'expected array symbol' and changes nothing else. If it is an array, with `index`
the first child: for an index of type `Integer` nothing is reported and the node gets type
`Integer`; for an index of type `IntegerArray`, `Void` or `VoidArray` exactly one type
error is reported and nothing else changes; for an index of type `TypeError` nothing is
reported and nothing changes, the node keeps its type. -/
theorem checkNode_array_identifier (G : Globals) (hD : G.Distinct) (s : State) (t : Nat)
    (n : TreeNode) (symbolName : String) (k d : Nat) (bucket : BucketListRec)
    (symbolDecl : TreeNode)
    (hn : s.nodes[t]? = some n) (hexp : n.nodekind = .ExpK) (harr : n.kind = G.IdArrK)
    (hname : n.name = some symbolName)
    (hlook : st_lookup_bucket s symbolName = some (some (k, bucket)))
    (hd : bucket.treeNode = some d) (hdecl : s.nodes[d]? = some symbolDecl)
    (hal : (symbolDecl.kind = G.VarArrK ∨ symbolDecl.kind = G.ArrParamK) →
      IsArrayDecl G symbolDecl) :
    (¬ IsArrayDecl G symbolDecl →
      checkNode G t s = some (typeError s n "expected array symbol") ∧
      (typeError s n "expected array symbol").listing = s.listing ++
        [{ kind := .TypeError, line := n.lineno, message := "expected array symbol" }] ∧
      (typeError s n "expected array symbol").nodes = s.nodes) ∧
    (IsArrayDecl G symbolDecl →
      ∀ (i : Nat) (index : TreeNode), n.child.getD 0 none = some i →
        s.nodes[i]? = some index →
        (index.type = .Integer →
          checkNode G t s = some (s.setNode t { n with type := .Integer }) ∧
          (s.setNode t { n with type := .Integer }).listing = s.listing ∧
          (s.setNode t { n with type := .Integer }).Error = s.Error ∧
          (((s.setNode t { n with type := .Integer }).nodes[t]?).map (fun m => m.type)) =
            some .Integer) ∧
        (index.type = .IntegerArray → checkNode G t s = some (typeError s n
          "expected integer type index, got IntegerArray type index")) ∧
        (index.type = .Void → checkNode G t s = some (typeError s n
          "expected integer type index, got Void type index")) ∧
        (index.type = .VoidArray → checkNode G t s = some (typeError s n
          "expected integer type index, got VoidArray type index")) ∧
        (index.type = .TypeError → checkNode G t s = some s)) := by
  have hlt : t < s.nodes.length := by
    by_contra hlt
    rw [List.getElem?_eq_none (not_lt.1 hlt)] at hn
    cases hn
  obtain ⟨_, hD2, _, _⟩ := hD
  simp only [List.nodup_cons, List.mem_cons, List.mem_singleton, not_or, List.not_mem_nil,
    not_false_eq_true, and_true, List.nodup_nil] at hD2
  have e1 : ¬ n.kind = G.ConstK := by rw [harr]; omega
  have hraw : IsArrayDecl G symbolDecl →
      (symbolDecl.kind = G.VarArrK ∨ symbolDecl.kind = G.ArrParamK) := by
    rintro (⟨_, e⟩ | ⟨_, e⟩)
    · exact Or.inl e
    · exact Or.inr e
  have hcheck : checkNode G t s = checkId G t n s := by
    unfold checkNode
    rw [hn]
    simp only [hexp]
    unfold checkExp
    rw [if_neg e1, if_pos (Or.inr harr)]
  rw [hcheck]
  unfold checkId
  rw [hname]
  simp only [hlook, hd, deref, hdecl]
  rw [if_pos harr]
  constructor
  · intro hna
    rw [if_pos (by
      constructor
      · exact fun e => hna (hal (Or.inl e))
      · exact fun e => hna (hal (Or.inr e)))]
    exact ⟨rfl, rfl, rfl⟩
  · intro ha i index hi hindex
    rw [if_neg (by
      rintro ⟨x1, x2⟩
      rcases hraw ha with e | e
      · exact x1 e
      · exact x2 e)]
    simp only [hi, hindex]
    refine ⟨?_, ?_, ?_, ?_, ?_⟩
    · intro e
      rw [if_neg (by simp [e])]
      refine ⟨rfl, rfl, rfl, ?_⟩
      simp [State.setNode, List.getElem?_set_self hlt]
    · intro e
      rw [if_pos (by simp [e])]
      simp only [e]
    · intro e
      rw [if_pos (by simp [e])]
      simp only [e]
    · intro e
      rw [if_pos (by simp [e])]
      simp only [e]
    · intro e
      rw [if_pos (by simp [e])]
      simp only [e]

theorem checkNode_array_identifier_witness :
    ∃ s1, checkNode sampleGlobals 8 exampleArrayAtIndex = some s1 ∧
      s1.listing = exampleArrayAtIndex.listing ∧
      (s1.nodes[8]?).map (fun m => m.type) = some .Integer := by
  obtain ⟨h1, h2, _, h4⟩ :=
    ((checkNode_array_identifier sampleGlobals (by decide) exampleArrayAtIndex 8
      { blankNode with nodekind := .ExpK, kind := sampleGlobals.IdArrK, name := some "x"
                       lineno := 1, child := [some 9, none, none] }
      "x" 0 0 { name := "x", treeNode := some 0, lines := [1, 1], memloc := 0 }
      { blankNode with nodekind := .DeclK, kind := sampleGlobals.VarArrK
                       arrayName := some "x", type := .IntegerArray, lineno := 1
                       sibling := some 1 }
      (by decide) (by decide) (by decide) (by decide) (by decide) (by decide)
      (by decide) (fun _ => Or.inl ⟨by decide, by decide⟩)).2
      (Or.inl ⟨by decide, by decide⟩) 9
      { blankNode with nodekind := .ExpK, kind := sampleGlobals.ConstK, lineno := 1
                       type := .Integer }
      (by decide) (by decide)).1 (by decide)
  exact ⟨_, h1, h2, h4⟩

/-! ## The scope stack is a path of the scope tree -/

theorem stackIsPath_of {s : State} (h : StackOK s) (hg : s.stack 0 = s.globalScope) :
    StackIsPath s := by
  refine ⟨h.1, ?_, ?_, stackList_chain h, stackList_length h, fun name => stackOK_lookup h name⟩
  · intro i hi hlt
    obtain ⟨k, sc, hk, hsc, hp, _⟩ := h.2.2 i (le_of_lt hi) hlt
    exact ⟨k, sc, hk, hsc, hp⟩
  · obtain ⟨k, sc, hk, hsc, hp, _⟩ := h.2.2 0 (le_refl _) h.1
    refine ⟨k, sc, hk, ?_, hsc, ?_⟩
    · rw [← hg, hk]
    · rw [hp]
      exact h.2.1

/-- C26: on a well-formed tree, from an empty scope stack, both passes return, each of
their traversals runs to its end, and before and after every visitor call of either
traversal the scope stack is a path: every scope on it other than the bottom one has as
parent the scope directly below, the bottom one is the global scope and has no parent,
the parent chain from the top passes through exactly the scopes on the stack from top to
bottom, and a lookup returns the record of the first of them that holds the name. -/
theorem stack_is_parent_path (G : Globals) (hM : 1 ≤ G.MAXCHILDREN) (T : SynTree) (t : Ptr)
    (s : State) (fuel : Nat)
    (hrep : represents G s.nodes t T = true) (hfuel : T.depth ≤ fuel)
    (hwf : wellFormed G s.nodes T = true) (hsh : checkShape G s.nodes false T = true)
    (hnd : T.ptrs.Nodup) (h0 : s.stackIdx = 0) (h1 : s.stack (-1) = none) (hrec : RecOK s)
    (hflag : s.preserveLastScope = false) (hrn : RecNodes G s)
    (hcl : HeapClosed s.nodes) :
    ∃ s0 b1 s1 c1 s2, builderStart G s = some s0 ∧
      run (insertNode G) (afterInsertNode G) T.events s0 = some b1 ∧
      buildSymtab G fuel t s = some s1 ∧
      run (beforeCheckNode G) (checkNode G) T.events (scPush s1 s1.globalScope) = some c1 ∧
      typeCheck G fuel t s1 = some s2 ∧
      (∀ A B x, T.events = A ++ B →
        run (insertNode G) (afterInsertNode G) A s0 = some x → StackIsPath x) ∧
      (∀ A B x, T.events = A ++ B →
        run (beforeCheckNode G) (checkNode G) A (scPush s1 s1.globalScope) = some x →
          StackIsPath x) := by
  obtain ⟨s0, sF, hs0, hi0, hst0, _, _, hb0, hrF, hiF, hsF, hfF, _, haF, hbuild⟩ :=
    builder_pass G T t s fuel hrep hfuel hwf hnd h0 h1 hrec hflag
  obtain ⟨s1, c1, hb, hrc, htc, _, _, _, haC⟩ :=
    passes_total G hM T t s fuel hrep hfuel hwf hsh hnd h0 h1 hrec hflag hrn hcl
  rw [hbuild] at hb
  cases hb
  have hstk0 : s0.stack 0 = some s.scopes.length := by
    obtain ⟨s0b, hs0b, _, _, _, hstk, _⟩ := builderStart_spec G s h0 h1 hrec
    rw [hs0] at hs0b
    cases hs0b
    exact hstk
  have hg0 : s0.stack 0 = s0.globalScope := by rw [hstk0, hb0.1]
  have hbuilder : ∀ A B x, T.events = A ++ B →
      run (insertNode G) (afterInsertNode G) A s0 = some x →
        StackOK x ∧ x.stack 0 = x.globalScope := by
    intro A B x hAB hx
    rw [hAB] at haF
    have hinv := always_upto A B s0 x haF hx
    have hper := run_persist G _ _ _ hx
    have hcell := run_cells G 1 A s0 x hx
      (always_mono (fun y hy => hy.2) _ _ (always_initial A B s0 haF)) 0 (by omega)
    exact ⟨hinv.1.1, by rw [hcell, hper.1, hg0]⟩
  have hgF : sF.stack 0 = sF.globalScope :=
    (hbuilder T.events [] sF (List.append_nil _).symm hrF).2
  refine ⟨s0, sF, scPop sF, c1, scPop c1, hs0, hrF, hbuild, hrc, htc, ?_, ?_⟩
  · intro A B x hAB hx
    obtain ⟨hx1, hx2⟩ := hbuilder A B x hAB hx
    exact stackIsPath_of hx1 hx2
  · intro A B x hAB hx
    rw [hAB] at haC
    have hok : StackOK x := always_upto A B _ x haC hx
    obtain ⟨_, f2, _⟩ := run_check_frame G _ _ _ hx
    have hcell := run_check_cells G 1 A _ x hx
      (always_mono (fun y (hy : StackOK y) => (by have := hy.1; omega)) _ _
        (always_initial A B _ haC)) 0 (by omega)
    refine stackIsPath_of hok ?_
    rw [hcell, f2]
    show (if (0 : Int) = (scPop sF).stackIdx then (scPop sF).globalScope
      else (scPop sF).stack 0) = (scPop sF).globalScope
    rw [if_pos (by show (0 : Int) = sF.stackIdx - 1; omega)]

theorem stack_is_parent_path_witness :
    ∃ s0 b1 s1 c1, builderStart sampleGlobals (State.init exampleReturnInBranch) = some s0 ∧
      run (insertNode sampleGlobals) (afterInsertNode sampleGlobals)
        exampleReturnInBranchTree.events s0 = some b1 ∧
      buildSymtab sampleGlobals 5 (some 0) (State.init exampleReturnInBranch) = some s1 ∧
      run (beforeCheckNode sampleGlobals) (checkNode sampleGlobals)
        exampleReturnInBranchTree.events (scPush s1 s1.globalScope) = some c1 ∧
      StackIsPath s0 ∧ StackIsPath b1 ∧ StackIsPath (scPush s1 s1.globalScope) ∧
      StackIsPath c1 := by
  obtain ⟨s0, b1, s1, c1, _, h1, h2, h3, h4, _, h6, h7⟩ :=
    stack_is_parent_path sampleGlobals (by decide)
      exampleReturnInBranchTree (some 0) (State.init exampleReturnInBranch) 5
      (by decide) (by decide) (by decide) (by decide) (by decide) rfl rfl
      (fun k sc h r hsc _ => by simp [State.init] at hsc) rfl
      (fun k sc h r hsc _ => by simp [State.init] at hsc)
      (heapClosed_of_check (by decide))
  exact ⟨s0, b1, s1, c1, h1, h2, h3, h4,
    h6 [] _ s0 rfl rfl, h6 _ [] b1 (List.append_nil _).symm h2,
    h7 [] _ _ rfl rfl, h7 _ [] c1 (List.append_nil _).symm h4⟩

/-! ## A rejected function declaration has no scope of its own -/

theorem insertParam_funcName {t : Nat} {n : TreeNode} {s s1 : State}
    (h : insertParam t n s = some s1) : s1.funcName = s.funcName ∧ s1.nodes = s.nodes := by
  unfold insertParam at h
  split at h
  · split at h <;> cases h <;> exact ⟨rfl, rfl⟩
  · split at h
    · cases h
    · split at h
      · have := st_insert_frame h
        exact ⟨this.2.2.2.2.1, this.1⟩
      · cases h
        exact ⟨rfl, rfl⟩

theorem params_funcName (G : Globals) :
    ∀ (P : SynTree) (x y : State), paramList x.nodes P = true →
      run (insertNode G) (afterInsertNode G) P.events x = some y →
      y.funcName = x.funcName
  | .null, x, y, _, h => by
    cases h
    rfl
  | .node t cs sib, x, y, hp, h => by
    cases hn : x.nodes[t]? with
    | none => simp [paramList, hn] at hp
    | some n =>
      simp only [paramList, hn, Bool.and_eq_true, decide_eq_true_eq] at hp
      obtain ⟨⟨hk, hnull⟩, hsib⟩ := hp
      have hev : (SynTree.node t cs sib).events = Ev.pre t :: Ev.post t :: sib.events := by
        simp [SynTree.events, (allNull_events cs hnull).1]
      rw [hev] at h
      obtain ⟨s1, h1, h2⟩ := run_cons_split h
      obtain ⟨s2, h3, h4⟩ := run_cons_split h2
      have hpre : insertParam t n x = some s1 := by
        have : insertNode G t x = some s1 := h1
        unfold insertNode at this
        rw [hn] at this
        simp only [hk] at this
        exact this
      obtain ⟨f1, n1⟩ := insertParam_funcName hpre
      have hn1t : s1.nodes[t]? = some n := by rw [n1]; exact hn
      have hpost : afterInsertNode G t s1 = some s1 :=
        afterInsertNode_plain G hn1t (by simp [hk])
      have e : s2 = s1 := by
        have : afterInsertNode G t s1 = some s2 := h3
        rw [hpost] at this
        exact (Option.some.inj this).symm
      subst e
      rw [params_funcName G sib s2 y (by rw [n1]; exact hsib) h4, f1]

/-- Claim C27, counterexample: in `int f(int a){} int f(int b, int b){}` the second
declaration of `f` is rejected, and of its two named parameters only the first gets a
record: `buildSymtab` returns, reports 'function already declared for current scope' and
then 'symbol already declared for current scope', and the chain of `b` in the global
scope holds one record, that of the first parameter (node 4); the second parameter
(node 5) is inserted nowhere. -/
theorem rejected_second_parameter_dropped :
    ∃ s1, buildSymtab sampleGlobals 5 (some 0) (State.init exampleRejectedDup) = some s1 ∧
      s1.listing =
        [{ kind := .SymbolError, line := 1,
           message := "function already declared for current scope" },
         { kind := .SymbolError, line := 1,
           message := "symbol already declared for current scope" }] ∧
      s1.scopes.length = 3 ∧
      (s1.scopes[0]?).map (fun sc => sc.scopeName) = some (some "<GLOBAL>") ∧
      (s1.scopes[0]?).map (fun sc => sc.hashTable (hash "b")) =
        some [{ name := "b", treeNode := some 4, lines := [1], memloc := 0 }] ∧
      (s1.scopes[1]?).map (fun sc => sc.hashTable (hash "b")) = some [] ∧
      (s1.scopes[2]?).map (fun sc => sc.hashTable (hash "b")) = some [] ∧
      (s1.nodes[5]?).map (fun m => m.nodekind) = some .ParamK ∧
      (s1.nodes[5]?).map (fun m => m.name) = some (some "b") :=
  pass_holds (by decide)

theorem rejected_function_spec (G : Globals) (s : State) (f b : Nat) (n mb : TreeNode)
    (fname : String) (ps : SynTree) (top : Nat) (sc : ScopeListRec) (r : BucketListRec)
    (hinv : BInv s) (hfl : s.preserveLastScope = false)
    (hn : s.nodes[f]? = some n) (hk1 : n.nodekind = .DeclK)
    (hk2 : n.kind = G.FunK) (hname : n.name = some fname)
    (htop : scTop s = some top) (hsc : s.scopes[top]? = some sc)
    (hheld : sc.find fname = some r) (hps : paramList s.nodes ps = true)
    (hb : s.nodes[b]? = some mb) (hc1 : mb.nodekind = .StmtK) (hc2 : mb.kind = G.CompK) :
    ∃ s1 s2 s3 sc2 nsc,
      insertNode G f s = some s1 ∧
      run (insertNode G) (afterInsertNode G) ps.events s1 = some s2 ∧
      insertNode G b s2 = some s3 ∧
      s1.listing = s.listing ++ [{ kind := .SymbolError, line := n.lineno, message :=
        "function already declared for current scope" }] ∧
      s1.scopes = s.scopes ∧ s1.stack = s.stack ∧ s1.stackIdx = s.stackIdx ∧
      s1.preserveLastScope = false ∧
      s2.stack = s.stack ∧ s2.stackIdx = s.stackIdx ∧ s2.preserveLastScope = false ∧
      s2.scopes.length = s.scopes.length ∧
      (∀ j : Nat, j ≠ top → s2.scopes[j]? = s.scopes[j]?) ∧
      s2.scopes[top]? = some sc2 ∧
      (∀ name q, sc.find name = some q → ∃ q1, sc2.find name = some q1) ∧
      (∀ h q, q ∈ sc2.hashTable h → q ∈ sc.hashTable h ∨
        ∃ p ∈ ps.ptrs, ∃ m, s.nodes[p]? = some m ∧ m.name = some q.name ∧
          q.treeNode = some p) ∧
      (∀ p ∈ ps.ptrs, ∀ m name, s.nodes[p]? = some m → m.name = some name →
        st_lookup_bucket s name = some none → ∃ q, sc2.find name = some q) ∧
      s3.scopes = s2.scopes ++ [nsc] ∧ nsc.scopeName = some fname ∧
      nsc.parent = some top ∧ nsc.nestedLevel = s.stackIdx ∧ (∀ h, nsc.hashTable h = []) ∧
      scTop s3 = some s.scopes.length ∧ s3.stackIdx = s.stackIdx + 1 ∧
      s3.stack (s.stackIdx - 1) = some top ∧
      s3.nodes[b]? = some { mb with scope := some s.scopes.length } ∧
      s3.preserveLastScope = false := by
  have hpre := insertNode_redeclared G s f n fname top sc r hn hk1 (Or.inl ⟨hk2, hname⟩)
    htop hsc hheld
  rw [if_pos hk2, if_pos hk2] at hpre
  obtain ⟨s1, hs1⟩ : ∃ s1 : State, s1 = { s with
      funcName := n.name
      listing := s.listing ++ [{ kind := .SymbolError, line := n.lineno, message :=
        "function already declared for current scope" }]
      Error := true } := ⟨_, rfl⟩
  rw [← hs1] at hpre
  have hi1 : BInv s1 := by rw [hs1]; exact hinv
  have htop1 : scTop s1 = some top := by rw [hs1]; exact htop
  have hps1 : paramList s1.nodes ps = true := by rw [hs1]; exact hps
  obtain ⟨s2, hr2, hq2, hn2, hother, sa, sb, hsa, hsb, e1, e2, e3, hA, hKeep, hB⟩ :=
    params_insert G top ps s1 hps1 hi1 htop1
  have hsa2 : sa = sc := by
    have : s.scopes[top]? = some sa := by rw [hs1] at hsa; exact hsa
    rw [hsc] at this
    exact (Option.some.inj this).symm
  subst hsa2
  have hfn2 : s2.funcName = some fname := by
    rw [params_funcName G ps s1 s2 hps1 hr2, hs1]
    exact hname
  have hb2 : s2.nodes[b]? = some mb := by rw [hn2, hs1]; exact hb
  have hpre3 : insertNode G b s2 = some (insertComp b mb s2) := by
    unfold insertNode
    rw [hb2]
    simp only [hc1, hc2, if_true]
  have hflag2 : s2.preserveLastScope = false := by
    rw [hq2.2.2.2.1, hs1]; exact hfl
  have hstack2 : s2.stack = s.stack := by rw [hq2.2.1, hs1]
  have hidx2 : s2.stackIdx = s.stackIdx := by rw [hq2.2.2.1, hs1]
  have hlen2 : s2.scopes.length = s.scopes.length := by rw [hq2.2.2.2.2, hs1]
  have htop2 : scTop s2 = some top := (quiet_scTop hq2).trans htop1
  obtain ⟨x3, hx3⟩ : ∃ x3 : State, x3 =
      { scPush (scCreate s2 s2.funcName).1 (scCreate s2 s2.funcName).2 with
        location := (scPush (scCreate s2 s2.funcName).1 (scCreate s2 s2.funcName).2).location
          + 1 } := ⟨_, rfl⟩
  have hx3top : scTop x3 = some s.scopes.length := by
    rw [hx3]
    show (if s2.stackIdx + 1 - 1 = s2.stackIdx then (scCreate s2 s2.funcName).2 else _) = _
    rw [if_pos (by omega)]
    show some s2.scopes.length = _
    rw [hlen2]
  have hcomp : insertComp b mb s2 = x3.setNode b { mb with scope := some s.scopes.length } := by
    unfold insertComp
    simp only [hflag2, Bool.false_eq_true, if_false]
    rw [← hx3, hx3top]
  have hblt : b < s2.nodes.length := by
    by_contra hge
    rw [List.getElem?_eq_none (by omega)] at hb2
    cases hb2
  have hpos : 0 < s.stackIdx := hinv.1.1
  refine ⟨s1, s2, insertComp b mb s2, sb,
    { scopeName := s2.funcName, nestedLevel := s2.stackIdx, hashTable := fun _ => [],
      parent := scTop s2 },
    hpre, hr2, hpre3, ?_, ?_, ?_, ?_, ?_, hstack2, hidx2, hflag2, hlen2, ?_, hsb, hKeep, ?_,
    ?_, ?_, hfn2, htop2, hidx2, fun _ => rfl, ?_, ?_, ?_, ?_, ?_⟩
  · rw [hs1]
  · rw [hs1]
  · rw [hs1]
  · rw [hs1]
  · rw [hs1]; exact hfl
  · intro j hj
    rw [hother j hj, hs1]
  · intro h q hq
    rcases hA h q hq with h1 | ⟨p, hp, m, hm, hm2, hm3⟩
    · exact Or.inl h1
    · exact Or.inr ⟨p, hp, m, by rw [hs1] at hm; exact hm, hm2, hm3⟩
  · intro p hp m name hm hnm hl
    exact hB p hp m name (by rw [hs1]; exact hm) hnm
      ((st_lookup_bucket_congr name (by rw [hs1]) (by rw [hs1]) (by rw [hs1])).trans hl)
  · rw [hcomp, hx3]
    rfl
  · rw [hcomp]
    exact hx3top
  · rw [hcomp, hx3]
    show s2.stackIdx + 1 = _
    rw [hidx2]
  · rw [hcomp, hx3]
    show (if s.stackIdx - 1 = s2.stackIdx then _ else s2.stack (s.stackIdx - 1)) = _
    rw [if_neg (by omega), hstack2]
    exact htop
  · rw [hcomp]
    show (x3.nodes.set b _)[b]? = _
    rw [List.getElem?_set_self (by rw [hx3]; exact hblt)]
  · rw [hcomp, hx3]
    exact hflag2

theorem exampleRejectedAtSecond_inv : BInv exampleRejectedAtSecond := by
  obtain ⟨s0, sF, hs0, _, _, _, _, _, _, _, _, _, _, haF, _⟩ :=
    builder_pass sampleGlobals exampleRejectedTree (some 0) (State.init exampleRejected) 5
      (by decide) (by decide) (by decide) (by decide) rfl rfl
      (fun k sc h r hsc _ => by simp [State.init] at hsc) rfl
  have e : exampleRejectedStart = s0 := by
    unfold exampleRejectedStart
    rw [hs0]
    rfl
  rw [← e] at haF
  have hsplit : exampleRejectedTree.events =
      exampleRejectedTree.events.take 6 ++ exampleRejectedTree.events.drop 6 :=
    (List.take_append_drop 6 _).symm
  rw [hsplit] at haF
  have hrun : run (insertNode sampleGlobals) (afterInsertNode sampleGlobals)
      (exampleRejectedTree.events.take 6) exampleRejectedStart = some exampleRejectedAtSecond :=
    eq_some_getD _ (by decide)
  exact (always_upto _ _ _ _ haF hrun).1

/-! ## What a parameter list adds to its scope and to the listing -/

theorem insertParam_exact {x : State} (h : BInv x) (t : Nat) (n : TreeNode) (k : Nat)
    (sck : ScopeListRec) (htop : scTop x = some k) (hsck : x.scopes[k]? = some sck) :
    ∃ x1, insertParam t n x = some x1 ∧ BInv x1 ∧ scTop x1 = some k ∧ x1.nodes = x.nodes ∧
      x1.location = x.location ∧
      ((x1.scopes = x.scopes ∧ x1.stack = x.stack ∧ x1.stackIdx = x.stackIdx ∧
          ((n.name = none ∧ n.type = .Void ∧ x1.listing = x.listing ∧ x1.Error = x.Error) ∨
           (n.name = none ∧ n.type ≠ .Void ∧ x1.Error = true ∧ x1.listing = x.listing ++
              [{ kind := .SymbolError, line := n.lineno
                 message := "parameters except (void) must have name" }]) ∨
           (∃ name, n.name = some name ∧ st_lookup_bucket x name ≠ some none ∧
              x1.Error = true ∧ x1.listing = x.listing ++
                [{ kind := .SymbolError, line := n.lineno
                   message := "symbol already declared for current scope" }]))) ∨
       (∃ name tc, n.name = some name ∧ st_lookup_bucket x name = some none ∧
          x1.listing = x.listing ∧ x1.Error = x.Error ∧ x1.scopes[k]? = some tc ∧
          tc.hashTable (hash name) =
            { name := name, treeNode := some t, lines := [n.lineno], memloc := x.location } ::
              sck.hashTable (hash name) ∧
          (∀ h, h ≠ hash name → tc.hashTable h = sck.hashTable h) ∧
          (∀ n2, n2 ≠ name → st_lookup_bucket x1 n2 = st_lookup_bucket x n2) ∧
          st_lookup_bucket x1 name ≠ some none)) := by
  obtain ⟨x1, hx1, hq, hn1⟩ := quiet_insertParam h t n
  have hloc : x1.location = x.location := by
    rw [hq.1.2.1, h.2.1, hq.2.2.1]
  refine ⟨x1, hx1, hq.1, (quiet_scTop hq).trans htop, hn1, hloc, ?_⟩
  unfold insertParam at hx1
  split at hx1
  · rename_i hnone
    left
    split at hx1
    · rename_i hty
      cases hx1
      exact ⟨rfl, rfl, rfl, Or.inl ⟨hnone, hty, rfl, rfl⟩⟩
    · rename_i hty
      cases hx1
      exact ⟨rfl, rfl, rfl, Or.inr (Or.inl ⟨hnone, hty, rfl, rfl⟩)⟩
  · rename_i name hname
    obtain ⟨b, hb, hrec⟩ := binv_lookup_total h name
    cases b with
    | none =>
      right
      rw [st_lookup_none hb] at hx1
      simp only [if_true] at hx1
      obtain ⟨t1, tc, hst, htc, hbucket, hothers, _, _, _, _, hlk, _, _, hsame, _, _, _⟩ :=
        st_insert_spec x name n.lineno x.location (some t) k sck htop hsck
          (chainFind_none.1 (lookup_none_top htop hsck hb))
      rw [hst] at hx1
      cases hx1
      have hf := st_insert_frame hst
      refine ⟨name, tc, hname, hb, hf.2.2.2.2.2.2.2.2.2.1, hf.2.2.2.2.2.2.2.2.1, htc, hbucket,
        hothers, hsame, ?_⟩
      intro hnone
      rw [st_lookup_none hnone] at hlk
      have h1 := h.1.1
      have h2 := h.2.1
      have h3 := Option.some.inj hlk
      omega
    | some jr =>
      left
      obtain ⟨j, r⟩ := jr
      rw [st_lookup_some hb] at hx1
      simp only [if_neg (hrec j r rfl).2] at hx1
      cases hx1
      refine ⟨rfl, rfl, rfl, Or.inr (Or.inr ⟨name, hname, ?_, rfl, rfl⟩)⟩
      rw [hb]
      simp

theorem chainOf_nil (h : Nat) : chainOf [] h = [] := rfl

theorem chainOf_cons (r : BucketListRec) (l : List BucketListRec) (h : Nat) :
    chainOf (r :: l) h = chainOf l h ++ (if hash r.name = h then [r] else []) := by
  unfold chainOf
  by_cases e : hash r.name = h
  · simp [List.filter_cons, e]
  · simp [List.filter_cons, e]

theorem params_exact (G : Globals) (k : Nat) :
    ∀ (P : SynTree) (x : State) (taken : String → Bool) (sck : ScopeListRec),
      paramList x.nodes P = true → BInv x → scTop x = some k → x.scopes[k]? = some sck →
      (∀ p ∈ P.ptrs, ∀ m name, x.nodes[p]? = some m → m.name = some name →
        (taken name = true ↔ st_lookup_bucket x name ≠ some none)) →
      ∃ y sck1, run (insertNode G) (afterInsertNode G) P.events x = some y ∧
        y.scopes[k]? = some sck1 ∧
        y.listing = x.listing ++ paramDiags x.nodes taken P.ptrs ∧
        (∀ h, sck1.hashTable h =
          chainOf (paramRecords x.nodes x.location taken P.ptrs) h ++ sck.hashTable h) ∧
        (paramDiags x.nodes taken P.ptrs = [] → y.Error = x.Error) ∧
        (paramDiags x.nodes taken P.ptrs ≠ [] → y.Error = true)
  | .null, x, taken, sck, _, _, _, hsck, _ => by
    refine ⟨x, sck, rfl, hsck, ?_, ?_, fun _ => rfl, ?_⟩
    · simp [SynTree.ptrs, paramDiags]
    · intro h
      simp [SynTree.ptrs, paramRecords, chainOf]
    · intro h
      simp [SynTree.ptrs, paramDiags] at h
  | .node t cs sib, x, taken, sck, hp, hinv, htop, hsck, htaken => by
    cases hn : x.nodes[t]? with
    | none => simp [paramList, hn] at hp
    | some n =>
      simp only [paramList, hn, Bool.and_eq_true, decide_eq_true_eq] at hp
      obtain ⟨⟨hk, hnull⟩, hsib⟩ := hp
      have hev : (SynTree.node t cs sib).events = Ev.pre t :: Ev.post t :: sib.events := by
        simp [SynTree.events, (allNull_events cs hnull).1]
      have hptrs : (SynTree.node t cs sib).ptrs = t :: sib.ptrs := by
        simp [SynTree.ptrs, (allNull_events cs hnull).2]
      rw [hptrs] at htaken
      rw [hev, hptrs]
      obtain ⟨x1, hx1, hi1, htop1, hn1, hloc1, hcase⟩ :=
        insertParam_exact hinv t n k sck htop hsck
      have hpre : insertNode G t x = some x1 := by
        unfold insertNode
        rw [hn]
        simp only [hk]
        exact hx1
      have hn1t : x1.nodes[t]? = some n := by rw [hn1]; exact hn
      have hpost : afterInsertNode G t x1 = some x1 :=
        afterInsertNode_plain G hn1t (by simp [hk])
      have hrun : ∀ y, run (insertNode G) (afterInsertNode G) sib.events x1 = some y →
          run (insertNode G) (afterInsertNode G) (Ev.pre t :: Ev.post t :: sib.events) x =
            some y := by
        intro y hy
        rw [run_cons, runEv, hpre, Option.some_bind, run_cons, runEv, hpost, Option.some_bind]
        exact hy
      rcases hcase with ⟨hsc, hstk, hidx, hsub⟩ |
        ⟨name, tc, hname, hnone, hlist, herr, htc, hbucket, hothers, hsame, hfound⟩
      · have hlook : ∀ nm, st_lookup_bucket x1 nm = st_lookup_bucket x nm :=
          fun nm => st_lookup_bucket_congr nm hsc hstk hidx
        obtain ⟨y, sck1, hy, hsck1, hlisty, hb, he1, he2⟩ :=
          params_exact G k sib x1 taken sck (by rw [hn1]; exact hsib) hi1 htop1
            (by rw [hsc]; exact hsck)
            (by
              intro p hp m nm hm hnm
              rw [hlook]
              exact htaken p (List.mem_cons_of_mem _ hp) m nm (by rw [← hn1]; exact hm) hnm)
        rw [hn1] at hlisty he1 he2 hb
        rw [hloc1] at hb
        refine ⟨y, sck1, hrun y hy, hsck1, ?_⟩
        rcases hsub with ⟨hnm, hty, hl, he⟩ | ⟨hnm, hty, he, hl⟩ | ⟨name, hnm, hfound, he, hl⟩
        · have hD : paramDiags x.nodes taken (t :: sib.ptrs) =
              paramDiags x.nodes taken sib.ptrs := by
            simp only [paramDiags, hn, hnm, hty, if_true]
          have hR : paramRecords x.nodes x.location taken (t :: sib.ptrs) =
              paramRecords x.nodes x.location taken sib.ptrs := by
            simp only [paramRecords, hn, hnm]
          rw [hD, hR]
          exact ⟨by rw [hlisty, hl], hb, fun e => (he1 e).trans he,
            fun e => he2 e⟩
        · have hD : paramDiags x.nodes taken (t :: sib.ptrs) =
              { kind := .SymbolError, line := n.lineno
                message := "parameters except (void) must have name" } ::
                paramDiags x.nodes taken sib.ptrs := by
            simp only [paramDiags, hn, hnm, if_neg hty]
          have hR : paramRecords x.nodes x.location taken (t :: sib.ptrs) =
              paramRecords x.nodes x.location taken sib.ptrs := by
            simp only [paramRecords, hn, hnm]
          rw [hD, hR]
          refine ⟨by rw [hlisty, hl]; simp, hb, (fun e => by cases e), fun _ => ?_⟩
          by_cases e : paramDiags x.nodes taken sib.ptrs = []
          · exact (he1 e).trans he
          · exact he2 e
        · have ht : taken name = true :=
            (htaken t (List.mem_cons_self _ _) n name hn hnm).2 hfound
          have hD : paramDiags x.nodes taken (t :: sib.ptrs) =
              { kind := .SymbolError, line := n.lineno
                message := "symbol already declared for current scope" } ::
                paramDiags x.nodes taken sib.ptrs := by
            simp only [paramDiags, hn, hnm, ht, if_true]
          have hR : paramRecords x.nodes x.location taken (t :: sib.ptrs) =
              paramRecords x.nodes x.location taken sib.ptrs := by
            simp only [paramRecords, hn, hnm, ht, if_true]
          rw [hD, hR]
          refine ⟨by rw [hlisty, hl]; simp, hb, (fun e => by cases e), fun _ => ?_⟩
          by_cases e : paramDiags x.nodes taken sib.ptrs = []
          · exact (he1 e).trans he
          · exact he2 e
      · have ht : taken name = false := by
          cases htn : taken name with
          | false => rfl
          | true =>
            exact absurd hnone ((htaken t (List.mem_cons_self _ _) n name hn hname).1 htn)
        obtain ⟨y, sck1, hy, hsck1, hlisty, hb, he1, he2⟩ :=
          params_exact G k sib x1 (fun n2 => decide (n2 = name) || taken n2) tc
            (by rw [hn1]; exact hsib) hi1 htop1 htc
            (by
              intro p hp m nm hm hnm
              by_cases e : nm = name
              · subst e
                simp only [decide_True, Bool.true_or, true_iff]
                exact hfound
              · rw [hsame nm e]
                simp only [e, decide_False, Bool.false_or]
                exact htaken p (List.mem_cons_of_mem _ hp) m nm (by rw [← hn1]; exact hm) hnm)
        rw [hn1] at hlisty he1 he2 hb
        rw [hloc1] at hb
        have hD : paramDiags x.nodes taken (t :: sib.ptrs) =
            paramDiags x.nodes (fun n2 => decide (n2 = name) || taken n2) sib.ptrs := by
          simp only [paramDiags, hn, hname, ht, Bool.false_eq_true, if_false]
        have hR : paramRecords x.nodes x.location taken (t :: sib.ptrs) =
            { name := name, treeNode := some t, lines := [n.lineno], memloc := x.location } ::
              paramRecords x.nodes x.location (fun n2 => decide (n2 = name) || taken n2)
                sib.ptrs := by
          simp only [paramRecords, hn, hname, ht, Bool.false_eq_true, if_false]
        rw [hD, hR]
        refine ⟨y, sck1, hrun y hy, hsck1, by rw [hlisty, hlist], ?_,
          fun e => (he1 e).trans herr, fun e => he2 e⟩
        intro h
        rw [hb h, chainOf_cons, List.append_assoc]
        congr 1
        by_cases e : hash name = h
        · subst e
          rw [hbucket]
          simp
        · rw [hothers h (Ne.symm e)]
          simp [e]

theorem mem_paramNames {nodes : List TreeNode} {ptrs : List Nat} {p : Nat} {m : TreeNode}
    {name : String} (hp : p ∈ ptrs) (hm : nodes[p]? = some m) (hn : m.name = some name) :
    name ∈ paramNames nodes ptrs := by
  unfold paramNames
  rw [List.mem_filterMap]
  exact ⟨p, hp, by rw [hm]; exact hn⟩

theorem run_unique {pre post : Nat → State → Option State} {evs : List Ev} {s a b : State}
    (h1 : run pre post evs s = some a) (h2 : run pre post evs s = some b) : a = b :=
  Option.some.inj (h1.symm.trans h2)

/-- C8, as amended: for a function declaration `f` visited in a state of the Builder
pass whose top scope `top` does not hold the function's name, with a parameter list `ps`
and a compound statement `b` as body: the pre-visit of `f` reports nothing, puts the
function's record in front of its chain in scope `top` and creates exactly one new scope,
empty, named after the function, with parent `top`, pushed on the stack, with the
preserve-last-scope flag set; the visits of the parameters change no scope but the new
one, every record of the new scope belongs to a parameter of `ps` carrying the record's
name, and every parameter name that no lookup finds when the parameter list is entered is
held by the new scope afterwards; when no lookup finds any of the parameters' names at
that moment, the new scope ends up with exactly one record for each name, that of the
first parameter of the name, and the visits report exactly one error for each later
parameter of a name ('symbol already declared for current scope') and for each parameter
without a name other than `(void)`, in the order of the list, and nothing else; the
pre-visit of the body creates no scope, attaches the new scope to the body node, keeps it
on top of the stack and clears the flag. -/
theorem function_scope_fused (G : Globals) (s : State) (f b : Nat) (n mb : TreeNode)
    (fname : String) (ps : SynTree) (top : Nat) (sc : ScopeListRec)
    (hinv : BInv s) (hn : s.nodes[f]? = some n) (hk1 : n.nodekind = .DeclK)
    (hk2 : n.kind = G.FunK) (hname : n.name = some fname)
    (htop : scTop s = some top) (hsc : s.scopes[top]? = some sc)
    (hnew : sc.find fname = none) (hps : paramList s.nodes ps = true)
    (hb : s.nodes[b]? = some mb) (hc1 : mb.nodekind = .StmtK) (hc2 : mb.kind = G.CompK) :
    ∃ s1 s2 s3 nsc nsc2,
      insertNode G f s = some s1 ∧
      run (insertNode G) (afterInsertNode G) ps.events s1 = some s2 ∧
      insertNode G b s2 = some s3 ∧
      s1.scopes[top]? = some (sc.setBucket (hash fname)
        ({ name := fname, treeNode := some f, lines := [n.lineno], memloc := s.location } ::
          sc.hashTable (hash fname))) ∧
      s1.scopes.length = s.scopes.length + 1 ∧
      s1.scopes[s.scopes.length]? = some nsc ∧ nsc.scopeName = some fname ∧
      nsc.parent = some top ∧ nsc.nestedLevel = s.stackIdx ∧ (∀ h, nsc.hashTable h = []) ∧
      scTop s1 = some s.scopes.length ∧ s1.stackIdx = s.stackIdx + 1 ∧
      s1.preserveLastScope = true ∧
      s2.scopes.length = s.scopes.length + 1 ∧
      (∀ j : Nat, j ≠ s.scopes.length → s2.scopes[j]? = s1.scopes[j]?) ∧
      s2.scopes[s.scopes.length]? = some nsc2 ∧ nsc2.scopeName = some fname ∧
      nsc2.parent = some top ∧
      (∀ h r, r ∈ nsc2.hashTable h →
        ∃ p ∈ ps.ptrs, ∃ m, s.nodes[p]? = some m ∧ m.name = some r.name ∧
          r.treeNode = some p) ∧
      (∀ p ∈ ps.ptrs, ∀ m name, s.nodes[p]? = some m → m.name = some name →
        st_lookup_bucket s1 name = some none → ∃ r, nsc2.find name = some r) ∧
      s3.scopes = s2.scopes ∧ s3.nodes[b]? = some { mb with scope := some s.scopes.length } ∧
      scTop s3 = some s.scopes.length ∧ s3.stackIdx = s.stackIdx + 1 ∧
      s3.preserveLastScope = false ∧
      s1.listing = s.listing ∧ s1.location = s.location + 1 ∧
      ((∀ name ∈ paramNames s.nodes ps.ptrs, st_lookup_bucket s1 name = some none) →
        s2.listing = s1.listing ++ paramDiags s.nodes (fun _ => false) ps.ptrs ∧
        (∀ h, nsc2.hashTable h =
          chainOf (paramRecords s.nodes (s.location + 1) (fun _ => false) ps.ptrs) h) ∧
        s3.listing = s2.listing) := by
  obtain ⟨s1, s2, s3, nsc, nsc2, h1, h2, h3, h4, h5, h6, h7, h8, h9, h10, h11, h12, h13, h14,
      h15, h16, h17, h18, h19, h20, h21, h22, h23, h24, h25⟩ :=
    function_scope_spec G s f b n mb fname ps top sc hinv hn hk1 hk2 hname htop hsc hnew hps hb
      hc1 hc2
  have hpre0 : insertNode G f s = insertFun f n s := by
    unfold insertNode
    rw [hn]
    simp only [hk1, hk2, if_true]
  obtain ⟨x, hx, hfresh⟩ := insertFun_fresh s f n fname top sc hname htop hsc hnew
  obtain ⟨s1b, hs1b, hn1, hcase⟩ := binv_insertFun hinv f n (by rw [hname]; rfl)
  rw [← hpre0, h1] at hs1b
  cases hs1b
  have hi1 : BInv s1 := by
    rcases hcase with hq | hp
    · exact hq.1
    · exact hp.1
  have hlist1 : s1.listing = s.listing := by
    have e : some s1 = _ := h1.symm.trans (hpre0.trans hfresh)
    rw [Option.some.inj e, hx]
    rfl
  have hloc1 : s1.location = s.location + 1 := by
    rw [hi1.2.1, h12, hinv.2.1]
    omega
  have hb2 : s2.nodes[b]? = some mb := by
    have hq := params_insert G s.scopes.length ps s1 (by rw [hn1]; exact hps) hi1 h11
    obtain ⟨y, hy, _, hny, _⟩ := hq
    rw [run_unique h2 hy, hny, hn1]
    exact hb
  have hl3 : s3.listing = s2.listing := by
    have hpre3 : insertNode G b s2 = some (insertComp b mb s2) := by
      unfold insertNode
      rw [hb2]
      simp only [hc1, hc2, if_true]
    rw [h3] at hpre3
    rw [Option.some.inj hpre3]
    unfold insertComp
    split <;> rfl
  refine ⟨s1, s2, s3, nsc, nsc2, h1, h2, h3, h4, h5, h6, h7, h8, h9, h10, h11, h12, h13, h14,
    h15, h16, h17, h18, h19, h20, h21, h22, h23, h24, h25, hlist1, hloc1, ?_⟩
  intro hfree
  obtain ⟨y, sck1, hy, hsck1, hly, hby, _, _⟩ :=
    params_exact G s.scopes.length ps s1 (fun _ => false) nsc (by rw [hn1]; exact hps) hi1
      h11 h6
      (by
        intro p hp m name hm hnm
        rw [hn1] at hm
        have := hfree name (mem_paramNames hp hm hnm)
        simp [this])
  have e := run_unique h2 hy
  subst e
  rw [h16] at hsck1
  cases hsck1
  rw [hn1] at hly hby
  rw [hloc1] at hby
  refine ⟨hly, ?_, hl3⟩
  intro h
  rw [hby h, h10 h, List.append_nil]

theorem exampleDupParamStart_inv : BInv exampleDupParamStart := by
  obtain ⟨s0, hs0, hi0, _⟩ := builderStart_spec sampleGlobals (State.init exampleDupParam)
    rfl rfl (fun k sc h r hsc _ => by simp [State.init] at hsc)
  have e : exampleDupParamStart = s0 := by
    unfold exampleDupParamStart
    rw [hs0]
    rfl
  rw [e]
  exact hi0

/-- Witness for C8: the declaration of `f` in `int f(int a, int a){}`, its parameter list
(nodes 1 and 2) and its body (node 3): the scope of `f` (scope 1) gets the record of the
first `a`, and the second `a` is reported. -/
theorem function_scope_fused_witness :
    ∃ s1 s2 s3 nsc2, insertNode sampleGlobals 0 exampleDupParamStart = some s1 ∧
      run (insertNode sampleGlobals) (afterInsertNode sampleGlobals)
        (SynTree.node 1 (.cons .null (.cons .null (.cons .null .nil))) (.leaf 2)).events
        s1 = some s2 ∧
      insertNode sampleGlobals 3 s2 = some s3 ∧
      s2.listing = [{ kind := .SymbolError, line := 1,
                      message := "symbol already declared for current scope" }] ∧
      s2.scopes[1]? = some nsc2 ∧
      nsc2.hashTable (hash "a") =
        [{ name := "a", treeNode := some 1, lines := [1], memloc := 1 }] ∧
      s3.scopes = s2.scopes ∧ s3.listing = s2.listing ∧ s3.preserveLastScope = false := by
  obtain ⟨s1, s2, s3, _, nsc2, h1, h2, h3, _, _, _, _, _, _, _, _, _, _, _, _, h16, _, _, _, _,
      h21, _, _, _, h25, h26, _, h28⟩ :=
    function_scope_fused sampleGlobals exampleDupParamStart 0 3 _ _ "f"
      (SynTree.node 1 (.cons .null (.cons .null (.cons .null .nil))) (.leaf 2)) 0 _
      exampleDupParamStart_inv (by rfl) (by decide) (by decide) (by decide) (by decide) (by rfl)
      (by decide) (by decide) (by rfl) (by decide) (by decide)
  have e1 : s1 = (insertNode sampleGlobals 0 exampleDupParamStart).getD (State.init []) := by
    rw [h1]
    rfl
  subst e1
  obtain ⟨hl, hb, hl3⟩ := h28 (by decide)
  refine ⟨_, s2, s3, nsc2, h1, h2, h3, ?_, h16, ?_, h21, hl3, h25⟩
  · rw [hl]
    decide
  · rw [hb]
    decide

/-- Claim C27, amended: let `f` be a function declaration visited in a state of the
Builder pass with the preserve-last-scope flag clear, whose name the top scope `top`
already holds, with parameter list `ps` and a compound statement `b` as body. The
pre-visit of `f` reports 'function already declared for current scope' and leaves the
scope stack, the registry and the flag as they are. The visits of the parameters change
no scope but `top` and leave the stack and the flag alone; scope `top` keeps the names it
held, every record it gains belongs to a parameter of `ps` carrying the record's name,
and every parameter name that no lookup finds when the declaration is visited is held by
`top` afterwards. When every parameter name that a lookup finds at that moment is held by
`top` itself, scope `top` gains exactly one record for each parameter name it did not
hold, that of the first parameter of the name, in front of its chain, and the visits
report exactly one error for each parameter whose name `top` held or an earlier parameter
carries ('symbol already declared for current scope') and for each parameter without a
name other than `(void)`, in the order of the list, and nothing else. The pre-visit of the
body reports nothing, appends one scope to the registry, empty, named after the function,
with parent `top`, pushes it and attaches it to the body. -/
theorem rejected_function_scope (G : Globals) (s : State) (f b : Nat) (n mb : TreeNode)
    (fname : String) (ps : SynTree) (top : Nat) (sc : ScopeListRec) (r : BucketListRec)
    (hinv : BInv s) (hfl : s.preserveLastScope = false)
    (hn : s.nodes[f]? = some n) (hk1 : n.nodekind = .DeclK)
    (hk2 : n.kind = G.FunK) (hname : n.name = some fname)
    (htop : scTop s = some top) (hsc : s.scopes[top]? = some sc)
    (hheld : sc.find fname = some r) (hps : paramList s.nodes ps = true)
    (hb : s.nodes[b]? = some mb) (hc1 : mb.nodekind = .StmtK) (hc2 : mb.kind = G.CompK) :
    ∃ s1 s2 s3 sc2 nsc,
      insertNode G f s = some s1 ∧
      run (insertNode G) (afterInsertNode G) ps.events s1 = some s2 ∧
      insertNode G b s2 = some s3 ∧
      s1.listing = s.listing ++ [{ kind := .SymbolError, line := n.lineno, message :=
        "function already declared for current scope" }] ∧
      s1.scopes = s.scopes ∧ s1.stack = s.stack ∧ s1.stackIdx = s.stackIdx ∧
      s1.preserveLastScope = false ∧
      s2.stack = s.stack ∧ s2.stackIdx = s.stackIdx ∧ s2.preserveLastScope = false ∧
      s2.scopes.length = s.scopes.length ∧
      (∀ j : Nat, j ≠ top → s2.scopes[j]? = s.scopes[j]?) ∧
      s2.scopes[top]? = some sc2 ∧
      (∀ name q, sc.find name = some q → ∃ q1, sc2.find name = some q1) ∧
      (∀ h q, q ∈ sc2.hashTable h → q ∈ sc.hashTable h ∨
        ∃ p ∈ ps.ptrs, ∃ m, s.nodes[p]? = some m ∧ m.name = some q.name ∧
          q.treeNode = some p) ∧
      (∀ p ∈ ps.ptrs, ∀ m name, s.nodes[p]? = some m → m.name = some name →
        st_lookup_bucket s name = some none → ∃ q, sc2.find name = some q) ∧
      s3.scopes = s2.scopes ++ [nsc] ∧ nsc.scopeName = some fname ∧
      nsc.parent = some top ∧ nsc.nestedLevel = s.stackIdx ∧ (∀ h, nsc.hashTable h = []) ∧
      scTop s3 = some s.scopes.length ∧ s3.stackIdx = s.stackIdx + 1 ∧
      s3.stack (s.stackIdx - 1) = some top ∧
      s3.nodes[b]? = some { mb with scope := some s.scopes.length } ∧
      s3.preserveLastScope = false ∧
      ((∀ name ∈ paramNames s.nodes ps.ptrs,
          st_lookup_bucket s name = some none ∨ (sc.find name).isSome = true) →
        s2.listing = s1.listing ++
          paramDiags s.nodes (fun name => (sc.find name).isSome) ps.ptrs ∧
        (∀ h, sc2.hashTable h =
          chainOf (paramRecords s.nodes s.location (fun name => (sc.find name).isSome)
            ps.ptrs) h ++ sc.hashTable h) ∧
        s3.listing = s2.listing) := by
  obtain ⟨s1, s2, s3, sc2, nsc, h1, h2, h3, h4, h5, h6, h7, h8, h9, h10, h11, h12, h13, h14,
      h15, h16, h17, h18, h19, h20, h21, h22, h23, h24, h25, h26, h27⟩ :=
    rejected_function_spec G s f b n mb fname ps top sc r hinv hfl hn hk1 hk2 hname htop hsc
      hheld hps hb hc1 hc2
  have hpre := insertNode_redeclared G s f n fname top sc r hn hk1 (Or.inl ⟨hk2, hname⟩)
    htop hsc hheld
  rw [if_pos hk2, if_pos hk2, h1] at hpre
  have hs1 := Option.some.inj hpre
  have hi1 : BInv s1 := by rw [hs1]; exact hinv
  have htop1 : scTop s1 = some top := by rw [hs1]; exact htop
  have hn1 : s1.nodes = s.nodes := by rw [hs1]
  have hloc1 : s1.location = s.location := by rw [hs1]
  have hsc1 : s1.scopes[top]? = some sc := by rw [h5]; exact hsc
  have hps1 : paramList s1.nodes ps = true := by rw [hn1]; exact hps
  have hb2 : s2.nodes[b]? = some mb := by
    obtain ⟨y, hy, _, hny, _⟩ := params_insert G top ps s1 hps1 hi1 htop1
    rw [run_unique h2 hy, hny, hn1]
    exact hb
  have hl3 : s3.listing = s2.listing := by
    have hpre3 : insertNode G b s2 = some (insertComp b mb s2) := by
      unfold insertNode
      rw [hb2]
      simp only [hc1, hc2, if_true]
    rw [h3] at hpre3
    rw [Option.some.inj hpre3]
    unfold insertComp
    split <;> rfl
  refine ⟨s1, s2, s3, sc2, nsc, h1, h2, h3, h4, h5, h6, h7, h8, h9, h10, h11, h12, h13, h14,
    h15, h16, h17, h18, h19, h20, h21, h22, h23, h24, h25, h26, h27, ?_⟩
  intro hfree
  obtain ⟨y, sck1, hy, hsck1, hly, hby, _, _⟩ :=
    params_exact G top ps s1 (fun name => (sc.find name).isSome) sc hps1 hi1 htop1 hsc1
      (by
        intro p hp m name hm hnm
        rw [hn1] at hm
        rw [st_lookup_bucket_congr name h5 h6 h7]
        constructor
        · intro hheld2
          obtain ⟨q, hq⟩ := Option.isSome_iff_exists.1 hheld2
          rw [lookup_top_found htop hsc hq]
          simp
        · intro hfound
          rcases hfree name (mem_paramNames hp hm hnm) with h | h
          · exact absurd h hfound
          · exact h)
  have e := run_unique h2 hy
  subst e
  rw [h14] at hsck1
  cases hsck1
  rw [hn1] at hly hby
  rw [hloc1] at hby
  exact ⟨hly, hby, hl3⟩

theorem exampleRejectedDupAtSecond_inv : BInv exampleRejectedDupAtSecond := by
  obtain ⟨s0, sF, hs0, _, _, _, _, _, _, _, _, _, _, haF, _⟩ :=
    builder_pass sampleGlobals exampleRejectedDupTree (some 0) (State.init exampleRejectedDup)
      5 (by decide) (by decide) (by decide) (by decide) rfl rfl
      (fun k sc h r hsc _ => by simp [State.init] at hsc) rfl
  have e : exampleRejectedDupStart = s0 := by
    unfold exampleRejectedDupStart
    rw [hs0]
    rfl
  rw [← e] at haF
  have hsplit : exampleRejectedDupTree.events =
      exampleRejectedDupTree.events.take 6 ++ exampleRejectedDupTree.events.drop 6 :=
    (List.take_append_drop 6 _).symm
  rw [hsplit] at haF
  have hrun : run (insertNode sampleGlobals) (afterInsertNode sampleGlobals)
      (exampleRejectedDupTree.events.take 6) exampleRejectedDupStart =
        some exampleRejectedDupAtSecond :=
    eq_some_getD _ (by decide)
  exact (always_upto _ _ _ _ haF hrun).1

/-- Witness for C27: the second declaration of `f` in `int f(int a){} int f(int b){}`
(the global scope, scope 0, ends up holding `b`), and the second declaration of `f` in
`int f(int a){} int f(int b, int b){}`, with its parameter list (nodes 4 and 5) and its
body (node 6): the global scope gets the record of the first `b`, the second `b` is
reported, and the scope of the body (scope 2) is new and empty. -/
theorem rejected_function_scope_witness :
    (∃ s1 s2 s3 sc2 nsc, insertNode sampleGlobals 3 exampleRejectedAtSecond = some s1 ∧
      run (insertNode sampleGlobals) (afterInsertNode sampleGlobals) (SynTree.leaf 4).events
        s1 = some s2 ∧
      insertNode sampleGlobals 5 s2 = some s3 ∧
      s1.stackIdx = exampleRejectedAtSecond.stackIdx ∧ s1.preserveLastScope = false ∧
      exampleRejectedAtSecond.globalScope = some 0 ∧
      s2.scopes[0]? = some sc2 ∧ (∃ q, sc2.find "b" = some q) ∧
      s3.scopes = s2.scopes ++ [nsc] ∧ (∀ h, nsc.hashTable h = [])) ∧
    (∃ s1 s2 s3 sc2 nsc, insertNode sampleGlobals 3 exampleRejectedDupAtSecond = some s1 ∧
      run (insertNode sampleGlobals) (afterInsertNode sampleGlobals)
        (SynTree.node 4 (.cons .null (.cons .null (.cons .null .nil))) (.leaf 5)).events
        s1 = some s2 ∧
      insertNode sampleGlobals 6 s2 = some s3 ∧
      s1.stackIdx = exampleRejectedDupAtSecond.stackIdx ∧ s1.preserveLastScope = false ∧
      exampleRejectedDupAtSecond.globalScope = some 0 ∧
      scTop exampleRejectedDupAtSecond = some 0 ∧
      s2.listing =
        [{ kind := .SymbolError, line := 1,
           message := "function already declared for current scope" },
         { kind := .SymbolError, line := 1,
           message := "symbol already declared for current scope" }] ∧
      s2.scopes[0]? = some sc2 ∧
      sc2.hashTable (hash "b") =
        [{ name := "b", treeNode := some 4, lines := [1], memloc := 0 }] ∧
      s3.scopes = s2.scopes ++ [nsc] ∧ (∀ h, nsc.hashTable h = []) ∧
      nsc.parent = some 0 ∧ s3.listing = s2.listing) := by
  constructor
  · obtain ⟨s1, s2, s3, sc2, nsc, h1, h2, h3, _, _, _, h7, h8, _, _, _, _, _, h14, _, _, h17,
        h18, _, _, _, h22, _⟩ :=
      rejected_function_scope sampleGlobals exampleRejectedAtSecond 3 5 _ _ "f"
        (SynTree.leaf 4) 0 _ _
        exampleRejectedAtSecond_inv (by decide) (by rfl) (by decide) (by decide) (by decide)
        (by decide) (by rfl) (by rfl) (by decide) (by rfl) (by decide) (by decide)
    exact ⟨s1, s2, s3, sc2, nsc, h1, h2, h3, h7, h8, by decide, h14,
      h17 4 (by decide) _ "b" (by rfl) (by decide) (by decide), h18, h22⟩
  · obtain ⟨s1, s2, s3, sc2, nsc, h1, h2, h3, h4, _, _, h7, h8, _, _, _, _, _, h14, _, _, _,
        h18, _, h20, _, h22, _, _, _, _, _, h28⟩ :=
      rejected_function_scope sampleGlobals exampleRejectedDupAtSecond 3 6 _ _ "f"
        (SynTree.node 4 (.cons .null (.cons .null (.cons .null .nil))) (.leaf 5)) 0 _ _
        exampleRejectedDupAtSecond_inv (by decide) (by rfl) (by decide) (by decide)
        (by decide) (by decide) (by rfl) (by rfl) (by decide) (by rfl) (by decide)
        (by decide)
    obtain ⟨hl, hb, hl3⟩ := h28 (by decide)
    refine ⟨s1, s2, s3, sc2, nsc, h1, h2, h3, h7, h8, by decide, by decide, ?_, h14, ?_, h18,
      h22, h20, hl3⟩
    · rw [hl, h4]
      decide
    · rw [hb]
      decide

/-! ## Both passes leave the scope stack empty -/

/-- C10: for a well-formed tree `T` held by the heap at `t` (every node carries the name
the Builder pass hashes; every function declaration has its parameter list in child 0 and
a compound-statement body in child 1 and is not nested in another function; operators,
conditions and calls have the operands the Type-Checking pass reads; a return statement
lies inside a function; no node occurs twice and no pointer dangles), starting from an
empty scope stack with the preserve-last-scope flag clear and recursion depth enough for
`T`: `buildSymtab` returns, with an empty scope stack and `location` back at 0; a
following `typeCheck` of the same tree starts with an empty stack, returns, and finishes
with an empty stack; both traversals run to their end, and before and after every visitor
call of either the stack holds at least the global scope, so neither `scTop` nor `scPop`
meets an empty stack. -/
theorem scope_stack_balanced (G : Globals) (hM : 1 ≤ G.MAXCHILDREN) (T : SynTree) (t : Ptr)
    (s : State) (fuel : Nat)
    (hrep : represents G s.nodes t T = true) (hfuel : T.depth ≤ fuel)
    (hwf : wellFormed G s.nodes T = true) (hsh : checkShape G s.nodes false T = true)
    (hnd : T.ptrs.Nodup) (h0 : s.stackIdx = 0) (h1 : s.stack (-1) = none) (hrec : RecOK s)
    (hflag : s.preserveLastScope = false) (hrn : RecNodes G s)
    (hcl : HeapClosed s.nodes) :
    ∃ s0 b1 s1 c1 s2, builderStart G s = some s0 ∧ s0.stackIdx = 1 ∧
      run (insertNode G) (afterInsertNode G) T.events s0 = some b1 ∧
      buildSymtab G fuel t s = some s1 ∧ s1 = scPop b1 ∧
      s1.stackIdx = 0 ∧ s1.location = 0 ∧
      (∀ A B x, T.events = A ++ B →
        run (insertNode G) (afterInsertNode G) A s0 = some x → 1 ≤ x.stackIdx) ∧
      (scPush s1 s1.globalScope).stackIdx = 1 ∧
      run (beforeCheckNode G) (checkNode G) T.events (scPush s1 s1.globalScope) = some c1 ∧
      typeCheck G fuel t s1 = some s2 ∧ s2 = scPop c1 ∧ s2.stackIdx = 0 ∧
      (∀ A B x, T.events = A ++ B →
        run (beforeCheckNode G) (checkNode G) A (scPush s1 s1.globalScope) = some x →
          1 ≤ x.stackIdx) := by
  obtain ⟨s0, s1, hs0, hst0, hb1, hs1, hl1, hA, _, hpush, hC, hend⟩ :=
    stack_depth_at_calls G T t s fuel hrep hfuel hwf hnd h0 h1 hrec hflag
  obtain ⟨s0b, bF, hs0b, _, _, _, _, _, hrF, _, _, _, _, _, hbuild⟩ :=
    builder_pass G T t s fuel hrep hfuel hwf hnd h0 h1 hrec hflag
  obtain ⟨s1b, c1, hb, hrc, htc, _, _, _, _⟩ :=
    passes_total G hM T t s fuel hrep hfuel hwf hsh hnd h0 h1 hrec hflag hrn hcl
  rw [hs0] at hs0b
  cases hs0b
  rw [hb1] at hb hbuild
  cases hb
  exact ⟨s0, bF, s1, c1, scPop c1, hs0, hst0, hrF, hb1, Option.some.inj hbuild, hs1, hl1, hA,
    hpush, hrc, htc, rfl, hend _ htc, hC⟩

theorem scope_stack_balanced_witness :
    ∃ s1 s2, buildSymtab sampleGlobals 5 (some 0) (State.init exampleReturnInBranch) = some s1 ∧
      s1.stackIdx = 0 ∧ s1.location = 0 ∧
      typeCheck sampleGlobals 5 (some 0) s1 = some s2 ∧ s2.stackIdx = 0 := by
  obtain ⟨_, _, s1, _, s2, _, _, _, h4, _, h6, h7, _, _, _, h11, _, h13, _⟩ :=
    scope_stack_balanced sampleGlobals (by decide)
      exampleReturnInBranchTree (some 0) (State.init exampleReturnInBranch) 5
      (by decide) (by decide) (by decide) (by decide) (by decide) rfl rfl
      (fun k sc h r hsc _ => by simp [State.init] at hsc) rfl
      (fun k sc h r hsc _ => by simp [State.init] at hsc)
      (heapClosed_of_check (by decide))
  exact ⟨s1, s2, h4, h6, h7, h11, h13⟩

end CMinus
